import Mathlib

/-!
# ojjyOS v3 I/O core: block cache, VFS mount router, OJFS, RAMFS, driver registry

A shallow embedding of the kernel sources under `kernel/src/drivers` and
`kernel/src/fs`, followed by theorems about them.

Conventions of the embedding:
* C integers are `Nat`/`Int`; unsigned 64-bit arithmetic is reduced modulo `2^64`
  where the source can wrap;
* a C string is a `List Char` read up to its first NUL (or its end);
* pointers into fixed tables are table indices, a `NULL` result is `none`;
* collaborators outside the core (the ATA sector device, the tick counter,
  backend and driver callbacks) are parameters of the operations.
-/

namespace OjjyOS

/-! ## kernel/src/string.c -/

/-- The terminating NUL of a C string. -/
def NUL : Char := Char.ofNat 0

/-- The character at offset `i` of a C string: reading at or past the end of the
stored characters yields the terminating NUL. -/
def charAt (s : List Char) (i : Nat) : Char := s.getD i NUL

/-- The source's `strlen`: the number of characters before the first NUL. -/
def strlen : List Char → Nat
  | [] => 0
  | c :: cs => if c = NUL then 0 else strlen cs + 1

/-- The source's `strcmp`: difference of the first pair of differing characters (as unsigned
chars), `0` when both strings end together. -/
def strcmp : List Char → List Char → Int
  | [], s2 => 0 - ((charAt s2 0).toNat : Int)
  | c :: cs, s2 =>
    if c ≠ NUL ∧ c = charAt s2 0 then strcmp cs s2.tail
    else (c.toNat : Int) - ((charAt s2 0).toNat : Int)

/-- The source's `strncmp`: like `strcmp` but gives `0` once `n` characters have matched. -/
def strncmp : List Char → List Char → Nat → Int
  | _, _, 0 => 0
  | s1, s2, n + 1 =>
    if charAt s1 0 ≠ NUL ∧ charAt s1 0 = charAt s2 0 then strncmp s1.tail s2.tail n
    else ((charAt s1 0).toNat : Int) - ((charAt s2 0).toNat : Int)

/-- The source's `memcpy(dest, src, n)`: the first `n` bytes of `dest` are replaced by the first
`n` bytes of `src`. -/
def memcpy {α : Type} (dest src : List α) (n : Nat) : List α := src.take n ++ dest.drop n

/-! ## kernel/src/drivers/block_cache.c -/

namespace BlockCache

def CACHE_SIZE : Nat := 64
def BLOCK_SIZE : Nat := 512

/-- The largest `uint64_t`, written `~0ULL` in the source. -/
def U64_MAX : Nat := 2 ^ 64 - 1

structure CacheEntry where
  block_num : Nat
  last_access : Nat
  valid : Bool
  dirty : Bool
  data : List Nat

/-- The sector device contract the cache consumes (`ata_get_device(0)`,
`ata_read_sectors`, `ata_write_sectors`) over an arbitrary device state `σ`.
A read receives the destination buffer and returns what it left in it, also
when it fails. -/
structure AtaDisk (σ : Type) where
  get_device : σ → Bool
  read_sectors : σ → Nat → List Nat → Int × List Nat × σ
  write_sectors : σ → Nat → List Nat → Int × σ

/-- The static table `cache[CACHE_SIZE]` and the statistics counters. -/
structure Cache where
  cache : Nat → CacheEntry
  cache_hits : Nat
  cache_misses : Nat
  cache_writes : Nat
  cache_flushes : Nat

def setEntry (c : Cache) (i : Nat) (e : CacheEntry) : Cache :=
  { c with cache := fun j => if j = i then e else c.cache j }

/-- The source's `cache_find`: index of the first valid entry holding `block_num`. -/
def cache_find (c : Cache) (block_num : Nat) : Option Nat :=
  (List.range CACHE_SIZE).find?
    (fun i => (c.cache i).valid && decide ((c.cache i).block_num = block_num))

/-- The second loop of `cache_find_lru`: one step of the scan for the smallest
`last_access`, carrying `(lru, oldest)`. -/
def lru_step (c : Cache) (acc : Option Nat × Nat) (i : Nat) : Option Nat × Nat :=
  if (c.cache i).last_access < acc.2 then (some i, (c.cache i).last_access) else acc

/-- The source's `cache_find_lru`: the first invalid entry, otherwise the first entry whose
`last_access` is strictly below every earlier one, starting from `~0ULL`. -/
def cache_find_lru (c : Cache) : Option Nat :=
  match (List.range CACHE_SIZE).find? (fun i => !(c.cache i).valid) with
  | some i => some i
  | none => ((List.range CACHE_SIZE).foldl (lru_step c) (none, U64_MAX)).1

/-- The source's `cache_writeback` on the entry at index `i`. -/
def cache_writeback {σ : Type} (ata : AtaDisk σ) (c : Cache) (d : σ) (i : Nat) :
    Int × Cache × σ :=
  let e := c.cache i
  if !e.valid || !e.dirty then (0, c, d)
  else if !ata.get_device d then (-1, c, d)
  else
    let r := ata.write_sectors d e.block_num e.data
    if r.1 = 0 then
      (r.1, { setEntry c i { e with dirty := false } with
                cache_flushes := (c.cache_flushes + 1) % 2 ^ 64 }, r.2)
    else (r.1, c, r.2)

/-- The source's `block_cache_init`. -/
def block_cache_init : Cache :=
  { cache := fun _ => ⟨0, 0, false, false, List.replicate BLOCK_SIZE 0⟩
    cache_hits := 0, cache_misses := 0, cache_writes := 0, cache_flushes := 0 }

/-- The source's `block_cache_read(block_num, buffer)` at tick `now`; `buffer = none` is a NULL
buffer. Returns the status, the buffer afterwards, the cache and the device. -/
def block_cache_read {σ : Type} (ata : AtaDisk σ) (now : Nat) (c : Cache) (d : σ)
    (block_num : Nat) (buffer : Option (List Nat)) : Int × Option (List Nat) × Cache × σ :=
  match buffer with
  | none => (-1, none, c, d)
  | some buf =>
    match cache_find c block_num with
    | some i =>
      let e := c.cache i
      let c1 := setEntry c i { e with last_access := now }
      (0, some (memcpy buf e.data BLOCK_SIZE),
        { c1 with cache_hits := (c.cache_hits + 1) % 2 ^ 64 }, d)
    | none =>
      let c1 := { c with cache_misses := (c.cache_misses + 1) % 2 ^ 64 }
      if !ata.get_device d then (-1, some buf, c1, d)
      else
        match cache_find_lru c1 with
        | none => (-1, some buf, c1, d)
        | some i =>
          let wb := if (c1.cache i).valid && (c1.cache i).dirty then
              cache_writeback ata c1 d i else (0, c1, d)
          let c2 := wb.2.1
          let r := ata.read_sectors wb.2.2 block_num (c2.cache i).data
          let c3 := setEntry c2 i { c2.cache i with data := r.2.1 }
          if r.1 ≠ 0 then (r.1, some buf, c3, r.2.2)
          else
            let e := { c3.cache i with
              block_num := block_num, last_access := now, valid := true, dirty := false }
            (0, some (memcpy buf e.data BLOCK_SIZE), setEntry c3 i e, r.2.2)

/-- The source's `block_cache_write(block_num, buffer)` at tick `now`. -/
def block_cache_write {σ : Type} (ata : AtaDisk σ) (now : Nat) (c : Cache) (d : σ)
    (block_num : Nat) (buffer : Option (List Nat)) : Int × Cache × σ :=
  match buffer with
  | none => (-1, c, d)
  | some buf =>
    let c1 := { c with cache_writes := (c.cache_writes + 1) % 2 ^ 64 }
    if !ata.get_device d then (-1, c1, d)
    else
      let r := ata.write_sectors d block_num buf
      if r.1 ≠ 0 then (r.1, c1, r.2)
      else
        match cache_find c1 block_num with
        | some i =>
          let e := c1.cache i
          (0, setEntry c1 i
            { e with data := memcpy e.data buf BLOCK_SIZE, last_access := now, dirty := false },
            r.2)
        | none =>
          match cache_find_lru c1 with
          | none => (0, c1, r.2)
          | some i =>
            let wb := if (c1.cache i).valid && (c1.cache i).dirty then
                cache_writeback ata c1 r.2 i else (0, c1, r.2)
            let c2 := wb.2.1
            let e := c2.cache i
            (0, setEntry c2 i
              { e with block_num := block_num, last_access := now, valid := true,
                       dirty := false, data := memcpy e.data buf BLOCK_SIZE },
              wb.2.2)

/-- The source's `block_cache_invalidate`. -/
def block_cache_invalidate (c : Cache) (block_num : Nat) : Cache :=
  match cache_find c block_num with
  | some i => setEntry c i { c.cache i with valid := false, dirty := false }
  | none => c

/-- The source's `block_cache_flush`: write back every valid dirty entry, in table order. -/
def block_cache_flush {σ : Type} (ata : AtaDisk σ) (c : Cache) (d : σ) : Cache × σ :=
  (List.range CACHE_SIZE).foldl
    (fun (s : Cache × σ) i =>
      if (s.1.cache i).valid && (s.1.cache i).dirty then (cache_writeback ata s.1 s.2 i).2
      else s)
    (c, d)

/-- A device that is present and accepts every transfer; reads deliver zeroes. -/
def okDisk : AtaDisk Unit :=
  { get_device := fun _ => true
    read_sectors := fun _ _ _ => (0, List.replicate BLOCK_SIZE 0, ())
    write_sectors := fun _ _ _ => (0, ()) }

/-- A full cache in which every entry is valid and carries the last tick value
`~0ULL`; entry `i` holds block `i + 1`, so block `0` is not cached. -/
def sentinelCache : Cache :=
  { cache := fun i => ⟨i + 1, U64_MAX, true, false, List.replicate BLOCK_SIZE 0⟩
    cache_hits := 0, cache_misses := 0, cache_writes := 0, cache_flushes := 0 }

/-- A 512-byte payload of sevens. -/
def sevens : List Nat := List.replicate BLOCK_SIZE 7

/-- The cache and device after `n` successive calls `block_cache_read(bs k, buf)`
for `k = 0 .. n-1`, the `k`-th call being made at tick `ts k`. -/
def read_blocks {σ : Type} (ata : AtaDisk σ) (bs ts : Nat → Nat) : Nat → Cache × σ → Cache × σ
  | 0, s => s
  | n + 1, s =>
    let s1 := read_blocks ata bs ts n s
    let r := block_cache_read ata (ts n) s1.1 s1.2 (bs n) (some (List.replicate BLOCK_SIZE 0))
    (r.2.2.1, r.2.2.2)

/-- A table whose first `k` slots hold the blocks `bs 0 .. bs (k-1)`, clean, with
last-access ticks `ts 0 .. ts (k-1)`, and whose other slots are invalid. -/
def Filled (c : Cache) (bs ts : Nat → Nat) (k : Nat) : Prop :=
  ∀ i, i < CACHE_SIZE →
    (i < k → (c.cache i).valid = true ∧ (c.cache i).dirty = false ∧
      (c.cache i).block_num = bs i ∧ (c.cache i).last_access = ts i) ∧
    (k ≤ i → (c.cache i).valid = false)

/-- The cache tables that arise from `block_cache_init` by calls of the four public
operations, each made at any tick, on any block, with the device in any state. -/
inductive Reachable {σ : Type} (ata : AtaDisk σ) : Cache → Prop
  | init : Reachable ata block_cache_init
  | read (now : Nat) (c : Cache) (d : σ) (b : Nat) (buf : Option (List Nat)) :
      Reachable ata c → Reachable ata (block_cache_read ata now c d b buf).2.2.1
  | write (now : Nat) (c : Cache) (d : σ) (b : Nat) (buf : Option (List Nat)) :
      Reachable ata c → Reachable ata (block_cache_write ata now c d b buf).2.1
  | invalidate (c : Cache) (b : Nat) :
      Reachable ata c → Reachable ata (block_cache_invalidate c b)
  | flush (c : Cache) (d : σ) :
      Reachable ata c → Reachable ata (block_cache_flush ata c d).1

/-- No two valid entries of the table hold the same block number. -/
def UniqueBlocks (c : Cache) : Prop :=
  ∀ i, i < CACHE_SIZE → ∀ j, j < CACHE_SIZE →
    (c.cache i).valid = true → (c.cache j).valid = true →
    (c.cache i).block_num = (c.cache j).block_num → i = j

/-- The cache after block 7 and then block 9 have been read from a device that
answers every request. -/
def twoReads : Cache :=
  (block_cache_read okDisk 2
    (block_cache_read okDisk 1 block_cache_init () 7 (some (List.replicate BLOCK_SIZE 0))).2.2.1
    () 9 (some (List.replicate BLOCK_SIZE 0))).2.2.1

/-- A device whose every transfer fails. -/
def deadDisk : AtaDisk Unit :=
  { get_device := fun _ => true
    read_sectors := fun _ _ buf => (-1, buf, ())
    write_sectors := fun _ _ _ => (-1, ()) }

end BlockCache

/-! ## kernel/src/fs/vfs.h, kernel/src/fs/vfs.c -/

/-- The C string stored in a buffer: the characters before the first NUL. -/
def cstr (s : List Char) : List Char := s.takeWhile (fun c => c ≠ NUL)

namespace Vfs

def MAX_MOUNTS : Nat := 8
def MAX_OPEN_FILES : Nat := 32
def MAX_OPEN_DIRS : Nat := 16

def VFS_O_READ : Nat := 1
def VFS_O_WRITE : Nat := 2
def VFS_O_CREATE : Nat := 4
def VFS_O_TRUNC : Nat := 8
def VFS_O_APPEND : Nat := 16

/-- The capability table `VfsOps` of a backend with state `β`; an absent capability
(a NULL function pointer) is `none`. Handles returned by the backend are opaque
numbers, a NULL handle is `none`. -/
structure VfsOps (β : Type) where
  name : String
  open_ : Option (β → List Char → Nat → Option Nat × β) := none
  close : Option (β → Nat → β) := none
  opendir : Option (β → List Char → Option Nat × β) := none
  closedir : Option (β → Nat → β) := none
  mkdir : Option (β → List Char → Int × β) := none
  unlink : Option (β → List Char → Int × β) := none
  rename : Option (β → List Char → List Char → Int × β) := none

/-- A mount point `VfsMount`. -/
structure VfsMount (β : Type) where
  path : List Char
  ops : VfsOps β
  readonly : Bool

/-- The VFS file handle `struct VfsFile`; `mount` is the index of the owning mount
in the mount table. -/
structure VfsFile where
  mount : Nat
  fs_file : Nat
  mode : Nat
  position : Int

/-- The VFS directory handle `struct VfsDir`. -/
structure VfsDir where
  mount : Nat
  fs_dir : Nat

/-- The static state of vfs.c: the first `mount_count` slots of the mount table as a
list, and the two handle pools with their in-use flags. -/
structure State (β : Type) where
  mounts : List (VfsMount β)
  file_pool : Nat → VfsFile
  file_used : Nat → Bool
  dir_pool : Nat → VfsDir
  dir_used : Nat → Bool

/-- The source's `vfs_init`. -/
def vfs_init (β : Type) : State β :=
  { mounts := []
    file_pool := fun _ => ⟨0, 0, 0, 0⟩
    file_used := fun _ => false
    dir_pool := fun _ => ⟨0, 0⟩
    dir_used := fun _ => false }

/-- The source's `alloc_file`: claims the first unused slot of the file pool and zeroes it. -/
def alloc_file {β : Type} (v : State β) : Option Nat × State β :=
  match (List.range MAX_OPEN_FILES).find? (fun i => !v.file_used i) with
  | some i =>
    (some i, { v with
      file_used := fun j => if j = i then true else v.file_used j
      file_pool := fun j => if j = i then ⟨0, 0, 0, 0⟩ else v.file_pool j })
  | none => (none, v)

/-- The test made on one mount inside the loop of `find_mount`: the mount path is
matched by `strncmp` over its own length and ends at a directory boundary. -/
def mount_matches (path mpath : List Char) : Bool :=
  decide (strncmp path mpath (strlen mpath) = 0) &&
    (decide (charAt path (strlen mpath) = NUL) || decide (charAt path (strlen mpath) = '/')
      || decide (strlen mpath = 1))

/-- The loop of `find_mount` from table index `i` on, carrying `best` and
`best_len`. -/
def find_mount_loop {β : Type} (path : List Char) :
    List (VfsMount β) → Nat → Option Nat → Nat → Option Nat
  | [], _, best, _ => best
  | m :: ms, i, best, best_len =>
    if mount_matches path m.path && decide (strlen m.path > best_len) then
      find_mount_loop path ms (i + 1) (some i) (strlen m.path)
    else find_mount_loop path ms (i + 1) best best_len

/-- The source's `find_mount`: the index of the chosen mount, `none` for NULL. -/
def find_mount {β : Type} (mounts : List (VfsMount β)) (path : List Char) : Option Nat :=
  find_mount_loop path mounts 0 none 0

/-- The source's `get_relative_path`. -/
def get_relative_path (mpath path : List Char) : List Char :=
  if strlen mpath = 1 ∧ charAt mpath 0 = '/' then path
  else if charAt (path.drop (strlen mpath)) 0 = NUL then ['/']
  else path.drop (strlen mpath)

/-- The source's `vfs_open`: the VFS handle index (or `none` for NULL), the VFS state and the
backend state afterwards. -/
def vfs_open {β : Type} (v : State β) (b : β) (path : List Char) (mode : Nat) :
    Option Nat × State β × β :=
  match find_mount v.mounts path with
  | none => (none, v, b)
  | some mi =>
    match v.mounts[mi]? with
    | none => (none, v, b)
    | some mount =>
      if mount.readonly ∧ mode &&& (VFS_O_WRITE ||| VFS_O_CREATE ||| VFS_O_TRUNC) ≠ 0 then
        (none, v, b)
      else
        match mount.ops.open_ with
        | none => (none, v, b)
        | some fs_open =>
          let r := fs_open b (get_relative_path mount.path path) mode
          match r.1 with
          | none => (none, v, r.2)
          | some file =>
            match alloc_file v with
            | (none, v1) =>
              match mount.ops.close with
              | some fs_close => (none, v1, fs_close r.2 file)
              | none => (none, v1, r.2)
            | (some vi, v1) =>
              (some vi,
                { v1 with file_pool := fun j =>
                    if j = vi then ⟨mi, file, mode, 0⟩ else v1.file_pool j },
                r.2)

/-- What the mount router's documentation calls a match: the mount's path is a
prefix of the queried path, and the character right after that prefix is the end
of the string or a slash, or the mount path is a single character. -/
def MountMatch (path mpath : List Char) : Prop :=
  cstr mpath <+: cstr path ∧
    (charAt path (strlen mpath) = NUL ∨ charAt path (strlen mpath) = '/' ∨ strlen mpath = 1)

/-- A backend that only records the `open` calls it receives and grants each one
the handle 1. -/
def logOps : VfsOps (List (List Char × Nat)) :=
  { name := "log"
    open_ := some (fun log p mode => (some 1, log ++ [(p, mode)])) }

/-- The mount table of the boundary example: "/" read-only, "/data" read-write. -/
def exampleMounts : List (VfsMount (List (List Char × Nat))) :=
  [⟨"/".toList, logOps, true⟩, ⟨"/data".toList, logOps, false⟩]

/-- The VFS right after `vfs_init` and the two mounts of the boundary example. -/
def exampleVfs : State (List (List Char × Nat)) :=
  { vfs_init (List (List Char × Nat)) with mounts := exampleMounts }

/-- The source's `vfs_mount`; a NULL path or ops table is `none`. The stored path is what
`strncpy(m->path, path, sizeof(m->path) - 1)` leaves in the 256-byte buffer, whose
last byte is never written with anything but zero: the first 255 characters. -/
def vfs_mount {β : Type} (v : State β) (path : Option (List Char)) (ops : Option (VfsOps β))
    (readonly : Bool) : Int × State β :=
  if v.mounts.length ≥ MAX_MOUNTS then (-1, v)
  else
    match path, ops with
    | some p, some o =>
      if v.mounts.any (fun m => decide (strcmp m.path p = 0)) then (-1, v)
      else (0, { v with mounts := v.mounts ++ [⟨(cstr p).take 255, o, readonly⟩] })
    | _, _ => (-1, v)

/-- The source's `vfs_unmount`: the first mount whose stored path compares equal is removed and
the later ones shift down. -/
def vfs_unmount {β : Type} (v : State β) (path : List Char) : Int × State β :=
  match v.mounts.findIdx? (fun m => decide (strcmp m.path path = 0)) with
  | some i => (0, { v with mounts := v.mounts.eraseIdx i })
  | none => (-1, v)

/-- The source's `vfs_rename(from, to)`: the return value and the backend state. -/
def vfs_rename {β : Type} (v : State β) (b : β) (src dst : List Char) : Int × β :=
  match find_mount v.mounts src with
  | none => (-1, b)
  | some mi =>
    match v.mounts[mi]? with
    | none => (-1, b)
    | some mount =>
      match mount.ops.rename with
      | none => (-1, b)
      | some fs_rename =>
        if mount.readonly then (-1, b)
        else if find_mount v.mounts dst ≠ some mi then (-1, b)
        else fs_rename b (get_relative_path mount.path src) (get_relative_path mount.path dst)

/-- The mount tables that arise from `vfs_init` by calls of `vfs_mount` and
`vfs_unmount`. -/
inductive MountReachable {β : Type} : State β → Prop
  | init : MountReachable (vfs_init β)
  | mount (v : State β) (path : Option (List Char)) (ops : Option (VfsOps β)) (ro : Bool) :
      MountReachable v → MountReachable (vfs_mount v path ops ro).2
  | unmount (v : State β) (path : List Char) :
      MountReachable v → MountReachable (vfs_unmount v path).2

/-- A backend that only records the `rename` calls it receives and answers 0. -/
def renameOps : VfsOps (List (List Char × List Char)) :=
  { name := "log"
    rename := some (fun log p q => (0, log ++ [(p, q)])) }

/-- A mount table with "/" and "/data", both writable, over the recording backend. -/
def renameVfs : State (List (List Char × List Char)) :=
  { vfs_init (List (List Char × List Char)) with
    mounts := [⟨"/".toList, renameOps, false⟩, ⟨"/data".toList, renameOps, false⟩] }

/-- A mount path of 256 characters: a slash and 255 letters. -/
def longPath : List Char := '/' :: List.replicate 255 'a'

end Vfs

/-! ## kernel/src/drivers/driver.h, kernel/src/drivers/driver.c -/

namespace Driver

def MAX_DRIVERS : Nat := 32
def MAX_IRQ_HANDLERS : Nat := 16
def DRIVER_ERROR_THRESHOLD : Nat := 10
def DRIVER_FLAG_CRITICAL : Nat := 1
def DRIVER_FLAG_HOTPLUG : Nat := 2
def DRIVER_FLAG_DMA : Nat := 4
def DRIVER_FLAG_EXCLUSIVE : Nat := 8

inductive DriverState where
  | UNLOADED
  | REGISTERED
  | PROBING
  | INITIALIZING
  | READY
  | SUSPENDED
  | ERROR
  | DISABLED
  deriving DecidableEq, Repr

/-- The callback table `DriverOps`; an absent callback is `none`. Callbacks act on
the hardware and driver-private world `ε` and do not write the bookkeeping fields
of `struct Driver`. -/
structure DriverOps (ε : Type) where
  probe : Option (ε → Bool × ε) := none
  init : Option (ε → Int × ε) := none
  shutdown : Option (ε → Int × ε) := none
  handle_irq : Option (ε → Nat → Bool × ε) := none

/-- The fields of `struct Driver` the framework reads or writes; `ops = none` is a
NULL `ops` pointer, `name = none` a NULL name. The `next` link is represented by
the order of the registry list. -/
structure Drv (ε : Type) where
  name : Option (List Char)
  flags : Nat
  state : DriverState
  ops : Option (DriverOps ε)
  irq : Nat
  irq_count : Nat
  irq_total : Nat
  read_bytes : Nat
  write_bytes : Nat
  error_count : Nat
  last_error_tick : Nat

/-- The static state of driver.c together with the driver objects it points to.
`mem` maps the address of a driver object to its contents (address 0 is NULL);
`driver_list` is the linked list from `driver_list_head` on, as addresses;
`irq_table l` is the first `count` handlers of line `l`. -/
structure Registry (ε : Type) where
  mem : Nat → Drv ε
  driver_list : List Nat
  driver_count : Int
  irq_table : Nat → List Nat
  subsystem_initialized : Bool

def setDrv {ε : Type} (R : Registry ε) (drv : Nat) (d : Drv ε) : Registry ε :=
  { R with mem := fun a => if a = drv then d else R.mem a }

/-- The source's `driver_subsystem_init`, over the existing driver objects. -/
def driver_subsystem_init {ε : Type} (R : Registry ε) : Registry ε :=
  { R with driver_list := [], driver_count := 0, irq_table := fun _ => [],
           subsystem_initialized := true }

/-- The source's `driver_stop`. -/
def driver_stop {ε : Type} (R : Registry ε) (e : ε) (drv : Nat) : Int × Registry ε × ε :=
  if drv = 0 then (-1, R, e)
  else
    let d := R.mem drv
    if d.state ≠ DriverState.READY ∧ d.state ≠ DriverState.ERROR then (0, R, e)
    else
      let e1 := match d.ops with
        | some ops =>
          match ops.shutdown with
          | some f => (f e).2
          | none => e
        | none => e
      (0, setDrv R drv { d with state := DriverState.REGISTERED }, e1)

/-- The source's `driver_register_irq`; `irq` is a `uint8_t`, so it ranges over 0..255. -/
def driver_register_irq {ε : Type} (R : Registry ε) (drv : Nat) (irq : Nat) : Registry ε :=
  if drv = 0 then R
  else if drv ∈ R.irq_table irq then R
  else if (R.irq_table irq).length ≥ MAX_IRQ_HANDLERS then R
  else
    let d := R.mem drv
    let d1 := { d with irq_count := (d.irq_count + 1) % 256 }
    let d2 := if d1.irq = 0xFF then { d1 with irq := irq } else d1
    { setDrv R drv d2 with
      irq_table := fun l => if l = irq then R.irq_table irq ++ [drv] else R.irq_table l }

/-- The source's `driver_unregister_irq`: removes the first occurrence of the driver on the
line, shifting the later handlers down. -/
def driver_unregister_irq {ε : Type} (R : Registry ε) (drv : Nat) (irq : Nat) : Registry ε :=
  if drv = 0 then R
  else if drv ∈ R.irq_table irq then
    let d := R.mem drv
    let d1 := { d with irq_count := (d.irq_count + 255) % 256 }
    let d2 := if d1.irq = irq then { d1 with irq := 0xFF } else d1
    { setDrv R drv d2 with
      irq_table := fun l => if l = irq then (R.irq_table irq).erase drv else R.irq_table l }
  else R

/-- The source's `driver_unregister`. -/
def driver_unregister {ε : Type} (R : Registry ε) (e : ε) (drv : Nat) : Int × Registry ε × ε :=
  if drv = 0 then (-1, R, e)
  else if (R.mem drv).flags &&& DRIVER_FLAG_CRITICAL ≠ 0 then (-1, R, e)
  else
    let s := driver_stop R e drv
    let R1 := (List.range 256).foldl (fun R irq => driver_unregister_irq R drv irq) s.2.1
    if drv ∈ R1.driver_list then
      (0, { setDrv R1 drv { R1.mem drv with state := DriverState.UNLOADED } with
              driver_list := R1.driver_list.erase drv
              driver_count := R1.driver_count - 1 }, s.2.2)
    else (-1, R1, s.2.2)

/-- The source's `driver_report_error` at tick `now` (the message is only logged). -/
def driver_report_error {ε : Type} (now : Nat) (R : Registry ε) (e : ε) (drv : Nat) :
    Registry ε × ε :=
  if drv = 0 then (R, e)
  else
    let d := R.mem drv
    let d1 := { d with error_count := (d.error_count + 1) % 2 ^ 64, last_error_tick := now }
    let R1 := setDrv R drv d1
    if d1.flags &&& DRIVER_FLAG_CRITICAL = 0 ∧ d1.error_count ≥ DRIVER_ERROR_THRESHOLD then
      let s := driver_stop R1 e drv
      (setDrv s.2.1 drv { s.2.1.mem drv with state := DriverState.DISABLED }, s.2.2)
    else (R1, e)

/-- The source's `driver_clear_errors`. -/
def driver_clear_errors {ε : Type} (R : Registry ε) (drv : Nat) : Registry ε :=
  if drv = 0 then R
  else setDrv R drv { R.mem drv with error_count := 0, last_error_tick := 0 }

/-- The source's `driver_is_healthy`. -/
def driver_is_healthy {ε : Type} (R : Registry ε) (drv : Nat) : Bool :=
  if drv = 0 then false
  else decide ((R.mem drv).state = DriverState.READY) &&
    decide ((R.mem drv).error_count < DRIVER_ERROR_THRESHOLD)

/-- The registry and world after `driver_report_error` has been called on `drv`
once for each tick of the list, in order. -/
def report_errors {ε : Type} (drv : Nat) : List Nat → Registry ε × ε → Registry ε × ε
  | [], s => s
  | now :: rest, s => report_errors drv rest (driver_report_error now s.1 s.2 drv)

/-- A READY driver without callbacks: flags `flags`, error count `errs`. -/
def readyDrv (flags errs : Nat) : Drv Unit :=
  { name := some "kbd".toList, flags := flags, state := DriverState.READY, ops := none,
    irq := 1, irq_count := 1, irq_total := 0, read_bytes := 0, write_bytes := 0,
    error_count := errs, last_error_tick := 0 }

/-- A registry holding one driver object at address 1, registered on IRQ line 1. -/
def oneDriver (flags errs : Nat) : Registry Unit :=
  { mem := fun _ => readyDrv flags errs
    driver_list := [1]
    driver_count := 1
    irq_table := fun l => if l = 1 then [1] else []
    subsystem_initialized := true }

/-- The source's `driver_find_by_name`: the address of the first driver of the list whose name
compares equal, `none` for NULL. Every listed driver has a name, since registration
refuses a NULL one; a listed driver whose name was reset to NULL, which the source
would hand to `strcmp`, is passed over. -/
def driver_find_by_name {ε : Type} (R : Registry ε) (name : Option (List Char)) : Option Nat :=
  match name with
  | none => none
  | some n =>
    R.driver_list.find? (fun a =>
      match (R.mem a).name with
      | some m => decide (strcmp m n = 0)
      | none => false)

/-- The source's `driver_register`. -/
def driver_register {ε : Type} (R : Registry ε) (drv : Nat) : Int × Registry ε :=
  if !R.subsystem_initialized then (-1, R)
  else if drv = 0 ∨ (R.mem drv).name = none then (-1, R)
  else if R.driver_count ≥ (MAX_DRIVERS : Int) then (-1, R)
  else if (driver_find_by_name R (R.mem drv).name).isSome then (-1, R)
  else
    (0, { setDrv R drv
            { R.mem drv with
              state := DriverState.REGISTERED, irq := 0xFF, irq_count := 0, irq_total := 0,
              read_bytes := 0, write_bytes := 0, error_count := 0, last_error_tick := 0 } with
          driver_list := drv :: R.driver_list
          driver_count := R.driver_count + 1 })

/-- The probe phase of `driver_start`: the answer of the probe callback, `true` when
the driver has none. -/
def probe_phase {ε : Type} (d : Drv ε) (e : ε) : Bool × ε :=
  match d.ops with
  | some ops =>
    match ops.probe with
    | some f => f e
    | none => (true, e)
  | none => (true, e)

/-- The init phase of `driver_start`: the result of the init callback, `0` when the
driver has none. -/
def init_phase {ε : Type} (d : Drv ε) (e : ε) : Int × ε :=
  match d.ops with
  | some ops =>
    match ops.init with
    | some f => f e
    | none => (0, e)
  | none => (0, e)

/-- The source's `driver_start` at tick `now`. The states PROBING and INITIALIZING are held only
while the callbacks run. -/
def driver_start {ε : Type} (now : Nat) (R : Registry ε) (e : ε) (drv : Nat) :
    Int × Registry ε × ε :=
  if drv = 0 then (-1, R, e)
  else if (R.mem drv).state = DriverState.READY then (0, R, e)
  else if (R.mem drv).state = DriverState.DISABLED then (-1, R, e)
  else if (probe_phase (R.mem drv) e).1 = false then
    (-1, setDrv R drv { R.mem drv with state := DriverState.REGISTERED },
      (probe_phase (R.mem drv) e).2)
  else if (init_phase (R.mem drv) (probe_phase (R.mem drv) e).2).1 ≠ 0 then
    ((init_phase (R.mem drv) (probe_phase (R.mem drv) e).2).1,
      driver_report_error now (setDrv R drv { R.mem drv with state := DriverState.ERROR })
        (init_phase (R.mem drv) (probe_phase (R.mem drv) e).2).2 drv)
  else
    (0, setDrv R drv { R.mem drv with state := DriverState.READY },
      (init_phase (R.mem drv) (probe_phase (R.mem drv) e).2).2)

/-- The source's `driver_probe_all`: the walk over the list from its head; `ticks drv` is the tick
read if starting `drv` reports an error. -/
def driver_probe_all {ε : Type} (ticks : Nat → Nat) (R : Registry ε) (e : ε) : Registry ε × ε :=
  R.driver_list.foldl
    (fun (s : Registry ε × ε) drv =>
      if (s.1.mem drv).state = DriverState.REGISTERED then
        ((driver_start (ticks drv) s.1 s.2 drv).2.1, (driver_start (ticks drv) s.1 s.2 drv).2.2)
      else s)
    (R, e)

/-- The loop of `driver_dispatch_irq` over the handlers of the line still to be visited. -/
def dispatch_loop {ε : Type} (R : Registry ε) (irq : Nat) : List Nat → ε → Bool × Registry ε × ε
  | [], e => (false, R, e)
  | drv :: rest, e =>
    if drv = 0 ∨ (R.mem drv).state ≠ DriverState.READY then dispatch_loop R irq rest e
    else
      match (R.mem drv).ops with
      | none => dispatch_loop R irq rest e
      | some ops =>
        match ops.handle_irq with
        | none => dispatch_loop R irq rest e
        | some f =>
          if (f e irq).1 then
            (true,
              setDrv R drv { R.mem drv with irq_total := ((R.mem drv).irq_total + 1) % 2 ^ 64 },
              (f e irq).2)
          else dispatch_loop R irq rest (f e irq).2

/-- The source's `driver_dispatch_irq`. -/
def driver_dispatch_irq {ε : Type} (R : Registry ε) (e : ε) (irq : Nat) : Bool × Registry ε × ε :=
  dispatch_loop R irq (R.irq_table irq) e

/-- A driver object as its owner declares it before registration: a name, a probe
callback that appends `tag` to the log, stale statistics. -/
def loggingDrv (name : List Char) (tag : Nat) : Drv (List Nat) :=
  { name := some name, flags := 0, state := DriverState.UNLOADED,
    ops := some { probe := some (fun log => (true, log ++ [tag])) },
    irq := 0, irq_count := 0, irq_total := 5, read_bytes := 6, write_bytes := 7,
    error_count := 8, last_error_tick := 9 }

/-- An initialised, empty registry over three driver objects: "kbd" at address 1,
"rtc" at address 2 and a second object named "kbd" at address 3. -/
def emptyRegistry : Registry (List Nat) :=
  driver_subsystem_init
    { mem := fun a => if a = 2 then loggingDrv "rtc".toList 2 else loggingDrv "kbd".toList a
      driver_list := [], driver_count := 0, irq_table := fun _ => [],
      subsystem_initialized := false }

/-- What offering the interrupt to the one handler `drv` yields, in the words of the
dispatch contract: a handler that is NULL, not READY or without `handle_irq` is
skipped (it does not claim the interrupt and nothing runs), any other is invoked. -/
def offer {ε : Type} (R : Registry ε) (irq : Nat) (e : ε) (drv : Nat) : Bool × ε :=
  if drv = 0 ∨ (R.mem drv).state ≠ DriverState.READY then (false, e)
  else
    match (R.mem drv).ops with
    | none => (false, e)
    | some ops =>
      match ops.handle_irq with
      | none => (false, e)
      | some f => f e irq

/-- Whether each handler of the list, offered the interrupt in list order, declines. -/
def all_decline {ε : Type} (R : Registry ε) (irq : Nat) : List Nat → ε → Bool
  | [], _ => true
  | drv :: rest, e => !(offer R irq e drv).1 && all_decline R irq rest (offer R irq e drv).2

/-- The world after the interrupt has been offered to each handler of the list, in
list order. -/
def after_offers {ε : Type} (R : Registry ε) (irq : Nat) (l : List Nat) (e : ε) : ε :=
  l.foldl (fun e drv => (offer R irq e drv).2) e

/-- Starting each driver of the list, in list order. -/
def start_each {ε : Type} (ticks : Nat → Nat) : List Nat → Registry ε × ε → Registry ε × ε
  | [], s => s
  | drv :: rest, s =>
    start_each ticks rest
      ((driver_start (ticks drv) s.1 s.2 drv).2.1, (driver_start (ticks drv) s.1 s.2 drv).2.2)

/-- The registries that arise from `driver_subsystem_init` by calls of the framework's
operations, over any driver objects and callbacks. -/
inductive Reachable {ε : Type} : Registry ε → Prop
  | init (R : Registry ε) : Reachable (driver_subsystem_init R)
  | register (R : Registry ε) (drv : Nat) : Reachable R → Reachable (driver_register R drv).2
  | unregister (R : Registry ε) (e : ε) (drv : Nat) :
      Reachable R → Reachable (driver_unregister R e drv).2.1
  | start (now : Nat) (R : Registry ε) (e : ε) (drv : Nat) :
      Reachable R → Reachable (driver_start now R e drv).2.1
  | stop (R : Registry ε) (e : ε) (drv : Nat) : Reachable R → Reachable (driver_stop R e drv).2.1
  | probe_all (ticks : Nat → Nat) (R : Registry ε) (e : ε) :
      Reachable R → Reachable (driver_probe_all ticks R e).1
  | register_irq (R : Registry ε) (drv irq : Nat) :
      Reachable R → Reachable (driver_register_irq R drv irq)
  | unregister_irq (R : Registry ε) (drv irq : Nat) :
      Reachable R → Reachable (driver_unregister_irq R drv irq)
  | dispatch (R : Registry ε) (e : ε) (irq : Nat) :
      Reachable R → Reachable (driver_dispatch_irq R e irq).2.1
  | report_error (now : Nat) (R : Registry ε) (e : ε) (drv : Nat) :
      Reachable R → Reachable (driver_report_error now R e drv).1
  | clear_errors (R : Registry ε) (drv : Nat) : Reachable R → Reachable (driver_clear_errors R drv)

/-- The registry `R2` differs from `R` at most in the bookkeeping fields of the
driver object `drv`: the lists, the count and every other object are the same, and
`drv` keeps its name, flags and callbacks. -/
def Touch {ε : Type} (R R2 : Registry ε) (drv : Nat) : Prop :=
  ∃ d : Drv ε, R2 = setDrv R drv d ∧ d.name = (R.mem drv).name ∧
    d.flags = (R.mem drv).flags ∧ d.ops = (R.mem drv).ops

/-- The registry `R2` has the driver list, the count and the initialised flag of `R`,
and every driver object has kept its name, flags and callbacks. -/
def Skel {ε : Type} (R R2 : Registry ε) : Prop :=
  R2.driver_list = R.driver_list ∧ R2.driver_count = R.driver_count ∧
    R2.subsystem_initialized = R.subsystem_initialized ∧
    ∀ a, (R2.mem a).name = (R.mem a).name ∧ (R2.mem a).flags = (R.mem a).flags ∧
      (R2.mem a).ops = (R.mem a).ops

/-- Every IRQ line holds at most 16 handlers, none of them twice. -/
def IrqTableOk {ε : Type} (R : Registry ε) : Prop :=
  ∀ l, (R.irq_table l).length ≤ MAX_IRQ_HANDLERS ∧ (R.irq_table l).Nodup

/-- The registry after "kbd" (address 1) and then "rtc" (address 2) have been
registered. -/
def twoDrivers : Registry (List Nat) :=
  (driver_register (driver_register emptyRegistry 1).2 2).2

/-- An initialised, empty registry over driver objects whose name is the empty
string "". -/
def blankNameRegistry : Registry (List Nat) :=
  driver_subsystem_init
    { mem := fun a => loggingDrv [] a
      driver_list := [], driver_count := 0, irq_table := fun _ => [],
      subsystem_initialized := false }

/-- A driver object in state `st` whose interrupt handler appends `tag` to the log
and answers `claims`. -/
def irqDrv (st : DriverState) (claims : Bool) (tag : Nat) : Drv (List Nat) :=
  { name := some "dev".toList, flags := 0, state := st,
    ops := some { handle_irq := some (fun log _ => (claims, log ++ [tag])) },
    irq := 5, irq_count := 1, irq_total := 41, read_bytes := 0, write_bytes := 0,
    error_count := 0, last_error_tick := 0 }

/-- A registry whose IRQ line 5 has four handlers, registered in the order 1, 2, 3,
4: driver 1 is not READY, driver 2 is READY and declines, drivers 3 and 4 are READY
and claim. -/
def irqRegistry : Registry (List Nat) :=
  { mem := fun a =>
      if a = 1 then irqDrv DriverState.REGISTERED true 1
      else if a = 2 then irqDrv DriverState.READY false 2
      else irqDrv DriverState.READY true a
    driver_list := [4, 3, 2, 1]
    driver_count := 4
    irq_table := fun l => if l = 5 then [1, 2, 3, 4] else []
    subsystem_initialized := true }

/-- The driver list is well formed: the subsystem is initialised, the count is the
length of the list, at most 32, no driver is listed twice, and every listed driver is
a real object with a name. -/
def ListOk {ε : Type} (R : Registry ε) : Prop :=
  R.subsystem_initialized = true ∧ R.driver_count = (R.driver_list.length : Int) ∧
    R.driver_list.length ≤ MAX_DRIVERS ∧ R.driver_list.Nodup ∧
    ∀ a, a ∈ R.driver_list → a ≠ 0 ∧ (R.mem a).name ≠ none

end Driver

/-! ## kernel/src/fs/vfs.h: types shared by the backends -/

namespace Vfs

def VFS_NAME_MAX : Nat := 255

inductive VfsFileType where
  | UNKNOWN
  | FILE
  | DIR
  | BUNDLE
  | SYMLINK
  deriving DecidableEq, Repr

/-- The record `VfsDirEntry` filled by `readdir`; `name` is the C string stored in
the 256-byte name buffer. -/
structure VfsDirEntry where
  name : List Char
  type : VfsFileType
  size : Nat
  inode : Nat
  deriving DecidableEq, Repr

/-- The source's `vfs_is_bundle`: the name ends in ".app". -/
def vfs_is_bundle (path : List Char) : Bool :=
  if strlen path < 4 then false
  else decide (strcmp (path.drop (strlen path - 4)) ".app".toList = 0)

/-- The number of characters of a path component: up to the next slash or the end
of the string (the inner `while (p[len] && p[len] != '/')` loop). -/
def component_len (p : List Char) : Nat := ((cstr p).takeWhile (fun c => c ≠ '/')).length

/-- The buffer `component[VFS_NAME_MAX + 1]` after the copy loop, for a component
of at most 255 characters; of a longer component only the first 255 characters
are stored (the source then writes the terminator past the buffer). -/
def component (p : List Char) : List Char := (p.take (component_len p)).take VFS_NAME_MAX

end Vfs

/-! ## kernel/src/fs/ojfs.h, kernel/src/fs/ojfs.c -/

namespace Ojfs

open Vfs

def OJFS_MAGIC : Nat := 0x53464A4F
def OJFS_VERSION : Nat := 1
def OJFS_TYPE_FILE : Nat := 1
def OJFS_TYPE_DIR : Nat := 2
def MAX_OJFS_INSTANCES : Nat := 4
def MAX_OJFS_FILES : Nat := 16
def MAX_OJFS_DIRS : Nat := 8
def ROOT_PARENT : Nat := 0xFFFFFFFF

/-- The size of the packed structs `OjfsHeader` and `OjfsEntry`. -/
def HEADER_SIZE : Nat := 32
def ENTRY_SIZE : Nat := 32

/-- One byte of the image. -/
def rd8 (img : List Nat) (off : Nat) : Nat := img.getD off 0 % 256

/-- A little-endian `uint32_t` field of the image. -/
def rd32 (img : List Nat) (off : Nat) : Nat :=
  rd8 img off + 256 * rd8 img (off + 1) + 65536 * rd8 img (off + 2) + 16777216 * rd8 img (off + 3)

/-- A little-endian `uint64_t` field of the image. -/
def rd64 (img : List Nat) (off : Nat) : Nat := rd32 img off + 4294967296 * rd32 img (off + 4)

/-- A mounted image `OjfsInstance`: `base` is the image memory; `header`, `entries`,
`strings` and `data` are `base` plus the offsets below. -/
structure OjfsInstance where
  base : List Nat

/-- The fields of the packed `OjfsHeader` at the start of the image. -/
def hdr_magic (fs : OjfsInstance) : Nat := rd32 fs.base 0
def hdr_version (fs : OjfsInstance) : Nat := rd32 fs.base 4
def hdr_entry_count (fs : OjfsInstance) : Nat := rd32 fs.base 8
def hdr_string_offset (fs : OjfsInstance) : Nat := rd32 fs.base 12
def hdr_string_size (fs : OjfsInstance) : Nat := rd32 fs.base 16
def hdr_data_offset (fs : OjfsInstance) : Nat := rd32 fs.base 20
def hdr_total_size (fs : OjfsInstance) : Nat := rd64 fs.base 24

structure OjfsEntry where
  name_offset : Nat
  parent : Nat
  type : Nat
  permissions : Nat
  data_offset : Nat
  size : Nat
  deriving DecidableEq, Repr

/-- The source's `fs->entries[i]`: the packed `OjfsEntry` at `sizeof(OjfsHeader) + 32 * i`. -/
def entries (fs : OjfsInstance) (i : Nat) : OjfsEntry :=
  let o := HEADER_SIZE + ENTRY_SIZE * i
  { name_offset := rd32 fs.base o
    parent := rd32 fs.base (o + 4)
    type := rd32 fs.base (o + 8)
    permissions := rd32 fs.base (o + 12)
    data_offset := rd64 fs.base (o + 16)
    size := rd64 fs.base (o + 24) }

/-- The source's `get_entry_name`: the C string at `fs->strings + entry->name_offset`. -/
def get_entry_name (fs : OjfsInstance) (e : OjfsEntry) : List Char :=
  (fs.base.drop (hdr_string_offset fs + e.name_offset)).map (fun b => Char.ofNat (b % 256))

/-- The conversion of a `uint32_t` index to the `int` that `find_entry` returns. -/
def toInt32 (n : Nat) : Int := if n < 2147483648 then (n : Int) else (n : Int) - 4294967296

/-- The component loop of `find_entry`; every round consumes at least one
character of the path, so `fuel` above the path length is never exhausted. -/
def find_entry_loop (fs : OjfsInstance) : Nat → List Char → Nat → Int
  | 0, _, _ => -1
  | fuel + 1, path, parent =>
    if charAt path 0 = NUL then toInt32 parent
    else
      let len := component_len path
      match (List.range (hdr_entry_count fs)).find? (fun i =>
          decide ((entries fs i).parent = parent) &&
            decide (strcmp (get_entry_name fs (entries fs i)) (component path) = 0)) with
      | none => -1
      | some i =>
        let rest := path.drop len
        find_entry_loop fs fuel (if charAt rest 0 = '/' then rest.drop 1 else rest) i

/-- The source's `find_entry`: the entry index, or a negative number. -/
def find_entry (fs : OjfsInstance) (path : List Char) : Int :=
  if strcmp path ['/'] = 0 ∨ charAt path 0 = NUL then
    match (List.range (hdr_entry_count fs)).find? (fun i =>
        decide ((entries fs i).parent = ROOT_PARENT) &&
          decide ((entries fs i).type = OJFS_TYPE_DIR)) with
    | some i => toInt32 i
    | none => -1
  else
    let p := if charAt path 0 = '/' then path.drop 1 else path
    find_entry_loop fs (p.length + 1) p ROOT_PARENT

/-- The runtime file handle `OjfsFile`. `entry` and `data` point into the image
`image`: `entry` is an entry index, `data` a byte offset; `none` is NULL. -/
structure OjfsFile where
  image : List Nat
  entry : Option Nat
  data : Option Nat
  position : Nat

/-- The runtime directory handle `OjfsDirHandle`. -/
structure OjfsDirHandle where
  parent_index : Nat
  current : Nat
  entry_count : Nat
  deriving DecidableEq, Repr

/-- The static state of ojfs.c: `instances[0 .. instance_count)`, the index of
`current_instance` (or `none`), and the two handle pools. -/
structure State where
  instances : List OjfsInstance
  current_instance : Option Nat
  file_pool : Nat → OjfsFile
  file_used : Nat → Bool
  dir_pool : Nat → OjfsDirHandle
  dir_used : Nat → Bool

/-- The state of ojfs.c at program start (zero-initialised statics). -/
def initial : State :=
  { instances := []
    current_instance := none
    file_pool := fun _ => ⟨[], none, none, 0⟩
    file_used := fun _ => false
    dir_pool := fun _ => ⟨0, 0, 0⟩
    dir_used := fun _ => false }

/-- The instance `current_instance` points to. -/
def current (s : State) : Option OjfsInstance :=
  match s.current_instance with
  | some k => s.instances[k]?
  | none => none

/-- The source's `alloc_ojfs_file`. -/
def alloc_ojfs_file (s : State) : Option Nat × State :=
  match (List.range MAX_OJFS_FILES).find? (fun i => !s.file_used i) with
  | some i =>
    (some i, { s with
      file_used := fun j => if j = i then true else s.file_used j
      file_pool := fun j => if j = i then ⟨[], none, none, 0⟩ else s.file_pool j })
  | none => (none, s)

/-- The source's `alloc_ojfs_dir`. -/
def alloc_ojfs_dir (s : State) : Option Nat × State :=
  match (List.range MAX_OJFS_DIRS).find? (fun i => !s.dir_used i) with
  | some i =>
    (some i, { s with
      dir_used := fun j => if j = i then true else s.dir_used j
      dir_pool := fun j => if j = i then ⟨0, 0, 0⟩ else s.dir_pool j })
  | none => (none, s)

/-- The source's `ojfs_open`: the handle (an index into the file pool) or `none` for NULL. -/
def ojfs_open (s : State) (path : List Char) (mode : Nat) : Option Nat × State :=
  match current s with
  | none => (none, s)
  | some fs =>
    if mode &&& (VFS_O_WRITE ||| VFS_O_CREATE ||| VFS_O_TRUNC) ≠ 0 then (none, s)
    else
      let idx := find_entry fs path
      if idx < 0 then (none, s)
      else
        let entry := entries fs idx.toNat
        if entry.type ≠ OJFS_TYPE_FILE then (none, s)
        else
          match alloc_ojfs_file s with
          | (none, s1) => (none, s1)
          | (some h, s1) =>
            (some h, { s1 with file_pool := fun j =>
              if j = h then
                { image := fs.base
                  entry := some idx.toNat
                  data := some ((hdr_data_offset fs +
                    (entry.data_offset + 2 ^ 64 - hdr_data_offset fs) % 2 ^ 64) % 2 ^ 64)
                  position := 0 }
              else s1.file_pool j })

/-- The source's `ojfs_read` of up to `count` bytes through the handle `h`: the return value,
the bytes copied to the caller's buffer, and the state. -/
def ojfs_read (s : State) (h : Option Nat) (count : Nat) : Int × List Nat × State :=
  match h with
  | none => (-1, [], s)
  | some h =>
    let file := s.file_pool h
    match file.entry, file.data with
    | some ei, some data =>
      let size := (entries ⟨file.image⟩ ei).size
      let remaining := (size + 2 ^ 64 - file.position) % 2 ^ 64
      let n := if count > remaining then remaining else count
      if n = 0 then (0, [], s)
      else
        (n, (file.image.drop (data + file.position)).take n,
          { s with file_pool := fun j =>
              if j = h then { file with position := (file.position + n) % 2 ^ 64 }
              else s.file_pool j })
    | _, _ => (-1, [], s)

/-- The source's `ojfs_opendir`. -/
def ojfs_opendir (s : State) (path : List Char) : Option Nat × State :=
  match current s with
  | none => (none, s)
  | some fs =>
    let idx := find_entry fs path
    if idx < 0 then
      if strcmp path ['/'] = 0 ∨ charAt path 0 = NUL then
        match alloc_ojfs_dir s with
        | (none, s1) => (none, s1)
        | (some h, s1) =>
          (some h, { s1 with dir_pool := fun j =>
            if j = h then ⟨ROOT_PARENT, 0, hdr_entry_count fs⟩ else s1.dir_pool j })
      else (none, s)
    else if (entries fs idx.toNat).type ≠ OJFS_TYPE_DIR then (none, s)
    else
      match alloc_ojfs_dir s with
      | (none, s1) => (none, s1)
      | (some h, s1) =>
        (some h, { s1 with dir_pool := fun j =>
          if j = h then ⟨idx.toNat, 0, hdr_entry_count fs⟩ else s1.dir_pool j })

/-- The `VfsDirEntry` that `ojfs_readdir` fills in for the entry at index `i`. -/
def dirent (fs : OjfsInstance) (i : Nat) : VfsDirEntry :=
  let e := entries fs i
  let name := get_entry_name fs e
  { name := (cstr name).take VFS_NAME_MAX
    type := if e.type = OJFS_TYPE_DIR ∧ vfs_is_bundle name = true then VfsFileType.BUNDLE
            else if e.type = OJFS_TYPE_DIR then VfsFileType.DIR else VfsFileType.FILE
    size := e.size
    inode := i }

/-- The scan loop of `ojfs_readdir` from the handle's `current` on; `fuel` bounds
the number of entries examined. -/
def readdir_loop (fs : OjfsInstance) (parent_index entry_count : Nat) :
    Nat → Nat → Option VfsDirEntry × Nat
  | 0, current => (none, current)
  | fuel + 1, current =>
    if current < entry_count then
      if (entries fs current).parent = parent_index then (some (dirent fs current), current + 1)
      else readdir_loop fs parent_index entry_count fuel (current + 1)
    else (none, current)

/-- The source's `ojfs_readdir`: `some entry` when it returns 0 having filled `entry`, `none`
when it returns -1. The loop examines at most `entry_count - current` entries. -/
def ojfs_readdir (s : State) (h : Option Nat) : Option VfsDirEntry × State :=
  match h, current s with
  | some h, some fs =>
    let dir := s.dir_pool h
    let r := readdir_loop fs dir.parent_index dir.entry_count
      (dir.entry_count - dir.current) dir.current
    (r.1, { s with dir_pool := fun j =>
      if j = h then { dir with current := r.2 } else s.dir_pool j })
  | _, _ => (none, s)

/-- The source's `ojfs_validate`; `image = none` is a NULL image. -/
def ojfs_validate (image : Option (List Nat)) (size : Nat) : Bool :=
  match image with
  | none => false
  | some img =>
    if size < HEADER_SIZE then false
    else if hdr_magic ⟨img⟩ ≠ OJFS_MAGIC then false
    else if hdr_version ⟨img⟩ ≠ OJFS_VERSION then false
    else if hdr_total_size ⟨img⟩ > size then false
    else true

/-- The source's `ojfs_init`: whether the ops table was returned, and the state. -/
def ojfs_init (s : State) (image : Option (List Nat)) (size : Nat) : Bool × State :=
  match image with
  | none => (false, s)
  | some img =>
    if ojfs_validate (some img) size = false then (false, s)
    else if s.instances.length ≥ MAX_OJFS_INSTANCES then (false, s)
    else
      (true, { s with instances := s.instances ++ [⟨img⟩]
                      current_instance := some s.instances.length })

/-- The results of `n` successive calls of `ojfs_readdir` on the handle `h`. -/
def readdir_n : Nat → State → Option Nat → List (Option VfsDirEntry) × State
  | 0, s, _ => ([], s)
  | n + 1, s, h =>
    let r := ojfs_readdir s h
    let rest := readdir_n n r.2 h
    (r.1 :: rest.1, rest.2)

end Ojfs

/-! ## tools/mkojfs.c -/

namespace Mkojfs

open Ojfs

def MAX_ENTRIES : Nat := 1024
def MAX_STRINGS : Nat := 64 * 1024
def MAX_DATA : Nat := 4 * 1024 * 1024
def VFS_PERM_READ : Nat := 1
def VFS_PERM_SYSTEM : Nat := 128

/-- The host directory tree handed to the packer: the children of a directory in
the order `readdir` reports them, "." and ".." left out. -/
inductive Tree where
  | file (name : List Char) (content : List Nat)
  | dir (name : List Char) (children : List Tree)

/-- The packer's static tables: `entries[0 .. entry_count)`, the string table up
to `string_offset`, the data section up to `data_offset`. -/
structure Pack where
  entries : List OjfsEntry
  string_table : List Nat
  data_section : List Nat

/-- The source's `add_string`; `none` stands for `exit(1)`. -/
def add_string (p : Pack) (str : List Char) : Option (Nat × Pack) :=
  if p.string_table.length + (strlen str + 1) > MAX_STRINGS then none
  else
    some (p.string_table.length,
      { p with string_table :=
          p.string_table ++ (cstr str).map (fun c => c.toNat % 256) ++ [0] })

/-- The source's `add_data` for a readable file with the given content. -/
def add_data (p : Pack) (content : List Nat) : Option (Nat × Nat × Pack) :=
  if p.data_section.length + content.length > MAX_DATA then none
  else
    some (p.data_section.length, content.length,
      { p with data_section := p.data_section ++ content })

/-- The source's `add_entry`: the index of the new entry. -/
def add_entry (p : Pack) (name : List Char) (parent type data_off size : Nat) :
    Option (Nat × Pack) :=
  if p.entries.length ≥ MAX_ENTRIES then none
  else
    match add_string p name with
    | none => none
    | some (off, p1) =>
      some (p.entries.length,
        { p1 with entries := p1.entries ++
            [{ name_offset := off, parent := parent, type := type,
               permissions := VFS_PERM_READ ||| VFS_PERM_SYSTEM,
               data_offset := data_off, size := size }] })

mutual
/-- The body of the `readdir` loop of `scan_directory` for one child. -/
def scan_child (parent_idx : Nat) : Tree → Pack → Option Pack
  | Tree.dir name children, p =>
    match add_entry p name parent_idx OJFS_TYPE_DIR 0 0 with
    | none => none
    | some (dir_idx, p1) => scan_directory dir_idx children p1
  | Tree.file name content, p =>
    match add_data p content with
    | none => none
    | some (data_off, size, p1) =>
      match add_entry p1 name parent_idx OJFS_TYPE_FILE data_off size with
      | none => none
      | some (_, p2) => some p2
/-- The source's `scan_directory` over the children of a directory. -/
def scan_directory (parent_idx : Nat) : List Tree → Pack → Option Pack
  | [], p => some p
  | t :: ts, p =>
    match scan_child parent_idx t p with
    | none => none
    | some p1 => scan_directory parent_idx ts p1
end

def le32 (n : Nat) : List Nat := [n % 256, n / 256 % 256, n / 65536 % 256, n / 16777216 % 256]

def le64 (n : Nat) : List Nat := le32 (n % 4294967296) ++ le32 (n / 4294967296 % 4294967296)

/-- The bytes `fwrite` emits for one packed `OjfsEntry`. -/
def entry_bytes (e : OjfsEntry) : List Nat :=
  le32 e.name_offset ++ le32 e.parent ++ le32 e.type ++ le32 e.permissions ++
    le64 e.data_offset ++ le64 e.size

/-- The source's `main`: the image written for the root directory with the given children. -/
def mkojfs (root_children : List Tree) : Option (List Nat) :=
  match add_entry ⟨[], [], []⟩ [] ROOT_PARENT OJFS_TYPE_DIR 0 0 with
  | none => none
  | some (root_idx, p0) =>
    match scan_directory root_idx root_children p0 with
    | none => none
    | some p =>
      let header_size := HEADER_SIZE
      let entries_size := (p.entries.length * ENTRY_SIZE) % 2 ^ 32
      let strings_start := (header_size + entries_size) % 2 ^ 32
      let data_start := ((strings_start + p.string_table.length + 7) % 2 ^ 32) / 8 * 8
      let total_size := data_start + p.data_section.length
      let adjusted := p.entries.map (fun e =>
        if e.type = OJFS_TYPE_FILE then
          { e with data_offset := (e.data_offset + data_start) % 2 ^ 64 }
        else e)
      let header := le32 OJFS_MAGIC ++ le32 OJFS_VERSION ++ le32 p.entries.length ++
        le32 strings_start ++ le32 p.string_table.length ++ le32 data_start ++ le64 total_size
      let head := header ++ (adjusted.map entry_bytes).flatten ++ p.string_table
      some (head ++ List.replicate (data_start - head.length) 0 ++ p.data_section)

/-- The example directory: a subdirectory "sub" holding the file "f" with the two
bytes "AB". -/
def exampleTree : List Tree :=
  [Tree.dir "sub".toList [Tree.file "f".toList [65, 66]]]

/-- The image the packer writes for the example directory. -/
def exampleImage : List Nat := (mkojfs exampleTree).getD []

/-- The state of ojfs.c after `ojfs_init` on the example image. -/
def exampleState : Ojfs.State := (ojfs_init Ojfs.initial (some exampleImage) exampleImage.length).2

end Mkojfs

/-! ## kernel/src/fs/vfs.c: path utilities -/

namespace Vfs

/-- The offset of the last slash of the C string `path`, as found by the scanning
loop of `vfs_basename` and `vfs_dirname`; `none` when there is no slash. -/
def last_slash (path : List Char) : Option Nat :=
  (List.range (cstr path).length).foldl
    (fun acc i => if charAt (cstr path) i = '/' then some i else acc) none

/-- The source's `vfs_basename`. -/
def vfs_basename (path : List Char) : List Char :=
  match last_slash path with
  | some i => path.drop (i + 1)
  | none => path

/-- The source's `vfs_dirname(path, dir, size)`: the return value and the string left in `dir`
(given as `dir0` before the call). -/
def vfs_dirname (path : List Char) (dir0 : List Char) (size : Nat) : Int × List Char :=
  match last_slash path with
  | none => if size > 0 then (0, []) else (0, dir0)
  | some i =>
    let len := if i = 0 then 1 else i
    if len ≥ size then (-1, dir0) else (0, path.take len)

end Vfs

/-- The absolute path with the given components: "/c1/c2/.../cn". -/
def join_path : List (List Char) → List Char
  | [] => []
  | c :: cs => '/' :: (c ++ join_path cs)

/-- A path component: not empty, at most 255 characters, without slash or NUL. -/
def ValidName (c : List Char) : Prop :=
  c ≠ [] ∧ c.length ≤ 255 ∧ ∀ ch ∈ c, ch ≠ '/' ∧ ch ≠ NUL

/-! ## kernel/src/fs/ramfs.h, kernel/src/fs/ramfs.c -/

namespace Ramfs

open Vfs

def RAMFS_MAX_NODES : Nat := 256
def RAMFS_MAX_FILES : Nat := 64
def RAMFS_MAX_DIRS : Nat := 32
def RAMFS_DATA_SIZE : Nat := 256 * 1024
def VFS_PERM_READ : Nat := 1
def VFS_PERM_WRITE : Nat := 2
def VFS_SEEK_SET : Int := 0
def VFS_SEEK_CUR : Int := 1
def VFS_SEEK_END : Int := 2

/-- The source's `RamfsNode`; `name` is the C string in the 256-byte name buffer. -/
structure RamfsNode where
  name : List Char
  parent : Nat
  type : VfsFileType
  permissions : Nat
  size : Nat
  capacity : Nat
  data_offset : Nat

/-- The source's `RamfsFile`; `node` is the index of the node pointed to, `none` for NULL. -/
structure RamfsFile where
  node : Option Nat
  position : Nat

structure RamfsDir where
  parent : Nat
  current : Nat

/-- The static state of ramfs.c. -/
structure State where
  nodes : Nat → RamfsNode
  node_count : Nat
  data_pool : Nat → Nat
  data_offset : Nat
  file_pool : Nat → RamfsFile
  file_used : Nat → Bool
  dir_pool : Nat → RamfsDir
  dir_used : Nat → Bool

/-- A node after `memset(node, 0, sizeof(*node))`. -/
def zero_node : RamfsNode :=
  { name := [], parent := 0, type := VfsFileType.UNKNOWN, permissions := 0,
    size := 0, capacity := 0, data_offset := 0 }

def setNode (s : State) (i : Nat) (n : RamfsNode) : State :=
  { s with nodes := fun j => if j = i then n else s.nodes j }

/-- The source's `alloc_node`: the index of the new zeroed node, `none` for NULL. -/
def alloc_node (s : State) : Option Nat × State :=
  if s.node_count ≥ RAMFS_MAX_NODES then (none, s)
  else (some s.node_count,
    { setNode s s.node_count zero_node with node_count := s.node_count + 1 })

/-- The source's `alloc_file`. -/
def alloc_file (s : State) : Option Nat × State :=
  match (List.range RAMFS_MAX_FILES).find? (fun i => !s.file_used i) with
  | some i =>
    (some i, { s with
      file_used := fun j => if j = i then true else s.file_used j
      file_pool := fun j => if j = i then ⟨none, 0⟩ else s.file_pool j })
  | none => (none, s)

/-- The source's `free_file`. -/
def free_file (s : State) (h : Nat) : State :=
  if h < RAMFS_MAX_FILES then
    { s with file_used := fun j => if j = h then false else s.file_used j }
  else s

/-- The source's `find_child`: the index of the first live node with the given parent and name,
or -1. -/
def find_child (s : State) (parent : Nat) (name : List Char) : Int :=
  match (List.range s.node_count).find? (fun i =>
      decide ((s.nodes i).type ≠ VfsFileType.UNKNOWN) && decide ((s.nodes i).parent = parent) &&
        decide (strcmp (s.nodes i).name name = 0)) with
  | some i => (i : Int)
  | none => -1

/-- The pointer `p` after one round of the component loop: past the component and
past one slash following it. -/
def advance (p : List Char) : List Char :=
  let rest := p.drop (component_len p)
  if charAt rest 0 = '/' then rest.drop 1 else rest

/-- The component loop of `find_node`; every round consumes at least one character
of the path, so `fuel` above the path length is never exhausted. -/
def find_node_loop (s : State) : Nat → List Char → Nat → Int
  | 0, _, _ => -1
  | fuel + 1, p, parent =>
    if charAt p 0 = NUL then (parent : Int)
    else
      let idx := find_child s parent (component p)
      if idx < 0 then -1
      else find_node_loop s fuel (advance p) idx.toNat

/-- The source's `find_node`. -/
def find_node (s : State) (path : List Char) : Int :=
  if charAt path 0 = NUL ∨ strcmp path ['/'] = 0 then 0
  else
    let p := if charAt path 0 = '/' then path.drop 1 else path
    find_node_loop s (p.length + 1) p 0

/-- The component loop of `ensure_dir`. -/
def ensure_dir_loop : Nat → State → List Char → Nat → Int × State
  | 0, s, _, _ => (-1, s)
  | fuel + 1, s, p, parent =>
    if charAt p 0 = NUL then ((parent : Int), s)
    else
      let idx := find_child s parent (component p)
      if idx < 0 then
        match alloc_node s with
        | (none, s1) => (-1, s1)
        | (some n, s1) =>
          let s2 := setNode s1 n
            { s1.nodes n with
              name := (cstr (component p)).take VFS_NAME_MAX
              parent := parent
              type := VfsFileType.DIR
              permissions := VFS_PERM_READ ||| VFS_PERM_WRITE }
          ensure_dir_loop fuel s2 (advance p) n
      else ensure_dir_loop fuel s (advance p) idx.toNat

/-- The source's `ensure_dir`. -/
def ensure_dir (s : State) (path : List Char) : Int × State :=
  if charAt path 0 = NUL then (-1, s)
  else
    let temp := (cstr path).take 255
    if strcmp temp ['/'] = 0 then (0, s)
    else
      let p := if charAt temp 0 = '/' then temp.drop 1 else temp
      ensure_dir_loop (p.length + 1) s p 0

/-- The source's `create_node`. -/
def create_node (s : State) (path : List Char) (type : VfsFileType) : Int × State :=
  if charAt path 0 = NUL then (-1, s)
  else
    let d := vfs_dirname path [] 256
    if d.1 ≠ 0 then (-1, s)
    else
      let base := vfs_basename path
      let r := ensure_dir s (if charAt d.2 0 ≠ NUL then d.2 else ['/'])
      if r.1 < 0 then (-1, r.2)
      else if find_child r.2 r.1.toNat base ≥ 0 then (-1, r.2)
      else
        match alloc_node r.2 with
        | (none, s1) => (-1, s1)
        | (some n, s1) =>
          ((n : Int), setNode s1 n
            { s1.nodes n with
              name := (cstr base).take VFS_NAME_MAX
              parent := r.1.toNat
              type := type
              permissions := VFS_PERM_READ ||| VFS_PERM_WRITE })

/-- The source's `ramfs_alloc_data`. -/
def ramfs_alloc_data (s : State) (size : Nat) : Int × State :=
  if (s.data_offset + size) % 2 ^ 64 > RAMFS_DATA_SIZE then (-1, s)
  else ((s.data_offset : Int), { s with data_offset := (s.data_offset + size) % 2 ^ 64 })

/-- The end of `ramfs_open`: `alloc_file` and the initialisation of the handle
for the node `idx`. -/
def open_handle (s : State) (idx : Nat) (mode : Nat) : Option Nat × State :=
  match alloc_file s with
  | (none, s3) => (none, s3)
  | (some h, s3) =>
    (some h, { s3 with file_pool := fun j =>
      if j = h then
        ⟨some idx, if mode &&& VFS_O_APPEND ≠ 0 then (s3.nodes idx).size else 0⟩
      else s3.file_pool j })

/-- The part of `ramfs_open` that follows the lookup, for the node index `idx`:
type check, truncation, first allocation of 4096 bytes, handle. -/
def open_node (s : State) (idx : Nat) (mode : Nat) : Option Nat × State :=
  if (s.nodes idx).type ≠ VfsFileType.FILE then (none, s)
  else
    let s1 := if mode &&& VFS_O_TRUNC ≠ 0 then setNode s idx { s.nodes idx with size := 0 }
      else s
    if (s1.nodes idx).capacity = 0 then
      if (ramfs_alloc_data s1 4096).1 < 0 then (none, (ramfs_alloc_data s1 4096).2)
      else
        open_handle
          (setNode (ramfs_alloc_data s1 4096).2 idx
            { (ramfs_alloc_data s1 4096).2.nodes idx with
              data_offset := (ramfs_alloc_data s1 4096).1.toNat, capacity := 4096 })
          idx mode
    else open_handle s1 idx mode

/-- The source's `ramfs_open`: the handle (an index into the file pool) or `none` for NULL. -/
def ramfs_open (s : State) (path : List Char) (mode : Nat) : Option Nat × State :=
  let c := if find_node s path < 0 ∧ mode &&& VFS_O_CREATE ≠ 0 then
      create_node s path VfsFileType.FILE
    else (find_node s path, s)
  if c.1 < 0 then (none, c.2) else open_node c.2 c.1.toNat mode

/-- The source's `ramfs_close`. -/
def ramfs_close (s : State) (h : Nat) : State := free_file s h

/-- The source's `memcpy` inside the data pool, byte by byte from the low address up. -/
def pool_copy (pool : Nat → Nat) (dst src : Nat) : Nat → Nat → Nat
  | 0 => pool
  | n + 1 => fun a =>
    if a = dst + n then pool_copy pool dst src n (src + n) else pool_copy pool dst src n a

/-- The source's `memcpy` of `count` bytes of the caller's buffer into the data pool. -/
def pool_store (pool : Nat → Nat) (dst : Nat) (buf : List Nat) (count : Nat) : Nat → Nat :=
  fun a => if dst ≤ a ∧ a < dst + count then buf.getD (a - dst) 0 else pool a

/-- The source's `memcpy` of `count` bytes of the data pool into the caller's buffer. -/
def pool_load (pool : Nat → Nat) (src : Nat) (count : Nat) : List Nat :=
  (List.range count).map (fun i => pool (src + i))

/-- The source's `ramfs_read` of up to `count` bytes through the handle `h`: the return value,
the bytes copied to the caller's buffer, and the state. -/
def ramfs_read (s : State) (h : Option Nat) (count : Nat) : Int × List Nat × State :=
  match h with
  | none => (-1, [], s)
  | some h =>
    match (s.file_pool h).node with
    | none => (-1, [], s)
    | some idx =>
      let node := s.nodes idx
      let pos := (s.file_pool h).position
      if pos ≥ node.size then (0, [], s)
      else
        let remaining := node.size - pos
        let n := if count > remaining then remaining else count
        ((n : Int), pool_load s.data_pool (node.data_offset + pos) n,
          { s with file_pool := fun j =>
              if j = h then { s.file_pool h with position := (pos + n) % 2 ^ 64 }
              else s.file_pool j })

/-- The growth block of `ramfs_write` for the node `idx` when `needed` bytes are
required: `none` when `ramfs_alloc_data` fails, otherwise the state with the
file's bytes copied to the new region and the node pointing at it. -/
def grow_node (s : State) (idx : Nat) (needed : Nat) : Option State :=
  let node := s.nodes idx
  if needed > node.capacity then
    let new_capacity :=
      if (node.capacity + 4096) % 2 ^ 64 < needed then needed
      else (node.capacity + 4096) % 2 ^ 64
    if (ramfs_alloc_data s new_capacity).1 < 0 then none
    else
      some (setNode
        { (ramfs_alloc_data s new_capacity).2 with
          data_pool := pool_copy (ramfs_alloc_data s new_capacity).2.data_pool
            (ramfs_alloc_data s new_capacity).1.toNat node.data_offset node.size }
        idx
        { node with data_offset := (ramfs_alloc_data s new_capacity).1.toNat,
                    capacity := new_capacity })
  else some s

/-- The end of `ramfs_write`: the copy of the caller's bytes into the pool, the
new position and the new size. -/
def store_bytes (s : State) (h idx : Nat) (buf : List Nat) (count : Nat) : Int × State :=
  let node := s.nodes idx
  let pos := (s.file_pool h).position
  let s2 := { s with
    data_pool := pool_store s.data_pool (node.data_offset + pos) buf count
    file_pool := fun j =>
      if j = h then { s.file_pool h with position := (pos + count) % 2 ^ 64 }
      else s.file_pool j }
  ((count : Int),
    if (pos + count) % 2 ^ 64 > node.size then
      setNode s2 idx { node with size := (pos + count) % 2 ^ 64 }
    else s2)

/-- The source's `ramfs_write` of the first `count` bytes of `buf` through the handle `h`. -/
def ramfs_write (s : State) (h : Option Nat) (buf : List Nat) (count : Nat) : Int × State :=
  match h with
  | none => (-1, s)
  | some h =>
    match (s.file_pool h).node with
    | none => (-1, s)
    | some idx =>
      if (s.nodes idx).capacity = 0 then (-1, s)
      else
        match grow_node s idx (((s.file_pool h).position + count) % 2 ^ 64) with
        | none => (-1, s)
        | some s1 => store_bytes s1 h idx buf count

/-- The source's `ramfs_seek`; offsets and results are `int64_t`. -/
def ramfs_seek (s : State) (h : Option Nat) (offset : Int) (whence : Int) : Int × State :=
  match h with
  | none => (-1, s)
  | some h =>
    match (s.file_pool h).node with
    | none => (-1, s)
    | some idx =>
      let size : Int := ((s.nodes idx).size : Int)
      let new_pos : Option Int :=
        if whence = VFS_SEEK_SET then some offset
        else if whence = VFS_SEEK_CUR then some (((s.file_pool h).position : Int) + offset)
        else if whence = VFS_SEEK_END then some (size + offset)
        else none
      match new_pos with
      | none => (-1, s)
      | some np =>
        if np < 0 ∨ np > size then (-1, s)
        else (np, { s with file_pool := fun j =>
          if j = h then { s.file_pool h with position := np.toNat } else s.file_pool j })

/-- The source's `ramfs_isdir`. -/
def ramfs_isdir (s : State) (path : List Char) : Bool :=
  if find_node s path < 0 then false
  else decide ((s.nodes (find_node s path).toNat).type = VfsFileType.DIR)

/-- The source's `ramfs_isfile`. -/
def ramfs_isfile (s : State) (path : List Char) : Bool :=
  if find_node s path < 0 then false
  else decide ((s.nodes (find_node s path).toNat).type = VfsFileType.FILE)

/-- The source's `ramfs_mkdir`. -/
def ramfs_mkdir (s : State) (path : List Char) : Int × State :=
  if charAt path 0 = NUL then (-1, s)
  else if find_node s path ≥ 0 then (-1, s)
  else create_node s path VfsFileType.DIR

/-- The source's `ramfs_create_file`. -/
def ramfs_create_file (s : State) (path : List Char) : Int × State :=
  if find_node s path ≥ 0 then (-1, s)
  else create_node s path VfsFileType.FILE

/-- The source's `ramfs_init`, over whatever the data pool holds. -/
def ramfs_init (pool : Nat → Nat) : State :=
  let s0 : State :=
    { nodes := fun _ => zero_node, node_count := 0, data_pool := pool, data_offset := 0,
      file_pool := fun _ => ⟨none, 0⟩, file_used := fun _ => false,
      dir_pool := fun _ => ⟨0, 0⟩, dir_used := fun _ => false }
  match alloc_node s0 with
  | (none, s1) => s1
  | (some n, s1) =>
    setNode s1 n
      { s1.nodes n with
        name := [], parent := 0xFFFFFFFF, type := VfsFileType.DIR,
        permissions := VFS_PERM_READ ||| VFS_PERM_WRITE }

/-- Every live node's parent field is the index of an allocated node or lies
outside the node table (the root's `0xFFFFFFFF`). -/
def ParentsInRange (s : State) : Prop :=
  ∀ i, i < s.node_count → (s.nodes i).type ≠ VfsFileType.UNKNOWN →
    (s.nodes i).parent < s.node_count ∨ RAMFS_MAX_NODES ≤ (s.nodes i).parent

/-- A filesystem in which "/g" was created and grown by one write of 248952
bytes. -/
def tightBefore : State :=
  (ramfs_write (ramfs_open (ramfs_init (fun _ => 0)) "/g".toList (VFS_O_CREATE ||| VFS_O_WRITE)).2
    (some 0) [] 248952).2

/-- The same filesystem after "/f" has been created and opened for writing. -/
def tightState : State :=
  (ramfs_open tightBefore "/f".toList (VFS_O_CREATE ||| VFS_O_WRITE)).2

/-- The source's `ramfs_unlink`. -/
def ramfs_unlink (s : State) (path : List Char) : Int × State :=
  if find_node s path ≤ 0 then (-1, s)
  else
    let idx := (find_node s path).toNat
    if (s.nodes idx).type = VfsFileType.DIR ∧
        (List.range s.node_count).any (fun i =>
          decide ((s.nodes i).type ≠ VfsFileType.UNKNOWN) && decide ((s.nodes i).parent = idx))
          = true then (-1, s)
    else
      (0, setNode s idx
        { s.nodes idx with
          type := VfsFileType.UNKNOWN, name := [], size := 0, capacity := 0, data_offset := 0 })

/-- The source's `ramfs_rename(from, to)`. -/
def ramfs_rename (s : State) (src dst : List Char) : Int × State :=
  if find_node s src < 0 then (-1, s)
  else if (vfs_dirname dst [] 256).1 ≠ 0 then (-1, s)
  else
    let to_dir := (vfs_dirname dst [] 256).2
    let parent := find_node s (if charAt to_dir 0 ≠ NUL then to_dir else ['/'])
    if parent < 0 then (-1, s)
    else if find_child s parent.toNat (vfs_basename dst) ≥ 0 then (-1, s)
    else
      (0, setNode s (find_node s src).toNat
        { s.nodes (find_node s src).toNat with
          parent := parent.toNat
          name := (cstr (vfs_basename dst)).take VFS_NAME_MAX })

/-- The path "/xx...x" with `n` letters. -/
def xPath (n : Nat) : List Char := '/' :: List.replicate n 'x'

/-- The filesystem after `create("/b")`, `create` of the path with 255 letters and
`rename` of "/b" to the path with 256 letters. -/
def twinState : State :=
  (ramfs_rename
    (ramfs_create_file (ramfs_create_file (ramfs_init (fun _ => 0)) "/b".toList).2
      (xPath 255)).2
    "/b".toList (xPath 256)).2

/-- Every node of the table is a file, a directory or unused, the three types the
filesystem ever writes. -/
def FilesAndDirs (s : State) : Prop :=
  ∀ i, i < s.node_count →
    (s.nodes i).type = VfsFileType.UNKNOWN ∨ (s.nodes i).type = VfsFileType.FILE ∨
      (s.nodes i).type = VfsFileType.DIR

/-- Live nodes under the same parent have different names. -/
def UniqueNames (s : State) : Prop :=
  ∀ i, i < s.node_count → ∀ j, j < s.node_count →
    (s.nodes i).type ≠ VfsFileType.UNKNOWN → (s.nodes j).type ≠ VfsFileType.UNKNOWN →
    (s.nodes i).parent = (s.nodes j).parent → strcmp (s.nodes i).name (s.nodes j).name = 0 →
    i = j

/-- The directory `idx` has a live child. -/
def HasLiveChild (s : State) (idx : Nat) : Prop :=
  ∃ i, i < s.node_count ∧ (s.nodes i).type ≠ VfsFileType.UNKNOWN ∧ (s.nodes i).parent = idx

/-- The filesystem after `create("/a/b/c.txt")` on a fresh RAMFS. -/
def abcState : State := (ramfs_create_file (ramfs_init (fun _ => 0)) "/a/b/c.txt".toList).2

end Ramfs

/-! ## kernel/src/drivers/driver.c: sequences of lifecycle calls -/

namespace Driver

/-- One call of the operations that act on registered drivers without adding or
removing any. -/
inductive LifecycleOp where
  | start (now drv : Nat)
  | stop (drv : Nat)
  | probe_all (ticks : Nat → Nat)
  | report_error (now drv : Nat)
  | clear_errors (drv : Nat)
  | dispatch (irq : Nat)

/-- The registry and the world after one call. -/
def lifecycle_step {ε : Type} (s : Registry ε × ε) : LifecycleOp → Registry ε × ε
  | LifecycleOp.start now drv =>
    ((driver_start now s.1 s.2 drv).2.1, (driver_start now s.1 s.2 drv).2.2)
  | LifecycleOp.stop drv => ((driver_stop s.1 s.2 drv).2.1, (driver_stop s.1 s.2 drv).2.2)
  | LifecycleOp.probe_all ticks => driver_probe_all ticks s.1 s.2
  | LifecycleOp.report_error now drv => driver_report_error now s.1 s.2 drv
  | LifecycleOp.clear_errors drv => (driver_clear_errors s.1 drv, s.2)
  | LifecycleOp.dispatch irq =>
    ((driver_dispatch_irq s.1 s.2 irq).2.1, (driver_dispatch_irq s.1 s.2 irq).2.2)

/-- The registry and the world after a sequence of calls, made in list order. -/
def lifecycle_run {ε : Type} (ops : List LifecycleOp) (s : Registry ε × ε) : Registry ε × ε :=
  ops.foldl lifecycle_step s

/-- A REGISTERED driver with `errs` recorded errors whose probe accepts, whose init
returns `code` and whose shutdown is logged as 99. -/
def initDrv (flags errs : Nat) (code : Int) : Drv (List Nat) :=
  { name := some "dev".toList, flags := flags, state := DriverState.REGISTERED,
    ops := some { probe := some (fun log => (true, log ++ [1])),
                  init := some (fun log => (code, log ++ [2])),
                  shutdown := some (fun log => (0, log ++ [99])) },
    irq := 0xFF, irq_count := 0, irq_total := 0, read_bytes := 0, write_bytes := 0,
    error_count := errs, last_error_tick := 0 }

/-- A registry holding one such driver at address 1. -/
def initRegistry (flags errs : Nat) (code : Int) : Registry (List Nat) :=
  { mem := fun _ => initDrv flags errs code
    driver_list := [1]
    driver_count := 1
    irq_table := fun _ => []
    subsystem_initialized := true }

/-- A registry whose driver at address 1 is DISABLED, has every callback and is
installed on every interrupt line; each callback logs a number. -/
def disabledRegistry : Registry (List Nat) :=
  { mem := fun _ =>
      { name := some "dev".toList, flags := 0, state := DriverState.DISABLED,
        ops := some { probe := some (fun log => (true, log ++ [1])),
                      init := some (fun log => (0, log ++ [2])),
                      shutdown := some (fun log => (0, log ++ [99])),
                      handle_irq := some (fun log irq => (true, log ++ [irq])) },
        irq := 3, irq_count := 1, irq_total := 0, read_bytes := 0, write_bytes := 0,
        error_count := 10, last_error_tick := 0 }
    driver_list := [1]
    driver_count := 1
    irq_table := fun _ => [1]
    subsystem_initialized := true }

end Driver

/-! ## kernel/src/fs/vfs.c: handle pools, path joining, directory creation -/

namespace Vfs

/-- The source's `alloc_dir`: claims the first unused slot of the directory pool and zeroes
it. -/
def alloc_dir {β : Type} (v : State β) : Option Nat × State β :=
  match (List.range MAX_OPEN_DIRS).find? (fun i => !v.dir_used i) with
  | some i =>
    (some i, { v with
      dir_used := fun j => if j = i then true else v.dir_used j
      dir_pool := fun j => if j = i then ⟨0, 0⟩ else v.dir_pool j })
  | none => (none, v)

/-- The source's `vfs_opendir`: the VFS handle index (or `none` for NULL), the VFS state and
the backend state afterwards. -/
def vfs_opendir {β : Type} (v : State β) (b : β) (path : List Char) :
    Option Nat × State β × β :=
  match find_mount v.mounts path with
  | none => (none, v, b)
  | some mi =>
    match v.mounts[mi]? with
    | none => (none, v, b)
    | some mount =>
      match mount.ops.opendir with
      | none => (none, v, b)
      | some fs_opendir =>
        let r := fs_opendir b (get_relative_path mount.path path)
        match r.1 with
        | none => (none, v, r.2)
        | some fs_dir =>
          match alloc_dir v with
          | (none, v1) =>
            match mount.ops.closedir with
            | some fs_closedir => (none, v1, fs_closedir r.2 fs_dir)
            | none => (none, v1, r.2)
          | (some vi, v1) =>
            (some vi,
              { v1 with dir_pool := fun j => if j = vi then ⟨mi, fs_dir⟩ else v1.dir_pool j },
              r.2)

/-- A backend holding the file "/a" and the directory "/d" and nothing else. Its
state is the log of the calls that reached it: 1 for a granted `open`, 2 for `close`,
3 for a granted `opendir`, 4 for `closedir`, 0 for a lookup that found nothing. -/
def shelfOps : VfsOps (List Nat) :=
  { name := "shelf"
    open_ := some (fun log p _ =>
      if strcmp p "/a".toList = 0 then (some 7, log ++ [1]) else (none, log ++ [0]))
    close := some (fun log _ => log ++ [2])
    opendir := some (fun log p =>
      if strcmp p "/d".toList = 0 then (some 9, log ++ [3]) else (none, log ++ [0]))
    closedir := some (fun log _ => log ++ [4]) }

/-- The VFS after `vfs_init` and the mount of that backend at "/". -/
def shelfVfs : State (List Nat) :=
  (vfs_mount (vfs_init (List Nat)) (some "/".toList) (some shelfOps) false).2

/-- The VFS and the backend after `n` further calls `vfs_open("/a", VFS_O_READ)`. -/
def open_many (n : Nat) (s : State (List Nat) × List Nat) : State (List Nat) × List Nat :=
  (List.range n).foldl (fun s _ =>
    ((vfs_open s.1 s.2 "/a".toList VFS_O_READ).2.1,
      (vfs_open s.1 s.2 "/a".toList VFS_O_READ).2.2)) s

/-- The VFS and the backend after `n` further calls `vfs_opendir("/d")`. -/
def opendir_many (n : Nat) (s : State (List Nat) × List Nat) : State (List Nat) × List Nat :=
  (List.range n).foldl (fun s _ =>
    ((vfs_opendir s.1 s.2 "/d".toList).2.1, (vfs_opendir s.1 s.2 "/d".toList).2.2)) s

/-- The VFS with all 32 file handles and all 16 directory handles in use. -/
def exhaustedVfs : State (List Nat) × List Nat :=
  opendir_many 16 (open_many 32 (shelfVfs, []))

/-- The source's `vfs_join_path(dest, size, base, name)`: the return value and the string left
in `dest` (given as `dest0` before the call). -/
def vfs_join_path (dest0 : List Char) (size : Nat) (base name : List Char) : Int × List Char :=
  let base_len := strlen base
  let name_len := strlen name
  let need_slash := decide (base_len > 0) && decide (charAt base (base_len - 1) ≠ '/')
  let total := base_len + (if need_slash then 1 else 0) + name_len + 1
  if total > size then (-1, dest0)
  else if need_slash then (0, cstr base ++ '/' :: cstr name)
  else (0, cstr base ++ cstr name)

/-- No two consecutive slashes. -/
def NoDoubleSlash (p : List Char) : Prop :=
  ∀ i < p.length, ¬ (charAt p i = '/' ∧ charAt p (i + 1) = '/')

instance NoDoubleSlash.decidable (p : List Char) : Decidable (NoDoubleSlash p) := by
  unfold NoDoubleSlash; infer_instance

/-- A path of three components, used as an example. -/
def samplePath : List Char := "/usr/lib/app.cfg".toList

/-- The source's `vfs_mkdir`: the return value and the backend state. -/
def vfs_mkdir {β : Type} (v : State β) (b : β) (path : List Char) : Int × β :=
  match find_mount v.mounts path with
  | none => (-1, b)
  | some mi =>
    match v.mounts[mi]? with
    | none => (-1, b)
    | some mount =>
      match mount.ops.mkdir with
      | none => (-1, b)
      | some fs_mkdir =>
        if mount.readonly then (-1, b)
        else fs_mkdir b (get_relative_path mount.path path)

end Vfs

/-! ## kernel/src/fs/ramfs.c: directory handles and the capability table -/

namespace Ramfs

open Vfs

/-- The source's `alloc_dir`. -/
def alloc_dir (s : State) : Option Nat × State :=
  match (List.range RAMFS_MAX_DIRS).find? (fun i => !s.dir_used i) with
  | some i =>
    (some i, { s with
      dir_used := fun j => if j = i then true else s.dir_used j
      dir_pool := fun j => if j = i then ⟨0, 0⟩ else s.dir_pool j })
  | none => (none, s)

/-- The source's `free_dir`. -/
def free_dir (s : State) (h : Nat) : State :=
  if h < RAMFS_MAX_DIRS then
    { s with dir_used := fun j => if j = h then false else s.dir_used j }
  else s

/-- The source's `ramfs_opendir`: the handle (an index into the directory pool) or `none` for
NULL. -/
def ramfs_opendir (s : State) (path : List Char) : Option Nat × State :=
  if find_node s path < 0 then (none, s)
  else if (s.nodes (find_node s path).toNat).type ≠ VfsFileType.DIR then (none, s)
  else
    match alloc_dir s with
    | (none, s1) => (none, s1)
    | (some h, s1) =>
      (some h, { s1 with dir_pool := fun j =>
        if j = h then ⟨(find_node s path).toNat % 2 ^ 32, 0⟩ else s1.dir_pool j })

/-- The source's `ramfs_closedir`. -/
def ramfs_closedir (s : State) (h : Nat) : State := free_dir s h

/-- The table `ramfs_ops`, in the capabilities the VFS model routes. -/
def ramfs_ops : VfsOps State :=
  { name := "ramfs"
    open_ := some ramfs_open
    close := some ramfs_close
    opendir := some ramfs_opendir
    closedir := some ramfs_closedir
    mkdir := some ramfs_mkdir
    unlink := some ramfs_unlink
    rename := some ramfs_rename }

/-- The VFS after `vfs_init` and the writable mount of the RAMFS at "/". -/
def ramVfs : Vfs.State State :=
  (vfs_mount (vfs_init State) (some "/".toList) (some ramfs_ops) false).2

end Ramfs

/-! ## kernel/src/fs/ojfs.c: close and seek -/

namespace Ojfs

open Vfs

/-- The value of a `uint64_t` converted to `int64_t`. -/
def toInt64 (n : Nat) : Int :=
  if n % 2 ^ 64 < 2 ^ 63 then ((n % 2 ^ 64 : Nat) : Int) else ((n % 2 ^ 64 : Nat) : Int) - 2 ^ 64

/-- The value of an `int64_t` converted to `uint64_t`. -/
def toUInt64 (i : Int) : Nat := (i % 2 ^ 64).toNat

/-- The source's `free_ojfs_file`. -/
def free_ojfs_file (s : State) (h : Nat) : State :=
  if h < MAX_OJFS_FILES then
    { s with file_used := fun j => if j = h then false else s.file_used j }
  else s

/-- The source's `ojfs_close`. -/
def ojfs_close (s : State) (h : Nat) : State := free_ojfs_file s h

/-- The source's `ojfs_seek`; `offset` is an `int64_t`, `whence` an `int`. The sums with the
`uint64_t` position and size are formed in `uint64_t` and converted to `int64_t`. -/
def ojfs_seek (s : State) (h : Option Nat) (offset : Int) (whence : Int) : Int × State :=
  match h with
  | none => (-1, s)
  | some h =>
    let file := s.file_pool h
    match file.entry with
    | none => (-1, s)
    | some ei =>
      let size := (entries ⟨file.image⟩ ei).size
      let new_pos : Option Int :=
        if whence = Ramfs.VFS_SEEK_SET then some offset
        else if whence = Ramfs.VFS_SEEK_CUR then
          some (toInt64 ((file.position + toUInt64 offset) % 2 ^ 64))
        else if whence = Ramfs.VFS_SEEK_END then
          some (toInt64 ((size + toUInt64 offset) % 2 ^ 64))
        else none
      match new_pos with
      | none => (-1, s)
      | some np =>
        if np < 0 ∨ np > toInt64 size then (-1, s)
        else (np, { s with file_pool := fun j =>
          if j = h then { file with position := np.toNat } else s.file_pool j })

/-- The states of ojfs.c that arise from program start by `ojfs_init` and the file
operations of the capability table. -/
inductive FileReachable : State → Prop
  | start : FileReachable initial
  | init (s : State) (image : Option (List Nat)) (size : Nat) :
      FileReachable s → FileReachable (ojfs_init s image size).2
  | open_ (s : State) (path : List Char) (mode : Nat) :
      FileReachable s → FileReachable (ojfs_open s path mode).2
  | close (s : State) (h : Nat) : FileReachable s → FileReachable (ojfs_close s h)
  | read (s : State) (h : Option Nat) (count : Nat) :
      FileReachable s → FileReachable (ojfs_read s h count).2.2
  | seek (s : State) (h : Option Nat) (offset whence : Int) :
      FileReachable s → FileReachable (ojfs_seek s h offset whence).2

/-- The byte offset `seek` is asked to move to: `offset` from the start, from the
current position or from the end of the file. -/
def seek_target (position size : Nat) (offset whence : Int) : Option Int :=
  if whence = Ramfs.VFS_SEEK_SET then some offset
  else if whence = Ramfs.VFS_SEEK_CUR then some ((position : Int) + offset)
  else if whence = Ramfs.VFS_SEEK_END then some ((size : Int) + offset)
  else none

/-- A handle slot is consistent: if it points at an entry, its position is at most
the entry's size and its data pointer is the entry's data offset in the image. -/
def SlotOk (f : OjfsFile) : Prop :=
  ∀ ei, f.entry = some ei →
    f.position ≤ (entries ⟨f.image⟩ ei).size ∧
    f.data = some (entries ⟨f.image⟩ ei).data_offset

/-- The state after `ojfs_open` of "//sub/f" in the packer's example image; the
doubled slash makes the walk pass through the root entry. -/
def openedState : State := (ojfs_open Mkojfs.exampleState "//sub/f".toList VFS_O_READ).2

end Ojfs

/-! ## kernel/src/fs/ramfs.c: node table growth and sequences of calls -/

namespace Ramfs

open Vfs

/-- What a call that only appends nodes does to the state: the nodes below the old
`node_count` and those from the new `node_count` on are untouched, each appended node is
an empty directory or an empty node of type `ty`, the count never passes the table
size, and the data pool, its allocator and the handle pools are as before. -/
def Grows (ty : VfsFileType) (s r : State) : Prop :=
  s.node_count ≤ r.node_count ∧
  (s.node_count ≤ RAMFS_MAX_NODES → r.node_count ≤ RAMFS_MAX_NODES) ∧
  r.data_offset = s.data_offset ∧ r.data_pool = s.data_pool ∧
  r.file_pool = s.file_pool ∧ r.file_used = s.file_used ∧
  r.dir_pool = s.dir_pool ∧ r.dir_used = s.dir_used ∧
  (∀ i, i < s.node_count ∨ r.node_count ≤ i → r.nodes i = s.nodes i) ∧
  (∀ i, s.node_count ≤ i → i < r.node_count →
    (r.nodes i).size = 0 ∧ (r.nodes i).capacity = 0 ∧ (r.nodes i).data_offset = 0 ∧
    ((r.nodes i).type = VfsFileType.DIR ∨ (r.nodes i).type = ty))

/-- The path "/c/c/.../c/f" with `n` directories named by the letter `c`. -/
def deepPath (c : Char) (n : Nat) : List Char :=
  join_path (List.replicate n [c] ++ ["f".toList])

/-- The state `ramfs_create_file` leaves behind. -/
def after_create_file (s : State) (path : List Char) : State := (ramfs_create_file s path).2

/-- The filesystem after `ramfs_init` and the creation of two files, each below 126 nested
new directories: 255 of the 256 node slots are allocated. -/
def almostFull : State :=
  after_create_file (after_create_file (ramfs_init (fun _ => 0)) (deepPath 'a' 126))
    (deepPath 'b' 126)

/-- Node 0 exists, parent fields are in range, and the live nodes directly under the
root carry names from the list `L`. -/
def TopLevel (s : State) (L : List (List Char)) : Prop :=
  0 < s.node_count ∧ ParentsInRange s ∧
  ∀ i, i < s.node_count → (s.nodes i).type ≠ VfsFileType.UNKNOWN → (s.nodes i).parent = 0 →
    (s.nodes i).name ∈ L

/-- The nearly full filesystem after one more file: all 256 node slots are allocated. -/
def fullTable : State := after_create_file almostFull "/z".toList

/-- One call of a RAMFS operation. -/
inductive RamfsOp where
  | open_ (path : List Char) (mode : Nat)
  | close (h : Nat)
  | read (h : Option Nat) (count : Nat)
  | write (h : Option Nat) (buf : List Nat) (count : Nat)
  | seek (h : Option Nat) (offset whence : Int)
  | create (path : List Char)
  | mkdir (path : List Char)
  | unlink (path : List Char)
  | rename (src dst : List Char)

/-- The state after one call. -/
def ramfs_step (s : State) : RamfsOp → State
  | RamfsOp.open_ path mode => (ramfs_open s path mode).2
  | RamfsOp.close h => ramfs_close s h
  | RamfsOp.read h count => (ramfs_read s h count).2.2
  | RamfsOp.write h buf count => (ramfs_write s h buf count).2
  | RamfsOp.seek h offset whence => (ramfs_seek s h offset whence).2
  | RamfsOp.create path => (ramfs_create_file s path).2
  | RamfsOp.mkdir path => (ramfs_mkdir s path).2
  | RamfsOp.unlink path => (ramfs_unlink s path).2
  | RamfsOp.rename src dst => (ramfs_rename s src dst).2

/-- The state after a sequence of calls, made in list order. -/
def ramfs_run (ops : List RamfsOp) (s : State) : State := ops.foldl ramfs_step s

/-- A call the C program can make: the byte count of a write is the size of an object
in memory, hence below 2^63. -/
def SaneOp : RamfsOp → Prop
  | RamfsOp.write _ _ count => count < 2 ^ 63
  | _ => True

/-- The sizes the filesystem keeps stay within the data pool: the allocator offset, every
node's capacity and size, every handle's position; and the node count stays within the
node table. -/
def Bounded (s : State) : Prop :=
  s.node_count ≤ RAMFS_MAX_NODES ∧ s.data_offset ≤ RAMFS_DATA_SIZE ∧
  (∀ i, (s.nodes i).capacity ≤ RAMFS_DATA_SIZE ∧ (s.nodes i).size ≤ RAMFS_DATA_SIZE) ∧
  (∀ h, (s.file_pool h).position ≤ RAMFS_DATA_SIZE)

/-- A sequence of calls that makes a directory, creates a file in it and writes three
bytes through a handle. -/
def sampleOps : List RamfsOp :=
  [RamfsOp.mkdir "/a".toList, RamfsOp.create "/a/f".toList,
    RamfsOp.open_ "/a/f".toList (VFS_O_WRITE ||| VFS_O_READ),
    RamfsOp.write (some 0) [1, 2, 3] 3]

/-- A later sequence of calls: a seek, a read, a rename, an unlink and a close. -/
def laterOps : List RamfsOp :=
  [RamfsOp.seek (some 0) 0 VFS_SEEK_SET, RamfsOp.read (some 0) 2,
    RamfsOp.rename "/a/f".toList "/a/g".toList, RamfsOp.unlink "/a/g".toList, RamfsOp.close 0]

/-- The filesystem after `ramfs_init` and `mkdir("/a")`. -/
def dirState : State := (ramfs_mkdir (ramfs_init (fun _ => 0)) "/a".toList).2

/-- The filesystem after `ramfs_init`, `create("/f")` and `create("/f/g")`. -/
def fileChildState : State :=
  (ramfs_create_file (ramfs_create_file (ramfs_init (fun _ => 0)) "/f".toList).2
    "/f/g".toList).2

end Ramfs

/-! ## kernel/src/drivers/block_cache.c, kernel/src/timer.c: calls at the ticks of the timer -/

namespace BlockCache

/-- The cache tables that arise from `block_cache_init` by calls of the four public
operations on any block, with the device in any state, where every
`block_cache_read` and `block_cache_write` gets a tick below `~0ULL` from
`timer_get_ticks`: timer.c counts the ticks up from 0, one per millisecond. -/
inductive TimedReachable {σ : Type} (ata : AtaDisk σ) : Cache → Prop
  | init : TimedReachable ata block_cache_init
  | read (now : Nat) (c : Cache) (d : σ) (b : Nat) (buf : Option (List Nat)) :
      now < U64_MAX → TimedReachable ata c →
      TimedReachable ata (block_cache_read ata now c d b buf).2.2.1
  | write (now : Nat) (c : Cache) (d : σ) (b : Nat) (buf : Option (List Nat)) :
      now < U64_MAX → TimedReachable ata c →
      TimedReachable ata (block_cache_write ata now c d b buf).2.1
  | invalidate (c : Cache) (b : Nat) :
      TimedReachable ata c → TimedReachable ata (block_cache_invalidate c b)
  | flush (c : Cache) (d : σ) :
      TimedReachable ata c → TimedReachable ata (block_cache_flush ata c d).1

/-- Every entry's last-access tick is below `~0ULL`. -/
def TicksBelow (c : Cache) : Prop := ∀ j, (c.cache j).last_access < U64_MAX

end BlockCache

/-! ## kernel/src/fs/ramfs.c: calls whose paths fit the path buffers -/

namespace Ramfs

open Vfs

/-- A call whose path arguments are C strings of at most 255 characters, what the
256-byte path buffers of the callers of the filesystem hold. -/
def PathsFit : RamfsOp → Prop
  | RamfsOp.open_ path _ => strlen path < 256
  | RamfsOp.create path => strlen path < 256
  | RamfsOp.mkdir path => strlen path < 256
  | RamfsOp.unlink path => strlen path < 256
  | RamfsOp.rename src dst => strlen src < 256 ∧ strlen dst < 256
  | _ => True

/-- The node table of `r` has the length of that of `s` and agrees with it in the
type, the parent and the name of every node. -/
def SameTree (s r : State) : Prop :=
  r.node_count = s.node_count ∧
  ∀ i, (r.nodes i).type = (s.nodes i).type ∧ (r.nodes i).parent = (s.nodes i).parent ∧
    (r.nodes i).name = (s.nodes i).name

/-- A well-formed node table: every node is a file, a directory or unused, and live
nodes under the same parent have different names. -/
def WellFormed (s : State) : Prop := FilesAndDirs s ∧ UniqueNames s

end Ramfs

/-! # Theorems -/

namespace BlockCache



theorem cache_find_some_iff (c : Cache) (b i : Nat) :
    cache_find c b = some i ↔
      ((c.cache i).valid = true ∧ (c.cache i).block_num = b) ∧ i < CACHE_SIZE ∧
        ∀ j, j < i → (c.cache j).valid = true → ¬ (c.cache j).block_num = b := by
  unfold cache_find
  rw [List.find?_range_eq_some]
  simp
  intro _ _ _
  refine forall_congr' fun j => forall_congr' fun _ => ?_
  cases (c.cache j).valid <;> simp

theorem cache_find_none_iff (c : Cache) (b : Nat) :
    cache_find c b = none ↔
      ∀ j, j < CACHE_SIZE → (c.cache j).valid = true → ¬ (c.cache j).block_num = b := by
  unfold cache_find
  rw [List.find?_range_eq_none]
  simp
  refine forall_congr' fun j => forall_congr' fun _ => ?_
  cases (c.cache j).valid <;> simp

theorem lru_fold_mem (c : Cache) (l : List Nat) (acc : Option Nat × Nat) (i : Nat)
    (h : (l.foldl (lru_step c) acc).1 = some i) : acc.1 = some i ∨ i ∈ l := by
  induction l generalizing acc with
  | nil => exact Or.inl h
  | cons a l ih =>
    rw [List.foldl_cons] at h
    rcases ih _ h with h1 | h1
    · unfold lru_step at h1
      split at h1
      · right; simp at h1; simp [h1]
      · exact Or.inl h1
    · right; exact List.mem_cons_of_mem _ h1

theorem cache_find_lru_lt (c : Cache) (i : Nat) (h : cache_find_lru c = some i) :
    i < CACHE_SIZE := by
  unfold cache_find_lru at h
  split at h
  · rename_i k hk
    have := List.mem_of_find?_eq_some hk
    simp at h
    subst h
    simpa using this
  · rcases lru_fold_mem c _ _ i h with h1 | h1
    · simp at h1
    · simpa using h1

theorem cache_writeback_other {σ : Type} (ata : AtaDisk σ) (c : Cache) (d : σ) (i j : Nat)
    (hj : j ≠ i) : ((cache_writeback ata c d i).2.1.cache j) = c.cache j := by
  unfold cache_writeback
  simp only
  split
  · rfl
  · split
    · rfl
    · split
      · simp [setEntry, hj]
      · rfl

theorem cache_find_setEntry (c : Cache) (b i : Nat) (e : CacheEntry) (hi : i < CACHE_SIZE)
    (hv : e.valid = true) (hb : e.block_num = b)
    (hbefore : ∀ j, j < i → (c.cache j).valid = true → ¬ (c.cache j).block_num = b) :
    cache_find (setEntry c i e) b = some i := by
  rw [cache_find_some_iff]
  refine ⟨by simp [setEntry, hv, hb], hi, ?_⟩
  intro j hj
  have : j ≠ i := Nat.ne_of_lt hj
  simpa [setEntry, this] using hbefore j hj

theorem memcpy_take {α : Type} (dest src : List α) (n : Nat) (h : src.length = n) :
    (memcpy dest src n).take n = src := by
  subst h
  simp [memcpy]

/-- A read of a cached block is served from the entry alone. -/
theorem block_cache_read_hit {σ : Type} (ata : AtaDisk σ) (now : Nat) (c : Cache) (d : σ)
    (b i : Nat) (out : List Nat) (h : cache_find c b = some i) :
    block_cache_read ata now c d b (some out) =
      (0, some (memcpy out (c.cache i).data BLOCK_SIZE),
        { setEntry c i { c.cache i with last_access := now } with
            cache_hits := (c.cache_hits + 1) % 2 ^ 64 }, d) := by
  simp [block_cache_read, h]

theorem lru_fold_keeps_some (c : Cache) (l : List Nat) (acc : Option Nat × Nat)
    (h : acc.1 ≠ none) : (l.foldl (lru_step c) acc).1 ≠ none := by
  induction l generalizing acc with
  | nil => exact h
  | cons a l ih =>
    rw [List.foldl_cons]
    apply ih
    unfold lru_step
    split
    · simp
    · exact h

theorem lru_fold_finds (c : Cache) (l : List Nat) (acc : Option Nat × Nat) (i : Nat)
    (hi : i ∈ l) (hlt : (c.cache i).last_access < acc.2) :
    (l.foldl (lru_step c) acc).1 ≠ none := by
  induction l generalizing acc with
  | nil => cases hi
  | cons a l ih =>
    rw [List.foldl_cons]
    by_cases ha : (c.cache a).last_access < acc.2
    · apply lru_fold_keeps_some
      simp [lru_step, ha]
    · have hstep : lru_step c acc a = acc := by simp [lru_step, ha]
      rw [hstep]
      rcases List.mem_cons.1 hi with rfl | hi
      · exact absurd hlt ha
      · exact ih acc hi hlt

/-- Victim selection finds a slot as soon as some entry is invalid or has a
last-access tick below `~0ULL`. -/
theorem cache_find_lru_ne_none (c : Cache) (i : Nat) (hi : i < CACHE_SIZE)
    (h : (c.cache i).valid = false ∨ (c.cache i).last_access < U64_MAX) :
    cache_find_lru c ≠ none := by
  unfold cache_find_lru
  split
  · simp
  · rename_i hnone
    rw [List.find?_range_eq_none] at hnone
    rcases h with h | h
    · have := hnone i hi
      simp [h] at this
    · exact lru_fold_finds c _ _ i (by simpa using hi) h

/-- A write the device accepts leaves a valid clean entry for the block, provided
the block was cached or victim selection found a slot. -/
theorem block_cache_write_installs {σ : Type} (ata : AtaDisk σ) (now : Nat) (c : Cache)
    (d : σ) (b : Nat) (P : List Nat)
    (hdev : ata.get_device d = true) (hw : (ata.write_sectors d b P).1 = 0)
    (hslot : cache_find c b ≠ none ∨ cache_find_lru c ≠ none) :
    (block_cache_write ata now c d b (some P)).1 = 0 ∧
    ∃ i, cache_find (block_cache_write ata now c d b (some P)).2.1 b = some i ∧
      ((block_cache_write ata now c d b (some P)).2.1.cache i).valid = true ∧
      ((block_cache_write ata now c d b (some P)).2.1.cache i).dirty = false ∧
      ∃ old, ((block_cache_write ata now c d b (some P)).2.1.cache i).data
        = memcpy old P BLOCK_SIZE := by
  have hc1 : ∀ x, cache_find { c with cache_writes := x } b = cache_find c b := fun _ => rfl
  have hl1 : ∀ x, cache_find_lru { c with cache_writes := x } = cache_find_lru c := fun _ => rfl
  cases hf : cache_find c b with
  | some i =>
    have hi := (cache_find_some_iff c b i).1 hf
    simp only [block_cache_write, hdev, hw, hc1, hf]
    refine ⟨by simp, i, ?_⟩
    simp only [Bool.not_true, Bool.false_eq_true, ↓reduceIte, ne_eq, not_true_eq_false]
    refine ⟨?_, by simp [setEntry, hi.1.1], by simp [setEntry], _, by simp [setEntry]; rfl⟩
    exact cache_find_setEntry _ b i _ hi.2.1 hi.1.1 hi.1.2 hi.2.2
  | none =>
    have hn := (cache_find_none_iff c b).1 hf
    cases hl : cache_find_lru c with
    | none => simp [hf, hl] at hslot
    | some i =>
      have hi := cache_find_lru_lt c i hl
      simp only [block_cache_write, hdev, hw, hc1, hl1, hf, hl]
      refine ⟨by simp, i, ?_⟩
      simp only [Bool.not_true, Bool.false_eq_true, ↓reduceIte, ne_eq, not_true_eq_false]
      refine ⟨?_, by simp [setEntry], by simp [setEntry], _, by simp [setEntry]; rfl⟩
      apply cache_find_setEntry _ b i _ hi rfl rfl
      intro j hj
      have hji : j ≠ i := Nat.ne_of_lt hj
      split
      · rw [cache_writeback_other _ _ _ _ _ hji]
        exact hn j (Nat.lt_trans hj hi)
      · exact hn j (Nat.lt_trans hj hi)

set_option maxRecDepth 100000 in
/-- Victim selection starts its scan from `oldest = ~0ULL` and compares with `<`: in
a full table whose entries all carry the tick `~0ULL`, a value the millisecond
counter of timer.c does not reach, it finds no slot. There the device accepts the
write of 512 sevens to the uncached block 0 and the write returns 0, yet no entry
is installed for block 0 and the read that follows fails with -1. -/
theorem sentinel_tick_write_not_installed :
    sevens.length = BLOCK_SIZE ∧
    okDisk.get_device () = true ∧ (okDisk.write_sectors () 0 sevens).1 = 0 ∧
    (block_cache_write okDisk 0 sentinelCache () 0 (some sevens)).1 = 0 ∧
    cache_find (block_cache_write okDisk 0 sentinelCache () 0 (some sevens)).2.1 0 = none ∧
    (block_cache_read okDisk 0 (block_cache_write okDisk 0 sentinelCache () 0 (some sevens)).2.1
        (block_cache_write okDisk 0 sentinelCache () 0 (some sevens)).2.2 0
        (some sevens)).1 = -1 := by
  refine ⟨by simp [sevens], rfl, rfl, by decide, by decide, by decide⟩

/-! ### Eviction order -/

theorem cache_find_lru_first_invalid (c : Cache) (k : Nat) (hk : k < CACHE_SIZE)
    (hinv : (c.cache k).valid = false) (hbefore : ∀ j, j < k → (c.cache j).valid = true) :
    cache_find_lru c = some k := by
  have h : (List.range CACHE_SIZE).find? (fun i => !(c.cache i).valid) = some k := by
    rw [List.find?_range_eq_some]
    refine ⟨by simp [hinv], by simpa using hk, ?_⟩
    intro j hj
    simp [hbefore j hj]
  simp [cache_find_lru, h]

theorem lru_fold_const (c : Cache) (l : List Nat) (acc : Option Nat × Nat)
    (h : ∀ i ∈ l, acc.2 ≤ (c.cache i).last_access) : l.foldl (lru_step c) acc = acc := by
  induction l with
  | nil => rfl
  | cons a l ih =>
    have ha : lru_step c acc a = acc := by
      unfold lru_step
      rw [if_neg (Nat.not_lt.2 (h a (List.mem_cons_self _ _)))]
    rw [List.foldl_cons, ha]
    exact ih (fun i hi => h i (List.mem_cons_of_mem _ hi))

theorem cache_find_lru_all_valid (c : Cache)
    (hvalid : ∀ i, i < CACHE_SIZE → (c.cache i).valid = true)
    (h0 : (c.cache 0).last_access < U64_MAX)
    (hmono : ∀ i, i < CACHE_SIZE → (c.cache 0).last_access ≤ (c.cache i).last_access) :
    cache_find_lru c = some 0 := by
  have h : (List.range CACHE_SIZE).find? (fun i => !(c.cache i).valid) = none := by
    rw [List.find?_range_eq_none]
    intro i hi
    simp [hvalid i hi]
  have hr : List.range CACHE_SIZE = 0 :: (List.range 63).map Nat.succ := by
    simp [CACHE_SIZE, List.range_succ_eq_map]
  have hstep : lru_step c (none, U64_MAX) 0 = (some 0, (c.cache 0).last_access) := by
    simp [lru_step, h0]
  simp only [cache_find_lru, h]
  rw [hr, List.foldl_cons, hstep, lru_fold_const]
  intro i hi
  rcases List.mem_map.1 hi with ⟨j, hj, rfl⟩
  have : j < 63 := by simpa using hj
  exact hmono _ (by simp [CACHE_SIZE]; omega)

/-- A miss that finds the clean or invalid slot `i` and a device that answers
installs the block in slot `i` and touches no other slot. -/
theorem block_cache_read_miss {σ : Type} (ata : AtaDisk σ) (now : Nat) (c : Cache) (d : σ)
    (b i : Nat) (out : List Nat) (hfind : cache_find c b = none)
    (hdev : ata.get_device d = true) (hlru : cache_find_lru c = some i)
    (hclean : ((c.cache i).valid && (c.cache i).dirty) = false)
    (hread : (ata.read_sectors d b (c.cache i).data).1 = 0) :
    (block_cache_read ata now c d b (some out)).1 = 0 ∧
    (∀ j, j ≠ i → (block_cache_read ata now c d b (some out)).2.2.1.cache j = c.cache j) ∧
    ((block_cache_read ata now c d b (some out)).2.2.1.cache i).valid = true ∧
    ((block_cache_read ata now c d b (some out)).2.2.1.cache i).dirty = false ∧
    ((block_cache_read ata now c d b (some out)).2.2.1.cache i).block_num = b ∧
    ((block_cache_read ata now c d b (some out)).2.2.1.cache i).last_access = now := by
  have hl1 : ∀ x, cache_find_lru { c with cache_misses := x } = cache_find_lru c := fun _ => rfl
  simp only [block_cache_read, hfind, hdev, hl1, hlru, hclean]
  refine ⟨by simp [hread], ?_, by simp [hread, setEntry], by simp [hread, setEntry],
    by simp [hread, setEntry], by simp [hread, setEntry]⟩
  intro j hj
  simp [hread, setEntry, hj]

theorem filled_find_none (c : Cache) (bs ts : Nat → Nat) (k : Nat) (hk : k ≤ CACHE_SIZE)
    (hinj : ∀ i j, i ≤ CACHE_SIZE → j ≤ CACHE_SIZE → bs i = bs j → i = j)
    (hf : Filled c bs ts k) : cache_find c (bs k) = none := by
  rw [cache_find_none_iff]
  intro j hj hv hb
  by_cases hjk : j < k
  · rw [((hf j hj).1 hjk).2.2.1] at hb
    have := hinj j k (Nat.le_of_lt hj) hk hb
    omega
  · have := (hf j hj).2 (by omega)
    rw [this] at hv
    cases hv

theorem read_blocks_fill {σ : Type} (ata : AtaDisk σ) (d0 : σ) (bs ts : Nat → Nat)
    (hdev : ∀ d, ata.get_device d = true)
    (hread : ∀ d b buf, (ata.read_sectors d b buf).1 = 0)
    (hinj : ∀ i j, i ≤ CACHE_SIZE → j ≤ CACHE_SIZE → bs i = bs j → i = j) :
    ∀ k, k ≤ CACHE_SIZE → Filled (read_blocks ata bs ts k (block_cache_init, d0)).1 bs ts k := by
  intro k
  induction k with
  | zero =>
    intro _ i _
    exact ⟨fun h => absurd h (Nat.not_lt_zero _), fun _ => rfl⟩
  | succ k ih =>
    intro hk
    have hk1 : k < CACHE_SIZE := hk
    have hf := ih (Nat.le_of_lt hk1)
    have hinvk := (hf k hk1).2 (Nat.le_refl _)
    have hm := block_cache_read_miss ata (ts k) (read_blocks ata bs ts k (block_cache_init, d0)).1
      (read_blocks ata bs ts k (block_cache_init, d0)).2 (bs k) k (List.replicate BLOCK_SIZE 0)
      (filled_find_none _ bs ts k (Nat.le_of_lt hk1) hinj hf) (hdev _)
      (cache_find_lru_first_invalid _ k hk1 hinvk (fun j hj => ((hf j (by omega)).1 hj).1))
      (by simp [hinvk]) (hread _ _ _)
    intro i hi
    simp only [read_blocks]
    by_cases hik : i = k
    · subst hik
      exact ⟨fun _ => ⟨hm.2.2.1, hm.2.2.2.1, hm.2.2.2.2.1, hm.2.2.2.2.2⟩, fun h => by omega⟩
    · rw [hm.2.1 i hik]
      exact ⟨fun h => (hf i hi).1 (by omega), fun h => (hf i hi).2 (by omega)⟩

/-- C6: from a freshly initialised cache, with a device whose reads succeed and a
non-decreasing tick clock whose reading at the first call is below `~0ULL` (the
millisecond counter of timer.c starts at 0 and gains one per tick), after
`block_cache_read` of 65 pairwise distinct blocks in sequence the first block is
no longer resident (`cache_find` fails for it) while the 64 blocks read after it
are all resident. -/
theorem lru_evicts_first_read {σ : Type} (ata : AtaDisk σ) (d0 : σ) (bs ts : Nat → Nat)
    (hdev : ∀ d, ata.get_device d = true)
    (hread : ∀ d b buf, (ata.read_sectors d b buf).1 = 0)
    (hinj : ∀ i j, i ≤ CACHE_SIZE → j ≤ CACHE_SIZE → bs i = bs j → i = j)
    (hmono : ∀ i j, i ≤ j → j ≤ CACHE_SIZE → ts i ≤ ts j)
    (hmax : ts 0 < U64_MAX) :
    cache_find (read_blocks ata bs ts 65 (block_cache_init, d0)).1 (bs 0) = none ∧
    ∀ k, 1 ≤ k → k ≤ CACHE_SIZE →
      cache_find (read_blocks ata bs ts 65 (block_cache_init, d0)).1 (bs k) ≠ none := by
  have hf := read_blocks_fill ata d0 bs ts hdev hread hinj CACHE_SIZE (Nat.le_refl _)
  have h0lt : 0 < CACHE_SIZE := by decide
  have hm := block_cache_read_miss ata (ts CACHE_SIZE)
    (read_blocks ata bs ts CACHE_SIZE (block_cache_init, d0)).1
    (read_blocks ata bs ts CACHE_SIZE (block_cache_init, d0)).2 (bs CACHE_SIZE) 0
    (List.replicate BLOCK_SIZE 0)
    (filled_find_none _ bs ts CACHE_SIZE (Nat.le_refl _) hinj hf) (hdev _)
    (cache_find_lru_all_valid _ (fun i hi => ((hf i hi).1 hi).1)
      (by rw [((hf 0 h0lt).1 h0lt).2.2.2]; exact hmax)
      (fun i hi => by
        rw [((hf 0 h0lt).1 h0lt).2.2.2, ((hf i hi).1 hi).2.2.2]
        exact hmono 0 i (Nat.zero_le _) (Nat.le_of_lt hi)))
    (by simp [((hf 0 h0lt).1 h0lt).2.1]) (hread _ _ _)
  have h65 : (read_blocks ata bs ts 65 (block_cache_init, d0)).1 =
      (block_cache_read ata (ts CACHE_SIZE)
        (read_blocks ata bs ts CACHE_SIZE (block_cache_init, d0)).1
        (read_blocks ata bs ts CACHE_SIZE (block_cache_init, d0)).2 (bs CACHE_SIZE)
        (some (List.replicate BLOCK_SIZE 0))).2.2.1 := by
    have e : (65 : Nat) = CACHE_SIZE + 1 := rfl
    rw [e, read_blocks]
  rw [h65]
  constructor
  · rw [cache_find_none_iff]
    intro j hj _ hb
    by_cases hj0 : j = 0
    · subst hj0
      rw [hm.2.2.2.2.1] at hb
      have := hinj CACHE_SIZE 0 (Nat.le_refl _) (Nat.zero_le _) hb
      simp [CACHE_SIZE] at this
    · rw [hm.2.1 j hj0, ((hf j hj).1 hj).2.2.1] at hb
      exact hj0 (hinj j 0 (Nat.le_of_lt hj) (Nat.zero_le _) hb)
  · intro k hk1 hk64 hnone
    rw [cache_find_none_iff] at hnone
    by_cases hk : k = CACHE_SIZE
    · subst hk
      exact hnone 0 h0lt hm.2.2.1 hm.2.2.2.2.1
    · have hklt : k < CACHE_SIZE := by omega
      have hk0 : k ≠ 0 := by omega
      refine hnone k hklt ?_ ?_
      · rw [hm.2.1 k hk0]; exact ((hf k hklt).1 hklt).1
      · rw [hm.2.1 k hk0]; exact ((hf k hklt).1 hklt).2.2.1

/-- C6 witness: reading blocks 0, 1, ..., 64 at ticks 0, 1, ..., 64 from a fresh
cache leaves block 0 not resident and block 64 resident. -/
theorem lru_evicts_first_read_witness :
    cache_find (read_blocks okDisk id id 65 (block_cache_init, ())).1 0 = none ∧
    cache_find (read_blocks okDisk id id 65 (block_cache_init, ())).1 64 ≠ none :=
  have h := lru_evicts_first_read okDisk () id id (fun _ => rfl) (fun _ _ _ => rfl)
    (fun _ _ _ _ h => h) (fun _ _ h _ => h) (by decide)
  ⟨h.1, h.2 64 (by decide) (by decide)⟩

set_option maxRecDepth 1000000 in
/-- The bound on the first tick is what the eviction needs: were every reading of the
clock `~0ULL`, a value the millisecond counter of timer.c does not reach, the 65th
of the reads of the distinct blocks 0, 1, ..., 64 from a fresh cache would return
-1, leaving the first block 0 resident in slot 0 and the last block 64 not
resident. -/
theorem sentinel_tick_keeps_first_read :
    (block_cache_read okDisk U64_MAX
        (read_blocks okDisk id (fun _ => U64_MAX) 64 (block_cache_init, ())).1 () 64
        (some (List.replicate BLOCK_SIZE 0))).1 = -1 ∧
    cache_find (read_blocks okDisk id (fun _ => U64_MAX) 65 (block_cache_init, ())).1 0
      = some 0 ∧
    cache_find (read_blocks okDisk id (fun _ => U64_MAX) 65 (block_cache_init, ())).1 64
      = none := by
  decide

/-! ### One entry per block -/

theorem UniqueBlocks.of_same_keys {c c2 : Cache} (h : UniqueBlocks c)
    (hk : ∀ i, i < CACHE_SIZE → (c2.cache i).valid = true →
      (c.cache i).valid = true ∧ (c2.cache i).block_num = (c.cache i).block_num) :
    UniqueBlocks c2 := by
  intro i hi j hj vi vj hb
  obtain ⟨a1, a2⟩ := hk i hi vi
  obtain ⟨b1, b2⟩ := hk j hj vj
  exact h i hi j hj a1 b1 (by rw [← a2, ← b2]; exact hb)

/-- Installing block `b` in slot `k` keeps the blocks distinct when `b` was not
cached. -/
theorem UniqueBlocks.install {c c2 : Cache} (h : UniqueBlocks c) (b k : Nat)
    (hfind : cache_find c b = none)
    (hk : ∀ i, i < CACHE_SIZE → i ≠ k → (c2.cache i).valid = true →
      (c.cache i).valid = true ∧ (c2.cache i).block_num = (c.cache i).block_num)
    (hb : (c2.cache k).block_num = b) :
    UniqueBlocks c2 := by
  rw [cache_find_none_iff] at hfind
  intro i hi j hj vi vj hbb
  by_cases hik : i = k
  · by_cases hjk : j = k
    · rw [hik, hjk]
    · exfalso
      obtain ⟨b1, b2⟩ := hk j hj hjk vj
      subst hik
      exact hfind j hj b1 (by rw [← b2, ← hbb, hb])
  · by_cases hjk : j = k
    · exfalso
      obtain ⟨a1, a2⟩ := hk i hi hik vi
      subst hjk
      exact hfind i hi a1 (by rw [← a2, hbb, hb])
    · obtain ⟨a1, a2⟩ := hk i hi hik vi
      obtain ⟨b1, b2⟩ := hk j hj hjk vj
      exact h i hi j hj a1 b1 (by rw [← a2, ← b2]; exact hbb)

theorem cache_writeback_keys {σ : Type} (ata : AtaDisk σ) (c : Cache) (d : σ) (i j : Nat) :
    ((cache_writeback ata c d i).2.1.cache j).valid = (c.cache j).valid ∧
    ((cache_writeback ata c d i).2.1.cache j).block_num = (c.cache j).block_num := by
  unfold cache_writeback
  simp only
  split
  · exact ⟨rfl, rfl⟩
  · split
    · exact ⟨rfl, rfl⟩
    · split
      · by_cases hj : j = i
        · subst hj; simp [BlockCache.setEntry]
        · simp [BlockCache.setEntry, hj]
      · exact ⟨rfl, rfl⟩

/-- A table that agrees with `c` on valid flags and block numbers outside slot `i`
and holds either the keys of `c` or a newly installed, uncached block in slot `i`
has distinct blocks. -/
theorem UniqueBlocks.step {c c2 : Cache} (h : UniqueBlocks c) (b i : Nat)
    (hother : ∀ j, j ≠ i → (c2.cache j).valid = (c.cache j).valid ∧
      (c2.cache j).block_num = (c.cache j).block_num)
    (hi : ((c2.cache i).valid = (c.cache i).valid ∧
        (c2.cache i).block_num = (c.cache i).block_num) ∨
      (cache_find c b = none ∧ (c2.cache i).block_num = b)) :
    UniqueBlocks c2 := by
  rcases hi with hi | ⟨hf, hb⟩
  · apply h.of_same_keys
    intro j _ hv
    by_cases hj : j = i
    · subst hj; exact ⟨by rw [← hi.1]; exact hv, hi.2⟩
    · exact ⟨by rw [← (hother j hj).1]; exact hv, (hother j hj).2⟩
  · refine h.install b i hf ?_ hb
    intro j _ hj hv
    exact ⟨by rw [← (hother j hj).1]; exact hv, (hother j hj).2⟩

theorem block_cache_read_unique {σ : Type} (ata : AtaDisk σ) (now : Nat) (c : Cache) (d : σ)
    (b : Nat) (buf : Option (List Nat)) (h : UniqueBlocks c) :
    UniqueBlocks (block_cache_read ata now c d b buf).2.2.1 := by
  have hl1 : ∀ x, cache_find_lru { c with cache_misses := x } = cache_find_lru c := fun _ => rfl
  cases buf with
  | none => exact h
  | some buf =>
    cases hf : cache_find c b with
    | some i =>
      simp only [block_cache_read, hf]
      refine h.step b i ?_ (Or.inl ?_)
      · intro j hj; simp [BlockCache.setEntry, hj]
      · simp [BlockCache.setEntry]
    | none =>
      cases hdev : ata.get_device d with
      | false =>
        simp only [block_cache_read, hf, hdev]
        exact h
      | true =>
        cases hl : cache_find_lru c with
        | none =>
          simp only [block_cache_read, hf, hdev, hl1, hl]
          exact h
        | some i =>
          cases hvd : ((c.cache i).valid && (c.cache i).dirty) with
          | false =>
            simp only [block_cache_read, hf, hdev, hl1, hl, hvd]
            simp only [Bool.not_true, Bool.false_eq_true, ↓reduceIte]
            split
            · refine h.step b i ?_ (Or.inl ?_)
              · intro j hj; simp [BlockCache.setEntry, hj]
              · simp [BlockCache.setEntry]
            · refine h.step b i ?_ (Or.inr ⟨hf, ?_⟩)
              · intro j hj; simp [BlockCache.setEntry, hj]
              · simp [BlockCache.setEntry]
          | true =>
            simp only [block_cache_read, hf, hdev, hl1, hl, hvd]
            simp only [Bool.not_true, Bool.false_eq_true, ↓reduceIte]
            split
            · refine h.step b i ?_ (Or.inl ?_)
              · intro j hj
                simp only [BlockCache.setEntry, if_neg hj]
                exact cache_writeback_keys ata _ d i j
              · simp only [BlockCache.setEntry, if_true]
                exact cache_writeback_keys ata _ d i i
            · refine h.step b i ?_ (Or.inr ⟨hf, ?_⟩)
              · intro j hj
                simp only [BlockCache.setEntry, if_neg hj]
                exact cache_writeback_keys ata _ d i j
              · simp [BlockCache.setEntry]

theorem block_cache_write_unique {σ : Type} (ata : AtaDisk σ) (now : Nat) (c : Cache) (d : σ)
    (b : Nat) (buf : Option (List Nat)) (h : UniqueBlocks c) :
    UniqueBlocks (block_cache_write ata now c d b buf).2.1 := by
  have hc1 : ∀ x, cache_find { c with cache_writes := x } b = cache_find c b := fun _ => rfl
  have hl1 : ∀ x, cache_find_lru { c with cache_writes := x } = cache_find_lru c := fun _ => rfl
  cases buf with
  | none => exact h
  | some buf =>
    cases hdev : ata.get_device d with
    | false =>
      simp only [block_cache_write, hdev]
      exact h
    | true =>
      by_cases hw : (ata.write_sectors d b buf).1 = 0
      · cases hf : cache_find c b with
        | some i =>
          simp only [block_cache_write, hdev, hw, hc1, hf]
          simp only [Bool.not_true, Bool.false_eq_true, ↓reduceIte, ne_eq, not_true_eq_false]
          refine h.step b i ?_ (Or.inl ?_)
          · intro j hj; simp [BlockCache.setEntry, hj]
          · simp [BlockCache.setEntry]
        | none =>
          cases hl : cache_find_lru c with
          | none =>
            simp only [block_cache_write, hdev, hw, hc1, hl1, hf, hl]
            simp only [Bool.not_true, Bool.false_eq_true, ↓reduceIte, ne_eq, not_true_eq_false]
            exact h
          | some i =>
            cases hvd : ((c.cache i).valid && (c.cache i).dirty) with
            | false =>
              simp only [block_cache_write, hdev, hw, hc1, hl1, hf, hl, hvd]
              simp only [Bool.not_true, Bool.false_eq_true, ↓reduceIte, ne_eq,
                not_true_eq_false]
              refine h.step b i ?_ (Or.inr ⟨hf, ?_⟩)
              · intro j hj; simp [BlockCache.setEntry, hj]
              · simp [BlockCache.setEntry]
            | true =>
              simp only [block_cache_write, hdev, hw, hc1, hl1, hf, hl, hvd]
              simp only [Bool.not_true, Bool.false_eq_true, ↓reduceIte, ne_eq,
                not_true_eq_false]
              refine h.step b i ?_ (Or.inr ⟨hf, ?_⟩)
              · intro j hj
                simp only [BlockCache.setEntry, if_neg hj]
                exact cache_writeback_keys ata _ _ i j
              · simp [BlockCache.setEntry]
      · simp only [block_cache_write, hdev]
        simp only [Bool.not_true, Bool.false_eq_true, ↓reduceIte, ne_eq]
        rw [if_pos hw]
        exact h

theorem block_cache_invalidate_unique (c : Cache) (b : Nat) (h : UniqueBlocks c) :
    UniqueBlocks (block_cache_invalidate c b) := by
  unfold block_cache_invalidate
  cases hf : cache_find c b with
  | none => exact h
  | some i =>
    simp only
    apply h.of_same_keys
    intro j _ hv
    by_cases hj : j = i
    · subst hj; simp [BlockCache.setEntry] at hv
    · simp only [BlockCache.setEntry, if_neg hj] at hv ⊢
      exact ⟨hv, trivial⟩

theorem flush_fold_keys {σ : Type} (ata : AtaDisk σ) :
    ∀ (l : List Nat) (s : Cache × σ) (j : Nat),
      (((l.foldl (fun (s : Cache × σ) i =>
        if (s.1.cache i).valid && (s.1.cache i).dirty then (cache_writeback ata s.1 s.2 i).2
        else s) s).1.cache j).valid = (s.1.cache j).valid) ∧
      (((l.foldl (fun (s : Cache × σ) i =>
        if (s.1.cache i).valid && (s.1.cache i).dirty then (cache_writeback ata s.1 s.2 i).2
        else s) s).1.cache j).block_num = (s.1.cache j).block_num) := by
  intro l
  induction l with
  | nil => intro s j; exact ⟨rfl, rfl⟩
  | cons i l ih =>
    intro s j
    simp only [List.foldl_cons]
    split
    · have h1 := ih (cache_writeback ata s.1 s.2 i).2 j
      have h2 := cache_writeback_keys ata s.1 s.2 i j
      exact ⟨h1.1.trans h2.1, h1.2.trans h2.2⟩
    · exact ih s j

theorem block_cache_flush_unique {σ : Type} (ata : AtaDisk σ) (c : Cache) (d : σ)
    (h : UniqueBlocks c) : UniqueBlocks (block_cache_flush ata c d).1 := by
  unfold block_cache_flush
  generalize List.range CACHE_SIZE = l
  apply h.of_same_keys
  intro j _ hv
  have hk := flush_fold_keys ata l (c, d) j
  exact ⟨by rw [← hk.1]; exact hv, hk.2⟩

/-- C13: in every cache table reachable from `block_cache_init` by `block_cache_read`,
`block_cache_write`, `block_cache_invalidate` and `block_cache_flush`, whatever the
device answers, no two valid entries hold the same block number. -/
theorem cache_unique_blocks {σ : Type} (ata : AtaDisk σ) (c : Cache)
    (h : Reachable ata c) :
    ∀ i, i < CACHE_SIZE → ∀ j, j < CACHE_SIZE →
      (c.cache i).valid = true → (c.cache j).valid = true →
      (c.cache i).block_num = (c.cache j).block_num → i = j := by
  have hu : UniqueBlocks c := by
    induction h with
    | init =>
      intro i _ j _ vi _ _
      simp [block_cache_init] at vi
    | read now c d b buf _ ih => exact block_cache_read_unique ata now c d b buf ih
    | write now c d b buf _ ih => exact block_cache_write_unique ata now c d b buf ih
    | invalidate c b _ ih => exact block_cache_invalidate_unique c b ih
    | flush c d _ ih => exact block_cache_flush_unique ata c d ih
  exact hu

set_option maxRecDepth 100000 in
/-- C13 witness: after blocks 7 and 9 have been read into a fresh cache, slots 0 and 1
are both valid and hold different blocks. -/
theorem cache_unique_blocks_witness :
    (twoReads.cache 0).valid = true ∧ (twoReads.cache 1).valid = true ∧
    (twoReads.cache 0).block_num ≠ (twoReads.cache 1).block_num :=
  ⟨by decide, by decide, fun heq =>
    absurd
      (cache_unique_blocks okDisk twoReads
        (Reachable.read 2 _ () 9 (some (List.replicate BLOCK_SIZE 0))
          (Reachable.read 1 block_cache_init () 7 (some (List.replicate BLOCK_SIZE 0))
            Reachable.init))
        0 (by decide) 1 (by decide) (by decide) (by decide) heq)
      (by decide)⟩

end BlockCache

/-! ### C strings -/

theorem char_toNat_sub_ne_zero (a c : Char) (h : a ≠ c) : (a.toNat : Int) - (c.toNat : Int) ≠ 0 := by
  intro h0
  apply h
  have h1 : a.toNat = c.toNat := by omega
  cases a with | mk va pa =>
  cases c with | mk vc pc =>
  simp only [Char.toNat] at h1
  have : va = vc := UInt32.ext (by simpa [UInt32.toNat] using h1)
  subst this
  rfl

theorem strncmp_strlen_eq_zero_iff (m p : List Char) :
    strncmp p m (strlen m) = 0 ↔ cstr m <+: cstr p := by
  induction m generalizing p with
  | nil => simp [strlen, strncmp, cstr]
  | cons c cs ih =>
    by_cases hc : c = NUL
    · simp [strlen, strncmp, cstr, hc]
    · have hlen : strlen (c :: cs) = strlen cs + 1 := by simp [strlen, hc]
      rw [hlen]
      cases p with
      | nil =>
        have : (NUL.toNat : Int) - (c.toNat : Int) ≠ 0 :=
          char_toNat_sub_ne_zero _ _ (fun h => hc h.symm)
        simp [strncmp, charAt, cstr, hc, this]
      | cons a as =>
        by_cases hac : a = c
        · subst hac
          simp [strncmp, charAt, cstr, hc, ih]
        · have : (a.toNat : Int) - (c.toNat : Int) ≠ 0 := char_toNat_sub_ne_zero _ _ hac
          by_cases ha : a = NUL
          · simp [strncmp, charAt, cstr, hc, ha, hac, this]
            simpa [ha] using this
          · simp [strncmp, charAt, cstr, hc, ha, hac, this]
            intro h
            exact absurd h.symm hac

theorem strcmp_eq_zero_iff (a b : List Char) : strcmp a b = 0 ↔ cstr a = cstr b := by
  induction a generalizing b with
  | nil =>
    cases b with
    | nil => simp [strcmp, charAt, cstr, NUL]
    | cons c cs =>
      by_cases hc : c = NUL
      · simp [strcmp, charAt, cstr, hc, NUL]
      · have : (NUL.toNat : Int) - (c.toNat : Int) ≠ 0 :=
          char_toNat_sub_ne_zero _ _ (fun h => hc h.symm)
        have h0 : (0 : Int) - (c.toNat : Int) ≠ 0 := by simpa [NUL] using this
        simp [strcmp, charAt, cstr, hc]
        omega
  | cons x xs ih =>
    by_cases hx : x = NUL
    · cases b with
      | nil => simp [strcmp, charAt, cstr, hx]
      | cons c cs =>
        by_cases hc : c = NUL
        · simp [strcmp, charAt, cstr, hx, hc]
        · have : (NUL.toNat : Int) - (c.toNat : Int) ≠ 0 :=
            char_toNat_sub_ne_zero _ _ (fun h => hc h.symm)
          simp [strcmp, charAt, cstr, hx, hc, this]
    · cases b with
      | nil =>
        have : (x.toNat : Int) - (NUL.toNat : Int) ≠ 0 := char_toNat_sub_ne_zero _ _ hx
        simp [strcmp, charAt, cstr, hx, this]
      | cons c cs =>
        by_cases hxc : x = c
        · subst hxc
          simp [strcmp, charAt, cstr, hx, ih]
        · have : (x.toNat : Int) - (c.toNat : Int) ≠ 0 := char_toNat_sub_ne_zero _ _ hxc
          by_cases hc : c = NUL
          · simp [strcmp, charAt, cstr, hx, hc, hxc, this]
            simpa [hc] using this
          · simp [strcmp, charAt, cstr, hx, hc, hxc, this]

/-! ### Mount resolution (vfs.c) -/

namespace Vfs

theorem mount_matches_iff (path mpath : List Char) :
    mount_matches path mpath = true ↔ MountMatch path mpath := by
  simp [mount_matches, MountMatch, strncmp_strlen_eq_zero_iff, or_assoc]

theorem find_mount_loop_spec {β : Type} (path : List Char) (ms : List (VfsMount β)) (i : Nat)
    (best : Option Nat) (bl : Nat) :
    (find_mount_loop path ms i best bl = best ∧
      ∀ m ∈ ms, mount_matches path m.path = true → strlen m.path ≤ bl) ∨
    (∃ k M, find_mount_loop path ms i best bl = some (i + k) ∧ ms[k]? = some M ∧
      mount_matches path M.path = true ∧ bl < strlen M.path ∧
      ∀ m ∈ ms, mount_matches path m.path = true → strlen m.path ≤ strlen M.path) := by
  induction ms generalizing i best bl with
  | nil => left; simp [find_mount_loop]
  | cons m ms ih =>
    by_cases h : mount_matches path m.path = true ∧ strlen m.path > bl
    · have hstep : find_mount_loop path (m :: ms) i best bl =
          find_mount_loop path ms (i + 1) (some i) (strlen m.path) := by
        simp [find_mount_loop, h.1, h.2]
      rw [hstep]
      rcases ih (i + 1) (some i) (strlen m.path) with ⟨h1, h2⟩ | ⟨k, M, h1, h2, h3, h4, h5⟩
      · right
        refine ⟨0, m, by simpa using h1, by simp, h.1, h.2, ?_⟩
        intro m' hm' hmm
        rcases List.mem_cons.1 hm' with rfl | hm'
        · exact Nat.le_refl _
        · exact h2 m' hm' hmm
      · right
        refine ⟨k + 1, M, by rw [h1]; congr 1; omega, by simpa using h2, h3,
          Nat.lt_trans h.2 h4, ?_⟩
        intro m' hm' hmm
        rcases List.mem_cons.1 hm' with rfl | hm'
        · exact Nat.le_of_lt h4
        · exact h5 m' hm' hmm
    · have hstep : find_mount_loop path (m :: ms) i best bl =
          find_mount_loop path ms (i + 1) best bl := by
        simp only [find_mount_loop]
        rw [if_neg]
        simpa using h
      rw [hstep]
      have hm : mount_matches path m.path = true → strlen m.path ≤ bl := by
        intro hmm
        by_contra hlt
        exact h ⟨hmm, by omega⟩
      rcases ih (i + 1) best bl with ⟨h1, h2⟩ | ⟨k, M, h1, h2, h3, h4, h5⟩
      · left
        refine ⟨h1, ?_⟩
        intro m' hm' hmm
        rcases List.mem_cons.1 hm' with rfl | hm'
        · exact hm hmm
        · exact h2 m' hm' hmm
      · right
        refine ⟨k + 1, M, by rw [h1]; congr 1; omega, by simpa using h2, h3, h4, ?_⟩
        intro m' hm' hmm
        rcases List.mem_cons.1 hm' with rfl | hm'
        · exact Nat.le_trans (hm hmm) (Nat.le_of_lt h4)
        · exact h5 m' hm' hmm

/-- C2: `find_mount` returns a mount only if that mount's path is a prefix of the
queried path ending at a directory boundary (next character NUL or a slash, or
mount path of length 1); the returned mount has the longest path among all mounts
matching in this sense; no mount is returned exactly when no mount with a
non-empty path matches. With mounts "/" and "/data", "/data/x" resolves to
"/data" while "/x" and "/dataX/x" resolve to "/". -/
theorem find_mount_longest_match {β : Type} (ms : List (VfsMount β)) (path : List Char) :
    (∀ i, find_mount ms path = some i →
      ∃ M, ms[i]? = some M ∧ MountMatch path M.path ∧
        ∀ M2 ∈ ms, MountMatch path M2.path → strlen M2.path ≤ strlen M.path) ∧
    (find_mount ms path = none ↔
      ∀ M ∈ ms, MountMatch path M.path → strlen M.path = 0) ∧
    (find_mount exampleMounts "/data/x".toList = some 1 ∧
      find_mount exampleMounts "/x".toList = some 0 ∧
      find_mount exampleMounts "/dataX/x".toList = some 0 ∧
      find_mount exampleMounts.reverse "/data/x".toList = some 0 ∧
      find_mount exampleMounts.reverse "/x".toList = some 1 ∧
      find_mount exampleMounts.reverse "/dataX/x".toList = some 1) := by
  refine ⟨?_, ?_, by decide⟩
  · intro i hi
    rcases find_mount_loop_spec path ms 0 none 0 with ⟨h1, _⟩ | ⟨k, M, h1, h2, h3, _, h5⟩
    · rw [find_mount] at hi
      rw [hi] at h1
      cases h1
    · rw [find_mount, h1] at hi
      simp only [Nat.zero_add, Option.some.injEq] at hi
      subst hi
      refine ⟨M, h2, (mount_matches_iff _ _).1 h3, ?_⟩
      intro M2 hM2 hmm
      exact h5 M2 hM2 ((mount_matches_iff _ _).2 hmm)
  · constructor
    · intro hnone M hM hmm
      rcases find_mount_loop_spec path ms 0 none 0 with ⟨_, h2⟩ | ⟨k, M1, h1, _⟩
      · exact Nat.le_zero.1 (h2 M hM ((mount_matches_iff _ _).2 hmm))
      · rw [find_mount, h1] at hnone
        cases hnone
    · intro hall
      rcases find_mount_loop_spec path ms 0 none 0 with ⟨h1, _⟩ | ⟨k, M1, _, h2, h3, h4, _⟩
      · exact h1
      · have := hall M1 (List.getElem?_mem h2) ((mount_matches_iff _ _).1 h3)
        omega

/-- C9: when the path resolves to a read-only mount, `vfs_open` with any of the
WRITE, CREATE or TRUNC bits fails leaving the VFS state (so the file-handle pool)
and the backend state untouched, whatever the backend is; when it resolves to a
read-write mount exposing `open`, the backend's `open` is run on the path made
relative to the mount with the caller's mode, and its outcome decides the result:
a NULL handle fails the call, otherwise a VFS handle wrapping the backend handle
is allocated (or, the pool being exhausted, the backend handle is closed). -/
theorem vfs_open_readonly_gate {β : Type} (v : State β) (b : β) (path : List Char) (mi : Nat)
    (M : VfsMount β) (hfind : find_mount v.mounts path = some mi)
    (hM : v.mounts[mi]? = some M) :
    (M.readonly = true → ∀ mode, mode &&& (VFS_O_WRITE ||| VFS_O_CREATE ||| VFS_O_TRUNC) ≠ 0 →
      vfs_open v b path mode = (none, v, b)) ∧
    (M.readonly = false → ∀ fs_open, M.ops.open_ = some fs_open → ∀ mode,
      (((fs_open b (get_relative_path M.path path) mode).1 = none →
        vfs_open v b path mode =
          (none, v, (fs_open b (get_relative_path M.path path) mode).2)) ∧
      (∀ file, (fs_open b (get_relative_path M.path path) mode).1 = some file →
        (∀ vi, (alloc_file v).1 = some vi →
          (vfs_open v b path mode).1 = some vi ∧
          (vfs_open v b path mode).2.2 = (fs_open b (get_relative_path M.path path) mode).2 ∧
          (vfs_open v b path mode).2.1.file_pool vi = ⟨mi, file, mode, 0⟩ ∧
          (vfs_open v b path mode).2.1.file_used vi = true) ∧
        ((alloc_file v).1 = none →
          (vfs_open v b path mode).1 = none ∧
          (vfs_open v b path mode).2.2 =
            match M.ops.close with
            | some fs_close =>
              fs_close (fs_open b (get_relative_path M.path path) mode).2 file
            | none => (fs_open b (get_relative_path M.path path) mode).2)))) := by
  constructor
  · intro hro mode hmode
    simp [vfs_open, hfind, hM, hro, hmode]
  · intro hrw fs_open hopen mode
    constructor
    · intro hnone
      simp [vfs_open, hfind, hM, hrw, hopen, hnone]
    · intro file hfile
      constructor
      · intro vi hvi
        simp only [vfs_open, hfind, hM, hrw, hopen, hfile]
        unfold alloc_file at hvi ⊢
        split at hvi
        · rename_i k hk
          simp only [Option.some.injEq] at hvi
          subst hvi
          simp [hk]
        · simp at hvi
      · intro hnone
        simp only [vfs_open, hfind, hM, hrw, hopen, hfile]
        unfold alloc_file at hnone ⊢
        split at hnone
        · simp at hnone
        · rename_i hk
          simp only [hk]
          cases M.ops.close <;> simp

/-- C9 witness: with "/" mounted read-only and "/data" read-write over a backend
that logs its `open` calls, opening "/x" for writing fails with an empty log and
an unchanged VFS, while opening "/data/x" for writing logs one backend call with
the relative path "/x" and yields VFS handle 0. -/
theorem vfs_open_readonly_gate_witness :
    vfs_open exampleVfs [] "/x".toList VFS_O_WRITE = (none, exampleVfs, []) ∧
    (vfs_open exampleVfs [] "/data/x".toList VFS_O_WRITE).1 = some 0 ∧
    (vfs_open exampleVfs [] "/data/x".toList VFS_O_WRITE).2.2 = [("/x".toList, VFS_O_WRITE)] :=
  ⟨(vfs_open_readonly_gate exampleVfs [] "/x".toList 0 ⟨"/".toList, logOps, true⟩
      (by decide) rfl).1 rfl VFS_O_WRITE (by decide),
   (((vfs_open_readonly_gate exampleVfs [] "/data/x".toList 1 ⟨"/data".toList, logOps, false⟩
      (by decide) rfl).2 rfl _ rfl VFS_O_WRITE).2 1 rfl).1 0 (by decide) |>.1,
   (((vfs_open_readonly_gate exampleVfs [] "/data/x".toList 1 ⟨"/data".toList, logOps, false⟩
      (by decide) rfl).2 rfl _ rfl VFS_O_WRITE).2 1 rfl).1 0 (by decide) |>.2.1⟩

/-! ### The mount table (vfs.c) -/

/-- The mount table never holds more than 8 mounts. -/
theorem mount_table_bounded {β : Type} (v : State β) (h : MountReachable v) :
    v.mounts.length ≤ MAX_MOUNTS := by
  induction h with
  | init => simp [vfs_init]
  | mount v path ops ro _ ih =>
    unfold vfs_mount
    by_cases hfull : v.mounts.length ≥ MAX_MOUNTS
    · rw [if_pos hfull]; exact ih
    · rw [if_neg hfull]
      cases path with
      | none => exact ih
      | some p =>
        cases ops with
        | none => exact ih
        | some o =>
          simp only
          split
          · exact ih
          · simp only [List.length_append, List.length_singleton]
            omega
  | unmount v path _ ih =>
    unfold vfs_unmount
    split
    · simp only [List.length_eraseIdx]
      split <;> omega
    · exact ih

/-- A full table refuses a further mount and stays as it is. -/
theorem vfs_mount_full {β : Type} (v : State β) (path : Option (List Char))
    (ops : Option (VfsOps β)) (ro : Bool) (h : v.mounts.length = MAX_MOUNTS) :
    vfs_mount v path ops ro = (-1, v) := by
  unfold vfs_mount
  rw [if_pos (by omega)]

/-- A path whose stored form compares equal to it is refused a second time: mounting a
path that some mount's stored path equals, as a C string, fails and changes nothing. -/
theorem vfs_mount_duplicate {β : Type} (v : State β) (p : List Char)
    (ops : Option (VfsOps β)) (ro : Bool) (m : VfsMount β) (hm : m ∈ v.mounts)
    (heq : cstr m.path = cstr p) :
    vfs_mount v (some p) ops ro = (-1, v) := by
  unfold vfs_mount
  by_cases hfull : v.mounts.length ≥ MAX_MOUNTS
  · rw [if_pos hfull]
  · rw [if_neg hfull]
    cases ops with
    | none => rfl
    | some o =>
      simp only
      rw [if_pos]
      rw [List.any_eq_true]
      exact ⟨m, hm, by simpa using (strcmp_eq_zero_iff m.path p).2 heq⟩

set_option maxRecDepth 1000000 in
/-- C18 at a path of 256 characters: `vfs_mount` stores only its first 255 characters
and compares the stored paths with the full argument, so the same path is mounted
twice, both calls returning 0, and the table then holds two mounts with the same
stored path. -/
theorem vfs_mount_long_path_twice :
    strlen longPath = 256 ∧
    (vfs_mount (vfs_init Unit) (some longPath) (some { name := "fs" }) false).1 = 0 ∧
    (vfs_mount (vfs_mount (vfs_init Unit) (some longPath) (some { name := "fs" }) false).2
      (some longPath) (some { name := "fs" }) false).1 = 0 ∧
    (vfs_mount (vfs_mount (vfs_init Unit) (some longPath) (some { name := "fs" }) false).2
      (some longPath) (some { name := "fs" }) false).2.mounts.map (fun m => m.path) =
      [longPath.take 255, longPath.take 255] := by
  decide

/-! ### Rename across mounts (vfs.c) -/

set_option maxRecDepth 100000 in
/-- C19: `vfs_rename` returns -1 and leaves the backend state untouched whenever the
two paths resolve to different mounts, the case of a destination that resolves to no
mount included (and also when the source resolves to none). When both resolve to the
same mount, that mount is writable and its table has `rename`, the result is that of
the backend's `rename`, applied once to the backend state with both paths passed
through `get_relative_path` for that mount. With mounts "/" and "/data":
"/data/a" to "/data/b" reaches the backend as ("/a", "/b"), "/x" to "/y" as
("/x", "/y"), while "/data/a" to "/b" is refused; with "/data" alone mounted,
"/data/a" to "/b" is refused. -/
theorem vfs_rename_same_mount {β : Type} (v : State β) (b : β) (src dst : List Char) :
    (find_mount v.mounts src ≠ find_mount v.mounts dst → vfs_rename v b src dst = (-1, b)) ∧
    (find_mount v.mounts src = none → vfs_rename v b src dst = (-1, b)) ∧
    (∀ mi m f, find_mount v.mounts src = some mi → find_mount v.mounts dst = some mi →
      v.mounts[mi]? = some m → m.readonly = false → m.ops.rename = some f →
      vfs_rename v b src dst =
        f b (get_relative_path m.path src) (get_relative_path m.path dst)) ∧
    (vfs_rename renameVfs [] "/data/a".toList "/data/b".toList
        = (0, [("/a".toList, "/b".toList)]) ∧
      vfs_rename renameVfs [] "/x".toList "/y".toList = (0, [("/x".toList, "/y".toList)]) ∧
      vfs_rename renameVfs [] "/data".toList "/data/b".toList
        = (0, [("/".toList, "/b".toList)]) ∧
      vfs_rename renameVfs [] "/data/a".toList "/b".toList = (-1, []) ∧
      vfs_rename renameVfs [] "/a".toList "/data/b".toList = (-1, []) ∧
      vfs_rename { renameVfs with mounts := renameVfs.mounts.drop 1 } []
        "/data/a".toList "/b".toList = (-1, [])) := by
  refine ⟨?_, ?_, ?_, by decide, by decide, by decide, by decide, by decide, by decide⟩
  · intro hne
    unfold vfs_rename
    cases hs : find_mount v.mounts src with
    | none => rfl
    | some mi =>
      simp only
      cases hm : v.mounts[mi]? with
      | none => rfl
      | some m =>
        simp only
        cases hr : m.ops.rename with
        | none => rfl
        | some f =>
          simp only
          by_cases hro : m.readonly = true
          · rw [if_pos hro]
          · rw [if_neg hro, if_pos]
            rw [hs] at hne
            exact fun h => hne h.symm
  · intro hs
    unfold vfs_rename
    rw [hs]
  · intro mi m f hs hd hm hro hr
    unfold vfs_rename
    rw [hs]
    simp only [hm, hr]
    rw [if_neg (by simp [hro]), if_neg (by simp [hd])]

end Vfs

/-! ### Driver error containment (driver.c) -/

namespace Driver

/-- One error report on a READY non-critical driver below the threshold only bumps
the counter and records the tick. -/
theorem driver_report_error_below {ε : Type} (now : Nat) (R : Registry ε) (e : ε) (drv n : Nat)
    (hdrv : drv ≠ 0) (hn : n < 9) (hc : (R.mem drv).error_count = n) :
    driver_report_error now R e drv =
      (setDrv R drv { R.mem drv with error_count := n + 1, last_error_tick := now }, e) := by
  have h1 : (n + 1) % 18446744073709551616 = n + 1 := Nat.mod_eq_of_lt (by omega)
  have h2 : ¬ (10 ≤ n + 1) := by omega
  simp [driver_report_error, hdrv, hc, h1, h2, DRIVER_ERROR_THRESHOLD]

/-- The report that brings a non-critical driver to the threshold disables it. -/
theorem driver_report_error_at_threshold {ε : Type} (now : Nat) (R : Registry ε) (e : ε)
    (drv : Nat) (hdrv : drv ≠ 0) (hnc : (R.mem drv).flags &&& DRIVER_FLAG_CRITICAL = 0)
    (hc : (R.mem drv).error_count = 9) :
    ((driver_report_error now R e drv).1.mem drv).state = DriverState.DISABLED := by
  simp [driver_report_error, hdrv, hc, hnc, DRIVER_ERROR_THRESHOLD, setDrv]

theorem report_errors_count {ε : Type} (drv : Nat) (hdrv : drv ≠ 0) (ticks : List Nat) :
    ∀ (n : Nat) (R : Registry ε) (e : ε), n ≤ 9 →
      (R.mem drv).flags &&& DRIVER_FLAG_CRITICAL = 0 →
      (R.mem drv).state = DriverState.READY → (R.mem drv).error_count = n →
      (n + ticks.length ≤ 9 →
        ((report_errors drv ticks (R, e)).1.mem drv).state = DriverState.READY ∧
        ((report_errors drv ticks (R, e)).1.mem drv).error_count = n + ticks.length) ∧
      (n + ticks.length = 10 →
        ((report_errors drv ticks (R, e)).1.mem drv).state = DriverState.DISABLED) := by
  induction ticks with
  | nil =>
    intro n R e hn _ hst hc
    refine ⟨fun _ => ⟨hst, by simpa using hc⟩, fun h => ?_⟩
    simp at h
    omega
  | cons t rest ih =>
    intro n R e hn hnc hst hc
    simp only [report_errors, List.length_cons]
    by_cases h9 : n < 9
    · rw [driver_report_error_below t R e drv n hdrv h9 hc]
      have := ih (n + 1) (setDrv R drv { R.mem drv with error_count := n + 1, last_error_tick := t })
        e (by omega) (by simpa [setDrv] using hnc) (by simpa [setDrv] using hst) (by simp [setDrv])
      constructor
      · intro hle
        have h := this.1 (by omega)
        exact ⟨h.1, by rw [h.2]; omega⟩
      · intro heq
        exact this.2 (by omega)
    · have hn9 : n = 9 := by omega
      subst hn9
      constructor
      · intro hle; omega
      · intro heq
        have hrest : rest = [] := List.eq_nil_of_length_eq_zero (by omega)
        subst hrest
        simp only [report_errors]
        exact driver_report_error_at_threshold t R e drv hdrv hnc hc

/-- C5: for a non-critical driver in READY state with error count 0, after each of
the first 9 calls of `driver_report_error` (at any ticks) the driver is still
READY and `driver_is_healthy` is true; after the 10th call its state is DISABLED
and `driver_is_healthy` is false. -/
theorem report_error_disables_at_tenth {ε : Type} (R : Registry ε) (e : ε) (drv : Nat)
    (ticks : List Nat) (hdrv : drv ≠ 0)
    (hnc : (R.mem drv).flags &&& DRIVER_FLAG_CRITICAL = 0)
    (hready : (R.mem drv).state = DriverState.READY)
    (hzero : (R.mem drv).error_count = 0) :
    (1 ≤ ticks.length → ticks.length ≤ 9 →
      ((report_errors drv ticks (R, e)).1.mem drv).state = DriverState.READY ∧
      driver_is_healthy (report_errors drv ticks (R, e)).1 drv = true) ∧
    (ticks.length = 10 →
      ((report_errors drv ticks (R, e)).1.mem drv).state = DriverState.DISABLED ∧
      driver_is_healthy (report_errors drv ticks (R, e)).1 drv = false) := by
  have h := report_errors_count drv hdrv ticks 0 R e (by omega) hnc hready hzero
  constructor
  · intro _ hle
    have h1 := h.1 (by omega)
    refine ⟨h1.1, ?_⟩
    simp [driver_is_healthy, hdrv, h1.1, h1.2, DRIVER_ERROR_THRESHOLD]
    omega
  · intro h10
    have h2 := h.2 (by omega)
    refine ⟨h2, ?_⟩
    simp [driver_is_healthy, hdrv, h2]

/-- C5 witness: a READY driver with flags 0 and no errors is READY and healthy
after 9 reports, DISABLED and unhealthy after 10. -/
theorem report_error_disables_at_tenth_witness :
    (((report_errors 1 (List.replicate 9 5) (oneDriver 0 0, ())).1.mem 1).state
        = DriverState.READY ∧
      driver_is_healthy (report_errors 1 (List.replicate 9 5) (oneDriver 0 0, ())).1 1 = true) ∧
    (((report_errors 1 (List.replicate 10 5) (oneDriver 0 0, ())).1.mem 1).state
        = DriverState.DISABLED ∧
      driver_is_healthy (report_errors 1 (List.replicate 10 5) (oneDriver 0 0, ())).1 1
        = false) :=
  ⟨(report_error_disables_at_tenth (oneDriver 0 0) () 1 (List.replicate 9 5)
      (by decide) rfl rfl rfl).1 (by decide) (by decide),
   (report_error_disables_at_tenth (oneDriver 0 0) () 1 (List.replicate 10 5)
      (by decide) rfl rfl rfl).2 (by decide)⟩

/-- C10: for a driver whose CRITICAL flag is set, whatever its state and error
count, `driver_unregister` returns -1 and leaves the registry, the driver object
and the world exactly as they were: its state is unchanged (it does not become
UNLOADED), it stays in the driver list, the count is unchanged and every IRQ line
keeps its handlers. -/
theorem driver_unregister_critical_refused {ε : Type} (R : Registry ε) (e : ε) (drv : Nat)
    (hcrit : (R.mem drv).flags &&& DRIVER_FLAG_CRITICAL ≠ 0) :
    (driver_unregister R e drv).1 = -1 ∧
    (driver_unregister R e drv).2 = (R, e) ∧
    ((driver_unregister R e drv).2.1.mem drv).state = (R.mem drv).state ∧
    (drv ∈ R.driver_list → drv ∈ (driver_unregister R e drv).2.1.driver_list) ∧
    (driver_unregister R e drv).2.1.driver_count = R.driver_count ∧
    ∀ l, (driver_unregister R e drv).2.1.irq_table l = R.irq_table l := by
  have h : driver_unregister R e drv = (-1, R, e) := by
    unfold driver_unregister
    by_cases h0 : drv = 0
    · simp [h0]
    · simp [h0, hcrit]
  rw [h]
  exact ⟨rfl, rfl, rfl, fun h => h, rfl, fun _ => rfl⟩

/-- C10 witness: a READY driver flagged CRITICAL with 50 recorded errors,
registered on IRQ line 1, is refused and stays READY, listed and on its line. -/
theorem driver_unregister_critical_refused_witness :
    (driver_unregister (oneDriver DRIVER_FLAG_CRITICAL 50) () 1).1 = -1 ∧
    ((driver_unregister (oneDriver DRIVER_FLAG_CRITICAL 50) () 1).2.1.mem 1).state
      = DriverState.READY ∧
    1 ∈ (driver_unregister (oneDriver DRIVER_FLAG_CRITICAL 50) () 1).2.1.driver_list ∧
    (driver_unregister (oneDriver DRIVER_FLAG_CRITICAL 50) () 1).2.1.irq_table 1 = [1] :=
  have h := driver_unregister_critical_refused (oneDriver DRIVER_FLAG_CRITICAL 50) () 1
    (by decide)
  ⟨h.1, h.2.2.1, h.2.2.2.1 (by decide), h.2.2.2.2.2 1⟩

/-! ### Registry bookkeeping (driver.c) -/

theorem setDrv_self {ε : Type} (R : Registry ε) (drv : Nat) : setDrv R drv (R.mem drv) = R := by
  cases R with
  | mk mem l c t i =>
    simp only [setDrv, Registry.mk.injEq, and_true]
    funext a
    by_cases h : a = drv
    · simp [h]
    · simp [h]

theorem setDrv_setDrv {ε : Type} (R : Registry ε) (drv : Nat) (d1 d2 : Drv ε) :
    setDrv (setDrv R drv d1) drv d2 = setDrv R drv d2 := by
  simp only [setDrv, Registry.mk.injEq, and_true]
  funext a
  by_cases h : a = drv
  · simp [h]
  · simp [h]

theorem Touch.refl {ε : Type} (R : Registry ε) (drv : Nat) : Touch R R drv :=
  ⟨R.mem drv, (setDrv_self R drv).symm, rfl, rfl, rfl⟩

theorem Touch.set {ε : Type} (R : Registry ε) (drv : Nat) (d : Drv ε)
    (h1 : d.name = (R.mem drv).name) (h2 : d.flags = (R.mem drv).flags)
    (h3 : d.ops = (R.mem drv).ops) : Touch R (setDrv R drv d) drv :=
  ⟨d, rfl, h1, h2, h3⟩

theorem Touch.trans {ε : Type} {R R1 R2 : Registry ε} {drv : Nat}
    (h1 : Touch R R1 drv) (h2 : Touch R1 R2 drv) : Touch R R2 drv := by
  obtain ⟨d1, rfl, a1, b1, c1⟩ := h1
  obtain ⟨d2, rfl, a2, b2, c2⟩ := h2
  have hm : (setDrv R drv d1).mem drv = d1 := by simp [setDrv]
  rw [hm] at a2 b2 c2
  exact ⟨d2, setDrv_setDrv R drv d1 d2, a2.trans a1, b2.trans b1, c2.trans c1⟩

theorem Touch.mem_other {ε : Type} {R R2 : Registry ε} {drv : Nat} (h : Touch R R2 drv)
    (a : Nat) (ha : a ≠ drv) : R2.mem a = R.mem a := by
  obtain ⟨d, rfl, _⟩ := h
  simp [setDrv, ha]

theorem Touch.fields {ε : Type} {R R2 : Registry ε} {drv : Nat} (h : Touch R R2 drv) :
    R2.driver_list = R.driver_list ∧ R2.driver_count = R.driver_count ∧
    R2.irq_table = R.irq_table ∧ R2.subsystem_initialized = R.subsystem_initialized ∧
    ∀ a, (R2.mem a).name = (R.mem a).name ∧ (R2.mem a).flags = (R.mem a).flags ∧
      (R2.mem a).ops = (R.mem a).ops := by
  obtain ⟨d, rfl, h1, h2, h3⟩ := h
  refine ⟨rfl, rfl, rfl, rfl, ?_⟩
  intro a
  by_cases ha : a = drv
  · subst ha
    simp [setDrv, h1, h2, h3]
  · simp [setDrv, ha]

theorem driver_stop_touch {ε : Type} (R : Registry ε) (e : ε) (drv : Nat) :
    Touch R (driver_stop R e drv).2.1 drv := by
  unfold driver_stop
  by_cases h0 : drv = 0
  · rw [if_pos h0]; exact Touch.refl R drv
  · rw [if_neg h0]
    simp only
    split
    · exact Touch.refl R drv
    · exact Touch.set R drv _ rfl rfl rfl

theorem driver_report_error_touch {ε : Type} (now : Nat) (R : Registry ε) (e : ε) (drv : Nat) :
    Touch R (driver_report_error now R e drv).1 drv := by
  unfold driver_report_error
  by_cases h0 : drv = 0
  · rw [if_pos h0]; exact Touch.refl R drv
  · rw [if_neg h0]
    simp only
    have h1 : Touch R (setDrv R drv { R.mem drv with
        error_count := ((R.mem drv).error_count + 1) % 2 ^ 64, last_error_tick := now }) drv :=
      Touch.set R drv _ rfl rfl rfl
    split
    · refine Touch.trans h1 (Touch.trans (driver_stop_touch _ e drv) ?_)
      exact Touch.set _ drv _ rfl rfl rfl
    · exact h1

theorem driver_start_touch {ε : Type} (now : Nat) (R : Registry ε) (e : ε) (drv : Nat) :
    Touch R (driver_start now R e drv).2.1 drv := by
  unfold driver_start
  by_cases h0 : drv = 0
  · rw [if_pos h0]; exact Touch.refl R drv
  · rw [if_neg h0]
    by_cases h1 : (R.mem drv).state = DriverState.READY
    · rw [if_pos h1]; exact Touch.refl R drv
    · rw [if_neg h1]
      by_cases h2 : (R.mem drv).state = DriverState.DISABLED
      · rw [if_pos h2]; exact Touch.refl R drv
      · rw [if_neg h2]
        by_cases h3 : (probe_phase (R.mem drv) e).1 = false
        · rw [if_pos h3]; exact Touch.set R drv _ rfl rfl rfl
        · rw [if_neg h3]
          by_cases h4 : (init_phase (R.mem drv) (probe_phase (R.mem drv) e).2).1 ≠ 0
          · rw [if_pos h4]
            have ha : Touch R (setDrv R drv { R.mem drv with state := DriverState.ERROR }) drv :=
              Touch.set R drv _ rfl rfl rfl
            exact Touch.trans ha (driver_report_error_touch now _ _ drv)
          · rw [if_neg h4]; exact Touch.set R drv _ rfl rfl rfl

/-- One round of the dispatch loop, in terms of the offer made to the handler. -/
theorem dispatch_loop_cons {ε : Type} (R : Registry ε) (irq drv : Nat) (rest : List Nat)
    (e : ε) :
    dispatch_loop R irq (drv :: rest) e =
      if (offer R irq e drv).1 = true then
        (true,
          setDrv R drv { R.mem drv with irq_total := ((R.mem drv).irq_total + 1) % 2 ^ 64 },
          (offer R irq e drv).2)
      else dispatch_loop R irq rest (offer R irq e drv).2 := by
  rw [dispatch_loop, offer]
  by_cases h : drv = 0 ∨ (R.mem drv).state ≠ DriverState.READY
  · rw [if_pos h, if_pos h]; simp
  · rw [if_neg h, if_neg h]
    cases hops : (R.mem drv).ops with
    | none => simp
    | some ops =>
      cases hh : ops.handle_irq with
      | none => simp [hh]
      | some f =>
        simp only [hh]

theorem dispatch_loop_declined {ε : Type} (R : Registry ε) (irq : Nat) :
    ∀ (l : List Nat) (e : ε), all_decline R irq l e = true →
      dispatch_loop R irq l e = (false, R, after_offers R irq l e) := by
  intro l
  induction l with
  | nil => intro e _; rfl
  | cons a l ih =>
    intro e h
    simp only [all_decline, Bool.and_eq_true, Bool.not_eq_true'] at h
    rw [dispatch_loop_cons, if_neg (by simp [h.1]), ih _ h.2]
    rfl

theorem dispatch_loop_claimed {ε : Type} (R : Registry ε) (irq : Nat) :
    ∀ (pre : List Nat) (drv : Nat) (post : List Nat) (e : ε),
      all_decline R irq pre e = true →
      (offer R irq (after_offers R irq pre e) drv).1 = true →
      dispatch_loop R irq (pre ++ drv :: post) e =
        (true,
          setDrv R drv { R.mem drv with irq_total := ((R.mem drv).irq_total + 1) % 2 ^ 64 },
          (offer R irq (after_offers R irq pre e) drv).2) := by
  intro pre
  induction pre with
  | nil =>
    intro drv post e _ h
    simp only [after_offers, List.foldl_nil] at h
    rw [List.nil_append, dispatch_loop_cons, if_pos h]
    rfl
  | cons a l ih =>
    intro drv post e hd h
    simp only [all_decline, Bool.and_eq_true, Bool.not_eq_true'] at hd
    rw [List.cons_append, dispatch_loop_cons, if_neg (by simp [hd.1])]
    exact ih drv post _ hd.2 h

/-- The handlers of a line split into those that decline and the first that claims,
unless all decline. -/
theorem all_decline_or_split {ε : Type} (R : Registry ε) (irq : Nat) :
    ∀ (l : List Nat) (e : ε), all_decline R irq l e = true ∨
      ∃ pre drv post, l = pre ++ drv :: post ∧ all_decline R irq pre e = true ∧
        (offer R irq (after_offers R irq pre e) drv).1 = true := by
  intro l
  induction l with
  | nil => intro e; exact Or.inl rfl
  | cons a l ih =>
    intro e
    by_cases ha : (offer R irq e a).1 = true
    · exact Or.inr ⟨[], a, l, rfl, rfl, ha⟩
    · have ha2 : (offer R irq e a).1 = false := by simpa using ha
      rcases ih (offer R irq e a).2 with h | ⟨pre, drv, post, h1, h2, h3⟩
      · left
        simp [all_decline, ha2, h]
      · right
        refine ⟨a :: pre, drv, post, by rw [h1]; rfl, ?_, h3⟩
        simp [all_decline, ha2, h2]

theorem offer_true {ε : Type} (R : Registry ε) (irq : Nat) (e : ε) (drv : Nat)
    (h : (offer R irq e drv).1 = true) :
    drv ≠ 0 ∧ (R.mem drv).state = DriverState.READY ∧
      ∃ ops f, (R.mem drv).ops = some ops ∧ ops.handle_irq = some f ∧ offer R irq e drv = f e irq := by
  unfold offer at h ⊢
  by_cases hc : drv = 0 ∨ (R.mem drv).state ≠ DriverState.READY
  · rw [if_pos hc] at h; cases h
  · rw [if_neg hc] at h ⊢
    push_neg at hc
    refine ⟨hc.1, hc.2, ?_⟩
    cases hops : (R.mem drv).ops with
    | none => rw [hops] at h; cases h
    | some ops =>
      cases hh : ops.handle_irq with
      | none => rw [hops] at h; simp only [hh] at h; cases h
      | some f => exact ⟨ops, f, rfl, hh, by simp only [hh]⟩

set_option maxRecDepth 100000 in
/-- C16: `driver_dispatch_irq` offers the interrupt to the handlers of the line in the
order of the line's list (`driver_register_irq` appends, so this is the order of
registration on the line); a handler that is NULL, not READY or has no
`handle_irq` is skipped. If the handlers before `drv` all decline and `drv` claims,
the result is true, the world is the one `drv`'s handler left (no later handler
runs), `drv`'s `irq_total` has grown by one (modulo 2^64, the counter being a
`uint64_t`) and nothing else in the registry has changed. If all handlers decline,
the result is false and the registry is unchanged. The result is true exactly when
some handler claims the interrupt in its turn. On a line with the handlers 1 (not
READY), 2 (declines), 3 and 4 (both claim), the handlers of 2 and 3 run, in that
order, and only the counter of 3 moves. -/
theorem dispatch_first_claim_wins {ε : Type} (R : Registry ε) (e : ε) (irq : Nat) :
    (∀ pre drv post, R.irq_table irq = pre ++ drv :: post →
      all_decline R irq pre e = true →
      (offer R irq (after_offers R irq pre e) drv).1 = true →
        (driver_dispatch_irq R e irq).1 = true ∧
        (driver_dispatch_irq R e irq).2.2 = (offer R irq (after_offers R irq pre e) drv).2 ∧
        (driver_dispatch_irq R e irq).2.1 =
          setDrv R drv { R.mem drv with irq_total := ((R.mem drv).irq_total + 1) % 2 ^ 64 } ∧
        ((R.mem drv).irq_total < 2 ^ 64 - 1 →
          ((driver_dispatch_irq R e irq).2.1.mem drv).irq_total = (R.mem drv).irq_total + 1) ∧
        (∀ a, a ≠ drv → (driver_dispatch_irq R e irq).2.1.mem a = R.mem a) ∧
        drv ≠ 0 ∧ (R.mem drv).state = DriverState.READY ∧
        ∃ ops f, (R.mem drv).ops = some ops ∧ ops.handle_irq = some f) ∧
    (all_decline R irq (R.irq_table irq) e = true →
      driver_dispatch_irq R e irq = (false, R, after_offers R irq (R.irq_table irq) e)) ∧
    ((driver_dispatch_irq R e irq).1 = true ↔
      ∃ pre drv post, R.irq_table irq = pre ++ drv :: post ∧
        all_decline R irq pre e = true ∧
        (offer R irq (after_offers R irq pre e) drv).1 = true) ∧
    (∀ drv st, st ≠ DriverState.READY → (R.mem drv).state = st →
      offer R irq e drv = (false, e)) ∧
    (∀ drv, (R.mem drv).ops = none ∨
      (∃ ops, (R.mem drv).ops = some ops ∧ ops.handle_irq = none) →
      offer R irq e drv = (false, e)) ∧
    ((driver_dispatch_irq irqRegistry [] 5).1 = true ∧
      (driver_dispatch_irq irqRegistry [] 5).2.2 = [2, 3] ∧
      ((driver_dispatch_irq irqRegistry [] 5).2.1.mem 1).irq_total = 41 ∧
      ((driver_dispatch_irq irqRegistry [] 5).2.1.mem 2).irq_total = 41 ∧
      ((driver_dispatch_irq irqRegistry [] 5).2.1.mem 3).irq_total = 42 ∧
      ((driver_dispatch_irq irqRegistry [] 5).2.1.mem 4).irq_total = 41 ∧
      (driver_dispatch_irq irqRegistry [] 6).1 = false) := by
  refine ⟨?_, ?_, ?_, ?_, ?_, by decide⟩
  · intro pre drv post hsplit hd hc
    have h := dispatch_loop_claimed R irq pre drv post e hd hc
    have hr : driver_dispatch_irq R e irq =
        (true,
          setDrv R drv { R.mem drv with irq_total := ((R.mem drv).irq_total + 1) % 2 ^ 64 },
          (offer R irq (after_offers R irq pre e) drv).2) := by
      rw [driver_dispatch_irq, hsplit]; exact h
    obtain ⟨h0, hst, ops, f, ho, hf, _⟩ := offer_true R irq _ drv hc
    rw [hr]
    refine ⟨rfl, rfl, rfl, ?_, ?_, h0, hst, ops, f, ho, hf⟩
    · intro hlt
      have hlt2 : (R.mem drv).irq_total + 1 < 18446744073709551616 := by omega
      simp [setDrv, Nat.mod_eq_of_lt hlt2]
    · intro a ha
      simp [setDrv, ha]
  · intro hd
    exact dispatch_loop_declined R irq _ e hd
  · constructor
    · intro h
      rcases all_decline_or_split R irq (R.irq_table irq) e with hd | hs
      · rw [driver_dispatch_irq, dispatch_loop_declined R irq _ e hd] at h
        cases h
      · exact hs
    · rintro ⟨pre, drv, post, hsplit, hd, hc⟩
      rw [driver_dispatch_irq, hsplit, dispatch_loop_claimed R irq pre drv post e hd hc]
  · intro drv st hne hst
    unfold offer
    rw [if_pos (Or.inr (by rw [hst]; exact hne))]
  · intro drv h
    unfold offer
    by_cases hc : drv = 0 ∨ (R.mem drv).state ≠ DriverState.READY
    · rw [if_pos hc]
    · rw [if_neg hc]
      rcases h with h | ⟨ops, h1, h2⟩
      · rw [h]
      · rw [h1]; simp only [h2]

/-! #### Registration -/

theorem find_by_name_isSome_iff {ε : Type} (R : Registry ε) (n : List Char) :
    (driver_find_by_name R (some n)).isSome = true ↔
      ∃ a, a ∈ R.driver_list ∧ ∃ m, (R.mem a).name = some m ∧ cstr m = cstr n := by
  unfold driver_find_by_name
  simp only [List.find?_isSome]
  constructor
  · rintro ⟨a, ha, hp⟩
    refine ⟨a, ha, ?_⟩
    cases hm : (R.mem a).name with
    | none => rw [hm] at hp; cases hp
    | some m =>
      rw [hm] at hp
      exact ⟨m, rfl, (strcmp_eq_zero_iff m n).1 (by simpa using hp)⟩
  · rintro ⟨a, ha, m, hm, heq⟩
    refine ⟨a, ha, ?_⟩
    rw [hm]
    simpa using (strcmp_eq_zero_iff m n).2 heq

theorem driver_register_fail {ε : Type} (R : Registry ε) (drv : Nat)
    (h : R.subsystem_initialized = false ∨ drv = 0 ∨ (R.mem drv).name = none ∨
      (MAX_DRIVERS : Int) ≤ R.driver_count ∨
      (driver_find_by_name R (R.mem drv).name).isSome = true) :
    driver_register R drv = (-1, R) := by
  unfold driver_register
  by_cases h1 : (!R.subsystem_initialized) = true
  · rw [if_pos h1]
  · rw [if_neg h1]
    by_cases h2 : drv = 0 ∨ (R.mem drv).name = none
    · rw [if_pos h2]
    · rw [if_neg h2]
      by_cases h3 : R.driver_count ≥ (MAX_DRIVERS : Int)
      · rw [if_pos h3]
      · rw [if_neg h3]
        by_cases h4 : (driver_find_by_name R (R.mem drv).name).isSome = true
        · rw [if_pos h4]
        · exfalso
          rcases h with h | h | h | h | h
          · apply h1; simp [h]
          · exact h2 (Or.inl h)
          · exact h2 (Or.inr h)
          · exact h3 h
          · exact h4 h

theorem driver_register_ok {ε : Type} (R : Registry ε) (drv : Nat)
    (h1 : R.subsystem_initialized = true) (h2 : drv ≠ 0) (h3 : (R.mem drv).name ≠ none)
    (h4 : R.driver_count < (MAX_DRIVERS : Int))
    (h5 : (driver_find_by_name R (R.mem drv).name).isSome = false) :
    driver_register R drv =
      (0, { setDrv R drv
            { R.mem drv with
              state := DriverState.REGISTERED, irq := 0xFF, irq_count := 0, irq_total := 0,
              read_bytes := 0, write_bytes := 0, error_count := 0, last_error_tick := 0 } with
          driver_list := drv :: R.driver_list
          driver_count := R.driver_count + 1 }) := by
  unfold driver_register
  rw [if_neg (by simp [h1]), if_neg (by push_neg; exact ⟨h2, h3⟩), if_neg (by omega),
    if_neg (by simp [h5])]

/-- The two outcomes of `driver_register`. -/
theorem driver_register_cases {ε : Type} (R : Registry ε) (drv : Nat) :
    ((R.subsystem_initialized = false ∨ drv = 0 ∨ (R.mem drv).name = none ∨
        (MAX_DRIVERS : Int) ≤ R.driver_count ∨
        (driver_find_by_name R (R.mem drv).name).isSome = true) ∧
      driver_register R drv = (-1, R)) ∨
    ((R.subsystem_initialized = true ∧ drv ≠ 0 ∧ (R.mem drv).name ≠ none ∧
        R.driver_count < (MAX_DRIVERS : Int) ∧
        (driver_find_by_name R (R.mem drv).name).isSome = false) ∧
      driver_register R drv =
        (0, { setDrv R drv
              { R.mem drv with
                state := DriverState.REGISTERED, irq := 0xFF, irq_count := 0, irq_total := 0,
                read_bytes := 0, write_bytes := 0, error_count := 0, last_error_tick := 0 } with
            driver_list := drv :: R.driver_list
            driver_count := R.driver_count + 1 })) := by
  by_cases h : R.subsystem_initialized = false ∨ drv = 0 ∨ (R.mem drv).name = none ∨
      (MAX_DRIVERS : Int) ≤ R.driver_count ∨
      (driver_find_by_name R (R.mem drv).name).isSome = true
  · exact Or.inl ⟨h, driver_register_fail R drv h⟩
  · push_neg at h
    obtain ⟨h1, h2, h3, h4, h5⟩ := h
    have h1' : R.subsystem_initialized = true := by simpa using h1
    have h5' : (driver_find_by_name R (R.mem drv).name).isSome = false := by simpa using h5
    exact Or.inr ⟨⟨h1', h2, h3, h4, h5'⟩, driver_register_ok R drv h1' h2 h3 h4 h5'⟩

set_option maxRecDepth 100000 in
/-- C11: when the name of the descriptor equals, as a C string, the name of a driver
already on the list, `driver_register` returns -1 and leaves the whole registry, the
driver list and the count included, unchanged. On an empty initialised registry,
registering "kbd" and then a second object named "kbd", or the same object again,
leaves the count at 1. -/
theorem driver_register_duplicate_name {ε : Type} (R : Registry ε) (drv a : Nat)
    (n m : List Char) (hname : (R.mem drv).name = some n) (ha : a ∈ R.driver_list)
    (hm : (R.mem a).name = some m) (heq : cstr m = cstr n) :
    driver_register R drv = (-1, R) ∧
    ((driver_register emptyRegistry 1).1 = 0 ∧
      (driver_register emptyRegistry 1).2.driver_count = 1 ∧
      (driver_register (driver_register emptyRegistry 1).2 3).1 = -1 ∧
      (driver_register (driver_register emptyRegistry 1).2 3).2.driver_count = 1 ∧
      (driver_register (driver_register emptyRegistry 1).2 3).2.driver_list = [1] ∧
      (driver_register (driver_register emptyRegistry 1).2 1).1 = -1 ∧
      (driver_register (driver_register emptyRegistry 1).2 1).2.driver_count = 1) := by
  refine ⟨?_, by decide⟩
  apply driver_register_fail
  right; right; right; right
  rw [hname]
  exact (find_by_name_isSome_iff R n).2 ⟨a, ha, m, hm, heq⟩

set_option maxRecDepth 100000 in
/-- C11 witness: with "kbd" registered, a second object named "kbd" is refused and the
registry stays as it was. -/
theorem driver_register_duplicate_name_witness :
    driver_register (driver_register emptyRegistry 1).2 3 =
      (-1, (driver_register emptyRegistry 1).2) :=
  (driver_register_duplicate_name (driver_register emptyRegistry 1).2 3 1
    "kbd".toList "kbd".toList (by decide) (by decide) (by decide) rfl).1

/-! #### What each operation leaves alone -/

theorem Skel.same {ε : Type} (R : Registry ε) : Skel R R :=
  ⟨rfl, rfl, rfl, fun _ => ⟨rfl, rfl, rfl⟩⟩

theorem Skel.comp {ε : Type} {R R1 R2 : Registry ε} (h1 : Skel R R1) (h2 : Skel R1 R2) :
    Skel R R2 :=
  ⟨h2.1.trans h1.1, h2.2.1.trans h1.2.1, h2.2.2.1.trans h1.2.2.1, fun a =>
    ⟨((h2.2.2.2 a).1).trans (h1.2.2.2 a).1, ((h2.2.2.2 a).2.1).trans (h1.2.2.2 a).2.1,
      ((h2.2.2.2 a).2.2).trans (h1.2.2.2 a).2.2⟩⟩

theorem Touch.skel {ε : Type} {R R2 : Registry ε} {drv : Nat} (h : Touch R R2 drv) :
    Skel R R2 :=
  ⟨h.fields.1, h.fields.2.1, h.fields.2.2.2.1, h.fields.2.2.2.2⟩

theorem Touch.irq_table {ε : Type} {R R2 : Registry ε} {drv : Nat} (h : Touch R R2 drv) :
    R2.irq_table = R.irq_table := h.fields.2.2.1

theorem driver_register_irq_cases {ε : Type} (R : Registry ε) (drv irq : Nat) :
    ((drv = 0 ∨ drv ∈ R.irq_table irq ∨ MAX_IRQ_HANDLERS ≤ (R.irq_table irq).length) ∧
      driver_register_irq R drv irq = R) ∨
    ((drv ≠ 0 ∧ drv ∉ R.irq_table irq ∧ (R.irq_table irq).length < MAX_IRQ_HANDLERS) ∧
      Skel R (driver_register_irq R drv irq) ∧
      (driver_register_irq R drv irq).irq_table irq = R.irq_table irq ++ [drv] ∧
      (∀ l, l ≠ irq → (driver_register_irq R drv irq).irq_table l = R.irq_table l) ∧
      ∀ a, a ≠ drv → (driver_register_irq R drv irq).mem a = R.mem a) := by
  unfold driver_register_irq
  by_cases h0 : drv = 0
  · left; rw [if_pos h0]; exact ⟨Or.inl h0, rfl⟩
  · rw [if_neg h0]
    by_cases h1 : drv ∈ R.irq_table irq
    · left; rw [if_pos h1]; exact ⟨Or.inr (Or.inl h1), rfl⟩
    · rw [if_neg h1]
      by_cases h2 : (R.irq_table irq).length ≥ MAX_IRQ_HANDLERS
      · left; rw [if_pos h2]; exact ⟨Or.inr (Or.inr h2), rfl⟩
      · rw [if_neg h2]
        right
        refine ⟨⟨h0, h1, by omega⟩, ⟨rfl, rfl, rfl, ?_⟩, by simp, ?_, ?_⟩
        · intro a
          by_cases ha : a = drv
          · subst ha
            simp only [setDrv, if_true]
            split <;> exact ⟨rfl, rfl, rfl⟩
          · simp [setDrv, ha]
        · intro l hl; simp [hl]
        · intro a ha; simp [setDrv, ha]

theorem driver_unregister_irq_cases {ε : Type} (R : Registry ε) (drv irq : Nat) :
    Skel R (driver_unregister_irq R drv irq) ∧
    ((driver_unregister_irq R drv irq).irq_table irq = R.irq_table irq ∨
      (drv ≠ 0 ∧ (driver_unregister_irq R drv irq).irq_table irq = (R.irq_table irq).erase drv)) ∧
    (∀ l, l ≠ irq → (driver_unregister_irq R drv irq).irq_table l = R.irq_table l) ∧
    ∀ a, a ≠ drv → (driver_unregister_irq R drv irq).mem a = R.mem a := by
  unfold driver_unregister_irq
  by_cases h0 : drv = 0
  · rw [if_pos h0]; exact ⟨Skel.same R, Or.inl rfl, fun _ _ => rfl, fun _ _ => rfl⟩
  · rw [if_neg h0]
    by_cases h1 : drv ∈ R.irq_table irq
    · rw [if_pos h1]
      refine ⟨⟨rfl, rfl, rfl, ?_⟩, Or.inr ⟨h0, by simp⟩, ?_, ?_⟩
      · intro a
        by_cases ha : a = drv
        · subst ha
          simp only [setDrv, if_true]
          split <;> exact ⟨rfl, rfl, rfl⟩
        · simp [setDrv, ha]
      · intro l hl; simp [hl]
      · intro a ha; simp [setDrv, ha]
    · rw [if_neg h1]; exact ⟨Skel.same R, Or.inl rfl, fun _ _ => rfl, fun _ _ => rfl⟩

theorem driver_unregister_irq_sublist {ε : Type} (R : Registry ε) (drv irq l : Nat) :
    ((driver_unregister_irq R drv irq).irq_table l).Sublist (R.irq_table l) := by
  obtain ⟨_, h1, h2, _⟩ := driver_unregister_irq_cases R drv irq
  by_cases hl : l = irq
  · subst hl
    rcases h1 with h | ⟨_, h⟩
    · rw [h]
    · rw [h]; exact List.erase_sublist _ _
  · rw [h2 l hl]

theorem unregister_all_irqs {ε : Type} (drv : Nat) :
    ∀ (lines : List Nat) (R : Registry ε),
      Skel R (lines.foldl (fun R irq => driver_unregister_irq R drv irq) R) ∧
      (∀ l, ((lines.foldl (fun R irq => driver_unregister_irq R drv irq) R).irq_table
        l).Sublist (R.irq_table l)) ∧
      ∀ a, a ≠ drv →
        (lines.foldl (fun R irq => driver_unregister_irq R drv irq) R).mem a = R.mem a := by
  intro lines
  induction lines with
  | nil => intro R; exact ⟨Skel.same R, fun _ => List.Sublist.refl _, fun _ _ => rfl⟩
  | cons irq rest ih =>
    intro R
    simp only [List.foldl_cons]
    obtain ⟨h1, h2, h3⟩ := ih (driver_unregister_irq R drv irq)
    obtain ⟨k1, _, _, k4⟩ := driver_unregister_irq_cases R drv irq
    exact ⟨Skel.comp k1 h1,
      fun l => (h2 l).trans (driver_unregister_irq_sublist R drv irq l),
      fun a ha => (h3 a ha).trans (k4 a ha)⟩

/-- What `driver_unregister` does to the registry: nothing to the names, flags and
callbacks; every IRQ line keeps a sublist of its handlers; the list either stays or
loses `drv`, the count following it. -/
theorem driver_unregister_cases {ε : Type} (R : Registry ε) (e : ε) (drv : Nat) :
    (∀ a, ((driver_unregister R e drv).2.1.mem a).name = (R.mem a).name) ∧
    (driver_unregister R e drv).2.1.subsystem_initialized = R.subsystem_initialized ∧
    (∀ l, ((driver_unregister R e drv).2.1.irq_table l).Sublist (R.irq_table l)) ∧
    (((driver_unregister R e drv).2.1.driver_list = R.driver_list ∧
        (driver_unregister R e drv).2.1.driver_count = R.driver_count) ∨
      (drv ∈ R.driver_list ∧
        (driver_unregister R e drv).2.1.driver_list = R.driver_list.erase drv ∧
        (driver_unregister R e drv).2.1.driver_count = R.driver_count - 1)) := by
  unfold driver_unregister
  by_cases h0 : drv = 0
  · rw [if_pos h0]
    exact ⟨fun _ => rfl, rfl, fun _ => List.Sublist.refl _, Or.inl ⟨rfl, rfl⟩⟩
  · rw [if_neg h0]
    by_cases h1 : (R.mem drv).flags &&& DRIVER_FLAG_CRITICAL ≠ 0
    · rw [if_pos h1]
      exact ⟨fun _ => rfl, rfl, fun _ => List.Sublist.refl _, Or.inl ⟨rfl, rfl⟩⟩
    · rw [if_neg h1]
      have hs := driver_stop_touch R e drv
      obtain ⟨f1, f2, f3⟩ := unregister_all_irqs drv (List.range 256) (driver_stop R e drv).2.1
      have hsk : Skel R ((List.range 256).foldl (fun R irq => driver_unregister_irq R drv irq)
          (driver_stop R e drv).2.1) := Skel.comp hs.skel f1
      have htab : ∀ l, (((List.range 256).foldl (fun R irq => driver_unregister_irq R drv irq)
          (driver_stop R e drv).2.1).irq_table l).Sublist (R.irq_table l) := by
        intro l
        have := f2 l
        rw [hs.irq_table] at this
        exact this
      simp only
      generalize ((List.range 256).foldl (fun R irq => driver_unregister_irq R drv irq)
          (driver_stop R e drv).2.1) = R1 at hsk htab
      by_cases hin : drv ∈ R1.driver_list
      · rw [if_pos hin]
        refine ⟨?_, hsk.2.2.1, htab, Or.inr ⟨by rw [← hsk.1]; exact hin, ?_, ?_⟩⟩
        · intro a
          by_cases ha : a = drv
          · subst ha
            simp only [setDrv, if_true]
            exact (hsk.2.2.2 a).1
          · simp only [setDrv, if_neg ha]
            exact (hsk.2.2.2 a).1
        · show R1.driver_list.erase drv = _
          rw [hsk.1]
        · show R1.driver_count - 1 = _
          rw [hsk.2.1]
      · rw [if_neg hin]
        exact ⟨fun a => (hsk.2.2.2 a).1, hsk.2.2.1, htab, Or.inl ⟨hsk.1, hsk.2.1⟩⟩

theorem dispatch_loop_touch {ε : Type} (R : Registry ε) (irq : Nat) :
    ∀ (l : List Nat) (e : ε), ∃ drv, Touch R (dispatch_loop R irq l e).2.1 drv := by
  intro l
  induction l with
  | nil => intro e; exact ⟨0, Touch.refl R 0⟩
  | cons a l ih =>
    intro e
    rw [dispatch_loop_cons]
    by_cases h : (offer R irq e a).1 = true
    · rw [if_pos h]; exact ⟨a, Touch.set R a _ rfl rfl rfl⟩
    · rw [if_neg h]; exact ih _

theorem probe_fold_skel {ε : Type} (ticks : Nat → Nat) :
    ∀ (l : List Nat) (s : Registry ε × ε),
      Skel s.1 (l.foldl (fun (s : Registry ε × ε) drv =>
        if (s.1.mem drv).state = DriverState.REGISTERED then
          ((driver_start (ticks drv) s.1 s.2 drv).2.1, (driver_start (ticks drv) s.1 s.2 drv).2.2)
        else s) s).1 ∧
      (l.foldl (fun (s : Registry ε × ε) drv =>
        if (s.1.mem drv).state = DriverState.REGISTERED then
          ((driver_start (ticks drv) s.1 s.2 drv).2.1, (driver_start (ticks drv) s.1 s.2 drv).2.2)
        else s) s).1.irq_table = s.1.irq_table := by
  intro l
  induction l with
  | nil => intro s; exact ⟨Skel.same _, rfl⟩
  | cons a l ih =>
    intro s
    simp only [List.foldl_cons]
    by_cases h : (s.1.mem a).state = DriverState.REGISTERED
    · rw [if_pos h]
      obtain ⟨h1, h2⟩ := ih ((driver_start (ticks a) s.1 s.2 a).2.1,
        (driver_start (ticks a) s.1 s.2 a).2.2)
      have ht := driver_start_touch (ticks a) s.1 s.2 a
      exact ⟨Skel.comp ht.skel h1, h2.trans ht.irq_table⟩
    · rw [if_neg h]; exact ih s

theorem driver_probe_all_skel {ε : Type} (ticks : Nat → Nat) (R : Registry ε) (e : ε) :
    Skel R (driver_probe_all ticks R e).1 ∧
      (driver_probe_all ticks R e).1.irq_table = R.irq_table :=
  probe_fold_skel ticks R.driver_list (R, e)

/-! #### Invariants of the registry -/

/-- Every operation other than registration and unregistration keeps the driver list,
the count and the names. -/
theorem reachable_step_skel {ε : Type} (R : Registry ε) :
    (∀ now e drv, Skel R (driver_start now R e drv).2.1 ∧
      (driver_start now R e drv).2.1.irq_table = R.irq_table) ∧
    (∀ e drv, Skel R (driver_stop R e drv).2.1 ∧
      (driver_stop R e drv).2.1.irq_table = R.irq_table) ∧
    (∀ e irq, Skel R (driver_dispatch_irq R e irq).2.1 ∧
      (driver_dispatch_irq R e irq).2.1.irq_table = R.irq_table) ∧
    (∀ now e drv, Skel R (driver_report_error now R e drv).1 ∧
      (driver_report_error now R e drv).1.irq_table = R.irq_table) ∧
    (∀ drv, Skel R (driver_clear_errors R drv) ∧
      (driver_clear_errors R drv).irq_table = R.irq_table) := by
  refine ⟨?_, ?_, ?_, ?_, ?_⟩
  · intro now e drv
    exact ⟨(driver_start_touch now R e drv).skel, (driver_start_touch now R e drv).irq_table⟩
  · intro e drv
    exact ⟨(driver_stop_touch R e drv).skel, (driver_stop_touch R e drv).irq_table⟩
  · intro e irq
    obtain ⟨drv, h⟩ := dispatch_loop_touch R irq (R.irq_table irq) e
    exact ⟨h.skel, h.irq_table⟩
  · intro now e drv
    exact ⟨(driver_report_error_touch now R e drv).skel,
      (driver_report_error_touch now R e drv).irq_table⟩
  · intro drv
    unfold driver_clear_errors
    by_cases h0 : drv = 0
    · rw [if_pos h0]; exact ⟨Skel.same R, rfl⟩
    · rw [if_neg h0]
      have h : Touch R (setDrv R drv { R.mem drv with error_count := 0, last_error_tick := 0 })
          drv := Touch.set R drv _ rfl rfl rfl
      exact ⟨h.skel, h.irq_table⟩

theorem ListOk.of_skel {ε : Type} {R R2 : Registry ε} (h : Skel R R2) (hR : ListOk R) :
    ListOk R2 := by
  obtain ⟨h1, h2, h3, h4⟩ := h
  obtain ⟨k1, k2, k3, k4, k5⟩ := hR
  refine ⟨by rw [h3]; exact k1, by rw [h2, h1]; exact k2, by rw [h1]; exact k3,
    by rw [h1]; exact k4, ?_⟩
  intro a ha
  rw [h1] at ha
  exact ⟨(k5 a ha).1, by rw [(h4 a).1]; exact (k5 a ha).2⟩

theorem reachable_list_ok {ε : Type} (R : Registry ε) (h : Reachable R) : ListOk R := by
  induction h with
  | init R =>
    refine ⟨rfl, rfl, by simp [driver_subsystem_init], List.nodup_nil, ?_⟩
    intro a ha
    simp [driver_subsystem_init] at ha
  | register R drv _ ih =>
    rcases driver_register_cases R drv with ⟨_, h⟩ | ⟨⟨h1, h2, h3, h4, h5⟩, h⟩
    · rw [h]; exact ih
    · rw [h]
      obtain ⟨k1, k2, k3, k4, k5⟩ := ih
      have hnot : drv ∉ R.driver_list := by
        intro hin
        cases hn : (R.mem drv).name with
        | none => exact h3 hn
        | some n =>
          have := (find_by_name_isSome_iff R n).2 ⟨drv, hin, n, hn, rfl⟩
          rw [hn] at h5
          rw [this] at h5
          cases h5
      refine ⟨h1, ?_, ?_, ?_, ?_⟩
      · show R.driver_count + 1 = ((drv :: R.driver_list).length : Int)
        rw [k2]; simp
      · show (drv :: R.driver_list).length ≤ MAX_DRIVERS
        have : (R.driver_list.length : Int) < (MAX_DRIVERS : Int) := by rw [← k2]; exact h4
        simp only [List.length_cons]
        omega
      · show (drv :: R.driver_list).Nodup
        exact List.nodup_cons.2 ⟨hnot, k4⟩
      · intro a ha
        have ha2 : a = drv ∨ a ∈ R.driver_list := List.mem_cons.1 ha
        by_cases had : a = drv
        · subst had
          exact ⟨h2, by simpa [setDrv] using h3⟩
        · rcases ha2 with h | h
          · exact absurd h had
          · have := k5 a h
            exact ⟨this.1, by simpa [setDrv, had] using this.2⟩
  | unregister R e drv _ ih =>
    obtain ⟨k1, k2, k3, k4, k5⟩ := ih
    obtain ⟨n1, n2, _, n4⟩ := driver_unregister_cases R e drv
    rcases n4 with ⟨l1, l2⟩ | ⟨hin, l1, l2⟩
    · refine ⟨by rw [n2]; exact k1, by rw [l2, l1]; exact k2, by rw [l1]; exact k3,
        by rw [l1]; exact k4, ?_⟩
      intro a ha
      rw [l1] at ha
      exact ⟨(k5 a ha).1, by rw [n1 a]; exact (k5 a ha).2⟩
    · have hlen : (R.driver_list.erase drv).length = R.driver_list.length - 1 :=
        List.length_erase_of_mem hin
      have hpos : 0 < R.driver_list.length := List.length_pos_of_mem hin
      refine ⟨by rw [n2]; exact k1, ?_, ?_, by rw [l1]; exact k4.erase drv, ?_⟩
      · rw [l2, l1, hlen, k2]; omega
      · rw [l1, hlen]; omega
      · intro a ha
        rw [l1] at ha
        have := k5 a (List.mem_of_mem_erase ha)
        exact ⟨this.1, by rw [n1 a]; exact this.2⟩
  | start now R e drv _ ih => exact ListOk.of_skel ((reachable_step_skel R).1 now e drv).1 ih
  | stop R e drv _ ih => exact ListOk.of_skel ((reachable_step_skel R).2.1 e drv).1 ih
  | probe_all ticks R e _ ih => exact ListOk.of_skel (driver_probe_all_skel ticks R e).1 ih
  | register_irq R drv irq _ ih =>
    rcases driver_register_irq_cases R drv irq with ⟨_, h⟩ | ⟨_, h, _⟩
    · rw [h]; exact ih
    · exact ListOk.of_skel h ih
  | unregister_irq R drv irq _ ih =>
    exact ListOk.of_skel (driver_unregister_irq_cases R drv irq).1 ih
  | dispatch R e irq _ ih => exact ListOk.of_skel ((reachable_step_skel R).2.2.1 e irq).1 ih
  | report_error now R e drv _ ih =>
    exact ListOk.of_skel ((reachable_step_skel R).2.2.2.1 now e drv).1 ih
  | clear_errors R drv _ ih => exact ListOk.of_skel ((reachable_step_skel R).2.2.2.2 drv).1 ih

theorem IrqTableOk.of_eq {ε : Type} {R R2 : Registry ε} (h : R2.irq_table = R.irq_table)
    (hR : IrqTableOk R) : IrqTableOk R2 := by
  intro l; rw [h]; exact hR l

theorem reachable_irq_table_ok {ε : Type} (R : Registry ε) (h : Reachable R) :
    IrqTableOk R := by
  induction h with
  | init R => intro l; simp [driver_subsystem_init]
  | register R drv _ ih =>
    rcases driver_register_cases R drv with ⟨_, h⟩ | ⟨_, h⟩
    · rw [h]; exact ih
    · rw [h]; exact ih
  | unregister R e drv _ ih =>
    intro l
    have hs := (driver_unregister_cases R e drv).2.2.1 l
    exact ⟨Nat.le_trans hs.length_le (ih l).1, (ih l).2.sublist hs⟩
  | start now R e drv _ ih => exact IrqTableOk.of_eq ((reachable_step_skel R).1 now e drv).2 ih
  | stop R e drv _ ih => exact IrqTableOk.of_eq ((reachable_step_skel R).2.1 e drv).2 ih
  | probe_all ticks R e _ ih => exact IrqTableOk.of_eq (driver_probe_all_skel ticks R e).2 ih
  | register_irq R drv irq _ ih =>
    rcases driver_register_irq_cases R drv irq with ⟨_, h⟩ | ⟨⟨_, h2, h3⟩, _, k1, k2, _⟩
    · rw [h]; exact ih
    · intro l
      by_cases hl : l = irq
      · subst hl
        rw [k1]
        refine ⟨by simp only [List.length_append, List.length_singleton]; omega, ?_⟩
        exact List.Nodup.append (ih l).2 (List.nodup_singleton drv)
          (by intro x hx hx2; rw [List.mem_singleton.1 hx2] at hx; exact h2 hx)
      · rw [k2 l hl]; exact ih l
  | unregister_irq R drv irq _ ih =>
    intro l
    have hs := driver_unregister_irq_sublist R drv irq l
    exact ⟨Nat.le_trans hs.length_le (ih l).1, (ih l).2.sublist hs⟩
  | dispatch R e irq _ ih => exact IrqTableOk.of_eq ((reachable_step_skel R).2.2.1 e irq).2 ih
  | report_error now R e drv _ ih =>
    exact IrqTableOk.of_eq ((reachable_step_skel R).2.2.2.1 now e drv).2 ih
  | clear_errors R drv _ ih => exact IrqTableOk.of_eq ((reachable_step_skel R).2.2.2.2 drv).2 ih

/-- C14 (as amended): `driver_register` fails exactly when the subsystem is uninitialised, the
descriptor or its name pointer is NULL, the registry count has reached 32, or a
driver on the list has the same name (as a C string); a failed call returns -1 and
changes nothing. When it succeeds the count has grown by one, the driver is at the
head of the list in state REGISTERED with IRQ total, bytes read, bytes written,
error count and last-error tick all zero, and no other driver object has changed. In
every reachable registry the count is the length of the driver list, at most 32. -/
theorem driver_register_contract {ε : Type} (R : Registry ε) (drv : Nat) :
    ((driver_register R drv).1 ≠ 0 ↔
      (R.subsystem_initialized = false ∨ drv = 0 ∨ (R.mem drv).name = none ∨
        (MAX_DRIVERS : Int) ≤ R.driver_count ∨
        ∃ a, a ∈ R.driver_list ∧ ∃ m n, (R.mem a).name = some m ∧
          (R.mem drv).name = some n ∧ cstr m = cstr n)) ∧
    ((driver_register R drv).1 ≠ 0 → driver_register R drv = (-1, R)) ∧
    ((driver_register R drv).1 = 0 →
      (driver_register R drv).2.driver_count = R.driver_count + 1 ∧
      (driver_register R drv).2.driver_list = drv :: R.driver_list ∧
      ((driver_register R drv).2.mem drv).state = DriverState.REGISTERED ∧
      ((driver_register R drv).2.mem drv).irq_total = 0 ∧
      ((driver_register R drv).2.mem drv).read_bytes = 0 ∧
      ((driver_register R drv).2.mem drv).write_bytes = 0 ∧
      ((driver_register R drv).2.mem drv).error_count = 0 ∧
      ((driver_register R drv).2.mem drv).last_error_tick = 0 ∧
      ((driver_register R drv).2.mem drv).name = (R.mem drv).name ∧
      (∀ a, a ≠ drv → (driver_register R drv).2.mem a = R.mem a) ∧
      (driver_register R drv).2.irq_table = R.irq_table) ∧
    (Reachable R →
      R.driver_count = (R.driver_list.length : Int) ∧ R.driver_list.length ≤ MAX_DRIVERS) := by
  have hdup : (driver_find_by_name R (R.mem drv).name).isSome = true ↔
      ∃ a, a ∈ R.driver_list ∧ ∃ m n, (R.mem a).name = some m ∧
          (R.mem drv).name = some n ∧ cstr m = cstr n := by
    cases hn : (R.mem drv).name with
    | none => simp [driver_find_by_name]
    | some n =>
      rw [find_by_name_isSome_iff]
      constructor
      · rintro ⟨a, ha, m, hm, heq⟩
        exact ⟨a, ha, m, n, hm, rfl, heq⟩
      · rintro ⟨a, ha, m, n2, hm, hn2, heq⟩
        cases hn2
        exact ⟨a, ha, m, hm, heq⟩
  refine ⟨?_, ?_, ?_, ?_⟩
  · rcases driver_register_cases R drv with ⟨hc, h⟩ | ⟨⟨h1, h2, h3, h4, h5⟩, h⟩
    · rw [h]
      simp only [Int.reduceNeg, ne_eq, Int.reduceEq, not_false_eq_true, true_iff]
      rcases hc with h | h | h | h | h
      · exact Or.inl h
      · exact Or.inr (Or.inl h)
      · exact Or.inr (Or.inr (Or.inl h))
      · exact Or.inr (Or.inr (Or.inr (Or.inl h)))
      · exact Or.inr (Or.inr (Or.inr (Or.inr (hdup.1 h))))
    · rw [h]
      simp only [ne_eq, not_true_eq_false, false_iff]
      rintro (h | h | h | h | h)
      · rw [h1] at h; cases h
      · exact h2 h
      · exact h3 h
      · omega
      · rw [hdup.2 h] at h5; cases h5
  · rcases driver_register_cases R drv with ⟨_, h⟩ | ⟨_, h⟩
    · intro _; exact h
    · rw [h]; intro hne; exact absurd rfl hne
  · rcases driver_register_cases R drv with ⟨_, h⟩ | ⟨_, h⟩
    · rw [h]; intro h0; cases h0
    · rw [h]
      intro _
      refine ⟨rfl, rfl, ?_, ?_, ?_, ?_, ?_, ?_, ?_, ?_, rfl⟩
      · simp [setDrv]
      · simp [setDrv]
      · simp [setDrv]
      · simp [setDrv]
      · simp [setDrv]
      · simp [setDrv]
      · simp [setDrv]
      · intro a ha; simp [setDrv, ha]
  · intro hR
    exact ⟨(reachable_list_ok R hR).2.1, (reachable_list_ok R hR).2.2.1⟩

set_option maxRecDepth 100000 in
/-- C14 counterexample: a descriptor whose name is the empty string is registered on
an initialised empty registry, `driver_register` returning 0. -/
theorem driver_register_accepts_empty_name :
    (blankNameRegistry.mem 1).name = some [] ∧
    blankNameRegistry.subsystem_initialized = true ∧
    blankNameRegistry.driver_count = 0 ∧
    (driver_register blankNameRegistry 1).1 = 0 ∧
    (driver_register blankNameRegistry 1).2.driver_list = [1] := by
  decide

/-! #### Probing -/

theorem start_each_mem_other {ε : Type} (ticks : Nat → Nat) (a : Nat) :
    ∀ (l : List Nat) (s : Registry ε × ε), a ∉ l → (start_each ticks l s).1.mem a = s.1.mem a := by
  intro l
  induction l with
  | nil => intro s _; rfl
  | cons x l ih =>
    intro s ha
    have hx : a ≠ x := fun h => ha (by rw [h]; exact List.mem_cons_self _ _)
    rw [start_each, ih _ (fun h => ha (List.mem_cons_of_mem _ h))]
    exact (driver_start_touch (ticks x) s.1 s.2 x).mem_other a hx

theorem probe_fold_eq_start_each {ε : Type} (ticks : Nat → Nat) :
    ∀ (l : List Nat) (s : Registry ε × ε), l.Nodup →
      l.foldl (fun (s : Registry ε × ε) drv =>
        if (s.1.mem drv).state = DriverState.REGISTERED then
          ((driver_start (ticks drv) s.1 s.2 drv).2.1, (driver_start (ticks drv) s.1 s.2 drv).2.2)
        else s) s =
      start_each ticks
        (l.filter (fun a => decide ((s.1.mem a).state = DriverState.REGISTERED))) s := by
  intro l
  induction l with
  | nil => intro s _; rfl
  | cons x l ih =>
    intro s hnd
    have hx : x ∉ l := (List.nodup_cons.1 hnd).1
    have hl : l.Nodup := (List.nodup_cons.1 hnd).2
    simp only [List.foldl_cons]
    by_cases h : (s.1.mem x).state = DriverState.REGISTERED
    · rw [if_pos h, ih _ hl, List.filter_cons_of_pos (by simpa using h), start_each]
      congr 1
      apply List.filter_congr
      intro a ha
      have hax : a ≠ x := fun hh => hx (hh ▸ ha)
      show decide ((((driver_start (ticks x) s.1 s.2 x).2.1).mem a).state =
        DriverState.REGISTERED) = _
      rw [(driver_start_touch (ticks x) s.1 s.2 x).mem_other a hax]
    · rw [if_neg h, ih _ hl, List.filter_cons_of_neg (by simpa using h)]

/-- C15 (as amended): `driver_probe_all` walks the driver list from its head and starts, in that
order, exactly the drivers that are REGISTERED when the walk begins (a driver's state
is changed only by its own start, so that is its state when the walk reaches it);
every other driver object is left as it was. The head of the list is the driver
registered last: a successful `driver_register` puts the new driver in front. -/
theorem probe_all_list_order {ε : Type} (ticks : Nat → Nat) (R : Registry ε) (e : ε)
    (hnodup : R.driver_list.Nodup) :
    driver_probe_all ticks R e =
      start_each ticks
        (R.driver_list.filter (fun a => decide ((R.mem a).state = DriverState.REGISTERED)))
        (R, e) ∧
    (∀ a, a ∉ R.driver_list ∨ (R.mem a).state ≠ DriverState.REGISTERED →
      (driver_probe_all ticks R e).1.mem a = R.mem a) ∧
    (∀ drv, (driver_register R drv).1 = 0 →
      (driver_register R drv).2.driver_list = drv :: R.driver_list) := by
  have h1 := probe_fold_eq_start_each ticks R.driver_list (R, e) hnodup
  refine ⟨h1, ?_, ?_⟩
  · intro a ha
    rw [driver_probe_all, h1]
    apply start_each_mem_other
    intro hin
    rw [List.mem_filter] at hin
    rcases ha with ha | ha
    · exact ha hin.1
    · exact ha (by simpa using hin.2)
  · intro drv h0
    rcases driver_register_cases R drv with ⟨_, h⟩ | ⟨_, h⟩
    · rw [h] at h0; cases h0
    · rw [h]

set_option maxRecDepth 100000 in
/-- C15 witness: with "rtc" and "kbd" on the list, in this order, probing leaves the
unlisted object at address 3 as it was. -/
theorem probe_all_list_order_witness :
    twoDrivers.driver_list = [2, 1] ∧
    (driver_probe_all (fun _ => 0) twoDrivers []).1.mem 3 = twoDrivers.mem 3 :=
  ⟨by decide,
    (probe_all_list_order (fun _ => 0) twoDrivers [] (by decide)).2.1 3 (Or.inl (by decide))⟩

set_option maxRecDepth 100000 in
/-- C15 counterexample: after "kbd" (address 1) and then "rtc" (address 2) have been
registered, both REGISTERED, `driver_probe_all` runs the probe callback of "rtc"
first and that of "kbd", the driver registered first, last. -/
theorem probe_all_latest_first :
    (driver_register emptyRegistry 1).1 = 0 ∧
    (driver_register (driver_register emptyRegistry 1).2 2).1 = 0 ∧
    (twoDrivers.mem 1).state = DriverState.REGISTERED ∧
    (twoDrivers.mem 2).state = DriverState.REGISTERED ∧
    (driver_probe_all (fun _ => 0) twoDrivers []).2 = [2, 1] ∧
    ((driver_probe_all (fun _ => 0) twoDrivers []).1.mem 1).state = DriverState.READY ∧
    ((driver_probe_all (fun _ => 0) twoDrivers []).1.mem 2).state = DriverState.READY := by
  decide

/-! #### The IRQ table -/

/-- C17: in every reachable registry each IRQ line holds at most 16 handlers and no
driver twice. Registering a driver that is already on the line, or on a line that has
16 handlers, changes nothing; otherwise the driver is appended after the handlers
already there, and the other lines are untouched. Removing a driver from a line
deletes it and keeps the others in their order, on that line and, for
`driver_unregister`, on every line. -/
theorem irq_table_invariant {ε : Type} (R : Registry ε) (hR : Reachable R) :
    (∀ l, (R.irq_table l).length ≤ MAX_IRQ_HANDLERS ∧ (R.irq_table l).Nodup) ∧
    (∀ drv irq, drv ∈ R.irq_table irq → driver_register_irq R drv irq = R) ∧
    (∀ drv irq, (R.irq_table irq).length = MAX_IRQ_HANDLERS →
      driver_register_irq R drv irq = R) ∧
    (∀ drv irq, drv ≠ 0 → drv ∉ R.irq_table irq →
      (R.irq_table irq).length < MAX_IRQ_HANDLERS →
        (driver_register_irq R drv irq).irq_table irq = R.irq_table irq ++ [drv] ∧
        ∀ l, l ≠ irq → (driver_register_irq R drv irq).irq_table l = R.irq_table l) ∧
    (∀ drv irq, drv ≠ 0 →
      (driver_unregister_irq R drv irq).irq_table irq =
        (R.irq_table irq).filter (fun a => decide (a ≠ drv)) ∧
      ∀ l, l ≠ irq → (driver_unregister_irq R drv irq).irq_table l = R.irq_table l) ∧
    (∀ e drv l, ((driver_unregister R e drv).2.1.irq_table l).Sublist (R.irq_table l)) := by
  have hok := reachable_irq_table_ok R hR
  refine ⟨hok, ?_, ?_, ?_, ?_, ?_⟩
  · intro drv irq hin
    rcases driver_register_irq_cases R drv irq with ⟨_, h⟩ | ⟨⟨_, h, _⟩, _⟩
    · exact h
    · exact absurd hin h
  · intro drv irq hlen
    rcases driver_register_irq_cases R drv irq with ⟨_, h⟩ | ⟨⟨_, _, h⟩, _⟩
    · exact h
    · omega
  · intro drv irq h0 hnin hlen
    rcases driver_register_irq_cases R drv irq with ⟨hc, _⟩ | ⟨_, _, k1, k2, _⟩
    · rcases hc with h | h | h
      · exact absurd h h0
      · exact absurd h hnin
      · omega
    · exact ⟨k1, k2⟩
  · intro drv irq h0
    obtain ⟨_, k1, k2, _⟩ := driver_unregister_irq_cases R drv irq
    refine ⟨?_, k2⟩
    have herase : (R.irq_table irq).erase drv =
        (R.irq_table irq).filter (fun a => decide (a ≠ drv)) := by
      rw [List.Nodup.erase_eq_filter (hok irq).2]
      apply List.filter_congr
      intro x _
      by_cases hx : x = drv <;> simp [hx]
    rcases k1 with h | ⟨_, h⟩
    · rw [h]
      by_cases hin : drv ∈ R.irq_table irq
      · exfalso
        have : (driver_unregister_irq R drv irq).irq_table irq = (R.irq_table irq).erase drv := by
          unfold driver_unregister_irq
          rw [if_neg h0, if_pos hin]
          simp
        rw [this] at h
        have h2 := List.length_erase_of_mem hin
        rw [h] at h2
        have := List.length_pos_of_mem hin
        omega
      · rw [← herase, List.erase_of_not_mem hin]
    · rw [h, herase]
  · intro e drv l
    exact (driver_unregister_cases R e drv).2.2.1 l

/-- C17 witness: after one driver has been put on line 5 of a fresh table, the line
holds at most 16 handlers and none twice. -/
theorem irq_table_invariant_witness :
    ((driver_register_irq (driver_subsystem_init emptyRegistry) 1 5).irq_table 5).length ≤
      MAX_IRQ_HANDLERS ∧
    ((driver_register_irq (driver_subsystem_init emptyRegistry) 1 5).irq_table 5).Nodup :=
  (irq_table_invariant (driver_register_irq (driver_subsystem_init emptyRegistry) 1 5)
    (Reachable.register_irq _ 1 5 (Reachable.init emptyRegistry))).1 5

end Driver

/-! ### OJFS lookup and listing (ojfs.c, mkojfs.c) -/

namespace Ojfs

open Vfs

set_option maxRecDepth 100000 in
/-- C3 at the packer's image of root / "sub" / "f" with content "AB": the image is
accepted by `ojfs_init`, its root entry is entry 0 with parent `0xFFFFFFFF`, "sub"
is entry 1 with parent 0, "f" is entry 2 with parent 1, type file, size 2 and the
bytes "AB" at its `data_offset`; yet `find_entry` returns -1 for "/sub/f" and
`ojfs_open` of "/sub/f" read-only returns NULL. -/
theorem ojfs_open_packed_file_fails :
    Mkojfs.mkojfs Mkojfs.exampleTree = some Mkojfs.exampleImage ∧
    (ojfs_init initial (some Mkojfs.exampleImage) Mkojfs.exampleImage.length).1 = true ∧
    (List.range 3).map (entries ⟨Mkojfs.exampleImage⟩) =
      [⟨0, 0xFFFFFFFF, OJFS_TYPE_DIR, 129, 0, 0⟩, ⟨1, 0, OJFS_TYPE_DIR, 129, 0, 0⟩,
       ⟨5, 1, OJFS_TYPE_FILE, 129, 136, 2⟩] ∧
    cstr (get_entry_name ⟨Mkojfs.exampleImage⟩ (entries ⟨Mkojfs.exampleImage⟩ 1)) = "sub".toList ∧
    cstr (get_entry_name ⟨Mkojfs.exampleImage⟩ (entries ⟨Mkojfs.exampleImage⟩ 2)) = "f".toList ∧
    (Mkojfs.exampleImage.drop 136).take 2 = [65, 66] ∧
    find_entry ⟨Mkojfs.exampleImage⟩ "/".toList = 0 ∧
    find_entry ⟨Mkojfs.exampleImage⟩ "/sub".toList = -1 ∧
    find_entry ⟨Mkojfs.exampleImage⟩ "/sub/f".toList = -1 ∧
    (ojfs_open Mkojfs.exampleState "/sub/f".toList VFS_O_READ).1 = none := by
  decide

theorem rd8_lt (img : List Nat) (off : Nat) : rd8 img off < 256 := Nat.mod_lt _ (by decide)

theorem rd32_lt (img : List Nat) (off : Nat) : rd32 img off < 4294967296 := by
  have h0 := rd8_lt img off
  have h1 := rd8_lt img (off + 1)
  have h2 := rd8_lt img (off + 2)
  have h3 := rd8_lt img (off + 3)
  unfold rd32
  omega

/-- One call of the `ojfs_readdir` scan, started at `cur` with fuel for all the
remaining entries, stops at the first remaining entry whose parent matches. -/
theorem readdir_loop_spec (fs : OjfsInstance) (par n : Nat) :
    ∀ k cur, cur + k = n →
      (((List.range' cur k).filter (fun i => decide ((entries fs i).parent = par))) = [] →
        readdir_loop fs par n k cur = (none, n)) ∧
      (∀ i rest,
        ((List.range' cur k).filter (fun i => decide ((entries fs i).parent = par))) = i :: rest →
        readdir_loop fs par n k cur = (some (dirent fs i), i + 1) ∧ i < n ∧
        ((List.range' (i + 1) (n - (i + 1))).filter
          (fun i => decide ((entries fs i).parent = par))) = rest) := by
  intro k
  induction k with
  | zero =>
    intro cur hcur
    simp only [Nat.add_zero] at hcur
    subst hcur
    simp [readdir_loop]
  | succ k ih =>
    intro cur hcur
    have hlt : cur < n := by omega
    have ih1 := ih (cur + 1) (by omega)
    by_cases hp : (entries fs cur).parent = par
    · have hf : ((List.range' cur (k + 1)).filter
          (fun i => decide ((entries fs i).parent = par)))
          = cur :: ((List.range' (cur + 1) k).filter
              (fun i => decide ((entries fs i).parent = par))) := by
        simp [List.range'_succ, hp]
      rw [hf]
      refine ⟨fun h => absurd h (List.cons_ne_nil _ _), ?_⟩
      intro i rest hi
      simp only [List.cons.injEq] at hi
      obtain ⟨rfl, hrest⟩ := hi
      have hk : n - (cur + 1) = k := by omega
      refine ⟨by simp [readdir_loop, hlt, hp], hlt, by rw [hk]; exact hrest⟩
    · have hf : ((List.range' cur (k + 1)).filter
          (fun i => decide ((entries fs i).parent = par)))
          = ((List.range' (cur + 1) k).filter
              (fun i => decide ((entries fs i).parent = par))) := by
        simp [List.range'_succ, hp]
      have hl : readdir_loop fs par n (k + 1) cur = readdir_loop fs par n k (cur + 1) := by
        simp [readdir_loop, hlt, hp]
      rw [hf, hl]
      exact ih1

theorem readdir_n_spec (fs : OjfsInstance) (par n h : Nat) :
    ∀ m (s : State) cur, current s = some fs → s.dir_pool h = ⟨par, cur, n⟩ → cur ≤ n →
      (readdir_n m s (some h)).1 =
        (((List.range' cur (n - cur)).filter
            (fun i => decide ((entries fs i).parent = par))).map
              (fun i => some (dirent fs i))).take m ++
          List.replicate
            (m - ((List.range' cur (n - cur)).filter
              (fun i => decide ((entries fs i).parent = par))).length) none := by
  intro m
  induction m with
  | zero => intro s cur _ _ _; simp [readdir_n]
  | succ m ih =>
    intro s cur hcur hdir hle
    have hspec := readdir_loop_spec fs par n (n - cur) cur (by omega)
    have hrd : ojfs_readdir s (some h) =
        ((readdir_loop fs par n (n - cur) cur).1,
          { s with dir_pool := fun j =>
              if j = h then ⟨par, (readdir_loop fs par n (n - cur) cur).2, n⟩
              else s.dir_pool j }) := by
      simp [ojfs_readdir, hcur, hdir]
    simp only [readdir_n]
    rw [hrd]
    cases hch : (List.range' cur (n - cur)).filter
        (fun i => decide ((entries fs i).parent = par)) with
    | nil =>
      have hl := hspec.1 hch
      rw [hl]
      have := ih { s with dir_pool := fun j => if j = h then ⟨par, n, n⟩ else s.dir_pool j } n
        hcur (by simp) (Nat.le_refl _)
      simp only at this ⊢
      rw [this]
      simp [List.replicate_succ]
    | cons i rest =>
      obtain ⟨hl, hin, hrest⟩ := hspec.2 i rest hch
      rw [hl]
      have := ih { s with dir_pool := fun j => if j = h then ⟨par, i + 1, n⟩ else s.dir_pool j }
        (i + 1) hcur (by simp) hin
      simp only at this ⊢
      rw [this, hrest]
      simp

theorem find_entry_root (fs : OjfsInstance) (r : Nat) (hroot : find_entry fs ['/'] = (r : Int)) :
    (entries fs r).type = OJFS_TYPE_DIR ∧ (entries fs r).parent = ROOT_PARENT ∧
      r < hdr_entry_count fs := by
  have hs : strcmp ['/'] ['/'] = 0 := by decide
  simp only [find_entry, hs, true_or, if_true] at hroot
  split at hroot
  · rename_i i hi
    rw [List.find?_range_eq_some] at hi
    have hlt : i < hdr_entry_count fs := by simpa using hi.2.1
    have hb : hdr_entry_count fs < 4294967296 := rd32_lt _ _
    have hir : i = r := by
      unfold toInt32 at hroot
      split at hroot <;> omega
    subst hir
    have hp := hi.1
    simp only [Bool.and_eq_true, decide_eq_true_eq] at hp
    exact ⟨hp.2, hp.1, hlt⟩
  · omega

/-- C8: when the current image has a root directory entry (found by `find_entry`
at index `r`) and a directory handle is free, `ojfs_opendir("/")` succeeds and the
successive `ojfs_readdir` calls return exactly the entries whose parent field is
`r`, each once and in entry-table order, and every later call reports the end of
the directory. -/
theorem ojfs_root_listing (s : State) (fs : OjfsInstance) (r : Nat)
    (hcur : current s = some fs)
    (hroot : find_entry fs ['/'] = (r : Int))
    (hfree : ∃ k, k < MAX_OJFS_DIRS ∧ s.dir_used k = false) :
    ∃ h, (ojfs_opendir s ['/']).1 = some h ∧
      ∀ m, (readdir_n
          (((List.range (hdr_entry_count fs)).filter
              (fun i => decide ((entries fs i).parent = r))).length + m)
          (ojfs_opendir s ['/']).2 (some h)).1 =
        ((List.range (hdr_entry_count fs)).filter
            (fun i => decide ((entries fs i).parent = r))).map (fun i => some (dirent fs i))
          ++ List.replicate m none := by
  obtain ⟨htype, _, _⟩ := find_entry_root fs r hroot
  obtain ⟨k0, hk0, hfree0⟩ := hfree
  cases hfind : (List.range MAX_OJFS_DIRS).find? (fun i => !s.dir_used i) with
  | none =>
    rw [List.find?_range_eq_none] at hfind
    have := hfind k0 hk0
    simp [hfree0] at this
  | some h =>
    have hneg : ¬ ((r : Int) < 0) := by omega
    have hopen : ojfs_opendir s ['/'] =
        (some h, { s with
          dir_used := fun j => if j = h then true else s.dir_used j
          dir_pool := fun j => if j = h then ⟨r, 0, hdr_entry_count fs⟩ else
            (if j = h then ⟨0, 0, 0⟩ else s.dir_pool j) }) := by
      simp only [ojfs_opendir, hcur, hroot, hneg, if_false, Int.toNat_ofNat, htype,
        ne_eq, not_true_eq_false, alloc_ojfs_dir, hfind]
    refine ⟨h, by rw [hopen], ?_⟩
    intro m
    rw [hopen]
    have hspec := readdir_n_spec fs r (hdr_entry_count fs) h
      (((List.range (hdr_entry_count fs)).filter
          (fun i => decide ((entries fs i).parent = r))).length + m)
      { s with
          dir_used := fun j => if j = h then true else s.dir_used j
          dir_pool := fun j => if j = h then ⟨r, 0, hdr_entry_count fs⟩ else
            (if j = h then ⟨0, 0, 0⟩ else s.dir_pool j) }
      0 hcur (by simp) (Nat.zero_le _)
    simp only [Nat.sub_zero, ← List.range_eq_range'] at hspec
    rw [hspec]
    simp

set_option maxRecDepth 100000 in
/-- C8 witness: for the packer's image of root / "sub" / "f", the root listing is
the single entry named "sub", followed by end-of-directory. -/
theorem ojfs_root_listing_witness :
    (ojfs_opendir Mkojfs.exampleState ['/']).1 = some 0 ∧
      (readdir_n 3 (ojfs_opendir Mkojfs.exampleState ['/']).2 (some 0)).1 =
        [some ⟨"sub".toList, VfsFileType.DIR, 0, 1⟩, none, none] := by
  obtain ⟨h, h1, h2⟩ := ojfs_root_listing Mkojfs.exampleState ⟨Mkojfs.exampleImage⟩ 0
    rfl (by decide) ⟨0, by decide, rfl⟩
  have h0 : (ojfs_opendir Mkojfs.exampleState ['/']).1 = some 0 := by decide
  have hh : h = 0 := by
    rw [h0] at h1
    exact (Option.some.inj h1).symm
  subst hh
  exact ⟨h0, h2 2⟩

/-! ### Image validation (ojfs.c) -/

/-- C20: `ojfs_validate` returns true exactly when the image is not NULL, `size` is at
least 32, the header's magic is 0x53464A4F, its version is 1 and its `total_size` is
at most `size`. The magic is the four bytes "OJFS" read as a little-endian word, and
32 is the size of the header. When validation fails, `ojfs_init` returns NULL and
leaves the state, the instance table and the active instance included, as it was. -/
theorem ojfs_validate_iff (s : State) (image : Option (List Nat)) (size : Nat) :
    (ojfs_validate image size = true ↔
      ∃ img, image = some img ∧ 32 ≤ size ∧ rd32 img 0 = 0x53464A4F ∧ rd32 img 4 = 1 ∧
        rd64 img 24 ≤ size) ∧
    (∀ img : List Nat, rd32 img 0 = 0x53464A4F ↔
      [rd8 img 0, rd8 img 1, rd8 img 2, rd8 img 3] = "OJFS".toList.map Char.toNat) ∧
    HEADER_SIZE = 32 ∧
    (ojfs_validate image size = false →
      (ojfs_init s image size).1 = false ∧ (ojfs_init s image size).2 = s) := by
  refine ⟨?_, ?_, rfl, ?_⟩
  · cases image with
    | none => simp [ojfs_validate]
    | some img =>
      simp only [ojfs_validate, hdr_magic, hdr_version, hdr_total_size, HEADER_SIZE,
        OJFS_MAGIC, OJFS_VERSION]
      constructor
      · intro h
        refine ⟨img, rfl, ?_⟩
        by_cases h1 : size < 32
        · rw [if_pos h1] at h; cases h
        · rw [if_neg h1] at h
          by_cases h2 : rd32 img 0 ≠ 1397115471
          · rw [if_pos h2] at h; cases h
          · rw [if_neg h2] at h
            by_cases h3 : rd32 img 4 ≠ 1
            · rw [if_pos h3] at h; cases h
            · rw [if_neg h3] at h
              by_cases h4 : rd64 img 24 > size
              · rw [if_pos h4] at h; cases h
              · push_neg at h2 h3
                exact ⟨by omega, h2, h3, by omega⟩
      · rintro ⟨img2, himg, h1, h2, h3, h4⟩
        cases himg
        rw [if_neg (by omega), if_neg (by simp [h2]), if_neg (by simp [h3]), if_neg (by omega)]
  · intro img
    have h0 := rd8_lt img 0
    have h1 := rd8_lt img 1
    have h2 := rd8_lt img 2
    have h3 := rd8_lt img 3
    have e : "OJFS".toList.map Char.toNat = [79, 74, 70, 83] := by decide
    rw [e]
    simp only [rd32, Nat.zero_add, List.cons.injEq, and_true]
    constructor
    · intro h; omega
    · rintro ⟨a, b, c, d⟩; omega
  · intro h
    cases image with
    | none => exact ⟨rfl, rfl⟩
    | some img =>
      simp only [ojfs_init, h, if_true]
      exact ⟨trivial, trivial⟩

set_option maxRecDepth 100000 in
/-- C20 witness: an image whose magic reads "OJFR" is rejected and `ojfs_init` leaves
the state with the example image mounted as it was. -/
theorem ojfs_validate_iff_witness :
    ojfs_validate (some [79, 74, 70, 82, 1]) 64 = false ∧
    (ojfs_init Mkojfs.exampleState (some [79, 74, 70, 82, 1]) 64).2 = Mkojfs.exampleState :=
  ⟨by decide,
    ((ojfs_validate_iff Mkojfs.exampleState (some [79, 74, 70, 82, 1]) 64).2.2.2
      (by decide)).2⟩

end Ojfs

/-! ### RAMFS data pool (ramfs.c) -/

namespace Ramfs

open Vfs

theorem pool_copy_disjoint (pool : Nat → Nat) (dst src : Nat) :
    ∀ n, src + n ≤ dst → ∀ a,
      pool_copy pool dst src n a =
        if dst ≤ a ∧ a < dst + n then pool (src + (a - dst)) else pool a := by
  intro n
  induction n with
  | zero =>
    intro _ a
    have : ¬ (dst ≤ a ∧ a < dst + 0) := by omega
    rw [if_neg this]
    rfl
  | succ n ih =>
    intro h a
    have ih1 := ih (by omega)
    simp only [pool_copy]
    by_cases ha : a = dst + n
    · subst ha
      have h1 : ¬ (dst ≤ src + n ∧ src + n < dst + n) := by omega
      have h2 : dst ≤ dst + n ∧ dst + n < dst + (n + 1) := by omega
      rw [if_pos rfl, ih1 (src + n), if_neg h1, if_pos h2]
      congr 1
      omega
    · rw [if_neg ha, ih1 a]
      by_cases hin : dst ≤ a ∧ a < dst + n
      · have h2 : dst ≤ a ∧ a < dst + (n + 1) := by omega
        rw [if_pos hin, if_pos h2]
      · have h2 : ¬ (dst ≤ a ∧ a < dst + (n + 1)) := by omega
        rw [if_neg hin, if_neg h2]

theorem pool_load_store (pool : Nat → Nat) (dst : Nat) (buf : List Nat) :
    pool_load (pool_store pool dst buf buf.length) dst buf.length = buf := by
  apply List.ext_getElem
  · simp [pool_load]
  · intro i h1 h2
    have hi : i < buf.length := h2
    have hin : dst ≤ dst + i ∧ dst + i < dst + buf.length := by omega
    simp [pool_load, pool_store, hin, hi]

theorem alloc_node_full (s : State) (h : s.node_count ≥ RAMFS_MAX_NODES) :
    alloc_node s = (none, s) := by
  simp [alloc_node, h]

theorem alloc_node_ok (s : State) (h : ¬ s.node_count ≥ RAMFS_MAX_NODES) :
    alloc_node s = (some s.node_count,
      { setNode s s.node_count zero_node with node_count := s.node_count + 1 }) := by
  simp [alloc_node, h]

theorem ensure_dir_loop_data :
    ∀ fuel (s : State) (p : List Char) (parent : Nat),
      (ensure_dir_loop fuel s p parent).2.data_offset = s.data_offset ∧
      (ensure_dir_loop fuel s p parent).2.data_pool = s.data_pool ∧
      (ensure_dir_loop fuel s p parent).2.file_pool = s.file_pool ∧
      (ensure_dir_loop fuel s p parent).2.file_used = s.file_used := by
  intro fuel
  induction fuel with
  | zero => intro s p parent; simp [ensure_dir_loop]
  | succ fuel ih =>
    intro s p parent
    simp only [ensure_dir_loop]
    by_cases h1 : charAt p 0 = NUL
    · rw [if_pos h1]
      exact ⟨rfl, rfl, rfl, rfl⟩
    · rw [if_neg h1]
      by_cases h2 : find_child s parent (component p) < 0
      · rw [if_pos h2]
        by_cases h3 : s.node_count ≥ RAMFS_MAX_NODES
        · rw [alloc_node_full s h3]
          exact ⟨rfl, rfl, rfl, rfl⟩
        · rw [alloc_node_ok s h3]
          exact ih _ _ _
      · rw [if_neg h2]
        exact ih _ _ _

theorem ensure_dir_data (s : State) (path : List Char) :
    (ensure_dir s path).2.data_offset = s.data_offset ∧
    (ensure_dir s path).2.data_pool = s.data_pool ∧
    (ensure_dir s path).2.file_pool = s.file_pool ∧
    (ensure_dir s path).2.file_used = s.file_used := by
  unfold ensure_dir
  by_cases h1 : charAt path 0 = NUL
  · rw [if_pos h1]
    exact ⟨rfl, rfl, rfl, rfl⟩
  · rw [if_neg h1]
    dsimp only
    by_cases h2 : strcmp (List.take 255 (cstr path)) ['/'] = 0
    · rw [if_pos h2]
      exact ⟨rfl, rfl, rfl, rfl⟩
    · rw [if_neg h2]
      exact ensure_dir_loop_data _ _ _ _

/-- A node made by a successful `create_node` is zeroed apart from its name, parent,
type and permissions, and `create_node` leaves the data pool, its allocator and
the file handles alone. -/
theorem create_node_fresh (s : State) (path : List Char) (t : VfsFileType)
    (h : 0 ≤ (create_node s path t).1) :
    ((create_node s path t).2.nodes (create_node s path t).1.toNat).type = t ∧
    ((create_node s path t).2.nodes (create_node s path t).1.toNat).size = 0 ∧
    ((create_node s path t).2.nodes (create_node s path t).1.toNat).capacity = 0 ∧
    (create_node s path t).2.data_offset = s.data_offset ∧
    (create_node s path t).2.data_pool = s.data_pool ∧
    (create_node s path t).2.file_pool = s.file_pool ∧
    (create_node s path t).2.file_used = s.file_used := by
  have hneg : ¬ ((0 : Int) ≤ -1) := by decide
  unfold create_node at h ⊢
  by_cases h1 : charAt path 0 = NUL
  · rw [if_pos h1] at h
    exact absurd h hneg
  · rw [if_neg h1] at h ⊢
    dsimp only at h ⊢
    by_cases h2 : (vfs_dirname path [] 256).1 ≠ 0
    · rw [if_pos h2] at h
      exact absurd h hneg
    · rw [if_neg h2] at h ⊢
      have hd := ensure_dir_data s
        (if charAt (vfs_dirname path [] 256).2 0 ≠ NUL then (vfs_dirname path [] 256).2
          else ['/'])
      generalize ensure_dir s
        (if charAt (vfs_dirname path [] 256).2 0 ≠ NUL then (vfs_dirname path [] 256).2
          else ['/']) = r at h hd ⊢
      by_cases h3 : r.1 < 0
      · rw [if_pos h3] at h
        exact absurd h hneg
      · rw [if_neg h3] at h ⊢
        by_cases h4 : find_child r.2 r.1.toNat (vfs_basename path) ≥ 0
        · rw [if_pos h4] at h
          exact absurd h hneg
        · rw [if_neg h4] at h ⊢
          by_cases h5 : r.2.node_count ≥ RAMFS_MAX_NODES
          · rw [alloc_node_full _ h5] at h
            exact absurd h hneg
          · rw [alloc_node_ok _ h5]
            refine ⟨?_, ?_, ?_, hd.1, hd.2.1, hd.2.2.1, hd.2.2.2⟩ <;>
              simp [setNode, zero_node]

theorem open_handle_some (s : State) (idx mode h : Nat) (s1 : State)
    (ha : open_handle s idx mode = (some h, s1)) :
    s1.nodes = s.nodes ∧ s1.data_offset = s.data_offset ∧ s1.data_pool = s.data_pool ∧
    s1.file_pool h = ⟨some idx, if mode &&& VFS_O_APPEND ≠ 0 then (s.nodes idx).size else 0⟩ := by
  unfold open_handle alloc_file at ha
  cases hf : (List.range RAMFS_MAX_FILES).find? (fun i => !s.file_used i) with
  | none =>
    rw [hf] at ha
    simp at ha
  | some k =>
    rw [hf] at ha
    simp only [Prod.mk.injEq, Option.some.injEq] at ha
    obtain ⟨rfl, rfl⟩ := ha
    simp

theorem ramfs_alloc_data_ok (s : State) (size : Nat) (h : s.data_offset + size ≤ RAMFS_DATA_SIZE) :
    ramfs_alloc_data s size = ((s.data_offset : Int), { s with data_offset := s.data_offset + size }) := by
  have hlt : s.data_offset + size < 2 ^ 64 := by
    have : RAMFS_DATA_SIZE < 2 ^ 64 := by decide
    omega
  unfold ramfs_alloc_data
  rw [Nat.mod_eq_of_lt hlt, if_neg (by omega)]

theorem ramfs_alloc_data_fail (s : State) (size : Nat) (h : (ramfs_alloc_data s size).1 < 0) :
    ramfs_alloc_data s size = (-1, s) := by
  unfold ramfs_alloc_data at h ⊢
  split
  · rfl
  · rename_i h1
    rw [if_neg h1] at h
    simp at h
    omega

theorem ramfs_alloc_data_some (s : State) (size : Nat) (hD : s.data_offset ≤ RAMFS_DATA_SIZE)
    (hs : size ≤ RAMFS_DATA_SIZE)
    (h : ¬ (ramfs_alloc_data s size).1 < 0) : s.data_offset + size ≤ RAMFS_DATA_SIZE := by
  unfold ramfs_alloc_data at h
  have hlt : s.data_offset + size < 2 ^ 64 := by
    have : RAMFS_DATA_SIZE < 2 ^ 63 := by decide
    omega
  rw [Nat.mod_eq_of_lt hlt] at h
  by_contra hc
  rw [if_pos (by omega)] at h
  simp at h

theorem ramfs_open_fresh (s : State) (path : List Char) (mode h : Nat) (s1 : State)
    (hnew : find_node s path < 0) (hcreate : mode &&& VFS_O_CREATE ≠ 0)
    (hD : s.data_offset ≤ RAMFS_DATA_SIZE)
    (hopen : ramfs_open s path mode = (some h, s1)) :
    ∃ idx, s1.file_pool h = ⟨some idx, 0⟩ ∧ (s1.nodes idx).size = 0 ∧
      (s1.nodes idx).capacity = 4096 ∧ (s1.nodes idx).data_offset = s.data_offset ∧
      s1.data_offset = s.data_offset + 4096 ∧ s1.data_offset ≤ RAMFS_DATA_SIZE ∧
      s1.data_pool = s.data_pool := by
  have hcond : find_node s path < 0 ∧ mode &&& VFS_O_CREATE ≠ 0 := ⟨hnew, hcreate⟩
  unfold ramfs_open at hopen
  rw [if_pos hcond] at hopen
  dsimp only at hopen
  by_cases hc : (create_node s path VfsFileType.FILE).1 < 0
  · rw [if_pos hc] at hopen
    simp at hopen
  · rw [if_neg hc] at hopen
    obtain ⟨ht, hsz, hcap, hoff, hpool, _, _⟩ :=
      create_node_fresh s path VfsFileType.FILE (by omega)
    generalize (create_node s path VfsFileType.FILE).1.toNat = idx at *
    generalize (create_node s path VfsFileType.FILE).2 = c at *
    refine ⟨idx, ?_⟩
    unfold open_node at hopen
    rw [if_neg (by simp [ht])] at hopen
    dsimp only at hopen
    -- the state after the optional truncation
    have hs1 : ∀ s1' : State, s1' = (if mode &&& VFS_O_TRUNC ≠ 0 then
        setNode c idx { c.nodes idx with size := 0 } else c) →
        (s1'.nodes idx).capacity = 0 ∧ (s1'.nodes idx).size = 0 ∧
        s1'.data_offset = s.data_offset ∧ s1'.data_pool = s.data_pool := by
      intro s1' he
      subst he
      split
      · simp [setNode, hcap, hoff, hpool]
      · exact ⟨hcap, hsz, hoff, hpool⟩
    generalize (if mode &&& VFS_O_TRUNC ≠ 0 then
        setNode c idx { c.nodes idx with size := 0 } else c) = t at hopen hs1
    obtain ⟨tcap, tsz, toff, tpool⟩ := hs1 t rfl
    rw [if_pos tcap] at hopen
    by_cases hal : (ramfs_alloc_data t 4096).1 < 0
    · rw [if_pos hal] at hopen
      simp at hopen
    · rw [if_neg hal] at hopen
      have hfit := ramfs_alloc_data_some t 4096 (by omega) (by decide) hal
      rw [ramfs_alloc_data_ok t 4096 hfit] at hopen
      obtain ⟨hn, hdo, hdp, hfp⟩ := open_handle_some _ _ _ _ _ hopen
      simp only [Int.toNat_ofNat] at hn hdo hdp hfp
      rw [hfp, hn, hdo, hdp]
      simp [setNode, tsz, toff, tpool]
      omega

theorem pool_copy_zero (pool : Nat → Nat) (dst src : Nat) : pool_copy pool dst src 0 = pool := rfl

/-- The effect of `ramfs_write` of a whole payload at position 0 of a file that has
no bytes yet, when the pool has room for the growth the write asks for. -/
theorem write_fresh (s1 : State) (h idx : Nat) (payload : List Nat)
    (hfp : s1.file_pool h = ⟨some idx, 0⟩) (hsz : (s1.nodes idx).size = 0)
    (hcap : (s1.nodes idx).capacity = 4096)
    (hfit : payload.length ≤ 4096 ∨
      s1.data_offset + max 8192 payload.length ≤ RAMFS_DATA_SIZE) :
    (ramfs_write s1 (some h) payload payload.length).1 = (payload.length : Int) ∧
    ∃ O, ((ramfs_write s1 (some h) payload payload.length).2.nodes idx).size = payload.length ∧
      ((ramfs_write s1 (some h) payload payload.length).2.nodes idx).data_offset = O ∧
      (ramfs_write s1 (some h) payload payload.length).2.file_pool h
        = ⟨some idx, payload.length⟩ ∧
      pool_load (ramfs_write s1 (some h) payload payload.length).2.data_pool O payload.length
        = payload := by
  have hDS : RAMFS_DATA_SIZE = 262144 := by decide
  have hn : payload.length < 2 ^ 64 := by
    rcases hfit with h1 | h1
    · omega
    · have : payload.length ≤ max 8192 payload.length := le_max_right _ _
      omega
  have hnode : (s1.file_pool h).node = some idx := by rw [hfp]
  have hpos : (s1.file_pool h).position = 0 := by rw [hfp]
  have hcap0 : ¬ (s1.nodes idx).capacity = 0 := by rw [hcap]; decide
  -- the state after the growth block
  have hgrow : ∃ g, grow_node s1 idx payload.length = some g ∧ (g.nodes idx).size = 0 ∧
      g.file_pool h = ⟨some idx, 0⟩ := by
    unfold grow_node
    dsimp only
    by_cases hg : payload.length > (s1.nodes idx).capacity
    · rw [if_pos hg]
      rw [hcap] at hg
      have hfit2 : s1.data_offset + max 8192 payload.length ≤ RAMFS_DATA_SIZE := by
        rcases hfit with h1 | h1
        · omega
        · exact h1
      have hnc : (if ((s1.nodes idx).capacity + 4096) % 2 ^ 64 < payload.length
          then payload.length else ((s1.nodes idx).capacity + 4096) % 2 ^ 64)
          = max 8192 payload.length := by
        rw [hcap]
        have : (4096 + 4096) % 2 ^ 64 = 8192 := by norm_num
        rw [this]
        split
        · rw [max_eq_right (by omega)]
        · rw [max_eq_left (by omega)]
      rw [hnc, ramfs_alloc_data_ok _ _ hfit2]
      rw [if_neg (by simp)]
      refine ⟨_, rfl, ?_, ?_⟩
      · simp [setNode, hsz]
      · simp [setNode, hfp]
    · rw [if_neg hg]
      exact ⟨s1, rfl, hsz, hfp⟩
  obtain ⟨g, hg, hgsz, hgfp⟩ := hgrow
  have hw : ramfs_write s1 (some h) payload payload.length
      = store_bytes g h idx payload payload.length := by
    simp only [ramfs_write, hnode, hpos, if_neg hcap0, Nat.zero_add, Nat.mod_eq_of_lt hn, hg]
  rw [hw]
  unfold store_bytes
  simp only [hgfp, Nat.zero_add, Nat.mod_eq_of_lt hn, hgsz, Nat.add_zero]
  refine ⟨trivial, (g.nodes idx).data_offset, ?_, ?_, ?_, ?_⟩
  · split
    · simp [setNode]
    · simp [hgsz]; omega
  · split <;> simp [setNode]
  · split <;> simp [setNode, hgfp]
  · have : ∀ (t : State), t.data_pool = pool_store g.data_pool (g.nodes idx).data_offset payload
        payload.length → pool_load t.data_pool (g.nodes idx).data_offset payload.length = payload := by
      intro t ht
      rw [ht]
      exact pool_load_store _ _ _
    apply this
    split <;> simp [setNode]

/-- Seeking back to offset 0 and reading the whole file returns the bytes the pool
holds at the file's data offset. -/
theorem seek_read_all (w : State) (h idx O p : Nat) (payload : List Nat)
    (hfp : w.file_pool h = ⟨some idx, p⟩) (hsz : (w.nodes idx).size = payload.length)
    (hoff : (w.nodes idx).data_offset = O)
    (hload : pool_load w.data_pool O payload.length = payload) :
    (ramfs_seek w (some h) 0 VFS_SEEK_SET).1 = 0 ∧
    (ramfs_read (ramfs_seek w (some h) 0 VFS_SEEK_SET).2 (some h) payload.length).1
      = (payload.length : Int) ∧
    (ramfs_read (ramfs_seek w (some h) 0 VFS_SEEK_SET).2 (some h) payload.length).2.1
      = payload := by
  have hnode : (w.file_pool h).node = some idx := by rw [hfp]
  have hseek : ramfs_seek w (some h) 0 VFS_SEEK_SET =
      (0, { w with file_pool := fun j =>
        if j = h then { w.file_pool h with position := 0 } else w.file_pool j }) := by
    have hb : ¬ ((0 : Int) < 0 ∨ (0 : Int) > ((w.nodes idx).size : Int)) := by omega
    simp only [ramfs_seek, hnode, if_true, if_neg hb]
    rfl
  rw [hseek]
  refine ⟨rfl, ?_⟩
  simp only [ramfs_read, if_true, hnode, hsz, hoff, Nat.add_zero]
  by_cases h0 : payload.length = 0
  · have hnil : payload = [] := List.eq_nil_of_length_eq_zero h0
    subst hnil
    simp
  · have hge : ¬ (0 ≥ payload.length) := by omega
    rw [if_neg hge]
    simp only [Nat.sub_zero, gt_iff_lt, lt_self_iff_false, if_false]
    exact ⟨trivial, hload⟩

/-- The growth of a file by `ramfs_write` when the pool has room: the new capacity,
and the file's earlier bytes outside the written range. -/
theorem write_grows (s : State) (h idx : Nat) (buf : List Nat) (count : Nat)
    (hnode : (s.file_pool h).node = some idx)
    (hcap0 : (s.nodes idx).capacity ≠ 0)
    (hgrow : (s.file_pool h).position + count > (s.nodes idx).capacity)
    (hfit : s.data_offset +
      max ((s.nodes idx).capacity + 4096) ((s.file_pool h).position + count) ≤ RAMFS_DATA_SIZE)
    (hregion : (s.nodes idx).data_offset + (s.nodes idx).size ≤ s.data_offset) :
    (ramfs_write s (some h) buf count).1 = (count : Int) ∧
    ((ramfs_write s (some h) buf count).2.nodes idx).capacity
      = max ((s.nodes idx).capacity + 4096) ((s.file_pool h).position + count) ∧
    ∀ i, i < (s.nodes idx).size →
      (i < (s.file_pool h).position ∨ (s.file_pool h).position + count ≤ i) →
      (ramfs_write s (some h) buf count).2.data_pool
          (((ramfs_write s (some h) buf count).2.nodes idx).data_offset + i)
        = s.data_pool ((s.nodes idx).data_offset + i) := by
  have hDS : RAMFS_DATA_SIZE = 262144 := by decide
  have h1 := le_max_left ((s.nodes idx).capacity + 4096) ((s.file_pool h).position + count)
  have h2 := le_max_right ((s.nodes idx).capacity + 4096) ((s.file_pool h).position + count)
  have hn : (s.file_pool h).position + count < 2 ^ 64 := by omega
  have hc : (s.nodes idx).capacity + 4096 < 2 ^ 64 := by omega
  have hnc : (if ((s.nodes idx).capacity + 4096) % 2 ^ 64 < (s.file_pool h).position + count
      then (s.file_pool h).position + count else ((s.nodes idx).capacity + 4096) % 2 ^ 64)
      = max ((s.nodes idx).capacity + 4096) ((s.file_pool h).position + count) := by
    rw [Nat.mod_eq_of_lt hc]
    split
    · rw [max_eq_right (by omega)]
    · rw [max_eq_left (by omega)]
  have hg : ∃ g, grow_node s idx ((s.file_pool h).position + count) = some g ∧
      (g.nodes idx).data_offset = s.data_offset ∧
      (g.nodes idx).capacity
        = max ((s.nodes idx).capacity + 4096) ((s.file_pool h).position + count) ∧
      g.data_pool = pool_copy s.data_pool s.data_offset (s.nodes idx).data_offset
        (s.nodes idx).size ∧
      g.file_pool = s.file_pool := by
    unfold grow_node
    dsimp only
    rw [if_pos hgrow, hnc, ramfs_alloc_data_ok _ _ hfit, if_neg (by simp)]
    refine ⟨_, rfl, ?_, ?_, ?_, ?_⟩ <;> simp [setNode]
  obtain ⟨g, hg, hgoff, hgcap, hgpool, hgfp⟩ := hg
  have hw : ramfs_write s (some h) buf count = store_bytes g h idx buf count := by
    simp only [ramfs_write, hnode, if_neg hcap0, Nat.mod_eq_of_lt hn, hg]
  rw [hw]
  unfold store_bytes
  dsimp only
  refine ⟨rfl, ?_, ?_⟩
  · split <;> simp [setNode, hgcap]
  · intro i hi hout
    have hpc := pool_copy_disjoint s.data_pool s.data_offset (s.nodes idx).data_offset
      (s.nodes idx).size hregion (s.data_offset + i)
    have hin : s.data_offset ≤ s.data_offset + i ∧
        s.data_offset + i < s.data_offset + (s.nodes idx).size := by omega
    rw [if_pos hin] at hpc
    have hsub : s.data_offset + i - s.data_offset = i := by omega
    rw [hsub] at hpc
    have hns : ¬ (s.data_offset + (s.file_pool h).position ≤ s.data_offset + i ∧
        s.data_offset + i < s.data_offset + (s.file_pool h).position + count) := by omega
    split <;> simp [setNode, pool_store, hgoff, hgpool, hgfp, hpc] <;> intro _ _ <;> omega

/-- C4 (as amended): for a file just created by `ramfs_open` with the CREATE bit
and a payload of `n` bytes with `n ≤ 4096`, or for which `max(8192, n)` bytes fit
in the remaining data pool, the write at position 0 returns `n`, and after seeking
back to offset 0 a read of `n` bytes returns `n` bytes equal to the payload.
Whenever position + count exceeds the capacity of an open file and
`max(capacity + 4096, position + count)` bytes fit in the remaining pool, the write
succeeds, the capacity becomes that maximum, and the bytes already in the file
outside the written range are unchanged by the relocation. -/
theorem ramfs_write_read_back (s : State) (path : List Char) (mode h : Nat) (s1 : State)
    (payload : List Nat)
    (hnew : find_node s path < 0) (hcreate : mode &&& VFS_O_CREATE ≠ 0)
    (hD : s.data_offset ≤ RAMFS_DATA_SIZE)
    (hopen : ramfs_open s path mode = (some h, s1))
    (hfit : payload.length ≤ 4096 ∨
      s1.data_offset + max 8192 payload.length ≤ RAMFS_DATA_SIZE) :
    ((ramfs_write s1 (some h) payload payload.length).1 = (payload.length : Int) ∧
      (ramfs_seek (ramfs_write s1 (some h) payload payload.length).2 (some h) 0
        VFS_SEEK_SET).1 = 0 ∧
      (ramfs_read (ramfs_seek (ramfs_write s1 (some h) payload payload.length).2 (some h) 0
        VFS_SEEK_SET).2 (some h) payload.length).1 = (payload.length : Int) ∧
      (ramfs_read (ramfs_seek (ramfs_write s1 (some h) payload payload.length).2 (some h) 0
        VFS_SEEK_SET).2 (some h) payload.length).2.1 = payload) ∧
    (∀ (t : State) (k idx : Nat) (buf : List Nat) (count : Nat),
      (t.file_pool k).node = some idx → (t.nodes idx).capacity ≠ 0 →
      (t.file_pool k).position + count > (t.nodes idx).capacity →
      t.data_offset +
        max ((t.nodes idx).capacity + 4096) ((t.file_pool k).position + count)
          ≤ RAMFS_DATA_SIZE →
      (t.nodes idx).data_offset + (t.nodes idx).size ≤ t.data_offset →
      (ramfs_write t (some k) buf count).1 = (count : Int) ∧
      ((ramfs_write t (some k) buf count).2.nodes idx).capacity
        = max ((t.nodes idx).capacity + 4096) ((t.file_pool k).position + count) ∧
      ∀ i, i < (t.nodes idx).size →
        (i < (t.file_pool k).position ∨ (t.file_pool k).position + count ≤ i) →
        (ramfs_write t (some k) buf count).2.data_pool
            (((ramfs_write t (some k) buf count).2.nodes idx).data_offset + i)
          = t.data_pool ((t.nodes idx).data_offset + i)) := by
  constructor
  · obtain ⟨idx, hfp, hsz, hcap, _, _, _, _⟩ :=
      ramfs_open_fresh s path mode h s1 hnew hcreate hD hopen
    obtain ⟨hw, O, hwsz, hwoff, hwfp, hload⟩ := write_fresh s1 h idx payload hfp hsz hcap hfit
    obtain ⟨hs, hr1, hr2⟩ := seek_read_all _ h idx O payload.length payload hwfp hwsz hwoff hload
    exact ⟨hw, hs, hr1, hr2⟩
  · intro t k idx buf count h1 h2 h3 h4 h5
    exact write_grows t k idx buf count h1 h2 h3 h4 h5

/-- C4 witness: 5000 sevens written to the freshly created "/f" of a new
filesystem are read back unchanged. -/
theorem ramfs_write_read_back_witness :
    (ramfs_write (ramfs_open (ramfs_init (fun _ => 0)) "/f".toList
        (VFS_O_CREATE ||| VFS_O_WRITE)).2 (some 0) (List.replicate 5000 7)
        (List.replicate 5000 7).length).1 = ((List.replicate 5000 7).length : Int) ∧
    (ramfs_read (ramfs_seek (ramfs_write (ramfs_open (ramfs_init (fun _ => 0)) "/f".toList
        (VFS_O_CREATE ||| VFS_O_WRITE)).2 (some 0) (List.replicate 5000 7)
        (List.replicate 5000 7).length).2 (some 0) 0 VFS_SEEK_SET).2 (some 0)
        (List.replicate 5000 7).length).2.1 = List.replicate 5000 7 :=
  have h := (ramfs_write_read_back (ramfs_init (fun _ => 0)) "/f".toList
    (VFS_O_CREATE ||| VFS_O_WRITE) 0
    (ramfs_open (ramfs_init (fun _ => 0)) "/f".toList (VFS_O_CREATE ||| VFS_O_WRITE)).2
    (List.replicate 5000 7) (by decide) (by decide) (by decide)
    (Prod.ext (by decide) rfl)
    (Or.inr (by rw [List.length_replicate]; decide))).1
  ⟨h.1, h.2.2.2⟩

set_option maxRecDepth 100000 in
/-- C4 counterexample: after "/g" has grown to 248952 bytes, the freshly created
"/f" has capacity 4096 and exactly 5000 bytes of the data pool remain; the write
of a 5000-byte payload at position 0 asks the allocator for 8192 bytes and
returns -1. -/
theorem ramfs_write_fitting_payload_fails :
    find_node tightBefore "/f".toList < 0 ∧
    (ramfs_open tightBefore "/f".toList (VFS_O_CREATE ||| VFS_O_WRITE)).1 = some 1 ∧
    (tightState.nodes 2).capacity = 4096 ∧ (tightState.nodes 2).size = 0 ∧
    RAMFS_DATA_SIZE - tightState.data_offset = 5000 ∧
    (ramfs_write tightState (some 1) (List.replicate 5000 7) 5000).1 = -1 := by
  decide

/-! ### RAMFS path creation (ramfs.c) -/

theorem strcmp_self : ∀ s : List Char, strcmp s s = 0 := by
  intro s
  induction s with
  | nil => simp [strcmp, charAt, NUL]
  | cons c cs ih =>
    by_cases hc : c = NUL
    · simp [strcmp, charAt, hc]
    · simp [strcmp, charAt, hc, ih]

theorem join_path_nul_free (cs : List (List Char)) (h : ∀ c ∈ cs, ValidName c) :
    ∀ ch ∈ join_path cs, ch ≠ NUL := by
  induction cs with
  | nil => intro ch hch; simp [join_path] at hch
  | cons c cs ih =>
    intro ch hch
    simp only [join_path, List.mem_cons, List.mem_append] at hch
    rcases hch with rfl | hch | hch
    · decide
    · exact ((h c (List.mem_cons_self _ _)).2.2 ch hch).2
    · exact ih (fun c' hc' => h c' (List.mem_cons_of_mem _ hc')) ch hch

theorem cstr_nul_free (p : List Char) (h : ∀ ch ∈ p, ch ≠ NUL) : cstr p = p := by
  unfold cstr
  rw [List.takeWhile_eq_self_iff]
  intro ch hch
  simpa using h ch hch

theorem cstr_append_nul_free (c r : List Char) (h : ∀ ch ∈ c, ch ≠ NUL) :
    cstr (c ++ r) = c ++ cstr r := by
  induction c with
  | nil => rfl
  | cons a c ih =>
    have ha : a ≠ NUL := h a (List.mem_cons_self _ _)
    have := ih (fun ch hch => h ch (List.mem_cons_of_mem _ hch))
    simp only [cstr, List.cons_append] at this ⊢
    rw [List.takeWhile_cons_of_pos (by simpa using ha), this]

/-- What `join_path cs` looks like to the component loop: empty, or a slash first. -/
theorem join_path_head (cs : List (List Char)) :
    join_path cs = [] ∨ ∃ r, join_path cs = '/' :: r := by
  cases cs with
  | nil => exact Or.inl rfl
  | cons c cs => exact Or.inr ⟨_, rfl⟩

theorem cstr_join_path_head (cs : List (List Char)) :
    cstr (join_path cs) = [] ∨ ∃ r, cstr (join_path cs) = '/' :: r := by
  rcases join_path_head cs with h | ⟨r, h⟩
  · left; rw [h]; rfl
  · right
    rw [h]
    exact ⟨cstr r, by simp [cstr, NUL]⟩

theorem component_len_append (c : List Char) (cs : List (List Char)) (hc : ValidName c) :
    component_len (c ++ join_path cs) = c.length := by
  unfold component_len
  rw [cstr_append_nul_free c _ (fun ch hch => (hc.2.2 ch hch).2)]
  have hc2 : ∀ ch ∈ c, (fun x => decide (x ≠ '/')) ch = true := by
    intro ch hch
    simpa using (hc.2.2 ch hch).1
  rcases cstr_join_path_head cs with h | ⟨r, h⟩
  · rw [h, List.append_nil, List.takeWhile_eq_self_iff.2 hc2]
  · rw [h, List.takeWhile_append_of_pos hc2]
    simp

theorem component_append (c : List Char) (cs : List (List Char)) (hc : ValidName c) :
    component (c ++ join_path cs) = c := by
  unfold component
  rw [component_len_append c cs hc, List.take_left' rfl, List.take_of_length_le]
  exact hc.2.1

theorem advance_append (c : List Char) (cs : List (List Char)) (hc : ValidName c) :
    advance (c ++ join_path cs) = (join_path cs).drop 1 := by
  unfold advance
  rw [component_len_append c cs hc, List.drop_left' rfl]
  cases cs with
  | nil => simp [join_path, charAt, NUL]
  | cons d ds => simp [join_path, charAt]

theorem charAt_valid_ne_nul (c r : List Char) (hc : ValidName c) : charAt (c ++ r) 0 ≠ NUL := by
  cases c with
  | nil => exact absurd rfl hc.1
  | cons a c =>
    simp only [charAt, List.cons_append, List.getD_cons_zero]
    exact (hc.2.2 a (List.mem_cons_self _ _)).2

theorem find_child_neg_iff (s : State) (P : Nat) (name : List Char) :
    find_child s P name < 0 ↔
      ∀ i, i < s.node_count → ¬ ((s.nodes i).type ≠ VfsFileType.UNKNOWN ∧
        (s.nodes i).parent = P ∧ strcmp (s.nodes i).name name = 0) := by
  unfold find_child
  cases hf : (List.range s.node_count).find? (fun i =>
      decide ((s.nodes i).type ≠ VfsFileType.UNKNOWN) && decide ((s.nodes i).parent = P) &&
        decide (strcmp (s.nodes i).name name = 0)) with
  | none =>
    rw [List.find?_range_eq_none] at hf
    simp only [Int.reduceNeg, Int.reduceLT, true_iff]
    intro i hi hp
    have := hf i hi
    simp [hp.1, hp.2.1, hp.2.2] at this
  | some k =>
    rw [List.find?_range_eq_some] at hf
    have hk : k < s.node_count := by simpa using hf.2.1
    have hp := hf.1
    simp only [Bool.and_eq_true, decide_eq_true_eq] at hp
    constructor
    · intro h
      simp only at h
      omega
    · intro h
      exact absurd ⟨hp.1.1, hp.1.2, hp.2⟩ (h k hk)

theorem find_child_eq (s : State) (P : Nat) (name : List Char) (k : Nat)
    (hk : k < s.node_count)
    (hp : (s.nodes k).type ≠ VfsFileType.UNKNOWN ∧ (s.nodes k).parent = P ∧
      strcmp (s.nodes k).name name = 0)
    (hbefore : ∀ i, i < k → ¬ ((s.nodes i).type ≠ VfsFileType.UNKNOWN ∧
        (s.nodes i).parent = P ∧ strcmp (s.nodes i).name name = 0)) :
    find_child s P name = (k : Int) := by
  have hf : (List.range s.node_count).find? (fun i =>
      decide ((s.nodes i).type ≠ VfsFileType.UNKNOWN) && decide ((s.nodes i).parent = P) &&
        decide (strcmp (s.nodes i).name name = 0)) = some k := by
    rw [List.find?_range_eq_some]
    refine ⟨by simp [hp.1, hp.2.1, hp.2.2], by simpa using hk, ?_⟩
    intro j hj
    have := hbefore j hj
    simp only [Bool.not_eq_true', Bool.and_eq_false_iff, decide_eq_false_iff_not]
    by_contra hc
    push_neg at hc
    exact this ⟨hc.1.1, hc.1.2, hc.2⟩
  unfold find_child
  rw [hf]

/-- The component loop of `ensure_dir`, on components none of which exists yet, appends one directory
node per component, each the child of the one before. -/
theorem ensure_dir_loop_chain :
    ∀ (cs : List (List Char)) (s : State) (P fuel : Nat),
      (∀ c ∈ cs, ValidName c) → cs.length + 1 ≤ fuel →
      s.node_count + cs.length ≤ RAMFS_MAX_NODES → P < s.node_count → ParentsInRange s →
      (∀ c, cs.head? = some c → find_child s P c < 0) →
      (ensure_dir_loop fuel s ((join_path cs).drop 1) P).1
        = ((if cs = [] then P else s.node_count + cs.length - 1 : Nat) : Int) ∧
      (ensure_dir_loop fuel s ((join_path cs).drop 1) P).2.node_count
        = s.node_count + cs.length ∧
      (∀ i, i < s.node_count →
        (ensure_dir_loop fuel s ((join_path cs).drop 1) P).2.nodes i = s.nodes i) ∧
      (∀ j, j < cs.length →
        ((ensure_dir_loop fuel s ((join_path cs).drop 1) P).2.nodes (s.node_count + j)).name
          = cs.getD j [] ∧
        ((ensure_dir_loop fuel s ((join_path cs).drop 1) P).2.nodes (s.node_count + j)).parent
          = (if j = 0 then P else s.node_count + j - 1) ∧
        ((ensure_dir_loop fuel s ((join_path cs).drop 1) P).2.nodes (s.node_count + j)).type
          = VfsFileType.DIR) := by
  intro cs
  induction cs with
  | nil =>
    intro s P fuel _ hfuel _ _ _ _
    obtain ⟨f, rfl⟩ : ∃ f, fuel = f + 1 := ⟨fuel - 1, by simp at hfuel; omega⟩
    have h0 : charAt ((join_path []).drop 1) 0 = NUL := by simp [join_path, charAt]
    simp only [ensure_dir_loop, h0, if_true]
    refine ⟨by simp, by simp, fun _ _ => trivial, fun j hj => absurd hj (by simp)⟩
  | cons c cs ih =>
    intro s P fuel hvalid hfuel hroom hP hwf hmiss
    obtain ⟨f, rfl⟩ : ∃ f, fuel = f + 1 := ⟨fuel - 1, by simp at hfuel; omega⟩
    have hc : ValidName c := hvalid c (List.mem_cons_self _ _)
    have hcs : ∀ c' ∈ cs, ValidName c' := fun c' h => hvalid c' (List.mem_cons_of_mem _ h)
    have hbody : (join_path (c :: cs)).drop 1 = c ++ join_path cs := by simp [join_path]
    have hlen : (c :: cs).length = cs.length + 1 := rfl
    rw [hlen] at hroom hfuel
    have hcnt : ¬ s.node_count ≥ RAMFS_MAX_NODES := by omega
    have hfc : find_child s P c < 0 := hmiss c rfl
    have hname : (cstr c).take VFS_NAME_MAX = c := by
      rw [cstr_nul_free c (fun ch hch => (hc.2.2 ch hch).2)]
      exact List.take_of_length_le hc.2.1
    rw [hbody]
    simp only [ensure_dir_loop, if_neg (charAt_valid_ne_nul c _ hc), component_append c cs hc,
      if_pos hfc, alloc_node_ok s hcnt, advance_append c cs hc, hname]
    -- the state after the new directory node has been filled in
    generalize hs2 : setNode
      { setNode s s.node_count zero_node with node_count := s.node_count + 1 } s.node_count
      { ({ setNode s s.node_count zero_node with node_count := s.node_count + 1 }).nodes
          s.node_count with
        name := c, parent := P, type := VfsFileType.DIR,
        permissions := VFS_PERM_READ ||| VFS_PERM_WRITE } = s2
    have h2cnt : s2.node_count = s.node_count + 1 := by rw [← hs2]; rfl
    have h2old : ∀ i, i < s.node_count → s2.nodes i = s.nodes i := by
      intro i hi
      rw [← hs2]
      have : i ≠ s.node_count := by omega
      simp [setNode, this]
    have h2new : (s2.nodes s.node_count).name = c ∧ (s2.nodes s.node_count).parent = P ∧
        (s2.nodes s.node_count).type = VfsFileType.DIR := by
      rw [← hs2]
      simp [setNode]
    have h2wf : ParentsInRange s2 := by
      intro i hi hlive
      rw [h2cnt] at hi ⊢
      by_cases hin : i = s.node_count
      · subst hin
        left
        rw [h2new.2.1]
        omega
      · have hi' : i < s.node_count := by omega
        rw [h2old i hi'] at hlive ⊢
        rcases hwf i hi' hlive with h | h
        · left; omega
        · right; exact h
    have h2miss : ∀ c', cs.head? = some c' → find_child s2 s.node_count c' < 0 := by
      intro c' _
      rw [find_child_neg_iff]
      intro i hi hp
      rw [h2cnt] at hi
      by_cases hin : i = s.node_count
      · subst hin
        rw [h2new.2.1] at hp
        omega
      · have hi' : i < s.node_count := by omega
        rw [h2old i hi'] at hp
        rcases hwf i hi' hp.1 with h | h
        · omega
        · rw [hp.2.1] at h
          omega
    have ih1 := ih s2 s.node_count f hcs (by omega) (by rw [h2cnt]; omega)
      (by rw [h2cnt]; omega) h2wf h2miss
    obtain ⟨r1, r2, r3, r4⟩ := ih1
    refine ⟨?_, ?_, ?_, ?_⟩
    · rw [r1, h2cnt]
      simp only [List.cons_ne_nil, if_false]
      split
      · rename_i hnil
        subst hnil
        simp
      · congr 1
        omega
    · rw [r2, h2cnt]
      omega
    · intro i hi
      rw [r3 i (by rw [h2cnt]; omega), h2old i hi]
    · intro j hj
      cases j with
      | zero =>
        rw [Nat.add_zero, r3 _ (by rw [h2cnt]; omega)]
        simpa using h2new
      | succ j =>
        have hj' : j < cs.length := by simpa using hj
        have := r4 j hj'
        rw [h2cnt] at this
        have e : s.node_count + (j + 1) = s.node_count + 1 + j := by omega
        rw [e]
        refine ⟨by simpa using this.1, ?_, this.2.2⟩
        rw [this.2.1, if_neg (Nat.succ_ne_zero j)]
        split <;> omega

/-- In a state where the nodes `n0 .. n0 + names.length - 1` form a chain hanging
from `P`, each name of the chain is found under its predecessor. -/
theorem chain_find_child (t : State) (n0 P : Nat) (names : List (List Char))
    (hcount : t.node_count = n0 + names.length)
    (h256 : n0 + names.length ≤ RAMFS_MAX_NODES) (hP : P < n0)
    (hold : ∀ i, i < n0 → (t.nodes i).type ≠ VfsFileType.UNKNOWN →
      (t.nodes i).parent < n0 ∨ RAMFS_MAX_NODES ≤ (t.nodes i).parent)
    (hmiss : ∀ i, i < n0 → ¬ ((t.nodes i).type ≠ VfsFileType.UNKNOWN ∧
      (t.nodes i).parent = P ∧ strcmp (t.nodes i).name (names.getD 0 []) = 0))
    (hnew : ∀ j, j < names.length →
      (t.nodes (n0 + j)).name = names.getD j [] ∧
      (t.nodes (n0 + j)).parent = (if j = 0 then P else n0 + j - 1) ∧
      (t.nodes (n0 + j)).type ≠ VfsFileType.UNKNOWN) :
    ∀ j, j < names.length →
      find_child t (if j = 0 then P else n0 + j - 1) (names.getD j [])
        = ((n0 + j : Nat) : Int) := by
  intro j hj
  obtain ⟨hn1, hn2, hn3⟩ := hnew j hj
  apply find_child_eq
  · rw [hcount]; omega
  · refine ⟨hn3, hn2, ?_⟩
    rw [hn1]
    exact strcmp_self _
  · intro i hi hp
    by_cases hin : i < n0
    · by_cases hj0 : j = 0
      · subst hj0
        rw [if_pos rfl] at hp
        exact hmiss i hin hp
      · rw [if_neg hj0] at hp
        rcases hold i hin hp.1 with h | h
        · omega
        · rw [hp.2.1] at h
          omega
    · obtain ⟨j', rfl⟩ : ∃ j', i = n0 + j' := ⟨i - n0, by omega⟩
      have hj' : j' < j := by omega
      have hj0 : j ≠ 0 := by omega
      rw [(hnew j' (by omega)).2.1, if_neg hj0] at hp
      have := hp.2.1
      split at this <;> omega

/-- Walking a chain: the component loop of `find_node` follows the chain link by
link. -/
theorem find_node_loop_chain (t : State) (n0 P : Nat) :
    ∀ (l : List (List Char)) (j fuel : Nat),
      (∀ c ∈ l, ValidName c) → l.length + 1 ≤ fuel →
      (∀ i, i < l.length →
        find_child t (if j + i = 0 then P else n0 + (j + i) - 1) (l.getD i [])
          = ((n0 + (j + i) : Nat) : Int)) →
      find_node_loop t fuel ((join_path l).drop 1) (if j = 0 then P else n0 + j - 1)
        = ((if j + l.length = 0 then P else n0 + (j + l.length) - 1 : Nat) : Int) := by
  intro l
  induction l with
  | nil =>
    intro j fuel _ hfuel _
    obtain ⟨f, rfl⟩ : ∃ f, fuel = f + 1 := ⟨fuel - 1, by simp at hfuel; omega⟩
    have h0 : charAt ((join_path []).drop 1) 0 = NUL := by simp [join_path, charAt]
    simp only [find_node_loop, h0, if_true, List.length_nil, Nat.add_zero]
  | cons c l ih =>
    intro j fuel hvalid hfuel hfind
    obtain ⟨f, rfl⟩ : ∃ f, fuel = f + 1 := ⟨fuel - 1, by simp at hfuel; omega⟩
    have hc : ValidName c := hvalid c (List.mem_cons_self _ _)
    have hl : ∀ c' ∈ l, ValidName c' := fun c' h => hvalid c' (List.mem_cons_of_mem _ h)
    have hbody : (join_path (c :: l)).drop 1 = c ++ join_path l := by simp [join_path]
    have h0 := hfind 0 (by simp)
    simp only [Nat.add_zero, List.getD_cons_zero] at h0
    have hnn : ¬ (((n0 + j : Nat) : Int) < 0) := by omega
    rw [hbody]
    simp only [find_node_loop, if_neg (charAt_valid_ne_nul c _ hc), component_append c l hc,
      h0, if_neg hnn, advance_append c l hc, Int.toNat_ofNat]
    have ih1 := ih (j + 1) f hl (by simp at hfuel; omega) (by
      intro i hi
      have := hfind (i + 1) (by simp; omega)
      simp only [List.getD_cons_succ] at this
      have e : j + (i + 1) = j + 1 + i := by omega
      rw [e] at this
      exact this)
    have e1 : (if j + 1 = 0 then P else n0 + (j + 1) - 1) = n0 + j := by
      rw [if_neg (by omega)]; omega
    rw [e1] at ih1
    rw [ih1]
    have e2 : j + 1 + l.length = j + (c :: l).length := by simp; omega
    rw [e2]

theorem join_path_append (a b : List (List Char)) :
    join_path (a ++ b) = join_path a ++ join_path b := by
  induction a with
  | nil => rfl
  | cons c a ih => simp [join_path, ih]

theorem join_path_length (l : List (List Char)) (h : ∀ c ∈ l, ValidName c) :
    2 * l.length ≤ (join_path l).length := by
  induction l with
  | nil => simp
  | cons c l ih =>
    have hc := h c (List.mem_cons_self _ _)
    have := ih (fun c' hc' => h c' (List.mem_cons_of_mem _ hc'))
    have hpos : 0 < c.length := List.length_pos.2 hc.1
    simp only [join_path, List.length_cons, List.length_append]
    omega

theorem strcmp_join_path_ne (c : List Char) (cs : List (List Char)) (hc : ValidName c) :
    strcmp (join_path (c :: cs)) ['/'] ≠ 0 := by
  cases c with
  | nil => exact absurd rfl hc.1
  | cons a c =>
    have ha : a ≠ NUL := (hc.2.2 a (List.mem_cons_self _ _)).2
    have hs : ('/' : Char) ≠ NUL := by decide
    have := char_toNat_sub_ne_zero a NUL ha
    simp only [join_path, List.cons_append, strcmp, charAt, List.getD_cons_zero, ne_eq, hs,
      not_false_eq_true, and_self, if_true, List.tail_cons, List.getD_nil, ha, false_and,
      if_false, true_and]
    exact this

theorem find_node_join_path (t : State) (l : List (List Char)) (hl : l ≠ [])
    (h : ∀ c ∈ l, ValidName c) :
    find_node t (join_path l) =
      find_node_loop t (((join_path l).drop 1).length + 1) ((join_path l).drop 1) 0 := by
  cases l with
  | nil => exact absurd rfl hl
  | cons c cs =>
    have hc := h c (List.mem_cons_self _ _)
    have h0 : charAt (join_path (c :: cs)) 0 = '/' := by simp [join_path, charAt]
    have h1 : ¬ (charAt (join_path (c :: cs)) 0 = NUL ∨ strcmp (join_path (c :: cs)) ['/'] = 0) := by
      rw [h0]
      intro hh
      rcases hh with hh | hh
      · exact absurd hh (by decide)
      · exact strcmp_join_path_ne c cs hc hh
    unfold find_node
    rw [if_neg h1]
    simp only [h0, if_true]

theorem foldl_last_index (P : Nat → Prop) [DecidablePred P] :
    ∀ n k, k < n → P k → (∀ j, k < j → j < n → ¬ P j) →
      (List.range n).foldl (fun (acc : Option Nat) i => if P i then some i else acc) none
        = some k := by
  intro n
  induction n with
  | zero => intro k hk; omega
  | succ n ih =>
    intro k hk hPk hafter
    rw [List.range_succ, List.foldl_append]
    simp only [List.foldl_cons, List.foldl_nil]
    by_cases hn : k = n
    · subst hn
      rw [if_pos hPk]
    · have hk' : k < n := by omega
      rw [if_neg (hafter n hk' (Nat.lt_succ_self _))]
      exact ih k hk' hPk (fun j h1 h2 => hafter j h1 (by omega))

theorem last_slash_join_path (cs : List (List Char)) (base : List Char)
    (hcs : ∀ c ∈ cs, ValidName c) (hbase : ValidName base) :
    last_slash (join_path (cs ++ [base])) = some (join_path cs).length := by
  have hp : join_path (cs ++ [base]) = join_path cs ++ '/' :: base := by
    rw [join_path_append]
    simp [join_path]
  have hall : ∀ c ∈ cs ++ [base], ValidName c := by
    intro c hc
    rcases List.mem_append.1 hc with h | h
    · exact hcs c h
    · simp only [List.mem_singleton] at h
      subst h
      exact hbase
  unfold last_slash
  rw [cstr_nul_free _ (join_path_nul_free _ hall), hp]
  apply foldl_last_index
  · simp
  · unfold charAt
    rw [List.getD_eq_getElem?_getD, List.getElem?_append_right (Nat.le_refl _)]
    simp
  · intro j hj1 hj2
    simp only [List.length_append, List.length_cons] at hj2
    obtain ⟨i, rfl⟩ : ∃ i, j = (join_path cs).length + 1 + i :=
      ⟨j - ((join_path cs).length + 1), by omega⟩
    have hi : i < base.length := by omega
    have : charAt (join_path cs ++ '/' :: base) ((join_path cs).length + 1 + i) = base[i] := by
      unfold charAt
      rw [List.getD_eq_getElem?_getD, List.getElem?_append_right (by omega)]
      have e : (join_path cs).length + 1 + i - (join_path cs).length = i + 1 := by omega
      rw [e, List.getElem?_cons_succ, List.getElem?_eq_getElem hi]
      rfl
    rw [this]
    exact (hbase.2.2 _ (List.getElem_mem _)).1

theorem dirname_join_path (cs : List (List Char)) (base : List Char)
    (hcs : ∀ c ∈ cs, ValidName c) (hbase : ValidName base)
    (hlen : (join_path (cs ++ [base])).length < 256) :
    vfs_dirname (join_path (cs ++ [base])) [] 256
        = (0, if cs = [] then ['/'] else join_path cs) ∧
    vfs_basename (join_path (cs ++ [base])) = base := by
  have hp : join_path (cs ++ [base]) = join_path cs ++ '/' :: base := by
    rw [join_path_append]
    simp [join_path]
  have hll : (join_path cs).length < 256 := by
    rw [hp] at hlen
    simp only [List.length_append, List.length_cons] at hlen
    omega
  unfold vfs_dirname vfs_basename
  rw [last_slash_join_path cs base hcs hbase]
  constructor
  · simp only
    cases cs with
    | nil => simp [join_path]
    | cons c cs =>
      have hne : ¬ ((join_path (c :: cs)).length = 0) := by simp [join_path]
      rw [if_neg hne, if_neg (by omega), hp]
      simp
  · simp only
    rw [hp, List.drop_append_eq_append_drop]
    simp

theorem ensure_dir_root (s : State) : ensure_dir s ['/'] = (0, s) := by
  have h1 : ¬ (charAt ['/'] 0 = NUL) := by decide
  have h2 : strcmp ((cstr ['/']).take 255) ['/'] = 0 := by decide
  unfold ensure_dir
  rw [if_neg h1]
  simp only [h2, if_true]

theorem ensure_dir_join_path (s : State) (c : List Char) (cs : List (List Char))
    (h : ∀ c' ∈ c :: cs, ValidName c') (hlen : (join_path (c :: cs)).length ≤ 255) :
    ensure_dir s (join_path (c :: cs)) =
      ensure_dir_loop (((join_path (c :: cs)).drop 1).length + 1) s
        ((join_path (c :: cs)).drop 1) 0 := by
  have hc := h c (List.mem_cons_self _ _)
  have h0 : charAt (join_path (c :: cs)) 0 = '/' := by simp [join_path, charAt]
  have h1 : ¬ (charAt (join_path (c :: cs)) 0 = NUL) := by rw [h0]; decide
  have htemp : (cstr (join_path (c :: cs))).take 255 = join_path (c :: cs) := by
    rw [cstr_nul_free _ (join_path_nul_free _ h)]
    exact List.take_of_length_le hlen
  unfold ensure_dir
  rw [if_neg h1]
  simp only [htemp, if_neg (strcmp_join_path_ne c cs hc), h0, if_true]

/-- The directory part of `create_node`: `ensure_dir` on the parent path of a file
whose first path component does not exist appends the chain of directories. -/
theorem ensure_dir_chain (s : State) (cs : List (List Char))
    (hcs : ∀ c ∈ cs, ValidName c) (hlen : (join_path cs).length ≤ 255)
    (hroot : 0 < s.node_count) (hwf : ParentsInRange s)
    (hroom : s.node_count + cs.length ≤ RAMFS_MAX_NODES)
    (hnew : ∀ c, cs.head? = some c → find_child s 0 c < 0) :
    (ensure_dir s (if cs = [] then ['/'] else join_path cs)).1
      = ((if cs = [] then 0 else s.node_count + cs.length - 1 : Nat) : Int) ∧
    (ensure_dir s (if cs = [] then ['/'] else join_path cs)).2.node_count
      = s.node_count + cs.length ∧
    (∀ i, i < s.node_count →
      (ensure_dir s (if cs = [] then ['/'] else join_path cs)).2.nodes i = s.nodes i) ∧
    (∀ j, j < cs.length →
      ((ensure_dir s (if cs = [] then ['/'] else join_path cs)).2.nodes (s.node_count + j)).name
        = cs.getD j [] ∧
      ((ensure_dir s (if cs = [] then ['/'] else join_path cs)).2.nodes
          (s.node_count + j)).parent = (if j = 0 then 0 else s.node_count + j - 1) ∧
      ((ensure_dir s (if cs = [] then ['/'] else join_path cs)).2.nodes (s.node_count + j)).type
        = VfsFileType.DIR) := by
  cases cs with
  | nil =>
    simp only [if_true, ensure_dir_root]
    refine ⟨by simp, by simp, fun _ _ => trivial, fun j hj => absurd hj (by simp)⟩
  | cons c cs =>
    simp only [List.cons_ne_nil, if_false]
    rw [ensure_dir_join_path s c cs hcs hlen]
    have hl := join_path_length (c :: cs) hcs
    have hfuel : (c :: cs).length + 1 ≤ ((join_path (c :: cs)).drop 1).length + 1 := by
      simp only [List.length_drop, List.length_cons] at hl ⊢
      omega
    have := ensure_dir_loop_chain (c :: cs) s 0 _ hcs hfuel hroom hroot hwf hnew
    simpa using this

/-- The effect of `create_node` on a path whose first component does not exist under the root:
the missing directories and the new node are appended as a chain. -/
theorem create_node_chain (s : State) (cs : List (List Char)) (base : List Char)
    (ty : VfsFileType)
    (hcs : ∀ c ∈ cs, ValidName c) (hbase : ValidName base)
    (hlen : (join_path (cs ++ [base])).length < 256)
    (hroot : 0 < s.node_count) (hwf : ParentsInRange s)
    (hroom : s.node_count + cs.length + 1 ≤ RAMFS_MAX_NODES)
    (hnew : find_child s 0 ((cs ++ [base]).getD 0 []) < 0) :
    (create_node s (join_path (cs ++ [base])) ty).1 = ((s.node_count + cs.length : Nat) : Int) ∧
    (create_node s (join_path (cs ++ [base])) ty).2.node_count
      = s.node_count + (cs ++ [base]).length ∧
    (∀ i, i < s.node_count →
      (create_node s (join_path (cs ++ [base])) ty).2.nodes i = s.nodes i) ∧
    (∀ j, j < (cs ++ [base]).length →
      ((create_node s (join_path (cs ++ [base])) ty).2.nodes (s.node_count + j)).name
        = (cs ++ [base]).getD j [] ∧
      ((create_node s (join_path (cs ++ [base])) ty).2.nodes (s.node_count + j)).parent
        = (if j = 0 then 0 else s.node_count + j - 1) ∧
      ((create_node s (join_path (cs ++ [base])) ty).2.nodes (s.node_count + j)).type
        = (if j < cs.length then VfsFileType.DIR else ty)) := by
  have hp : join_path (cs ++ [base]) = join_path cs ++ '/' :: base := by
    rw [join_path_append]
    simp [join_path]
  have hll : (join_path cs).length ≤ 255 := by
    rw [hp] at hlen
    simp only [List.length_append, List.length_cons] at hlen
    omega
  have hhead : ∀ c, cs.head? = some c → find_child s 0 c < 0 := by
    intro c hc
    cases cs with
    | nil => simp at hc
    | cons c' cs' =>
      simp only [List.head?_cons, Option.some.injEq] at hc
      subst hc
      simpa using hnew
  obtain ⟨hd1, hd2⟩ := dirname_join_path cs base hcs hbase hlen
  obtain ⟨e1, e2, e3, e4⟩ := ensure_dir_chain s cs hcs hll hroot hwf (by omega) hhead
  have h0 : ¬ (charAt (join_path (cs ++ [base])) 0 = NUL) := by
    rw [hp]
    cases cs with
    | nil => simp [join_path, charAt, NUL]
    | cons c cs => simp [join_path, charAt, NUL]
  have hd0 : charAt (if cs = [] then ['/'] else join_path cs) 0 ≠ NUL := by
    cases cs with
    | nil => simp [charAt, NUL]
    | cons c cs => simp [join_path, charAt, NUL]
  unfold create_node
  rw [if_neg h0]
  simp only [hd1, hd2, ne_eq, not_true_eq_false, if_false, if_pos hd0]
  generalize ensure_dir s (if cs = [] then ['/'] else join_path cs) = r at e1 e2 e3 e4
  have hr1 : ¬ (r.1 < 0) := by rw [e1]; omega
  have hrn : r.1.toNat = (if cs = [] then 0 else s.node_count + cs.length - 1) := by
    rw [e1]; exact Int.toNat_ofNat _
  have hfc : ¬ (find_child r.2 r.1.toNat base ≥ 0) := by
    have : find_child r.2 r.1.toNat base < 0 := by
      rw [find_child_neg_iff, hrn]
      intro i hi hpred
      rw [e2] at hi
      by_cases hin : i < s.node_count
      · rw [e3 i hin] at hpred
        cases cs with
        | nil =>
          simp only [if_true] at hpred
          have := (find_child_neg_iff s 0 base).1 (by simpa using hnew) i hin
          exact this hpred
        | cons c cs' =>
          simp only [List.cons_ne_nil, if_false, List.length_cons] at hpred
          rcases hwf i hin hpred.1 with h | h
          · omega
          · rw [hpred.2.1] at h
            simp only [List.length_cons] at hroom
            omega
      · obtain ⟨j, rfl⟩ : ∃ j, i = s.node_count + j := ⟨i - s.node_count, by omega⟩
        have hj : j < cs.length := by omega
        have hpar := (e4 j hj).2.1
        have hcsne : cs ≠ [] := by
          intro h; subst h; simp at hj
        rw [if_neg hcsne, hpar] at hpred
        have := hpred.2.1
        split at this <;> omega
    omega
  have hcnt : ¬ r.2.node_count ≥ RAMFS_MAX_NODES := by rw [e2]; omega
  have hname : (cstr base).take VFS_NAME_MAX = base := by
    rw [cstr_nul_free base (fun ch hch => (hbase.2.2 ch hch).2)]
    exact List.take_of_length_le hbase.2.1
  rw [if_neg hr1, if_neg hfc, alloc_node_ok _ hcnt]
  simp only [hname, hrn, e2]
  refine ⟨trivial, ?_, ?_, ?_⟩
  · simp [setNode]; omega
  · intro i hi
    have : i ≠ s.node_count + cs.length := by omega
    simp only [setNode, if_neg this]
    exact e3 i hi
  · intro j hj
    simp only [List.length_append, List.length_singleton] at hj
    by_cases hjl : j < cs.length
    · have : s.node_count + j ≠ s.node_count + cs.length := by omega
      simp only [setNode, if_neg this, if_pos hjl]
      have := e4 j hjl
      refine ⟨?_, this.2.1, this.2.2⟩
      rw [this.1, List.getD_append _ _ _ _ hjl]
    · have hje : j = cs.length := by omega
      subst hje
      simp only [setNode, if_true, lt_self_iff_false, if_false]
      refine ⟨?_, ?_, trivial⟩
      · rw [List.getD_append_right _ _ _ _ (Nat.le_refl _)]
        simp
      · cases cs with
        | nil => simp
        | cons c cs' => simp

/-- The lookup of a path along the chain made by `create_node`. -/
theorem find_node_chain (t : State) (n0 : Nat) (names l : List (List Char))
    (hnames : ∀ c ∈ names, ValidName c)
    (hl : l ≠ []) (hpre : l <+: names)
    (hfind : ∀ j, j < names.length →
      find_child t (if j = 0 then 0 else n0 + j - 1) (names.getD j [])
        = ((n0 + j : Nat) : Int)) :
    find_node t (join_path l) = ((n0 + l.length - 1 : Nat) : Int) := by
  obtain ⟨rest, hrest⟩ := hpre
  have hlv : ∀ c ∈ l, ValidName c := by
    intro c hc
    exact hnames c (by rw [← hrest]; exact List.mem_append_left _ hc)
  have hlen := join_path_length l hlv
  have hlpos : 0 < l.length := List.length_pos.2 hl
  rw [find_node_join_path t l hl hlv]
  have := find_node_loop_chain t n0 0 l 0 (((join_path l).drop 1).length + 1) hlv
    (by simp only [List.length_drop]; omega)
    (by
      intro i hi
      have h1 := hfind i (by rw [← hrest, List.length_append]; omega)
      have h2 : names.getD i [] = l.getD i [] := by
        rw [← hrest, List.getD_append _ _ _ _ hi]
      rw [h2] at h1
      simpa using h1)
  simp only [if_true, Nat.zero_add] at this
  rw [this, if_neg (by omega)]

/-- C7: on a filesystem whose node 0 is the root directory, whose live nodes have
in-range parent fields and which has a free node slot for every component,
creating a file at "/c1/.../ck/base" (components non-empty, free of slash and NUL,
at most 255 characters; path shorter than 256) whose first component does not
exist under the root succeeds, and afterwards the root and every proper ancestor
"/c1/.../cm" are directories and the path itself is a file. -/
theorem create_file_makes_ancestors (s : State) (cs : List (List Char)) (base : List Char)
    (hcs : ∀ c ∈ cs, ValidName c) (hbase : ValidName base)
    (hlen : (join_path (cs ++ [base])).length < 256)
    (hroot : 0 < s.node_count) (hrootdir : (s.nodes 0).type = VfsFileType.DIR)
    (hwf : ParentsInRange s)
    (hroom : s.node_count + cs.length + 1 ≤ RAMFS_MAX_NODES)
    (hnew : find_child s 0 ((cs ++ [base]).getD 0 []) < 0) :
    0 ≤ (ramfs_create_file s (join_path (cs ++ [base]))).1 ∧
    ramfs_isdir (ramfs_create_file s (join_path (cs ++ [base]))).2 ['/'] = true ∧
    (∀ m, 1 ≤ m → m ≤ cs.length →
      ramfs_isdir (ramfs_create_file s (join_path (cs ++ [base]))).2 (join_path (cs.take m))
        = true) ∧
    ramfs_isfile (ramfs_create_file s (join_path (cs ++ [base]))).2 (join_path (cs ++ [base]))
      = true := by
  have hall : ∀ c ∈ cs ++ [base], ValidName c := by
    intro c hc
    rcases List.mem_append.1 hc with h | h
    · exact hcs c h
    · simp only [List.mem_singleton] at h
      subst h
      exact hbase
  have hne : cs ++ [base] ≠ [] := by simp
  -- the path does not resolve before the call
  have hmissing : ¬ (find_node s (join_path (cs ++ [base])) ≥ 0) := by
    rw [find_node_join_path s _ hne hall]
    obtain ⟨c0, rest, hcr⟩ : ∃ c0 rest, cs ++ [base] = c0 :: rest := by
      cases h : cs ++ [base] with
      | nil => exact absurd h hne
      | cons c0 rest => exact ⟨c0, rest, rfl⟩
    rw [hcr] at hnew hall ⊢
    have hc0 := hall c0 (List.mem_cons_self _ _)
    have hbody : (join_path (c0 :: rest)).drop 1 = c0 ++ join_path rest := by simp [join_path]
    have hfc : find_child s 0 c0 < 0 := by simpa using hnew
    rw [hbody]
    simp only [find_node_loop, if_neg (charAt_valid_ne_nul c0 _ hc0), component_append c0 rest hc0,
      if_pos hfc]
    decide
  have hcreate : ramfs_create_file s (join_path (cs ++ [base]))
      = create_node s (join_path (cs ++ [base])) VfsFileType.FILE := by
    unfold ramfs_create_file
    rw [if_neg hmissing]
  obtain ⟨c1, c2, c3, c4⟩ :=
    create_node_chain s cs base VfsFileType.FILE hcs hbase hlen hroot hwf hroom hnew
  rw [hcreate]
  generalize create_node s (join_path (cs ++ [base])) VfsFileType.FILE = r at c1 c2 c3 c4
  have hlen1 : (cs ++ [base]).length = cs.length + 1 := by simp
  have hfind := chain_find_child r.2 s.node_count 0 (cs ++ [base]) c2
    (by rw [hlen1]; omega) hroot
    (by
      intro i hi hlive
      rw [c3 i hi] at hlive ⊢
      exact hwf i hi hlive)
    (by
      intro i hi
      rw [c3 i hi]
      exact (find_child_neg_iff s 0 _).1 hnew i hi)
    (by
      intro j hj
      obtain ⟨h1, h2, h3⟩ := c4 j hj
      refine ⟨h1, h2, ?_⟩
      rw [h3]
      split <;> decide)
  refine ⟨by rw [c1]; omega, ?_, ?_, ?_⟩
  · have hfr : find_node r.2 ['/'] = 0 := by
      have h2 : strcmp ['/'] ['/'] = 0 := by decide
      simp [find_node, h2]
    unfold ramfs_isdir
    rw [hfr, if_neg (by decide)]
    have : (r.2.nodes (0 : Int).toNat).type = VfsFileType.DIR := by
      rw [Int.toNat_zero, c3 0 hroot]
      exact hrootdir
    rw [this]
    rfl
  · intro m hm1 hm2
    have hpre : cs.take m <+: cs ++ [base] :=
      (List.take_prefix m cs).trans (List.prefix_append cs [base])
    have htl : (cs.take m).length = m := by simp [hm2]
    have hne2 : cs.take m ≠ [] := by
      intro h
      rw [h] at htl
      simp at htl
      omega
    have hfn := find_node_chain r.2 s.node_count (cs ++ [base]) (cs.take m) hall hne2 hpre hfind
    rw [htl] at hfn
    unfold ramfs_isdir
    rw [hfn, if_neg (by omega), Int.toNat_ofNat]
    have e : s.node_count + m - 1 = s.node_count + (m - 1) := by omega
    have := (c4 (m - 1) (by rw [hlen1]; omega)).2.2
    rw [if_pos (by omega)] at this
    rw [e, this]
    rfl
  · have hfn := find_node_chain r.2 s.node_count (cs ++ [base]) (cs ++ [base]) hall hne
      (List.prefix_refl _) hfind
    rw [hlen1] at hfn
    unfold ramfs_isfile
    rw [hfn, if_neg (by omega), Int.toNat_ofNat]
    have e : s.node_count + (cs.length + 1) - 1 = s.node_count + cs.length := by omega
    have := (c4 cs.length (by rw [hlen1]; omega)).2.2
    rw [if_neg (by omega)] at this
    rw [e, this]
    rfl

/-- C7 witness: on a fresh filesystem, creating "/a/b/c.txt" succeeds and leaves
"/a" and "/a/b" directories and "/a/b/c.txt" a file. -/
theorem create_file_makes_ancestors_witness :
    0 ≤ (ramfs_create_file (ramfs_init (fun _ => 0)) "/a/b/c.txt".toList).1 ∧
    ramfs_isdir (ramfs_create_file (ramfs_init (fun _ => 0)) "/a/b/c.txt".toList).2
      "/a".toList = true ∧
    ramfs_isdir (ramfs_create_file (ramfs_init (fun _ => 0)) "/a/b/c.txt".toList).2
      "/a/b".toList = true ∧
    ramfs_isfile (ramfs_create_file (ramfs_init (fun _ => 0)) "/a/b/c.txt".toList).2
      "/a/b/c.txt".toList = true :=
  have h := create_file_makes_ancestors (ramfs_init (fun _ => 0)) ["a".toList, "b".toList]
    "c.txt".toList
    (by
      intro c hc
      simp only [List.mem_cons, List.mem_singleton, List.not_mem_nil, or_false] at hc
      rcases hc with rfl | rfl <;> (unfold ValidName; decide))
    (by unfold ValidName; decide) (by decide) (by decide) (by decide)
    (by unfold ParentsInRange; decide) (by decide) (by decide)
  ⟨h.1, h.2.2.1 1 (by decide) (by decide), h.2.2.1 2 (by decide) (by decide), h.2.2.2⟩

/-! ### RAMFS unlink (ramfs.c) -/

/-- The two outcomes of `find_child`: no live node with that parent and name, or the
first one. -/
theorem find_child_cases (s : State) (P : Nat) (name : List Char) :
    (find_child s P name = -1 ∧
      ∀ i, i < s.node_count → ¬ ((s.nodes i).type ≠ VfsFileType.UNKNOWN ∧
        (s.nodes i).parent = P ∧ strcmp (s.nodes i).name name = 0)) ∨
    ∃ k : Nat, find_child s P name = (k : Int) ∧ k < s.node_count ∧
      ((s.nodes k).type ≠ VfsFileType.UNKNOWN ∧ (s.nodes k).parent = P ∧
        strcmp (s.nodes k).name name = 0) ∧
      ∀ i, i < k → ¬ ((s.nodes i).type ≠ VfsFileType.UNKNOWN ∧
        (s.nodes i).parent = P ∧ strcmp (s.nodes i).name name = 0) := by
  unfold find_child
  cases hf : (List.range s.node_count).find? (fun i =>
      decide ((s.nodes i).type ≠ VfsFileType.UNKNOWN) && decide ((s.nodes i).parent = P) &&
        decide (strcmp (s.nodes i).name name = 0)) with
  | none =>
    left
    rw [List.find?_range_eq_none] at hf
    refine ⟨rfl, ?_⟩
    intro i hi hp
    have := hf i hi
    simp [hp.1, hp.2.1, hp.2.2] at this
  | some k =>
    right
    rw [List.find?_range_eq_some] at hf
    have hk : k < s.node_count := by simpa using hf.2.1
    have hp := hf.1
    simp only [Bool.and_eq_true, decide_eq_true_eq] at hp
    refine ⟨k, rfl, hk, ⟨hp.1.1, hp.1.2, hp.2⟩, ?_⟩
    intro i hi hm
    have := hf.2.2 i hi
    simp [hm.1, hm.2.1, hm.2.2] at this

/-- The node table after `ramfs_unlink` has cleared the node `idx`. -/
theorem unlinked_nodes (s : State) (idx i : Nat) (n : RamfsNode) (hi : i ≠ idx) :
    (setNode s idx n).nodes i = s.nodes i := by
  simp [setNode, hi]

theorem find_child_unlinked_other (s : State) (idx P k : Nat) (name : List Char)
    (n : RamfsNode) (hn : n.type = VfsFileType.UNKNOWN)
    (h : find_child s P name = (k : Int)) (hk : k ≠ idx) :
    find_child (setNode s idx n) P name = (k : Int) := by
  rcases find_child_cases s P name with ⟨h1, _⟩ | ⟨k2, h1, h2, h3, h4⟩
  · rw [h1] at h; omega
  · have : k2 = k := by rw [h1] at h; exact_mod_cast h
    subst this
    apply find_child_eq
    · exact h2
    · rw [unlinked_nodes s idx k2 n hk]; exact h3
    · intro i hi hm
      by_cases hii : i = idx
      · subst hii
        apply hm.1
        simp [setNode, hn]
      · rw [unlinked_nodes s idx i n hii] at hm
        exact h4 i hi hm

theorem find_child_unlinked_self (s : State) (idx P : Nat) (name : List Char)
    (n : RamfsNode) (hn : n.type = VfsFileType.UNKNOWN) (huniq : UniqueNames s)
    (h : find_child s P name = (idx : Int)) :
    find_child (setNode s idx n) P name < 0 := by
  rcases find_child_cases s P name with ⟨h1, _⟩ | ⟨k2, h1, h2, h3, _⟩
  · rw [h1] at h; omega
  · have : k2 = idx := by rw [h1] at h; exact_mod_cast h
    subst this
    rw [find_child_neg_iff]
    intro i hi hm
    have hi2 : i < s.node_count := hi
    by_cases hii : i = k2
    · subst hii
      apply hm.1
      simp [setNode, hn]
    · rw [unlinked_nodes s k2 i n hii] at hm
      apply hii
      apply huniq i hi2 k2 h2 hm.1 h3.1 (hm.2.1.trans h3.2.1.symm)
      rw [strcmp_eq_zero_iff] at hm h3 ⊢
      exact hm.2.2.trans h3.2.2.symm

/-- A walk of the component loop that ends at `idx` without starting there fails once
the node `idx` has been cleared. -/
theorem find_node_loop_unlinked (s : State) (idx : Nat) (n : RamfsNode)
    (hn : n.type = VfsFileType.UNKNOWN) (huniq : UniqueNames s) :
    ∀ (fuel : Nat) (p : List Char) (parent : Nat),
      find_node_loop s fuel p parent = (idx : Int) → parent ≠ idx →
      find_node_loop (setNode s idx n) fuel p parent = -1 := by
  intro fuel
  induction fuel with
  | zero => intro p parent _ _; rfl
  | succ f ih =>
    intro p parent h hp
    rw [find_node_loop] at h ⊢
    by_cases h0 : charAt p 0 = NUL
    · rw [if_pos h0] at h
      exact absurd (by exact_mod_cast h) hp
    · rw [if_neg h0] at h
      rw [if_neg h0]
      simp only at h ⊢
      rcases find_child_cases s parent (component p) with ⟨h1, _⟩ | ⟨k, h1, _, _, _⟩
      · rw [h1] at h
        rw [if_pos (by omega)] at h
        omega
      · rw [h1] at h
        rw [if_neg (by omega), Int.toNat_ofNat] at h
        by_cases hk : k = idx
        · subst hk
          rw [if_pos (find_child_unlinked_self s k parent _ n hn huniq h1)]
        · rw [find_child_unlinked_other s idx parent k _ n hn h1 hk, if_neg (by omega),
            Int.toNat_ofNat]
          exact ih _ k h hk

/-- A walk of the component loop ends at the node it started from or at a live node of
the table. -/
theorem find_node_loop_live (s : State) :
    ∀ (fuel : Nat) (p : List Char) (parent r : Nat),
      find_node_loop s fuel p parent = (r : Int) → r ≠ parent →
      r < s.node_count ∧ (s.nodes r).type ≠ VfsFileType.UNKNOWN := by
  intro fuel
  induction fuel with
  | zero =>
    intro p parent r h _
    rw [find_node_loop] at h
    omega
  | succ f ih =>
    intro p parent r h hr
    rw [find_node_loop] at h
    by_cases h0 : charAt p 0 = NUL
    · rw [if_pos h0] at h
      exact absurd (by exact_mod_cast h.symm) hr
    · rw [if_neg h0] at h
      simp only at h
      rcases find_child_cases s parent (component p) with ⟨h1, _⟩ | ⟨k, h1, h2, h3, _⟩
      · rw [h1] at h
        rw [if_pos (by omega)] at h
        omega
      · rw [h1] at h
        rw [if_neg (by omega), Int.toNat_ofNat] at h
        by_cases hk : r = k
        · subst hk; exact ⟨h2, h3.1⟩
        · exact ih _ k r h hk

/-- A path that resolves to a node other than the root is walked by the component
loop from the root. -/
theorem find_node_pos (s : State) (path : List Char) (idx : Nat)
    (h : find_node s path = (idx : Int)) (hpos : 0 < idx) :
    ∃ fuel p, find_node_loop s fuel p 0 = (idx : Int) ∧
      ∀ t : State, find_node t path = find_node_loop t fuel p 0 := by
  unfold find_node at h
  by_cases h0 : charAt path 0 = NUL ∨ strcmp path ['/'] = 0
  · rw [if_pos h0] at h
    omega
  · rw [if_neg h0] at h
    refine ⟨_, _, h, ?_⟩
    intro t
    unfold find_node
    rw [if_neg h0]

theorem any_child_iff (s : State) (idx : Nat) :
    (List.range s.node_count).any (fun i =>
      decide ((s.nodes i).type ≠ VfsFileType.UNKNOWN) && decide ((s.nodes i).parent = idx))
      = true ↔ HasLiveChild s idx := by
  rw [List.any_eq_true]
  constructor
  · rintro ⟨i, hi, hp⟩
    simp only [Bool.and_eq_true, decide_eq_true_eq] at hp
    exact ⟨i, List.mem_range.1 hi, hp.1, hp.2⟩
  · rintro ⟨i, hi, h1, h2⟩
    exact ⟨i, List.mem_range.2 hi, by simp [h1, h2]⟩

/-- The two outcomes of `ramfs_unlink`. -/
theorem ramfs_unlink_cases (s : State) (path : List Char) :
    ((find_node s path ≤ 0 ∨
        ((s.nodes (find_node s path).toNat).type = VfsFileType.DIR ∧
          HasLiveChild s (find_node s path).toNat)) ∧
      ramfs_unlink s path = (-1, s)) ∨
    ((0 < find_node s path ∧
        ¬ ((s.nodes (find_node s path).toNat).type = VfsFileType.DIR ∧
          HasLiveChild s (find_node s path).toNat)) ∧
      ramfs_unlink s path =
        (0, setNode s (find_node s path).toNat
          { s.nodes (find_node s path).toNat with
            type := VfsFileType.UNKNOWN, name := [], size := 0, capacity := 0,
            data_offset := 0 })) := by
  unfold ramfs_unlink
  by_cases h0 : find_node s path ≤ 0
  · left; rw [if_pos h0]; exact ⟨Or.inl h0, rfl⟩
  · rw [if_neg h0]
    simp only
    by_cases h1 : (s.nodes (find_node s path).toNat).type = VfsFileType.DIR ∧
        (List.range s.node_count).any (fun i =>
          decide ((s.nodes i).type ≠ VfsFileType.UNKNOWN) &&
            decide ((s.nodes i).parent = (find_node s path).toNat)) = true
    · left
      rw [if_pos h1]
      exact ⟨Or.inr ⟨h1.1, (any_child_iff s _).1 h1.2⟩, rfl⟩
    · right
      rw [if_neg h1]
      refine ⟨⟨by omega, ?_⟩, rfl⟩
      rintro ⟨h2, h3⟩
      exact h1 ⟨h2, (any_child_iff s _).2 h3⟩

set_option maxRecDepth 100000 in
/-- What `ramfs_unlink` guarantees on a well-formed node table, one whose nodes are
files, directories or unused and whose live siblings have different names: it
returns 0 exactly when the path resolves to a live node other than the root that is a
file or a directory without live children; after a successful call the path no
longer resolves; a failed call returns -1 and leaves the state unchanged. After
`create("/a/b/c.txt")`, `unlink("/a/b")` fails while `unlink("/a/b/c.txt")` succeeds
and `unlink("/a/b")` succeeds after it. -/
theorem ramfs_unlink_contract (s : State) (path : List Char)
    (htypes : FilesAndDirs s) (huniq : UniqueNames s) :
    ((ramfs_unlink s path).1 = 0 ↔
      ∃ idx : Nat, find_node s path = (idx : Int) ∧ 0 < idx ∧ idx < s.node_count ∧
        (s.nodes idx).type ≠ VfsFileType.UNKNOWN ∧
        ((s.nodes idx).type = VfsFileType.FILE ∨
          ((s.nodes idx).type = VfsFileType.DIR ∧ ¬ HasLiveChild s idx))) ∧
    ((ramfs_unlink s path).1 = 0 → find_node (ramfs_unlink s path).2 path < 0) ∧
    ((ramfs_unlink s path).1 ≠ 0 → ramfs_unlink s path = (-1, s)) ∧
    ((ramfs_unlink abcState "/a/b".toList).1 = -1 ∧
      0 ≤ find_node abcState "/a/b/c.txt".toList ∧
      (ramfs_unlink abcState "/a/b/c.txt".toList).1 = 0 ∧
      (ramfs_unlink (ramfs_unlink abcState "/a/b/c.txt".toList).2 "/a/b".toList).1 = 0 ∧
      (ramfs_unlink abcState "/".toList).1 = -1) := by
  refine ⟨?_, ?_, ?_, by decide⟩
  · rcases ramfs_unlink_cases s path with ⟨hc, h⟩ | ⟨⟨hpos, hc⟩, h⟩
    · rw [h]
      simp only [Int.reduceNeg, Int.reduceEq, false_iff, not_exists, not_and]
      intro idx hidx hp _ _ hty
      rw [hidx] at hc
      rw [Int.toNat_ofNat] at hc
      rcases hc with hc | ⟨hd, hch⟩
      · omega
      · rcases hty with hf | ⟨_, hn⟩
        · rw [hf] at hd; cases hd
        · exact hn hch
    · rw [h]
      simp only [true_iff]
      obtain ⟨idx, hidx⟩ : ∃ idx : Nat, find_node s path = (idx : Int) :=
        ⟨(find_node s path).toNat, by omega⟩
      rw [hidx] at hpos hc
      rw [Int.toNat_ofNat] at hc
      have hp : 0 < idx := by exact_mod_cast hpos
      obtain ⟨fuel, p, hloop, _⟩ := find_node_pos s path idx hidx hp
      obtain ⟨hlt, hlive⟩ := find_node_loop_live s fuel p 0 idx hloop (by omega)
      refine ⟨idx, hidx, hp, hlt, hlive, ?_⟩
      rcases htypes idx hlt with ht | ht | ht
      · exact absurd ht hlive
      · exact Or.inl ht
      · exact Or.inr ⟨ht, fun hch => hc ⟨ht, hch⟩⟩
  · rcases ramfs_unlink_cases s path with ⟨_, h⟩ | ⟨⟨hpos, _⟩, h⟩
    · rw [h]; intro h0; cases h0
    · rw [h]
      intro _
      obtain ⟨idx, hidx⟩ : ∃ idx : Nat, find_node s path = (idx : Int) :=
        ⟨(find_node s path).toNat, by omega⟩
      rw [hidx] at hpos
      rw [hidx, Int.toNat_ofNat]
      have hp : 0 < idx := by exact_mod_cast hpos
      obtain ⟨fuel, p, hloop, hall⟩ := find_node_pos s path idx hidx hp
      show find_node (setNode s idx _) path < 0
      rw [hall, find_node_loop_unlinked s idx _ rfl huniq fuel p 0 hloop (by omega)]
      decide
  · rcases ramfs_unlink_cases s path with ⟨_, h⟩ | ⟨_, h⟩
    · intro _; exact h
    · rw [h]; intro hne; exact absurd rfl hne

set_option maxRecDepth 100000 in
/-- The example filesystem is well formed. -/
theorem abcState_wf : FilesAndDirs abcState ∧ UniqueNames abcState := by
  have h : ∀ i, i < abcState.node_count → ∀ j, j < abcState.node_count →
      ((abcState.nodes i).type ≠ VfsFileType.UNKNOWN ∧
        (abcState.nodes j).type ≠ VfsFileType.UNKNOWN ∧
        (abcState.nodes i).parent = (abcState.nodes j).parent ∧
        strcmp (abcState.nodes i).name (abcState.nodes j).name = 0) → i = j := by
    decide
  exact ⟨by unfold FilesAndDirs; decide, fun i hi j hj a b c d => h i hi j hj ⟨a, b, c, d⟩⟩

set_option maxRecDepth 100000 in
/-- The unlink contract at work: after `create("/a/b/c.txt")` on a fresh filesystem,
a well-formed state, `unlink("/a/b/c.txt")` succeeds and the path no longer
resolves. -/
theorem ramfs_unlink_contract_witness :
    find_node (ramfs_unlink abcState "/a/b/c.txt".toList).2 "/a/b/c.txt".toList < 0 :=
  (ramfs_unlink_contract abcState "/a/b/c.txt".toList abcState_wf.1 abcState_wf.2).2.1
    (by decide)

set_option maxRecDepth 1000000 in
/-- Names longer than the name field: `ramfs_rename` checks the destination with the
whole name and stores 255 characters of it. With a path of 257 characters, more
than a 256-byte path buffer holds, this makes two live files of one name: after
`create("/b")`, `create` of the path with 255 letters and `rename("/b", ...)` to the
path with 256 letters, `unlink` of the 255-letter path returns 0, clearing node 1,
and the same path still resolves afterwards, to node 2. -/
theorem long_name_twin_still_resolves :
    (ramfs_create_file (ramfs_init (fun _ => 0)) "/b".toList).1 = 1 ∧
    (ramfs_create_file (ramfs_create_file (ramfs_init (fun _ => 0)) "/b".toList).2
      (xPath 255)).1 = 2 ∧
    (ramfs_rename
      (ramfs_create_file (ramfs_create_file (ramfs_init (fun _ => 0)) "/b".toList).2
        (xPath 255)).2
      "/b".toList (xPath 256)).1 = 0 ∧
    find_node twinState (xPath 255) = 1 ∧
    (ramfs_unlink twinState (xPath 255)).1 = 0 ∧
    find_node (ramfs_unlink twinState (xPath 255)).2 (xPath 255) = 2 := by
  decide

end Ramfs

namespace Driver

/-! ### The driver lifecycle (driver.c) -/

/-! #### The DISABLED state -/

theorem driver_start_disabled {ε : Type} (now : Nat) (R : Registry ε) (e : ε) (drv : Nat)
    (h : (R.mem drv).state = DriverState.DISABLED) : driver_start now R e drv = (-1, R, e) := by
  unfold driver_start
  by_cases h0 : drv = 0
  · rw [if_pos h0]
  · rw [if_neg h0, if_neg (by rw [h]; decide), if_pos h]

theorem driver_stop_disabled {ε : Type} (R : Registry ε) (e : ε) (drv : Nat)
    (h : (R.mem drv).state = DriverState.DISABLED) : driver_stop R e drv = (0, R, e) ∨
      driver_stop R e drv = (-1, R, e) := by
  unfold driver_stop
  by_cases h0 : drv = 0
  · rw [if_pos h0]; exact Or.inr rfl
  · rw [if_neg h0]
    simp only
    rw [if_pos (by rw [h]; decide)]
    exact Or.inl rfl

theorem driver_report_error_disabled {ε : Type} (now : Nat) (R : Registry ε) (e : ε) (drv : Nat)
    (h : (R.mem drv).state = DriverState.DISABLED) :
    ((driver_report_error now R e drv).1.mem drv).state = DriverState.DISABLED := by
  unfold driver_report_error
  by_cases h0 : drv = 0
  · rw [if_pos h0]; exact h
  · rw [if_neg h0]
    simp only
    split
    · simp [setDrv]
    · simp [setDrv, h]

/-- Interrupt dispatch leaves the state of every driver as it was. -/
theorem dispatch_loop_state {ε : Type} (R : Registry ε) (irq : Nat) (a : Nat) :
    ∀ (l : List Nat) (e : ε), ((dispatch_loop R irq l e).2.1.mem a).state = (R.mem a).state := by
  intro l
  induction l with
  | nil => intro e; rfl
  | cons x l ih =>
    intro e
    rw [dispatch_loop_cons]
    by_cases h : (offer R irq e x).1 = true
    · rw [if_pos h]
      by_cases hax : a = x
      · subst hax; simp [setDrv]
      · simp [setDrv, hax]
    · rw [if_neg h]; exact ih _

theorem offer_disabled {ε : Type} (R : Registry ε) (irq : Nat) (e : ε) (drv : Nat)
    (h : (R.mem drv).state = DriverState.DISABLED) : offer R irq e drv = (false, e) := by
  unfold offer
  rw [if_pos (Or.inr (by rw [h]; decide))]

theorem probe_fold_disabled {ε : Type} (ticks : Nat → Nat) (drv : Nat) :
    ∀ (l : List Nat) (s : Registry ε × ε), (s.1.mem drv).state = DriverState.DISABLED →
      ((l.foldl (fun (s : Registry ε × ε) x =>
        if (s.1.mem x).state = DriverState.REGISTERED then
          ((driver_start (ticks x) s.1 s.2 x).2.1, (driver_start (ticks x) s.1 s.2 x).2.2)
        else s) s).1.mem drv).state = DriverState.DISABLED := by
  intro l
  induction l with
  | nil => intro s h; exact h
  | cons x l ih =>
    intro s h
    simp only [List.foldl_cons]
    by_cases hx : (s.1.mem x).state = DriverState.REGISTERED
    · rw [if_pos hx]
      apply ih
      have hne : drv ≠ x := by
        intro hh; rw [hh, hx] at h; cases h
      show (((driver_start (ticks x) s.1 s.2 x).2.1).mem drv).state = _
      rw [(driver_start_touch (ticks x) s.1 s.2 x).mem_other drv hne]
      exact h
    · rw [if_neg hx]; exact ih s h

theorem lifecycle_step_disabled {ε : Type} (s : Registry ε × ε) (drv : Nat) (op : LifecycleOp)
    (h : (s.1.mem drv).state = DriverState.DISABLED) :
    ((lifecycle_step s op).1.mem drv).state = DriverState.DISABLED := by
  cases op with
  | start now d =>
    show (((driver_start now s.1 s.2 d).2.1).mem drv).state = _
    by_cases hd : drv = d
    · subst hd; rw [driver_start_disabled now s.1 s.2 drv h]; exact h
    · rw [(driver_start_touch now s.1 s.2 d).mem_other drv hd]; exact h
  | stop d =>
    show (((driver_stop s.1 s.2 d).2.1).mem drv).state = _
    by_cases hd : drv = d
    · subst hd
      rcases driver_stop_disabled s.1 s.2 drv h with h1 | h1 <;> rw [h1] <;> exact h
    · rw [(driver_stop_touch s.1 s.2 d).mem_other drv hd]; exact h
  | probe_all ticks => exact probe_fold_disabled ticks drv s.1.driver_list (s.1, s.2) h
  | report_error now d =>
    show (((driver_report_error now s.1 s.2 d).1).mem drv).state = _
    by_cases hd : drv = d
    · subst hd; exact driver_report_error_disabled now s.1 s.2 drv h
    · rw [(driver_report_error_touch now s.1 s.2 d).mem_other drv hd]; exact h
  | clear_errors d =>
    show ((driver_clear_errors s.1 d).mem drv).state = _
    unfold driver_clear_errors
    by_cases h0 : d = 0
    · rw [if_pos h0]; exact h
    · rw [if_neg h0]
      by_cases hd : drv = d
      · subst hd; simp [setDrv, h]
      · simp [setDrv, hd, h]
  | dispatch irq =>
    show (((driver_dispatch_irq s.1 s.2 irq).2.1).mem drv).state = _
    rw [driver_dispatch_irq, dispatch_loop_state]
    exact h

theorem lifecycle_run_disabled {ε : Type} (drv : Nat) :
    ∀ (ops : List LifecycleOp) (s : Registry ε × ε),
      (s.1.mem drv).state = DriverState.DISABLED →
      ((lifecycle_run ops s).1.mem drv).state = DriverState.DISABLED := by
  intro ops
  induction ops with
  | nil => intro s h; exact h
  | cons op ops ih =>
    intro s h
    exact ih _ (lifecycle_step_disabled s drv op h)

/-- C22: a driver that is DISABLED is DISABLED after every sequence of `driver_start`,
`driver_stop`, `driver_probe_all`, `driver_report_error`, `driver_clear_errors` and
`driver_dispatch_irq` calls, on it or on other drivers; at every such point
`driver_start` on it returns -1 with the registry and the world untouched (neither
probe nor init runs), and the dispatch loop passes over it without invoking its
handler. -/
theorem disabled_is_terminal {ε : Type} (R : Registry ε) (e : ε) (drv : Nat)
    (ops : List LifecycleOp) (hdis : (R.mem drv).state = DriverState.DISABLED) :
    ((lifecycle_run ops (R, e)).1.mem drv).state = DriverState.DISABLED ∧
    (∀ now e2, driver_start now (lifecycle_run ops (R, e)).1 e2 drv
      = (-1, (lifecycle_run ops (R, e)).1, e2)) ∧
    (∀ irq e2, offer (lifecycle_run ops (R, e)).1 irq e2 drv = (false, e2)) ∧
    (∀ irq rest e2, dispatch_loop (lifecycle_run ops (R, e)).1 irq (drv :: rest) e2
      = dispatch_loop (lifecycle_run ops (R, e)).1 irq rest e2) := by
  have h := lifecycle_run_disabled drv ops (R, e) hdis
  refine ⟨h, fun now e2 => driver_start_disabled now _ e2 drv h,
    fun irq e2 => offer_disabled _ irq e2 drv h, ?_⟩
  intro irq rest e2
  rw [dispatch_loop_cons, offer_disabled _ irq e2 drv h]
  simp

set_option maxRecDepth 100000 in
/-- C22 witness: one call of each operation on a DISABLED driver with every callback,
installed on every interrupt line, leaves it DISABLED and runs none of its callbacks. -/
theorem disabled_is_terminal_witness :
    (disabledRegistry.mem 1).state = DriverState.DISABLED ∧
    ((lifecycle_run
      [LifecycleOp.start 5 1, LifecycleOp.stop 1, LifecycleOp.probe_all (fun _ => 6),
        LifecycleOp.report_error 7 1, LifecycleOp.clear_errors 1, LifecycleOp.dispatch 3]
      (disabledRegistry, [])).1.mem 1).state = DriverState.DISABLED ∧
    (lifecycle_run
      [LifecycleOp.start 5 1, LifecycleOp.stop 1, LifecycleOp.probe_all (fun _ => 6),
        LifecycleOp.report_error 7 1, LifecycleOp.clear_errors 1, LifecycleOp.dispatch 3]
      (disabledRegistry, [])).2 = [] :=
  ⟨by decide,
    (disabled_is_terminal disabledRegistry [] 1
      [LifecycleOp.start 5 1, LifecycleOp.stop 1, LifecycleOp.probe_all (fun _ => 6),
        LifecycleOp.report_error 7 1, LifecycleOp.clear_errors 1, LifecycleOp.dispatch 3]
      (by decide)).1,
    by decide⟩

/-! #### Starting a REGISTERED driver -/

theorem driver_start_declined {ε : Type} (now : Nat) (R : Registry ε) (e : ε) (drv : Nat)
    (h0 : drv ≠ 0) (hreg : (R.mem drv).state = DriverState.REGISTERED)
    (hp : (probe_phase (R.mem drv) e).1 = false) :
    driver_start now R e drv =
      (-1, setDrv R drv { R.mem drv with state := DriverState.REGISTERED },
        (probe_phase (R.mem drv) e).2) := by
  unfold driver_start
  rw [if_neg h0, if_neg (by rw [hreg]; decide), if_neg (by rw [hreg]; decide), if_pos hp]

theorem driver_start_ready {ε : Type} (now : Nat) (R : Registry ε) (e : ε) (drv : Nat)
    (h0 : drv ≠ 0) (hreg : (R.mem drv).state = DriverState.REGISTERED)
    (hp : (probe_phase (R.mem drv) e).1 = true)
    (hi : (init_phase (R.mem drv) (probe_phase (R.mem drv) e).2).1 = 0) :
    driver_start now R e drv =
      (0, setDrv R drv { R.mem drv with state := DriverState.READY },
        (init_phase (R.mem drv) (probe_phase (R.mem drv) e).2).2) := by
  unfold driver_start
  rw [if_neg h0, if_neg (by rw [hreg]; decide), if_neg (by rw [hreg]; decide),
    if_neg (by rw [hp]; decide), if_neg (by simp [hi])]

theorem driver_start_init_failed {ε : Type} (now : Nat) (R : Registry ε) (e : ε) (drv : Nat)
    (h0 : drv ≠ 0) (hreg : (R.mem drv).state = DriverState.REGISTERED)
    (hp : (probe_phase (R.mem drv) e).1 = true)
    (hi : (init_phase (R.mem drv) (probe_phase (R.mem drv) e).2).1 ≠ 0) :
    driver_start now R e drv =
      ((init_phase (R.mem drv) (probe_phase (R.mem drv) e).2).1,
        driver_report_error now (setDrv R drv { R.mem drv with state := DriverState.ERROR })
          (init_phase (R.mem drv) (probe_phase (R.mem drv) e).2).2 drv) := by
  unfold driver_start
  rw [if_neg h0, if_neg (by rw [hreg]; decide), if_neg (by rw [hreg]; decide),
    if_neg (by rw [hp]; decide), if_pos hi]

/-- An error report on a driver in ERROR state: the count goes up by one; the driver
stays in ERROR when it is critical or the new count is below the threshold, and is
DISABLED otherwise. -/
theorem driver_report_error_in_error {ε : Type} (now : Nat) (R : Registry ε) (e : ε)
    (drv : Nat) (h0 : drv ≠ 0) (hst : (R.mem drv).state = DriverState.ERROR) :
    ((driver_report_error now R e drv).1.mem drv).error_count
      = ((R.mem drv).error_count + 1) % 2 ^ 64 ∧
    (((R.mem drv).flags &&& DRIVER_FLAG_CRITICAL ≠ 0 ∨
        ((R.mem drv).error_count + 1) % 2 ^ 64 < DRIVER_ERROR_THRESHOLD) →
      ((driver_report_error now R e drv).1.mem drv).state = DriverState.ERROR ∧
      (driver_report_error now R e drv).2 = e) ∧
    (((R.mem drv).flags &&& DRIVER_FLAG_CRITICAL = 0 ∧
        DRIVER_ERROR_THRESHOLD ≤ ((R.mem drv).error_count + 1) % 2 ^ 64) →
      ((driver_report_error now R e drv).1.mem drv).state = DriverState.DISABLED) := by
  unfold driver_report_error
  rw [if_neg h0]
  simp only
  by_cases hc : (R.mem drv).flags &&& DRIVER_FLAG_CRITICAL = 0 ∧
      ((R.mem drv).error_count + 1) % 2 ^ 64 ≥ DRIVER_ERROR_THRESHOLD
  · rw [if_pos hc]
    refine ⟨?_, ?_, ?_⟩
    · simp [driver_stop, h0, setDrv, hst]
    · intro h
      rcases h with h | h
      · exact absurd hc.1 h
      · exact absurd hc.2 (by omega)
    · intro _
      simp [setDrv]
  · rw [if_neg hc]
    refine ⟨by simp [setDrv], ?_, ?_⟩
    · intro _
      exact ⟨by simp [setDrv, hst], rfl⟩
    · intro h
      exact absurd h hc

/-- C25 (as amended): `driver_start` on a REGISTERED driver. When the probe declines
it returns -1 and the driver is REGISTERED with its error count unchanged. When the
probe accepts (or is absent) and init returns 0 (or is absent) it returns 0 and the
driver is READY. When init returns a non-zero code it returns that code and the error
count has gone up by one (modulo 2^64); the driver is then in ERROR if it is critical
or the new count is below 10, and DISABLED if it is non-critical and the new count has
reached 10. -/
theorem driver_start_registered {ε : Type} (now : Nat) (R : Registry ε) (e : ε) (drv : Nat)
    (h0 : drv ≠ 0) (hreg : (R.mem drv).state = DriverState.REGISTERED) :
    ((probe_phase (R.mem drv) e).1 = false →
      (driver_start now R e drv).1 = -1 ∧
      ((driver_start now R e drv).2.1.mem drv).state = DriverState.REGISTERED ∧
      ((driver_start now R e drv).2.1.mem drv).error_count = (R.mem drv).error_count) ∧
    ((probe_phase (R.mem drv) e).1 = true →
      (init_phase (R.mem drv) (probe_phase (R.mem drv) e).2).1 = 0 →
      (driver_start now R e drv).1 = 0 ∧
      ((driver_start now R e drv).2.1.mem drv).state = DriverState.READY ∧
      ((driver_start now R e drv).2.1.mem drv).error_count = (R.mem drv).error_count) ∧
    ((probe_phase (R.mem drv) e).1 = true →
      (init_phase (R.mem drv) (probe_phase (R.mem drv) e).2).1 ≠ 0 →
      (driver_start now R e drv).1 = (init_phase (R.mem drv) (probe_phase (R.mem drv) e).2).1 ∧
      ((driver_start now R e drv).2.1.mem drv).error_count
        = ((R.mem drv).error_count + 1) % 2 ^ 64 ∧
      (((R.mem drv).flags &&& DRIVER_FLAG_CRITICAL ≠ 0 ∨
          ((R.mem drv).error_count + 1) % 2 ^ 64 < DRIVER_ERROR_THRESHOLD) →
        ((driver_start now R e drv).2.1.mem drv).state = DriverState.ERROR) ∧
      (((R.mem drv).flags &&& DRIVER_FLAG_CRITICAL = 0 ∧
          DRIVER_ERROR_THRESHOLD ≤ ((R.mem drv).error_count + 1) % 2 ^ 64) →
        ((driver_start now R e drv).2.1.mem drv).state = DriverState.DISABLED)) := by
  refine ⟨fun hp => ?_, fun hp hi => ?_, fun hp hi => ?_⟩
  · rw [driver_start_declined now R e drv h0 hreg hp]
    simp [setDrv]
  · rw [driver_start_ready now R e drv h0 hreg hp hi]
    simp [setDrv]
  · rw [driver_start_init_failed now R e drv h0 hreg hp hi]
    have h := driver_report_error_in_error now
      (setDrv R drv { R.mem drv with state := DriverState.ERROR })
      (init_phase (R.mem drv) (probe_phase (R.mem drv) e).2).2 drv h0 (by simp [setDrv])
    have hE : ((setDrv R drv { R.mem drv with state := DriverState.ERROR }).mem drv).error_count
        = (R.mem drv).error_count := by simp [setDrv]
    have hF : ((setDrv R drv { R.mem drv with state := DriverState.ERROR }).mem drv).flags
        = (R.mem drv).flags := by simp [setDrv]
    rw [hE, hF] at h
    exact ⟨rfl, h.1, fun hc => (h.2.1 hc).1, h.2.2⟩

set_option maxRecDepth 100000 in
/-- C25 witness: a REGISTERED driver with no recorded error whose init returns -5 ends
in ERROR with one error, and `driver_start` returns -5. -/
theorem driver_start_registered_witness :
    (1 ≠ 0 ∧ ((initRegistry 0 0 (-5)).mem 1).state = DriverState.REGISTERED) ∧
    (driver_start 7 (initRegistry 0 0 (-5)) [] 1).1 = -5 ∧
    ((driver_start 7 (initRegistry 0 0 (-5)) [] 1).2.1.mem 1).error_count = 1 ∧
    ((driver_start 7 (initRegistry 0 0 (-5)) [] 1).2.1.mem 1).state = DriverState.ERROR :=
  ⟨⟨by decide, by decide⟩,
    ((driver_start_registered 7 (initRegistry 0 0 (-5)) [] 1 (by decide) (by decide)).2.2
      (by decide) (by decide)).1,
    ((driver_start_registered 7 (initRegistry 0 0 (-5)) [] 1 (by decide) (by decide)).2.2
      (by decide) (by decide)).2.1,
    ((driver_start_registered 7 (initRegistry 0 0 (-5)) [] 1 (by decide) (by decide)).2.2
      (by decide) (by decide)).2.2.1 (Or.inr (by decide))⟩

set_option maxRecDepth 100000 in
/-- C25 counterexample: a REGISTERED non-critical driver with 9 recorded errors whose
probe accepts and whose init returns -5. `driver_start` returns -5 and the count
becomes 10, but the driver ends DISABLED, not in ERROR, after its shutdown callback
has run. -/
theorem driver_start_init_failure_disables :
    ((initRegistry 0 9 (-5)).mem 1).state = DriverState.REGISTERED ∧
    (probe_phase ((initRegistry 0 9 (-5)).mem 1) []).1 = true ∧
    (init_phase ((initRegistry 0 9 (-5)).mem 1) [1]).1 = -5 ∧
    (driver_start 7 (initRegistry 0 9 (-5)) [] 1).1 = -5 ∧
    ((driver_start 7 (initRegistry 0 9 (-5)) [] 1).2.1.mem 1).error_count = 10 ∧
    ((driver_start 7 (initRegistry 0 9 (-5)) [] 1).2.1.mem 1).state = DriverState.DISABLED ∧
    ((driver_start 7 (initRegistry 0 9 (-5)) [] 1).2.1.mem 1).state ≠ DriverState.ERROR ∧
    (driver_start 7 (initRegistry 0 9 (-5)) [] 1).2.2 = [1, 2, 99] := by
  refine ⟨by decide, by decide, by decide, by decide, by decide, by decide, by decide, by decide⟩

end Driver

namespace Vfs

/-! ### The handle pools (vfs.c) -/

theorem alloc_file_full {β : Type} (v : State β)
    (h : ∀ i, i < MAX_OPEN_FILES → v.file_used i = true) : alloc_file v = (none, v) := by
  unfold alloc_file
  have : (List.range MAX_OPEN_FILES).find? (fun i => !v.file_used i) = none := by
    rw [List.find?_eq_none]
    intro i hi
    simp [h i (List.mem_range.1 hi)]
  rw [this]

theorem alloc_dir_full {β : Type} (v : State β)
    (h : ∀ i, i < MAX_OPEN_DIRS → v.dir_used i = true) : alloc_dir v = (none, v) := by
  unfold alloc_dir
  have : (List.range MAX_OPEN_DIRS).find? (fun i => !v.dir_used i) = none := by
    rw [List.find?_eq_none]
    intro i hi
    simp [h i (List.mem_range.1 hi)]
  rw [this]

/-- C23 (as amended): when all 32 file handles are in use `vfs_open` returns NULL and
leaves the VFS state as it was, and when the backend finds nothing it returns NULL as
well; if the backend did open the file, the backend handle is closed again. The same
holds for `vfs_opendir` and the 16 directory handles. -/
theorem vfs_pool_exhausted_returns_null {β : Type} (v : State β) (b : β) (path : List Char)
    (mode : Nat) :
    ((∀ i, i < MAX_OPEN_FILES → v.file_used i = true) →
      (vfs_open v b path mode).1 = none ∧ (vfs_open v b path mode).2.1 = v ∧
      ∀ mi mount fs_open fs_close file, find_mount v.mounts path = some mi →
        v.mounts[mi]? = some mount →
        ¬ (mount.readonly ∧ mode &&& (VFS_O_WRITE ||| VFS_O_CREATE ||| VFS_O_TRUNC) ≠ 0) →
        mount.ops.open_ = some fs_open → mount.ops.close = some fs_close →
        (fs_open b (get_relative_path mount.path path) mode).1 = some file →
        (vfs_open v b path mode).2.2
          = fs_close (fs_open b (get_relative_path mount.path path) mode).2 file) ∧
    (∀ mi mount fs_open, find_mount v.mounts path = some mi →
        v.mounts[mi]? = some mount → mount.ops.open_ = some fs_open →
        (fs_open b (get_relative_path mount.path path) mode).1 = none →
        (vfs_open v b path mode).1 = none) ∧
    ((∀ i, i < MAX_OPEN_DIRS → v.dir_used i = true) →
      (vfs_opendir v b path).1 = none ∧ (vfs_opendir v b path).2.1 = v ∧
      ∀ mi mount fs_opendir fs_closedir dir, find_mount v.mounts path = some mi →
        v.mounts[mi]? = some mount →
        mount.ops.opendir = some fs_opendir → mount.ops.closedir = some fs_closedir →
        (fs_opendir b (get_relative_path mount.path path)).1 = some dir →
        (vfs_opendir v b path).2.2
          = fs_closedir (fs_opendir b (get_relative_path mount.path path)).2 dir) ∧
    (∀ mi mount fs_opendir, find_mount v.mounts path = some mi →
        v.mounts[mi]? = some mount → mount.ops.opendir = some fs_opendir →
        (fs_opendir b (get_relative_path mount.path path)).1 = none →
        (vfs_opendir v b path).1 = none) := by
  refine ⟨fun hfull => ?_, ?_, fun hfull => ?_, ?_⟩
  · have ha := alloc_file_full v hfull
    have key : (vfs_open v b path mode).1 = none ∧ (vfs_open v b path mode).2.1 = v := by
      cases hm : find_mount v.mounts path with
      | none => simp [vfs_open, hm]
      | some mi =>
        cases hg : v.mounts[mi]? with
        | none => simp [vfs_open, hm, hg]
        | some mount =>
          by_cases hro : mount.readonly ∧
              mode &&& (VFS_O_WRITE ||| VFS_O_CREATE ||| VFS_O_TRUNC) ≠ 0
          · simp [vfs_open, hm, hg, if_pos hro]
          · cases ho : mount.ops.open_ with
            | none => simp [vfs_open, hm, hg, if_neg hro, ho]
            | some fs_open =>
              cases hr : (fs_open b (get_relative_path mount.path path) mode).1 with
              | none => simp [vfs_open, hm, hg, if_neg hro, ho, hr]
              | some file =>
                cases hc : mount.ops.close with
                | none =>
                  simp [vfs_open, hm, hg, if_neg hro, ho, hr, ha, hc]
                | some fs_close =>
                  simp [vfs_open, hm, hg, if_neg hro, ho, hr, ha, hc]
    refine ⟨key.1, key.2, ?_⟩
    intro mi mount fs_open fs_close file hm hg hro ho hc hr
    simp only [vfs_open, hm, hg, if_neg hro, ho, hr, ha, hc]
  · intro mi mount fs_open hm hg ho hr
    by_cases hro : mount.readonly ∧
        mode &&& (VFS_O_WRITE ||| VFS_O_CREATE ||| VFS_O_TRUNC) ≠ 0
    · simp only [vfs_open, hm, hg, if_pos hro]
    · simp only [vfs_open, hm, hg, if_neg hro, ho, hr]
  · have ha := alloc_dir_full v hfull
    have key : (vfs_opendir v b path).1 = none ∧ (vfs_opendir v b path).2.1 = v := by
      cases hm : find_mount v.mounts path with
      | none => simp [vfs_opendir, hm]
      | some mi =>
        cases hg : v.mounts[mi]? with
        | none => simp [vfs_opendir, hm, hg]
        | some mount =>
          cases ho : mount.ops.opendir with
          | none => simp [vfs_opendir, hm, hg, ho]
          | some fs_opendir =>
            cases hr : (fs_opendir b (get_relative_path mount.path path)).1 with
            | none => simp [vfs_opendir, hm, hg, ho, hr]
            | some dir =>
              cases hc : mount.ops.closedir with
              | none => simp [vfs_opendir, hm, hg, ho, hr, ha, hc]
              | some fs_closedir =>
                simp [vfs_opendir, hm, hg, ho, hr, ha, hc]
    refine ⟨key.1, key.2, ?_⟩
    intro mi mount fs_opendir fs_closedir dir hm hg ho hc hr
    simp only [vfs_opendir, hm, hg, ho, hr, ha, hc]
  · intro mi mount fs_opendir hm hg ho hr
    simp only [vfs_opendir, hm, hg, ho, hr]

set_option maxRecDepth 1000000 in
/-- C23 counterexample: with all 32 file handles and all 16 directory handles taken,
`vfs_open` of the existing file "/a" and of the missing file "/b" return the same
NULL, and so do `vfs_opendir` of the existing directory "/d" and of the missing "/e";
before that, the existing ones opened and the missing ones returned that same NULL. -/
theorem vfs_exhaustion_looks_like_not_found :
    (vfs_open shelfVfs [] "/a".toList VFS_O_READ).1 = some 0 ∧
    (vfs_open shelfVfs [] "/b".toList VFS_O_READ).1 = none ∧
    (vfs_open exhaustedVfs.1 exhaustedVfs.2 "/a".toList VFS_O_READ).1 = none ∧
    (vfs_open exhaustedVfs.1 exhaustedVfs.2 "/b".toList VFS_O_READ).1 = none ∧
    (vfs_opendir shelfVfs [] "/d".toList).1 = some 0 ∧
    (vfs_opendir shelfVfs [] "/e".toList).1 = none ∧
    (vfs_opendir exhaustedVfs.1 exhaustedVfs.2 "/d".toList).1 = none ∧
    (vfs_opendir exhaustedVfs.1 exhaustedVfs.2 "/e".toList).1 = none := by
  refine ⟨by decide, by decide, by decide, by decide, by decide, by decide, by decide, by decide⟩

set_option maxRecDepth 1000000 in
/-- C23 witness: with all 32 file handles and all 16 directory handles taken, `vfs_open`
of the existing file "/a" and `vfs_opendir` of the existing directory "/d" return NULL
and leave the VFS state as it was. -/
theorem vfs_pool_exhausted_returns_null_witness :
    ((∀ i, i < MAX_OPEN_FILES → exhaustedVfs.1.file_used i = true) ∧
      (∀ i, i < MAX_OPEN_DIRS → exhaustedVfs.1.dir_used i = true)) ∧
    ((vfs_open exhaustedVfs.1 exhaustedVfs.2 "/a".toList VFS_O_READ).1 = none ∧
      (vfs_open exhaustedVfs.1 exhaustedVfs.2 "/a".toList VFS_O_READ).2.1 = exhaustedVfs.1) ∧
    ((vfs_opendir exhaustedVfs.1 exhaustedVfs.2 "/d".toList).1 = none ∧
      (vfs_opendir exhaustedVfs.1 exhaustedVfs.2 "/d".toList).2.1 = exhaustedVfs.1) :=
  ⟨⟨by decide, by decide⟩,
    ⟨((vfs_pool_exhausted_returns_null exhaustedVfs.1 exhaustedVfs.2 "/a".toList VFS_O_READ).1
        (by decide)).1,
      ((vfs_pool_exhausted_returns_null exhaustedVfs.1 exhaustedVfs.2 "/a".toList VFS_O_READ).1
        (by decide)).2.1⟩,
    ⟨((vfs_pool_exhausted_returns_null exhaustedVfs.1 exhaustedVfs.2 "/d".toList
        VFS_O_READ).2.2.1 (by decide)).1,
      ((vfs_pool_exhausted_returns_null exhaustedVfs.1 exhaustedVfs.2 "/d".toList
        VFS_O_READ).2.2.1 (by decide)).2.1⟩⟩

end Vfs

/-! ### Path utilities (vfs.c) -/

theorem strlen_eq_length_cstr (p : List Char) : strlen p = (cstr p).length := by
  induction p with
  | nil => rfl
  | cons c cs ih =>
    by_cases hc : c = NUL
    · simp [strlen, cstr, hc]
    · simp only [strlen, if_neg hc, ih, cstr]
      rw [List.takeWhile_cons_of_pos (by simpa using hc)]
      rfl

theorem strlen_nul_free (p : List Char) (h : ∀ ch ∈ p, ch ≠ NUL) : strlen p = p.length := by
  rw [strlen_eq_length_cstr, Ramfs.cstr_nul_free p h]

theorem charAt_of_lt (p : List Char) (i : Nat) (h : i < p.length) : charAt p i = p[i] := by
  simp [charAt, List.getD_eq_getElem?_getD, List.getElem?_eq_getElem h]

namespace Vfs

/-- What the scanning loop of `vfs_basename` and `vfs_dirname` leaves in `last_slash`. -/
theorem foldl_last_index_spec (P : Nat → Prop) [DecidablePred P] (n : Nat) :
    ((List.range n).foldl (fun (acc : Option Nat) i => if P i then some i else acc) none = none ∧
      ∀ j, j < n → ¬ P j) ∨
    ∃ k, (List.range n).foldl (fun (acc : Option Nat) i => if P i then some i else acc) none
        = some k ∧ k < n ∧ P k ∧ ∀ j, k < j → j < n → ¬ P j := by
  induction n with
  | zero => left; exact ⟨rfl, fun j hj => by omega⟩
  | succ n ih =>
    rw [List.range_succ, List.foldl_append]
    simp only [List.foldl_cons, List.foldl_nil]
    by_cases hn : P n
    · right
      refine ⟨n, by rw [if_pos hn], by omega, hn, fun j h1 h2 => by omega⟩
    · rw [if_neg hn]
      rcases ih with ⟨h1, h2⟩ | ⟨k, h1, h2, h3, h4⟩
      · left
        refine ⟨h1, fun j hj => ?_⟩
        by_cases hjn : j = n
        · subst hjn; exact hn
        · exact h2 j (by omega)
      · right
        refine ⟨k, h1, by omega, h3, fun j hj1 hj2 => ?_⟩
        by_cases hjn : j = n
        · subst hjn; exact hn
        · exact h4 j hj1 (by omega)

theorem last_slash_spec (p : List Char) (hp : ∀ ch ∈ p, ch ≠ NUL) :
    (last_slash p = none ∧ ∀ ch ∈ p, ch ≠ '/') ∨
    ∃ i, last_slash p = some i ∧ i < p.length ∧ charAt p i = '/' ∧
      p = p.take i ++ '/' :: p.drop (i + 1) ∧ ∀ ch ∈ p.drop (i + 1), ch ≠ '/' := by
  unfold last_slash
  rw [Ramfs.cstr_nul_free p hp]
  rcases foldl_last_index_spec (fun i => charAt p i = '/') p.length with
    ⟨h1, h2⟩ | ⟨k, h1, h2, h3, h4⟩
  · left
    refine ⟨h1, fun ch hch => ?_⟩
    obtain ⟨j, hj, rfl⟩ := List.getElem_of_mem hch
    have := h2 j hj
    simpa only [charAt_of_lt p j hj] using this
  · right
    refine ⟨k, h1, h2, h3, ?_, fun ch hch => ?_⟩
    · have hk : p[k] = '/' := by
        simpa only [charAt_of_lt p k h2] using h3
      conv_lhs => rw [← List.take_append_drop k p]
      rw [List.drop_eq_getElem_cons h2, hk]
    · obtain ⟨j, hj, rfl⟩ := List.getElem_of_mem hch
      rw [List.length_drop] at hj
      have := h4 (k + 1 + j) (by omega) (by omega)
      rw [charAt_of_lt p (k + 1 + j) (by omega)] at this
      simpa using this

theorem charAt_take (p : List Char) (i j : Nat) (h : j < i) :
    charAt (p.take i) j = charAt p j := by
  simp [charAt, List.getD_eq_getElem?_getD, List.getElem?_take, h]

theorem charAt_mem (p : List Char) (i : Nat) (h : i < p.length) : charAt p i ∈ p := by
  rw [charAt_of_lt p i h]; exact List.getElem_mem _

theorem vfs_join_path_plain (j0 : List Char) (jsize : Nat) (base name : List Char)
    (hb : ∀ ch ∈ base, ch ≠ NUL) (hn : ∀ ch ∈ name, ch ≠ NUL)
    (hns : base = [] ∨ charAt base (base.length - 1) = '/')
    (hfit : base.length + name.length < jsize) :
    vfs_join_path j0 jsize base name = (0, base ++ name) := by
  have h1 : (decide (strlen base > 0) && decide (charAt base (strlen base - 1) ≠ '/')) = false := by
    rw [strlen_nul_free base hb]
    rcases hns with h | h
    · simp [h]
    · simp [h]
  have h2 : ¬ (strlen base + 0 + strlen name + 1 > jsize) := by
    rw [strlen_nul_free base hb, strlen_nul_free name hn]; omega
  simp only [vfs_join_path, h1, Ramfs.cstr_nul_free base hb, Ramfs.cstr_nul_free name hn]
  rw [if_neg (by simpa using h2)]
  simp

theorem vfs_join_path_slash (j0 : List Char) (jsize : Nat) (base name : List Char)
    (hb : ∀ ch ∈ base, ch ≠ NUL) (hn : ∀ ch ∈ name, ch ≠ NUL)
    (hne : 0 < base.length) (hns : charAt base (base.length - 1) ≠ '/')
    (hfit : base.length + 1 + name.length < jsize) :
    vfs_join_path j0 jsize base name = (0, base ++ '/' :: name) := by
  have h1 : (decide (strlen base > 0) && decide (charAt base (strlen base - 1) ≠ '/')) = true := by
    rw [strlen_nul_free base hb]
    simp [hne, hns]
  have h2 : ¬ (strlen base + 1 + strlen name + 1 > jsize) := by
    rw [strlen_nul_free base hb, strlen_nul_free name hn]; omega
  simp only [vfs_join_path, h1, Ramfs.cstr_nul_free base hb, Ramfs.cstr_nul_free name hn]
  rw [if_neg (by simpa using h2)]
  simp

/-- C30: for a path without NUL that has no two consecutive slashes and is shorter than
the directory buffer and than the destination buffer, `vfs_basename` contains no slash,
`vfs_dirname` succeeds, and `vfs_join_path` of the two succeeds and gives the path
back. The directory part is empty for a path without slash and "/" for a path whose only
slash is the leading one. -/
theorem dirname_basename_join (p d0 j0 : List Char) (dsize jsize : Nat)
    (hp : ∀ ch ∈ p, ch ≠ NUL) (hno : NoDoubleSlash p)
    (hd : p.length < dsize) (hj : p.length < jsize) :
    (∀ ch ∈ vfs_basename p, ch ≠ '/') ∧
    (vfs_dirname p d0 dsize).1 = 0 ∧
    vfs_join_path j0 jsize (vfs_dirname p d0 dsize).2 (vfs_basename p) = (0, p) ∧
    ((∀ ch ∈ p, ch ≠ '/') → (vfs_dirname p d0 dsize).2 = []) ∧
    (∀ r, p = '/' :: r → (∀ ch ∈ r, ch ≠ '/') → (vfs_dirname p d0 dsize).2 = ['/']) := by
  rcases last_slash_spec p hp with ⟨h1, h2⟩ | ⟨i, h1, h2, hsl, h3, h4⟩
  · have hb : vfs_basename p = p := by simp [vfs_basename, h1]
    have hdn : vfs_dirname p d0 dsize = (0, []) := by
      simp only [vfs_dirname, h1]
      rw [if_pos (by omega)]
    rw [hb, hdn]
    refine ⟨h2, rfl, ?_, fun _ => rfl, ?_⟩
    · have := vfs_join_path_plain j0 jsize [] p (by simp) hp (Or.inl rfl) (by simpa using hj)
      simpa using this
    · intro r hr _
      exact absurd rfl (h2 '/' (by rw [hr]; exact List.mem_cons_self _ _))
  · have hb : vfs_basename p = p.drop (i + 1) := by simp [vfs_basename, h1]
    have hdropnul : ∀ ch ∈ p.drop (i + 1), ch ≠ NUL :=
      fun ch hch => hp ch (List.mem_of_mem_drop hch)
    have hlen : (p.drop (i + 1)).length = p.length - (i + 1) := List.length_drop _ _
    have hmem : '/' ∈ p := by rw [h3]; simp
    rw [hb]
    by_cases hi : i = 0
    · subst hi
      have h5 : p = '/' :: p.drop 1 := by simpa using h3
      have hdn : vfs_dirname p d0 dsize = (0, ['/']) := by
        simp only [vfs_dirname, h1, if_true]
        rw [if_neg (by omega)]
        have : p.take 1 = ['/'] := by
          rw [h5]; simp
        rw [this]
      rw [hdn]
      refine ⟨h4, rfl, ?_, fun hnone => absurd rfl (hnone '/' hmem), fun _ _ _ => rfl⟩
      have := vfs_join_path_plain j0 jsize ['/'] (p.drop 1) (by simp [NUL]) hdropnul
        (Or.inr (by simp [charAt]))
        (by simp only [List.length_singleton, List.length_drop]; omega)
      rw [this]
      conv_rhs => rw [h5]
      rfl
    · have hdn : vfs_dirname p d0 dsize = (0, p.take i) := by
        simp only [vfs_dirname, h1, if_neg hi]
        rw [if_neg (by omega)]
      have htl : (p.take i).length = i := by
        rw [List.length_take]; omega
      have hlast : charAt (p.take i) ((p.take i).length - 1) ≠ '/' := by
        rw [htl, charAt_take p i (i - 1) (by omega)]
        intro hc
        have := hno (i - 1) (by omega)
        rw [show i - 1 + 1 = i by omega] at this
        exact this ⟨hc, hsl⟩
      rw [hdn]
      refine ⟨h4, rfl, ?_, fun hnone => absurd rfl (hnone '/' hmem), ?_⟩
      · have := vfs_join_path_slash j0 jsize (p.take i) (p.drop (i + 1))
          (fun ch hch => hp ch (List.mem_of_mem_take hch)) hdropnul (by omega) hlast
          (by rw [htl, hlen]; omega)
        rw [this, ← h3]
      · intro r hr hrs
        exfalso
        subst hr
        have h6 : charAt ('/' :: r) i = charAt r (i - 1) := by
          cases i with
          | zero => exact absurd rfl hi
          | succ k => simp [charAt]
        rw [h6] at hsl
        have h7 : i - 1 < r.length := by
          simp only [List.length_cons] at h2; omega
        have := charAt_mem r (i - 1) h7
        rw [hsl] at this
        exact hrs '/' this rfl

set_option maxRecDepth 100000 in
/-- C30 witness: "/usr/lib/app.cfg" splits into "/usr/lib" and "app.cfg" and joins
back, with the 256-byte buffers the callers use. -/
theorem dirname_basename_join_witness :
    ((∀ ch ∈ samplePath, ch ≠ NUL) ∧ NoDoubleSlash samplePath ∧ samplePath.length < 256) ∧
    vfs_basename samplePath = "app.cfg".toList ∧
    vfs_dirname samplePath [] 256 = (0, "/usr/lib".toList) ∧
    vfs_join_path [] 256 (vfs_dirname samplePath [] 256).2 (vfs_basename samplePath)
      = (0, samplePath) :=
  ⟨⟨by decide, by decide, by decide⟩, by decide, by decide,
    (dirname_basename_join samplePath [] [] 256 256 (by decide) (by decide) (by decide)
      (by decide)).2.2.1⟩

end Vfs

namespace Ramfs

open Vfs

/-! ### RAMFS mkdir (ramfs.c, vfs.c) -/

set_option maxRecDepth 100000 in
/-- C27 on a fresh RAMFS: `mkdir("/a")`, directly and through `vfs_mkdir` on a writable
mount, creates the directory as node 1 and returns 1, not 0; the next `mkdir("/b")`
returns 2; a second `mkdir("/a")` creates nothing and returns -1. -/
theorem ramfs_mkdir_returns_node_index :
    (ramfs_mkdir (ramfs_init (fun _ => 0)) "/a".toList).1 = 1 ∧
    ((ramfs_mkdir (ramfs_init (fun _ => 0)) "/a".toList).2.nodes 1).type = VfsFileType.DIR ∧
    ((ramfs_mkdir (ramfs_init (fun _ => 0)) "/a".toList).2.nodes 1).name = "a".toList ∧
    find_node (ramfs_mkdir (ramfs_init (fun _ => 0)) "/a".toList).2 "/a".toList = 1 ∧
    (vfs_mkdir ramVfs (ramfs_init (fun _ => 0)) "/a".toList).1 = 1 ∧
    (vfs_mkdir ramVfs (ramfs_init (fun _ => 0)) "/a".toList).1 ≠ 0 ∧
    (vfs_mkdir ramVfs (vfs_mkdir ramVfs (ramfs_init (fun _ => 0)) "/a".toList).2
      "/b".toList).1 = 2 ∧
    (vfs_mkdir ramVfs (vfs_mkdir ramVfs (ramfs_init (fun _ => 0)) "/a".toList).2
      "/a".toList).1 = -1 := by
  refine ⟨by decide, by decide, by decide, by decide, by decide, by decide, by decide, by decide⟩

end Ramfs

namespace Ojfs

open Vfs

/-! ### OJFS file handles (ojfs.c) -/

theorem rd64_lt (img : List Nat) (off : Nat) : rd64 img off < 18446744073709551616 := by
  have h0 := rd32_lt img off
  have h1 := rd32_lt img (off + 4)
  unfold rd64
  omega

theorem entry_size_lt (img : List Nat) (i : Nat) :
    (entries ⟨img⟩ i).size < 18446744073709551616 := rd64_lt _ _

theorem data_pointer (hd a : Nat) (ha : a < 18446744073709551616)
    (hh : hd < 18446744073709551616) :
    (hd + (a + 2 ^ 64 - hd) % 2 ^ 64) % 2 ^ 64 = a := by
  norm_num
  omega

theorem toInt64_of_lt (n : Nat) (h : n < 9223372036854775808) : toInt64 n = (n : Int) := by
  unfold toInt64
  have h1 : n % 2 ^ 64 = n := Nat.mod_eq_of_lt (by norm_num; omega)
  rw [h1, if_pos (by norm_num; omega)]

theorem toInt64_of_ge (n : Nat) (h : 9223372036854775808 ≤ n) (h2 : n < 18446744073709551616) :
    toInt64 n = (n : Int) - 18446744073709551616 := by
  unfold toInt64
  have h1 : n % 2 ^ 64 = n := Nat.mod_eq_of_lt (by norm_num; omega)
  rw [h1, if_neg (by norm_num; omega)]
  norm_num

theorem wrap_add (p : Nat) (off : Int) (hp : p < 9223372036854775808)
    (h1 : -9223372036854775808 ≤ off) (h2 : off < 9223372036854775808) :
    toInt64 ((p + toUInt64 off) % 2 ^ 64) =
      if (p : Int) + off < 9223372036854775808 then (p : Int) + off
      else (p : Int) + off - 18446744073709551616 := by
  have hu : ((toUInt64 off : Nat) : Int) = off % 18446744073709551616 := by
    unfold toUInt64
    rw [Int.toNat_of_nonneg (Int.emod_nonneg _ (by norm_num))]
    norm_num
  generalize toUInt64 off = u at hu
  have hn : (p + u) % 2 ^ 64 < 18446744073709551616 := by
    have := Nat.mod_lt (p + u) (show 0 < 2 ^ 64 by norm_num)
    norm_num at this ⊢
    exact this
  have hcast : (((p + u) % 2 ^ 64 : Nat) : Int) = ((p : Int) + (u : Int)) % 18446744073709551616 := by
    push_cast
    norm_num
  by_cases hlt : (p + u) % 2 ^ 64 < 9223372036854775808
  · rw [toInt64_of_lt _ hlt, hcast]
    have hlt2 : ((p : Int) + (u : Int)) % 18446744073709551616 < 9223372036854775808 := by
      rw [← hcast]; exact_mod_cast hlt
    split_ifs <;> omega
  · rw [toInt64_of_ge _ (by omega) hn, hcast]
    have hge2 : 9223372036854775808 ≤ ((p : Int) + (u : Int)) % 18446744073709551616 := by
      rw [← hcast]; exact_mod_cast (Nat.le_of_not_lt hlt)
    split_ifs <;> omega

theorem ojfs_init_file_pool (s : State) (image : Option (List Nat)) (size : Nat) :
    (ojfs_init s image size).2.file_pool = s.file_pool := by
  unfold ojfs_init
  cases image with
  | none => rfl
  | some img =>
    simp only
    split
    · rfl
    · split <;> rfl

theorem ojfs_open_slots (s : State) (path : List Char) (mode : Nat)
    (hs : ∀ h, SlotOk (s.file_pool h)) : ∀ h, SlotOk ((ojfs_open s path mode).2.file_pool h) := by
  unfold ojfs_open
  cases hc : current s with
  | none => exact hs
  | some fs =>
    simp only
    by_cases hm : mode &&& (VFS_O_WRITE ||| VFS_O_CREATE ||| VFS_O_TRUNC) ≠ 0
    · rw [if_pos hm]; exact hs
    · rw [if_neg hm]
      by_cases hi : find_entry fs path < 0
      · rw [if_pos hi]; exact hs
      · rw [if_neg hi]
        by_cases ht : (entries fs (find_entry fs path).toNat).type ≠ OJFS_TYPE_FILE
        · rw [if_pos ht]; exact hs
        · rw [if_neg ht]
          unfold alloc_ojfs_file
          cases hf : (List.range MAX_OJFS_FILES).find? (fun i => !s.file_used i) with
          | none => exact hs
          | some k =>
            intro h
            simp only
            by_cases hk : h = k
            · subst hk
              simp only [if_true]
              intro ei hei
              simp only [Option.some.injEq] at hei
              subst hei
              refine ⟨Nat.zero_le _, ?_⟩
              simp only [Option.some.injEq]
              cases fs with
              | mk base =>
                exact data_pointer _ _ (rd64_lt _ _)
                  (lt_trans (rd32_lt _ _) (by norm_num))
            · simp only [if_neg hk]
              exact hs h

theorem ojfs_read_slots (s : State) (h : Option Nat) (count : Nat)
    (hs : ∀ h, SlotOk (s.file_pool h)) :
    ∀ k, SlotOk ((ojfs_read s h count).2.2.file_pool k) := by
  cases h with
  | none => exact hs
  | some h =>
    unfold ojfs_read
    simp only
    cases he : (s.file_pool h).entry with
    | none => exact hs
    | some ei =>
      cases hd : (s.file_pool h).data with
      | none => exact hs
      | some d =>
        simp only
        have hok := hs h ei he
        have hsz := entry_size_lt (s.file_pool h).image ei
        have hrem : ((entries ⟨(s.file_pool h).image⟩ ei).size + 2 ^ 64 - (s.file_pool h).position)
            % 2 ^ 64 = (entries ⟨(s.file_pool h).image⟩ ei).size - (s.file_pool h).position := by
          norm_num
          omega
        rw [hrem]
        have hle : (if count > (entries ⟨(s.file_pool h).image⟩ ei).size - (s.file_pool h).position
            then (entries ⟨(s.file_pool h).image⟩ ei).size - (s.file_pool h).position
            else count) ≤ (entries ⟨(s.file_pool h).image⟩ ei).size - (s.file_pool h).position := by
          split_ifs <;> omega
        generalize (if count > (entries ⟨(s.file_pool h).image⟩ ei).size - (s.file_pool h).position
            then (entries ⟨(s.file_pool h).image⟩ ei).size - (s.file_pool h).position
            else count) = n at hle
        by_cases hn0 : n = 0
        · rw [if_pos hn0]; exact hs
        · rw [if_neg hn0]
          intro k
          simp only
          by_cases hk : k = h
          · subst hk
            simp only [if_true]
            intro ei2 hei2
            have hei3 : ei = ei2 := by simpa using hei2
            subst hei3
            have h1 := hok.1
            have h2 : ((s.file_pool k).position + n) % 2 ^ 64
                ≤ (entries ⟨(s.file_pool k).image⟩ ei).size := by
              norm_num
              omega
            have h3 : some d = some (entries ⟨(s.file_pool k).image⟩ ei).data_offset := by
              rw [← hd]; exact hok.2
            exact ⟨h2, h3⟩
          · simp only [if_neg hk]
            exact hs k

theorem ojfs_seek_slots (s : State) (h : Option Nat) (offset whence : Int)
    (hs : ∀ h, SlotOk (s.file_pool h)) :
    ∀ k, SlotOk ((ojfs_seek s h offset whence).2.file_pool k) := by
  cases h with
  | none => exact hs
  | some h =>
    unfold ojfs_seek
    simp only
    cases he : (s.file_pool h).entry with
    | none => exact hs
    | some ei =>
      simp only
      generalize (if whence = Ramfs.VFS_SEEK_SET then some offset
        else if whence = Ramfs.VFS_SEEK_CUR then
          some (toInt64 (((s.file_pool h).position + toUInt64 offset) % 2 ^ 64))
        else if whence = Ramfs.VFS_SEEK_END then
          some (toInt64 (((entries ⟨(s.file_pool h).image⟩ ei).size + toUInt64 offset) % 2 ^ 64))
        else none) = np
      cases np with
      | none => exact hs
      | some t =>
        simp only
        by_cases hbad : t < 0 ∨ t > toInt64 (entries ⟨(s.file_pool h).image⟩ ei).size
        · rw [if_pos hbad]; exact hs
        · rw [if_neg hbad]
          intro k
          simp only
          by_cases hk : k = h
          · subst hk
            simp only [if_true]
            intro ei2 hei2
            have hei3 : ei = ei2 := by simpa using hei2
            subst hei3
            refine ⟨?_, (hs k ei he).2⟩
            show t.toNat ≤ (entries ⟨(s.file_pool k).image⟩ ei).size
            have hsz := entry_size_lt (s.file_pool k).image ei
            push_neg at hbad
            by_cases hlt : (entries ⟨(s.file_pool k).image⟩ ei).size < 9223372036854775808
            · rw [toInt64_of_lt _ hlt] at hbad
              omega
            · rw [toInt64_of_ge _ (by omega) hsz] at hbad
              omega
          · simp only [if_neg hk]
            exact hs k

theorem reachable_slots_ok (s : State) (hr : FileReachable s) : ∀ h, SlotOk (s.file_pool h) := by
  induction hr with
  | start => intro h ei hei; cases hei
  | init s image size _ ih => rw [ojfs_init_file_pool]; exact ih
  | open_ s path mode _ ih => exact ojfs_open_slots s path mode ih
  | close s h _ ih =>
    intro k
    have : (ojfs_close s h).file_pool = s.file_pool := by
      unfold ojfs_close free_ojfs_file
      split <;> rfl
    rw [this]; exact ih k
  | read s h count _ ih => exact ojfs_read_slots s h count ih
  | seek s h offset whence _ ih => exact ojfs_seek_slots s h offset whence ih

theorem ojfs_read_of_slot (s : State) (h ei : Nat) (count : Nat)
    (he : (s.file_pool h).entry = some ei) (hok : SlotOk (s.file_pool h)) :
    ojfs_read s (some h) count =
      if min count ((entries ⟨(s.file_pool h).image⟩ ei).size - (s.file_pool h).position) = 0
      then (0, [], s)
      else
        (((min count ((entries ⟨(s.file_pool h).image⟩ ei).size - (s.file_pool h).position)
            : Nat) : Int),
          ((s.file_pool h).image.drop
            ((entries ⟨(s.file_pool h).image⟩ ei).data_offset + (s.file_pool h).position)).take
            (min count ((entries ⟨(s.file_pool h).image⟩ ei).size - (s.file_pool h).position)),
          { s with file_pool := fun j =>
              if j = h then
                { s.file_pool h with position := ((s.file_pool h).position +
                    min count ((entries ⟨(s.file_pool h).image⟩ ei).size
                      - (s.file_pool h).position)) }
              else s.file_pool j }) := by
  have hd := (hok ei he).2
  have hp := (hok ei he).1
  have hsz := entry_size_lt (s.file_pool h).image ei
  have hrem : ((entries ⟨(s.file_pool h).image⟩ ei).size + 2 ^ 64 - (s.file_pool h).position)
      % 2 ^ 64 = (entries ⟨(s.file_pool h).image⟩ ei).size - (s.file_pool h).position := by
    norm_num
    omega
  have hmin : (if count > (entries ⟨(s.file_pool h).image⟩ ei).size - (s.file_pool h).position
      then (entries ⟨(s.file_pool h).image⟩ ei).size - (s.file_pool h).position
      else count)
      = min count ((entries ⟨(s.file_pool h).image⟩ ei).size - (s.file_pool h).position) := by
    split_ifs <;> omega
  simp only [ojfs_read, he, hd, hrem, hmin]
  have hmod : ((s.file_pool h).position +
      min count ((entries ⟨(s.file_pool h).image⟩ ei).size - (s.file_pool h).position)) % 2 ^ 64
      = (s.file_pool h).position +
        min count ((entries ⟨(s.file_pool h).image⟩ ei).size - (s.file_pool h).position) := by
    apply Nat.mod_eq_of_lt
    norm_num
    omega
  rw [hmod]

theorem ojfs_seek_of_target (s : State) (h ei : Nat) (offset whence : Int)
    (he : (s.file_pool h).entry = some ei) (hok : SlotOk (s.file_pool h))
    (hsz : (entries ⟨(s.file_pool h).image⟩ ei).size < 2 ^ 63)
    (h1 : -2 ^ 63 ≤ offset) (h2 : offset < 2 ^ 63) :
    (∀ t, seek_target (s.file_pool h).position (entries ⟨(s.file_pool h).image⟩ ei).size
        offset whence = some t →
      (0 ≤ t ∧ t ≤ ((entries ⟨(s.file_pool h).image⟩ ei).size : Int) →
        ojfs_seek s (some h) offset whence =
          (t, { s with file_pool := fun j =>
            if j = h then { s.file_pool h with position := t.toNat } else s.file_pool j })) ∧
      (¬ (0 ≤ t ∧ t ≤ ((entries ⟨(s.file_pool h).image⟩ ei).size : Int)) →
        ojfs_seek s (some h) offset whence = (-1, s))) ∧
    (seek_target (s.file_pool h).position (entries ⟨(s.file_pool h).image⟩ ei).size
        offset whence = none → ojfs_seek s (some h) offset whence = (-1, s)) := by
  have hp := (hok ei he).1
  have hsz2 : (entries ⟨(s.file_pool h).image⟩ ei).size < 9223372036854775808 := by
    norm_num at hsz; exact hsz
  have h1b : -9223372036854775808 ≤ offset := by norm_num at h1; exact h1
  have h2b : offset < 9223372036854775808 := by norm_num at h2; exact h2
  have hsize := toInt64_of_lt _ hsz2
  have hcur := wrap_add (s.file_pool h).position offset (by omega) h1b h2b
  have hend := wrap_add (entries ⟨(s.file_pool h).image⟩ ei).size offset hsz2 h1b h2b
  have hwrap : ∀ (t np : Int), -9223372036854775808 ≤ t → t < 18446744073709551616 →
      np = (if t < 9223372036854775808 then t else t - 18446744073709551616) →
      ((0 ≤ t ∧ t ≤ ((entries ⟨(s.file_pool h).image⟩ ei).size : Int)) → np = t) ∧
      (¬ (0 ≤ t ∧ t ≤ ((entries ⟨(s.file_pool h).image⟩ ei).size : Int)) →
        (np < 0 ∨ np > ((entries ⟨(s.file_pool h).image⟩ ei).size : Int))) := by
    intro t np ht ht2 hnp
    subst hnp
    constructor
    · intro hin; rw [if_pos (show t < 9223372036854775808 by omega)]
    · intro hout; split_ifs <;> omega
  by_cases hw0 : whence = Ramfs.VFS_SEEK_SET
  · simp only [seek_target, ojfs_seek, he, hw0, if_true, hsize]
    refine ⟨fun t ht => ?_, fun hc => by cases hc⟩
    simp only [Option.some.injEq] at ht
    subst ht
    refine ⟨fun hin => ?_, fun hout => ?_⟩
    · rw [if_neg (by omega)]
    · rw [if_pos (by omega)]
  · by_cases hw1 : whence = Ramfs.VFS_SEEK_CUR
    · subst hw1
      have hw := hwrap (((s.file_pool h).position : Int) + offset) _ (by omega) (by omega) hcur
      simp only [seek_target, ojfs_seek, he, hw0, if_true, if_false, hsize]
      generalize toInt64 (((s.file_pool h).position + toUInt64 offset) % 2 ^ 64) = np at hw ⊢
      refine ⟨fun t ht => ?_, fun hc => by cases hc⟩
      simp only [Option.some.injEq] at ht
      subst ht
      refine ⟨fun hin => ?_, fun hout => ?_⟩
      · rw [hw.1 hin, if_neg (by omega)]
      · rw [if_pos (hw.2 hout)]
    · by_cases hw2 : whence = Ramfs.VFS_SEEK_END
      · subst hw2
        have hw := hwrap (((entries ⟨(s.file_pool h).image⟩ ei).size : Int) + offset) _
          (by omega) (by omega) hend
        simp only [seek_target, ojfs_seek, he, hw0, hw1, if_true, if_false, hsize]
        generalize toInt64 (((entries ⟨(s.file_pool h).image⟩ ei).size + toUInt64 offset)
          % 2 ^ 64) = np at hw ⊢
        refine ⟨fun t ht => ?_, fun hc => by cases hc⟩
        simp only [Option.some.injEq] at ht
        subst ht
        refine ⟨fun hin => ?_, fun hout => ?_⟩
        · rw [hw.1 hin, if_neg (by omega)]
        · rw [if_pos (hw.2 hout)]
      · simp [seek_target, ojfs_seek, he, hw0, hw1, hw2]

/-- C29: in every state reached from program start by `ojfs_init`, `ojfs_open`,
`ojfs_close`, `ojfs_read` and `ojfs_seek`, a file handle that points at an entry has its
position between 0 and the entry's size. `ojfs_read` of `count` bytes at position `p`
returns `n = min(count, size - p)`, hands out the `n` image bytes from offset
`data_offset + p` on and advances the position by `n`; at the end of the file it
returns 0 and changes nothing. For an entry size below 2^63, `ojfs_seek` returns the
target and moves the position there exactly when the target lies in `[0, size]`, and
otherwise returns -1 and changes nothing. -/
theorem ojfs_file_contract (s : State) (hr : FileReachable s) (h ei : Nat)
    (hent : (s.file_pool h).entry = some ei) :
    (s.file_pool h).position ≤ (entries ⟨(s.file_pool h).image⟩ ei).size ∧
    (∀ count,
      (ojfs_read s (some h) count).1
        = (min count ((entries ⟨(s.file_pool h).image⟩ ei).size - (s.file_pool h).position)
            : Nat) ∧
      (ojfs_read s (some h) count).2.1
        = ((s.file_pool h).image.drop
            ((entries ⟨(s.file_pool h).image⟩ ei).data_offset + (s.file_pool h).position)).take
            (min count ((entries ⟨(s.file_pool h).image⟩ ei).size - (s.file_pool h).position)) ∧
      ((ojfs_read s (some h) count).2.2.file_pool h).position
        = (s.file_pool h).position +
          min count ((entries ⟨(s.file_pool h).image⟩ ei).size - (s.file_pool h).position) ∧
      ((s.file_pool h).position = (entries ⟨(s.file_pool h).image⟩ ei).size →
        ojfs_read s (some h) count = (0, [], s))) ∧
    ((entries ⟨(s.file_pool h).image⟩ ei).size < 2 ^ 63 →
      ∀ offset whence, -2 ^ 63 ≤ offset → offset < 2 ^ 63 →
        (∀ t, seek_target (s.file_pool h).position (entries ⟨(s.file_pool h).image⟩ ei).size
            offset whence = some t →
          (0 ≤ t ∧ t ≤ ((entries ⟨(s.file_pool h).image⟩ ei).size : Int) →
            ojfs_seek s (some h) offset whence =
              (t, { s with file_pool := fun j =>
                if j = h then { s.file_pool h with position := t.toNat }
                else s.file_pool j })) ∧
          (¬ (0 ≤ t ∧ t ≤ ((entries ⟨(s.file_pool h).image⟩ ei).size : Int)) →
            ojfs_seek s (some h) offset whence = (-1, s))) ∧
        (seek_target (s.file_pool h).position (entries ⟨(s.file_pool h).image⟩ ei).size
            offset whence = none → ojfs_seek s (some h) offset whence = (-1, s))) := by
  have hok := reachable_slots_ok s hr h
  refine ⟨(hok ei hent).1, fun count => ?_, fun hsz offset whence h1 h2 =>
    ojfs_seek_of_target s h ei offset whence hent hok hsz h1 h2⟩
  rw [ojfs_read_of_slot s h ei count hent hok]
  by_cases hz : min count ((entries ⟨(s.file_pool h).image⟩ ei).size
      - (s.file_pool h).position) = 0
  · rw [if_pos hz, hz]
    exact ⟨rfl, by simp, rfl, fun _ => rfl⟩
  · rw [if_neg hz]
    refine ⟨rfl, rfl, by simp, fun heq => ?_⟩
    rw [heq] at hz
    simp at hz

set_option maxRecDepth 100000 in
/-- C29 witness: the file "f" of the packer's example image, holding "AB", opened
through `ojfs_open`: the position is 0 and the size 2; a read of 10 bytes returns the 2
bytes "AB"; a seek to the end returns 2, a seek to offset 3 fails. -/
theorem ojfs_file_contract_witness :
    (openedState.file_pool 0).entry = some 2 ∧
    (openedState.file_pool 0).position ≤ (entries ⟨(openedState.file_pool 0).image⟩ 2).size ∧
    (entries ⟨(openedState.file_pool 0).image⟩ 2).size = 2 ∧
    (ojfs_read openedState (some 0) 10).1 = 2 ∧
    (ojfs_read openedState (some 0) 10).2.1 = [65, 66] ∧
    (ojfs_seek openedState (some 0) 0 Ramfs.VFS_SEEK_END).1 = 2 ∧
    (ojfs_seek openedState (some 0) 3 Ramfs.VFS_SEEK_SET).1 = -1 :=
  ⟨by decide,
    (ojfs_file_contract openedState
      (FileReachable.open_ _ _ _ (FileReachable.init _ _ _ FileReachable.start)) 0 2
      (by decide)).1,
    by decide, by decide, by decide, by decide, by decide⟩

end Ojfs

namespace Ramfs

open Vfs

/-! ### RAMFS node table growth (ramfs.c) -/

theorem Grows.stay (ty : VfsFileType) (s : State) : Grows ty s s :=
  ⟨le_refl _, fun h => h, rfl, rfl, rfl, rfl, rfl, rfl, fun _ _ => rfl,
    fun i h1 h2 => absurd h2 (by omega)⟩

theorem Grows.chain {ty : VfsFileType} {s r t : State} (h1 : Grows ty s r) (h2 : Grows ty r t) :
    Grows ty s t := by
  obtain ⟨a1, a2, a3, a4, a5, a6, a7, a8, a9, a10⟩ := h1
  obtain ⟨b1, b2, b3, b4, b5, b6, b7, b8, b9, b10⟩ := h2
  refine ⟨le_trans a1 b1, fun h => b2 (a2 h), b3.trans a3, b4.trans a4, b5.trans a5,
    b6.trans a6, b7.trans a7, b8.trans a8, ?_, ?_⟩
  · intro i hi
    rcases hi with hi | hi
    · rw [b9 i (Or.inl (by omega)), a9 i (Or.inl hi)]
    · rw [b9 i (Or.inr hi), a9 i (Or.inr (by omega))]
  · intro i hi1 hi2
    by_cases hir : i < r.node_count
    · rw [b9 i (Or.inl hir)]
      exact a10 i hi1 hir
    · exact b10 i (by omega) hi2

/-- One successful `alloc_node` followed by the initialisation of the new node. -/
theorem Grows.alloc (ty : VfsFileType) (s : State) (h : ¬ s.node_count ≥ RAMFS_MAX_NODES)
    (name : List Char) (parent perm : Nat) (t : VfsFileType)
    (ht : t = VfsFileType.DIR ∨ t = ty) :
    Grows ty s
      (setNode { setNode s s.node_count zero_node with node_count := s.node_count + 1 }
        s.node_count
        { ({ setNode s s.node_count zero_node with node_count := s.node_count + 1 } : State).nodes
            s.node_count with
          name := name, parent := parent, type := t, permissions := perm }) := by
  refine ⟨by simp [setNode], fun _ => by simp only [setNode]; omega, rfl, rfl, rfl, rfl, rfl, rfl,
    ?_, ?_⟩
  · intro i hi
    have hne : i ≠ s.node_count := by
      rcases hi with hi | hi
      · omega
      · simp only [setNode] at hi; omega
    simp [setNode, hne]
  · intro i hi1 hi2
    have hi : i = s.node_count := by
      simp only [setNode] at hi2; omega
    subst hi
    simp only [setNode, if_true, zero_node]
    exact ⟨trivial, trivial, trivial, ht⟩

theorem ensure_dir_loop_grows (ty : VfsFileType) :
    ∀ fuel (s : State) (p : List Char) (parent : Nat),
      Grows ty s (ensure_dir_loop fuel s p parent).2 := by
  intro fuel
  induction fuel with
  | zero => intro s p parent; exact Grows.stay ty s
  | succ fuel ih =>
    intro s p parent
    simp only [ensure_dir_loop]
    by_cases h1 : charAt p 0 = NUL
    · rw [if_pos h1]; exact Grows.stay ty s
    · rw [if_neg h1]
      by_cases h2 : find_child s parent (component p) < 0
      · rw [if_pos h2]
        by_cases h3 : s.node_count ≥ RAMFS_MAX_NODES
        · rw [alloc_node_full s h3]; exact Grows.stay ty s
        · rw [alloc_node_ok s h3]
          exact Grows.chain (Grows.alloc ty s h3 _ _ _ _ (Or.inl rfl)) (ih _ _ _)
      · rw [if_neg h2]
        exact ih _ _ _

theorem ensure_dir_grows (ty : VfsFileType) (s : State) (path : List Char) :
    Grows ty s (ensure_dir s path).2 := by
  unfold ensure_dir
  by_cases h1 : charAt path 0 = NUL
  · rw [if_pos h1]; exact Grows.stay ty s
  · rw [if_neg h1]
    dsimp only
    by_cases h2 : strcmp (List.take 255 (cstr path)) ['/'] = 0
    · rw [if_pos h2]; exact Grows.stay ty s
    · rw [if_neg h2]
      exact ensure_dir_loop_grows ty _ _ _ _

theorem create_node_grows (s : State) (path : List Char) (ty : VfsFileType) :
    Grows ty s (create_node s path ty).2 := by
  unfold create_node
  by_cases h1 : charAt path 0 = NUL
  · rw [if_pos h1]; exact Grows.stay ty s
  · rw [if_neg h1]
    dsimp only
    by_cases h2 : (vfs_dirname path [] 256).1 ≠ 0
    · rw [if_pos h2]; exact Grows.stay ty s
    · rw [if_neg h2]
      have hg := ensure_dir_grows ty s
        (if charAt (vfs_dirname path [] 256).2 0 ≠ NUL then (vfs_dirname path [] 256).2 else ['/'])
      generalize ensure_dir s
        (if charAt (vfs_dirname path [] 256).2 0 ≠ NUL then (vfs_dirname path [] 256).2
          else ['/']) = r at hg
      by_cases h3 : r.1 < 0
      · rw [if_pos h3]; exact hg
      · rw [if_neg h3]
        by_cases h4 : find_child r.2 r.1.toNat (vfs_basename path) ≥ 0
        · rw [if_pos h4]; exact hg
        · rw [if_neg h4]
          by_cases h5 : r.2.node_count ≥ RAMFS_MAX_NODES
          · rw [alloc_node_full r.2 h5]; exact hg
          · rw [alloc_node_ok r.2 h5]
            exact Grows.chain hg (Grows.alloc ty r.2 h5 _ _ _ _ (Or.inr rfl))

/-- With the node table full, the component loop of `ensure_dir` changes nothing. -/
theorem ensure_dir_loop_full :
    ∀ fuel (s : State) (p : List Char) (parent : Nat), s.node_count ≥ RAMFS_MAX_NODES →
      (ensure_dir_loop fuel s p parent).2 = s := by
  intro fuel
  induction fuel with
  | zero => intro s p parent _; rfl
  | succ fuel ih =>
    intro s p parent hfull
    simp only [ensure_dir_loop]
    by_cases h1 : charAt p 0 = NUL
    · rw [if_pos h1]
    · rw [if_neg h1]
      by_cases h2 : find_child s parent (component p) < 0
      · rw [if_pos h2, alloc_node_full s hfull]
      · rw [if_neg h2]
        exact ih _ _ _ hfull

theorem ensure_dir_full (s : State) (path : List Char) (hfull : s.node_count ≥ RAMFS_MAX_NODES) :
    (ensure_dir s path).2 = s := by
  unfold ensure_dir
  by_cases h1 : charAt path 0 = NUL
  · rw [if_pos h1]
  · rw [if_neg h1]
    dsimp only
    by_cases h2 : strcmp (List.take 255 (cstr path)) ['/'] = 0
    · rw [if_pos h2]
    · rw [if_neg h2]
      exact ensure_dir_loop_full _ _ _ _ hfull

/-- With the node table full, `create_node` fails and changes nothing. -/
theorem create_node_full (s : State) (path : List Char) (ty : VfsFileType)
    (hfull : s.node_count ≥ RAMFS_MAX_NODES) : create_node s path ty = (-1, s) := by
  unfold create_node
  by_cases h1 : charAt path 0 = NUL
  · rw [if_pos h1]
  · rw [if_neg h1]
    dsimp only
    by_cases h2 : (vfs_dirname path [] 256).1 ≠ 0
    · rw [if_pos h2]
    · rw [if_neg h2]
      have hg := ensure_dir_full s
        (if charAt (vfs_dirname path [] 256).2 0 ≠ NUL then (vfs_dirname path [] 256).2 else ['/'])
        hfull
      generalize ensure_dir s
        (if charAt (vfs_dirname path [] 256).2 0 ≠ NUL then (vfs_dirname path [] 256).2
          else ['/']) = r at hg
      by_cases h3 : r.1 < 0
      · rw [if_pos h3, hg]
      · rw [if_neg h3]
        by_cases h4 : find_child r.2 r.1.toNat (vfs_basename path) ≥ 0
        · rw [if_pos h4, hg]
        · rw [if_neg h4]
          rw [alloc_node_full r.2 (by rw [hg]; exact hfull), hg]

/-- A failing `create_node` returns -1. -/
theorem create_node_neg (s : State) (path : List Char) (ty : VfsFileType)
    (h : (create_node s path ty).1 < 0) : (create_node s path ty).1 = -1 := by
  unfold create_node at h ⊢
  by_cases h1 : charAt path 0 = NUL
  · rw [if_pos h1]
  · rw [if_neg h1] at h ⊢
    dsimp only at h ⊢
    by_cases h2 : (vfs_dirname path [] 256).1 ≠ 0
    · rw [if_pos h2]
    · rw [if_neg h2] at h ⊢
      generalize ensure_dir s
        (if charAt (vfs_dirname path [] 256).2 0 ≠ NUL then (vfs_dirname path [] 256).2
          else ['/']) = r at h ⊢
      by_cases h3 : r.1 < 0
      · rw [if_pos h3]
      · rw [if_neg h3] at h ⊢
        by_cases h4 : find_child r.2 r.1.toNat (vfs_basename path) ≥ 0
        · rw [if_pos h4]
        · rw [if_neg h4] at h ⊢
          by_cases h5 : r.2.node_count ≥ RAMFS_MAX_NODES
          · rw [alloc_node_full r.2 h5]
          · rw [alloc_node_ok r.2 h5] at h
            simp only at h
            omega

/-! ### RAMFS creation on a nearly full node table (ramfs.c) -/

/-- A path whose first component is not under the root does not resolve. -/
theorem find_node_missing (s : State) (l : List (List Char)) (hl : l ≠ [])
    (hall : ∀ c ∈ l, ValidName c) (hnew : find_child s 0 (l.getD 0 []) < 0) :
    find_node s (join_path l) = -1 := by
  rw [find_node_join_path s _ hl hall]
  cases l with
  | nil => exact absurd rfl hl
  | cons c0 rest =>
    have hc0 := hall c0 (List.mem_cons_self _ _)
    have hbody : (join_path (c0 :: rest)).drop 1 = c0 ++ join_path rest := by simp [join_path]
    have hfc : find_child s 0 c0 < 0 := by simpa using hnew
    rw [hbody]
    simp only [find_node_loop, if_neg (charAt_valid_ne_nul c0 _ hc0), component_append c0 rest hc0,
      if_pos hfc]

theorem top_missing (s : State) (L : List (List Char)) (c : List Char) (h : TopLevel s L)
    (hc : ∀ n ∈ L, strcmp n c ≠ 0) : find_child s 0 c < 0 := by
  rw [find_child_neg_iff]
  intro i hi hp
  exact hc _ (h.2.2 i hi hp.1 hp.2.1) hp.2.2

/-- The call of `create_node` that finds room for the missing directories but not for the
node itself: it returns -1 and leaves the directories in the table. -/
theorem create_node_runs_out (s : State) (cs : List (List Char)) (base : List Char)
    (ty : VfsFileType)
    (hcs : ∀ c ∈ cs, ValidName c) (hbase : ValidName base)
    (hlen : (join_path (cs ++ [base])).length < 256)
    (hroot : 0 < s.node_count) (hwf : ParentsInRange s)
    (hroom : s.node_count + cs.length = RAMFS_MAX_NODES)
    (hnew : find_child s 0 ((cs ++ [base]).getD 0 []) < 0) :
    (create_node s (join_path (cs ++ [base])) ty).1 = -1 ∧
    (create_node s (join_path (cs ++ [base])) ty).2.node_count = RAMFS_MAX_NODES ∧
    (∀ i, i < s.node_count →
      (create_node s (join_path (cs ++ [base])) ty).2.nodes i = s.nodes i) ∧
    (∀ j, j < cs.length →
      ((create_node s (join_path (cs ++ [base])) ty).2.nodes (s.node_count + j)).name
        = cs.getD j [] ∧
      ((create_node s (join_path (cs ++ [base])) ty).2.nodes (s.node_count + j)).parent
        = (if j = 0 then 0 else s.node_count + j - 1) ∧
      ((create_node s (join_path (cs ++ [base])) ty).2.nodes (s.node_count + j)).type
        = VfsFileType.DIR) := by
  have hp : join_path (cs ++ [base]) = join_path cs ++ '/' :: base := by
    rw [join_path_append]
    simp [join_path]
  have hll : (join_path cs).length ≤ 255 := by
    rw [hp] at hlen
    simp only [List.length_append, List.length_cons] at hlen
    omega
  have hhead : ∀ c, cs.head? = some c → find_child s 0 c < 0 := by
    intro c hc
    cases cs with
    | nil => simp at hc
    | cons c' cs' =>
      simp only [List.head?_cons, Option.some.injEq] at hc
      subst hc
      simpa using hnew
  obtain ⟨hd1, hd2⟩ := dirname_join_path cs base hcs hbase hlen
  obtain ⟨e1, e2, e3, e4⟩ := ensure_dir_chain s cs hcs hll hroot hwf (by omega) hhead
  have h0 : ¬ (charAt (join_path (cs ++ [base])) 0 = NUL) := by
    rw [hp]
    cases cs with
    | nil => simp [join_path, charAt, NUL]
    | cons c cs => simp [join_path, charAt, NUL]
  have hd0 : charAt (if cs = [] then ['/'] else join_path cs) 0 ≠ NUL := by
    cases cs with
    | nil => simp [charAt, NUL]
    | cons c cs => simp [join_path, charAt, NUL]
  unfold create_node
  rw [if_neg h0]
  simp only [hd1, hd2, ne_eq, not_true_eq_false, if_false, if_pos hd0]
  generalize ensure_dir s (if cs = [] then ['/'] else join_path cs) = r at e1 e2 e3 e4
  have hr1 : ¬ (r.1 < 0) := by rw [e1]; omega
  have hfull : r.2.node_count ≥ RAMFS_MAX_NODES := by rw [e2]; omega
  rw [if_neg hr1]
  by_cases hfc : find_child r.2 r.1.toNat base ≥ 0
  · rw [if_pos hfc]
    exact ⟨rfl, by rw [e2]; exact hroom, e3, e4⟩
  · rw [if_neg hfc, alloc_node_full _ hfull]
    exact ⟨rfl, by rw [e2]; exact hroom, e3, e4⟩

/-- The effect of `ramfs_create_file` on a path whose first component is new under the root,
with room for every component: the chain is appended and the first component joins the
names under the root. -/
theorem create_file_top (s : State) (L : List (List Char)) (cs : List (List Char))
    (base : List Char) (hcs : ∀ c ∈ cs, ValidName c) (hbase : ValidName base)
    (hlen : (join_path (cs ++ [base])).length < 256) (htop : TopLevel s L)
    (hroom : s.node_count + cs.length + 1 ≤ RAMFS_MAX_NODES)
    (hmiss : ∀ n ∈ L, strcmp n ((cs ++ [base]).getD 0 []) ≠ 0) :
    (ramfs_create_file s (join_path (cs ++ [base]))).2.node_count
      = s.node_count + cs.length + 1 ∧
    TopLevel (ramfs_create_file s (join_path (cs ++ [base]))).2
      ((cs ++ [base]).getD 0 [] :: L) ∧
    (∀ i, s.node_count + cs.length + 1 ≤ i →
      (ramfs_create_file s (join_path (cs ++ [base]))).2.nodes i = s.nodes i) := by
  have hall : ∀ c ∈ cs ++ [base], ValidName c := by
    intro c hc
    rcases List.mem_append.1 hc with h | h
    · exact hcs c h
    · simp only [List.mem_singleton] at h
      subst h
      exact hbase
  have hnew := top_missing s L _ htop hmiss
  have hfn := find_node_missing s (cs ++ [base]) (by simp) hall hnew
  have hcreate : ramfs_create_file s (join_path (cs ++ [base]))
      = create_node s (join_path (cs ++ [base])) VfsFileType.FILE := by
    unfold ramfs_create_file
    rw [if_neg (by rw [hfn]; decide)]
  obtain ⟨c1, c2, c3, c4⟩ :=
    create_node_chain s cs base VfsFileType.FILE hcs hbase hlen htop.1 htop.2.1 hroom hnew
  have hg := create_node_grows s (join_path (cs ++ [base])) VfsFileType.FILE
  rw [hcreate]
  generalize create_node s (join_path (cs ++ [base])) VfsFileType.FILE = r at c1 c2 c3 c4 hg
  have hlen1 : (cs ++ [base]).length = cs.length + 1 := by simp
  rw [hlen1] at c2 c4
  refine ⟨by rw [c2]; omega, ⟨by rw [c2]; omega, ?_, ?_⟩, ?_⟩
  · intro i hi hlive
    rw [c2] at hi ⊢
    by_cases hin : i < s.node_count
    · rw [c3 i hin] at hlive ⊢
      rcases htop.2.1 i hin hlive with h | h
      · left; omega
      · right; exact h
    · obtain ⟨j, rfl⟩ : ∃ j, i = s.node_count + j := ⟨i - s.node_count, by omega⟩
      rw [(c4 j (by omega)).2.1]
      left
      split <;> omega
  · intro i hi hlive hpar
    rw [c2] at hi
    by_cases hin : i < s.node_count
    · rw [c3 i hin] at hlive hpar ⊢
      exact List.mem_cons_of_mem _ (htop.2.2 i hin hlive hpar)
    · obtain ⟨j, rfl⟩ : ∃ j, i = s.node_count + j := ⟨i - s.node_count, by omega⟩
      have hj := c4 j (by omega)
      rw [hj.2.1] at hpar
      have hj0 : j = 0 := by
        by_contra hne
        rw [if_neg hne] at hpar
        have := htop.1
        omega
      subst hj0
      rw [hj.1]
      exact List.mem_cons_self _ _
  · intro i hi
    exact hg.2.2.2.2.2.2.2.2.1 i (Or.inr (by rw [c2]; omega))

theorem replicate_valid (c : Char) (n : Nat) (hc : c ≠ '/' ∧ c ≠ NUL) :
    ∀ x ∈ List.replicate n [c], ValidName x := by
  intro x hx
  rw [List.eq_of_mem_replicate hx]
  refine ⟨by simp, by simp, ?_⟩
  intro ch hch
  simp only [List.mem_singleton] at hch
  subst hch
  exact hc

theorem ramfs_init_top (pool : Nat → Nat) : TopLevel (ramfs_init pool) [] := by
  have h1 : (ramfs_init pool).node_count = 1 := rfl
  have h2 : ((ramfs_init pool).nodes 0).parent = 0xFFFFFFFF := rfl
  refine ⟨by rw [h1]; omega, ?_, ?_⟩
  · intro i hi hlive
    have hi0 : i = 0 := by omega
    subst hi0
    right
    rw [h2]
    decide
  · intro i hi hlive hpar
    have hi0 : i = 0 := by omega
    subst hi0
    rw [h2] at hpar
    exact absurd hpar (by decide)

set_option maxRecDepth 100000 in
/-- Two files, each below 126 nested new directories named "a" and "b", created on a
filesystem that holds the root only. -/
theorem two_deep_chains (s0 : State) (htop : TopLevel s0 []) (hcount : s0.node_count = 1) :
    (after_create_file (after_create_file s0 (deepPath 'a' 126)) (deepPath 'b' 126)).node_count
      = 255 ∧
    TopLevel (after_create_file (after_create_file s0 (deepPath 'a' 126)) (deepPath 'b' 126))
      ["b".toList, "a".toList] ∧
    (after_create_file (after_create_file s0 (deepPath 'a' 126)) (deepPath 'b' 126)).nodes 255
      = s0.nodes 255 := by
  have hlen : ∀ c : Char, (List.replicate 126 [c]).length = 126 := fun c => List.length_replicate _ _
  have hhead : ∀ c : Char, (List.replicate 126 [c] ++ ["f".toList]).getD 0 [] = [c] := fun c => rfl
  have ha := create_file_top s0 [] (List.replicate 126 ['a']) "f".toList
    (replicate_valid 'a' 126 (by decide)) (by unfold ValidName; decide) (by decide)
    htop (by rw [hcount, hlen]; decide) (by simp)
  rw [hcount, hlen, hhead] at ha
  have hb := create_file_top
    (ramfs_create_file s0 (join_path (List.replicate 126 ['a'] ++ ["f".toList]))).2 [['a']]
    (List.replicate 126 ['b']) "f".toList
    (replicate_valid 'b' 126 (by decide)) (by unfold ValidName; decide) (by decide)
    ha.2.1 (by rw [ha.1, hlen]; decide)
    (by
      intro n hn
      rw [hhead]
      simp only [List.mem_singleton] at hn
      subst hn
      decide)
  rw [ha.1, hlen, hhead] at hb
  unfold after_create_file deepPath
  refine ⟨hb.1, hb.2.1, ?_⟩
  rw [hb.2.2 255 (by omega), ha.2.2 255 (by omega)]

theorem almostFull_eq : almostFull =
    after_create_file (after_create_file (ramfs_init (fun _ => 0)) (deepPath 'a' 126))
      (deepPath 'b' 126) := rfl

/-- The nearly full filesystem: 255 nodes, "a" and "b" the only names under the root,
the last slot of the table never written. -/
theorem almostFull_top :
    almostFull.node_count = 255 ∧ TopLevel almostFull ["b".toList, "a".toList] ∧
    almostFull.nodes 255 = zero_node := by
  rw [almostFull_eq]
  have h := two_deep_chains (ramfs_init (fun _ => 0)) (ramfs_init_top _) rfl
  have h0 : (ramfs_init (fun _ => 0)).nodes 255 = zero_node := rfl
  rw [h0] at h
  exact h

/-- A failing `create_node` appends directories only. -/
theorem create_node_fail_grows (s : State) (path : List Char) (ty : VfsFileType)
    (h : (create_node s path ty).1 < 0) :
    Grows VfsFileType.DIR s (create_node s path ty).2 := by
  unfold create_node at h ⊢
  by_cases h1 : charAt path 0 = NUL
  · rw [if_pos h1]; exact Grows.stay _ s
  · rw [if_neg h1] at h ⊢
    dsimp only at h ⊢
    by_cases h2 : (vfs_dirname path [] 256).1 ≠ 0
    · rw [if_pos h2]; exact Grows.stay _ s
    · rw [if_neg h2] at h ⊢
      have hg := ensure_dir_grows VfsFileType.DIR s
        (if charAt (vfs_dirname path [] 256).2 0 ≠ NUL then (vfs_dirname path [] 256).2 else ['/'])
      generalize ensure_dir s
        (if charAt (vfs_dirname path [] 256).2 0 ≠ NUL then (vfs_dirname path [] 256).2
          else ['/']) = r at hg h
      by_cases h3 : r.1 < 0
      · rw [if_pos h3]; exact hg
      · rw [if_neg h3] at h ⊢
        by_cases h4 : find_child r.2 r.1.toNat (vfs_basename path) ≥ 0
        · rw [if_pos h4]; exact hg
        · rw [if_neg h4] at h ⊢
          by_cases h5 : r.2.node_count ≥ RAMFS_MAX_NODES
          · rw [alloc_node_full r.2 h5]; exact hg
          · rw [alloc_node_ok r.2 h5] at h
            simp only at h
            omega

theorem ramfs_open_missing (s : State) (path : List Char) (mode : Nat)
    (hfull : s.node_count ≥ RAMFS_MAX_NODES) (hmiss : find_node s path < 0) :
    ramfs_open s path mode = (none, s) := by
  unfold ramfs_open
  by_cases hc : find_node s path < 0 ∧ mode &&& VFS_O_CREATE ≠ 0
  · simp only [if_pos hc, create_node_full s path _ hfull]
    rfl
  · simp only [if_neg hc, if_pos hmiss]

/-- C24 (as amended): a failing creation leaves every node that existed before the
call, the data pool, its allocator and the handle pools as they were, and whatever it
appended to the node table is a chain of empty directories, counted in `node_count`.
If the table is already full when the call is made, `create_node`,
`ramfs_create_file`, `ramfs_mkdir` and `ramfs_open` of a missing path fail and change
nothing at all. -/
theorem create_failure_contract (s : State) (path : List Char) (ty : VfsFileType) :
    ((create_node s path ty).1 < 0 → Grows VfsFileType.DIR s (create_node s path ty).2) ∧
    ((ramfs_create_file s path).1 < 0 →
      Grows VfsFileType.DIR s (ramfs_create_file s path).2) ∧
    ((ramfs_mkdir s path).1 < 0 → Grows VfsFileType.DIR s (ramfs_mkdir s path).2) ∧
    (s.node_count ≥ RAMFS_MAX_NODES →
      create_node s path ty = (-1, s) ∧ ramfs_create_file s path = (-1, s) ∧
      ramfs_mkdir s path = (-1, s) ∧
      ∀ mode, find_node s path < 0 → ramfs_open s path mode = (none, s)) := by
  refine ⟨create_node_fail_grows s path ty, ?_, ?_, fun hfull => ⟨create_node_full s path ty hfull,
    ?_, ?_, fun mode hm => ramfs_open_missing s path mode hfull hm⟩⟩
  · intro h
    unfold ramfs_create_file at h ⊢
    by_cases hf : find_node s path ≥ 0
    · rw [if_pos hf]; exact Grows.stay _ s
    · rw [if_neg hf] at h ⊢
      exact create_node_fail_grows s path _ h
  · intro h
    unfold ramfs_mkdir at h ⊢
    by_cases h0 : charAt path 0 = NUL
    · rw [if_pos h0]; exact Grows.stay _ s
    · rw [if_neg h0] at h ⊢
      by_cases hf : find_node s path ≥ 0
      · rw [if_pos hf]; exact Grows.stay _ s
      · rw [if_neg hf] at h ⊢
        exact create_node_fail_grows s path _ h
  · unfold ramfs_create_file
    by_cases hf : find_node s path ≥ 0
    · rw [if_pos hf]
    · rw [if_neg hf]; exact create_node_full s path _ hfull
  · unfold ramfs_mkdir
    by_cases h0 : charAt path 0 = NUL
    · rw [if_pos h0]
    · rw [if_neg h0]
      by_cases hf : find_node s path ≥ 0
      · rw [if_pos hf]
      · rw [if_neg hf]; exact create_node_full s path _ hfull

set_option maxRecDepth 100000 in
/-- On a table with one free slot where the root has no child named "d", creating the
file "/d/g" uses the slot for the directory "d" and then fails. -/
theorem create_under_new_dir_runs_out (s : State) (L : List (List Char)) (htop : TopLevel s L)
    (hcount : s.node_count = 255) (hmiss : ∀ n ∈ L, strcmp n "d".toList ≠ 0) :
    (ramfs_create_file s "/d/g".toList).1 = -1 ∧
    (ramfs_create_file s "/d/g".toList).2.node_count = 256 ∧
    ((ramfs_create_file s "/d/g".toList).2.nodes 255).type = VfsFileType.DIR ∧
    ((ramfs_create_file s "/d/g".toList).2.nodes 255).name = "d".toList ∧
    ((ramfs_create_file s "/d/g".toList).2.nodes 255).parent = 0 ∧
    ramfs_isdir s "/d".toList = false ∧
    ramfs_isdir (ramfs_create_file s "/d/g".toList).2 "/d".toList = true := by
  have hvd : ValidName "d".toList := by unfold ValidName; decide
  have hvg : ValidName "g".toList := by unfold ValidName; decide
  have hcs : ∀ c ∈ ["d".toList], ValidName c := by
    intro c hc
    simp only [List.mem_singleton] at hc
    subst hc; exact hvd
  have hall : ∀ c ∈ ["d".toList] ++ ["g".toList], ValidName c := by
    intro c hc
    simp only [List.mem_append, List.mem_singleton] at hc
    rcases hc with rfl | rfl
    · exact hvd
    · exact hvg
  have hnew : find_child s 0 "d".toList < 0 := top_missing s L _ htop hmiss
  have hp2 : join_path (["d".toList] ++ ["g".toList]) = "/d/g".toList := by decide
  have hp1 : join_path ["d".toList] = "/d".toList := by decide
  have hfn := find_node_missing s (["d".toList] ++ ["g".toList]) (by simp) hall hnew
  rw [hp2] at hfn
  have hfd := find_node_missing s ["d".toList] (by simp) hcs hnew
  rw [hp1] at hfd
  have hcreate : ramfs_create_file s "/d/g".toList
      = create_node s "/d/g".toList VfsFileType.FILE := by
    unfold ramfs_create_file
    rw [if_neg (by rw [hfn]; decide)]
  obtain ⟨c1, c2, c3, c4⟩ := create_node_runs_out s ["d".toList] "g".toList VfsFileType.FILE
    hcs hvg (by decide) htop.1 htop.2.1 (by rw [hcount]; rfl) hnew
  rw [hp2] at c1 c2 c3 c4
  rw [hcreate]
  generalize create_node s "/d/g".toList VfsFileType.FILE = r at c1 c2 c3 c4
  have c5 := c4 0 (by decide)
  rw [hcount] at c5 c3
  simp only [Nat.add_zero, if_true] at c5
  have hfind : ∀ j, j < ["d".toList].length →
      find_child r.2 (if j = 0 then 0 else 255 + j - 1) (["d".toList].getD j [])
        = ((255 + j : Nat) : Int) :=
    chain_find_child r.2 255 0 ["d".toList] c2 (by decide) (by decide)
      (by
        intro i hi hlive
        rw [c3 i hi] at hlive ⊢
        rcases htop.2.1 i (by omega) hlive with h | h
        · left; omega
        · right; exact h)
      (by
        intro i hi
        rw [c3 i hi]
        exact (find_child_neg_iff s 0 _).1 hnew i (by omega))
      (by
        intro j hj
        have hj0 : j = 0 := by
          simp only [List.length_singleton] at hj; omega
        subst hj0
        refine ⟨c5.1, c5.2.1, ?_⟩
        show (r.2.nodes 255).type ≠ VfsFileType.UNKNOWN
        rw [c5.2.2]
        decide)
  have hfr := find_node_chain r.2 255 ["d".toList] ["d".toList] hcs (by simp)
    (List.prefix_refl _) hfind
  rw [hp1] at hfr
  refine ⟨c1, c2, c5.2.2, c5.1, c5.2.1, ?_, ?_⟩
  · unfold ramfs_isdir
    rw [if_pos (by rw [hfd]; decide)]
  · unfold ramfs_isdir
    rw [hfr, if_neg (by decide)]
    have : (((255 + ["d".toList].length - 1 : Nat) : Int)).toNat = 255 := by decide
    rw [this, c5.2.2]
    rfl

/-- C24 counterexample: with 255 nodes allocated, `ramfs_create_file("/d/g")` fails for
lack of a node slot, yet the node count has become 256 and slot 255, unused before,
holds the new directory "d": "/d" did not exist before the failed call and is a
directory after it. -/
theorem create_failure_leaves_directory :
    almostFull.node_count = 255 ∧
    (almostFull.nodes 255).type = VfsFileType.UNKNOWN ∧
    ramfs_isdir almostFull "/d".toList = false ∧
    (ramfs_create_file almostFull "/d/g".toList).1 = -1 ∧
    (ramfs_create_file almostFull "/d/g".toList).2.node_count = 256 ∧
    ((ramfs_create_file almostFull "/d/g".toList).2.nodes 255).type = VfsFileType.DIR ∧
    ((ramfs_create_file almostFull "/d/g".toList).2.nodes 255).name = "d".toList ∧
    ramfs_isdir (ramfs_create_file almostFull "/d/g".toList).2 "/d".toList = true := by
  obtain ⟨h1, h2, h3⟩ := almostFull_top
  have h := create_under_new_dir_runs_out almostFull _ h2 h1 (by decide)
  refine ⟨h1, ?_, h.2.2.2.2.2.1, h.1, h.2.1, h.2.2.1, h.2.2.2.1, h.2.2.2.2.2.2⟩
  rw [h3]
  rfl

theorem after_create_file_eq (s : State) (path : List Char) :
    after_create_file s path = (ramfs_create_file s path).2 := rfl

set_option maxRecDepth 100000 in
theorem fullTable_count : fullTable.node_count = 256 := by
  have hf : fullTable = after_create_file almostFull "/z".toList := rfl
  obtain ⟨h1, h2, _⟩ := almostFull_top
  have h := create_file_top almostFull ["b".toList, "a".toList] [] "z".toList
    (by simp) (by unfold ValidName; decide) (by decide) h2 (by rw [h1]; decide) (by decide)
  have hp : join_path (([] : List (List Char)) ++ ["z".toList]) = "/z".toList := by decide
  rw [hp, h1] at h
  rw [hf, after_create_file_eq, h.1]
  rfl

/-- C24 witness: with all 256 node slots allocated, `mkdir("/q")` and `create("/q")` fail
and leave the state as it was; with 255 allocated, the failing `create("/d/g")` keeps
the 255 old nodes and appends directories only. -/
theorem create_failure_contract_witness :
    (fullTable.node_count ≥ RAMFS_MAX_NODES ∧
      (ramfs_create_file almostFull "/d/g".toList).1 < 0) ∧
    ramfs_mkdir fullTable "/q".toList = (-1, fullTable) ∧
    ramfs_create_file fullTable "/q".toList = (-1, fullTable) ∧
    Grows VfsFileType.DIR almostFull (ramfs_create_file almostFull "/d/g".toList).2 :=
  have hfull : fullTable.node_count ≥ RAMFS_MAX_NODES := by rw [fullTable_count]; decide
  have hneg : (ramfs_create_file almostFull "/d/g".toList).1 < 0 := by
    rw [(create_under_new_dir_runs_out almostFull _ almostFull_top.2.1 almostFull_top.1
      (by decide)).1]
    decide
  ⟨⟨hfull, hneg⟩,
    ((create_failure_contract fullTable "/q".toList VfsFileType.DIR).2.2.2 hfull).2.2.1,
    ((create_failure_contract fullTable "/q".toList VfsFileType.DIR).2.2.2 hfull).2.1,
    (create_failure_contract almostFull "/d/g".toList VfsFileType.FILE).2.1 hneg⟩

/-! ### RAMFS counters (ramfs.c) -/

theorem Grows.bounded {ty : VfsFileType} {s r : State} (h : Grows ty s r) (hb : Bounded s) :
    Bounded r ∧ s.node_count ≤ r.node_count ∧ s.data_offset ≤ r.data_offset := by
  obtain ⟨a1, a2, a3, a4, a5, a6, a7, a8, a9, a10⟩ := h
  obtain ⟨b1, b2, b3, b4⟩ := hb
  refine ⟨⟨a2 b1, by rw [a3]; exact b2, ?_, ?_⟩, a1, by rw [a3]⟩
  · intro i
    by_cases hi : i < s.node_count ∨ r.node_count ≤ i
    · rw [a9 i hi]; exact b3 i
    · have := a10 i (by omega) (by omega)
      rw [this.1, this.2.1]
      exact ⟨Nat.zero_le _, Nat.zero_le _⟩
  · intro h
    rw [a5]; exact b4 h

/-- A sane allocation request never moves the allocator backwards or past the pool. -/
theorem ramfs_alloc_data_bounded (s : State) (size : Nat) (hD : s.data_offset ≤ RAMFS_DATA_SIZE)
    (hs : size < 2 ^ 63 + RAMFS_DATA_SIZE) :
    s.data_offset ≤ (ramfs_alloc_data s size).2.data_offset ∧
    (ramfs_alloc_data s size).2.data_offset ≤ RAMFS_DATA_SIZE ∧
    (ramfs_alloc_data s size).2.nodes = s.nodes ∧
    (ramfs_alloc_data s size).2.node_count = s.node_count ∧
    (ramfs_alloc_data s size).2.file_pool = s.file_pool ∧
    (ramfs_alloc_data s size).2.data_pool = s.data_pool ∧
    (¬ (ramfs_alloc_data s size).1 < 0 → size ≤ RAMFS_DATA_SIZE) := by
  have hmod : (s.data_offset + size) % 2 ^ 64 = s.data_offset + size := by
    apply Nat.mod_eq_of_lt
    simp only [RAMFS_DATA_SIZE] at hD hs
    norm_num at hs ⊢
    omega
  unfold ramfs_alloc_data
  rw [hmod]
  by_cases h : s.data_offset + size > RAMFS_DATA_SIZE
  · rw [if_pos h]
    exact ⟨le_refl _, hD, rfl, rfl, rfl, rfl, fun hn => absurd (show ((-1 : Int) < 0) by decide) hn⟩
  · rw [if_neg h]
    refine ⟨Nat.le_add_right _ _, by simp only; omega, rfl, rfl, rfl, rfl, fun _ => by omega⟩

theorem alloc_file_bounded (s : State) (hb : Bounded s) :
    Bounded (alloc_file s).2 ∧ (alloc_file s).2.node_count = s.node_count ∧
    (alloc_file s).2.data_offset = s.data_offset ∧ (alloc_file s).2.nodes = s.nodes := by
  unfold alloc_file
  cases (List.range RAMFS_MAX_FILES).find? (fun i => !s.file_used i) with
  | none => exact ⟨hb, rfl, rfl, rfl⟩
  | some k =>
    refine ⟨⟨hb.1, hb.2.1, hb.2.2.1, ?_⟩, rfl, rfl, rfl⟩
    intro h
    simp only
    by_cases hk : h = k
    · rw [if_pos hk]; exact Nat.zero_le _
    · rw [if_neg hk]; exact hb.2.2.2 h

theorem open_handle_bounded (s : State) (idx mode : Nat) (hb : Bounded s) :
    Bounded (open_handle s idx mode).2 ∧ (open_handle s idx mode).2.node_count = s.node_count ∧
    (open_handle s idx mode).2.data_offset = s.data_offset := by
  have ha := alloc_file_bounded s hb
  unfold open_handle
  generalize alloc_file s = r at ha
  obtain ⟨o, s3⟩ := r
  cases o with
  | none => exact ⟨ha.1, ha.2.1, ha.2.2.1⟩
  | some h =>
    simp only at ha ⊢
    refine ⟨⟨ha.1.1, ha.1.2.1, ha.1.2.2.1, ?_⟩, ha.2.1, ha.2.2.1⟩
    intro j
    simp only
    by_cases hj : j = h
    · rw [if_pos hj]
      simp only
      split
      · exact (ha.1.2.2.1 idx).2
      · exact Nat.zero_le _
    · rw [if_neg hj]; exact ha.1.2.2.2 j

theorem setNode_bounded (s : State) (i : Nat) (n : RamfsNode) (hb : Bounded s)
    (hc : n.capacity ≤ RAMFS_DATA_SIZE) (hs : n.size ≤ RAMFS_DATA_SIZE) :
    Bounded (setNode s i n) := by
  refine ⟨hb.1, hb.2.1, ?_, hb.2.2.2⟩
  intro j
  simp only [setNode]
  by_cases hj : j = i
  · rw [if_pos hj]; exact ⟨hc, hs⟩
  · rw [if_neg hj]; exact hb.2.2.1 j

set_option maxRecDepth 100000 in
theorem open_node_bounded (s : State) (idx mode : Nat) (hb : Bounded s) :
    Bounded (open_node s idx mode).2 ∧ (open_node s idx mode).2.node_count = s.node_count ∧
    s.data_offset ≤ (open_node s idx mode).2.data_offset := by
  unfold open_node
  by_cases ht : (s.nodes idx).type ≠ VfsFileType.FILE
  · rw [if_pos ht]; exact ⟨hb, rfl, le_refl _⟩
  · rw [if_neg ht]
    have hb1 : Bounded (if mode &&& VFS_O_TRUNC ≠ 0 then
        setNode s idx { s.nodes idx with size := 0 } else s) ∧
        (if mode &&& VFS_O_TRUNC ≠ 0 then
          setNode s idx { s.nodes idx with size := 0 } else s).node_count = s.node_count ∧
        (if mode &&& VFS_O_TRUNC ≠ 0 then
          setNode s idx { s.nodes idx with size := 0 } else s).data_offset = s.data_offset := by
      split
      · exact ⟨setNode_bounded s idx _ hb (hb.2.2.1 idx).1 (Nat.zero_le _), rfl, rfl⟩
      · exact ⟨hb, rfl, rfl⟩
    simp only
    generalize (if mode &&& VFS_O_TRUNC ≠ 0 then
        setNode s idx { s.nodes idx with size := 0 } else s) = s1 at hb1
    obtain ⟨hb1, hn1, hd1⟩ := hb1
    by_cases hc : (s1.nodes idx).capacity = 0
    · rw [if_pos hc]
      have ha := ramfs_alloc_data_bounded s1 4096 hb1.2.1
        (by rw [show RAMFS_DATA_SIZE = 262144 from rfl]; norm_num)
      have hba : Bounded (ramfs_alloc_data s1 4096).2 := by
        refine ⟨by rw [ha.2.2.2.1]; exact hb1.1, ha.2.1, ?_, ?_⟩
        · rw [ha.2.2.1]; exact hb1.2.2.1
        · rw [ha.2.2.2.2.1]; exact hb1.2.2.2
      by_cases hf : (ramfs_alloc_data s1 4096).1 < 0
      · rw [if_pos hf]
        dsimp only
        exact ⟨hba, by rw [ha.2.2.2.1, hn1], by rw [← hd1]; exact ha.1⟩
      · rw [if_neg hf]
        have hcap : (4096 : Nat) ≤ RAMFS_DATA_SIZE := by decide
        have hn2 : (ramfs_alloc_data s1 4096).2.node_count = s.node_count := by
          rw [ha.2.2.2.1, hn1]
        have hd2 : s.data_offset ≤ (ramfs_alloc_data s1 4096).2.data_offset := by
          rw [← hd1]; exact ha.1
        have hsz := (hba.2.2.1 idx).2
        generalize (ramfs_alloc_data s1 4096).1.toNat = off
        generalize ramfs_alloc_data s1 4096 = r at hba hn2 hd2 hsz
        have ho := open_handle_bounded
          (setNode r.2 idx { r.2.nodes idx with data_offset := off, capacity := 4096 }) idx mode
          (setNode_bounded r.2 idx _ hba hcap hsz)
        exact ⟨ho.1, ho.2.1.trans hn2, le_trans hd2 (le_of_eq ho.2.2.symm)⟩
    · rw [if_neg hc]
      have ho := open_handle_bounded s1 idx mode hb1
      exact ⟨ho.1, by rw [ho.2.1, hn1], by rw [ho.2.2, hd1]⟩

theorem ramfs_open_bounded (s : State) (path : List Char) (mode : Nat) (hb : Bounded s) :
    Bounded (ramfs_open s path mode).2 ∧ s.node_count ≤ (ramfs_open s path mode).2.node_count ∧
    s.data_offset ≤ (ramfs_open s path mode).2.data_offset := by
  unfold ramfs_open
  have hc : Bounded (if find_node s path < 0 ∧ mode &&& VFS_O_CREATE ≠ 0 then
        create_node s path VfsFileType.FILE else (find_node s path, s)).2 ∧
      s.node_count ≤ (if find_node s path < 0 ∧ mode &&& VFS_O_CREATE ≠ 0 then
        create_node s path VfsFileType.FILE else (find_node s path, s)).2.node_count ∧
      s.data_offset ≤ (if find_node s path < 0 ∧ mode &&& VFS_O_CREATE ≠ 0 then
        create_node s path VfsFileType.FILE else (find_node s path, s)).2.data_offset := by
    split
    · exact (create_node_grows s path VfsFileType.FILE).bounded hb
    · exact ⟨hb, le_refl _, le_refl _⟩
  simp only
  generalize (if find_node s path < 0 ∧ mode &&& VFS_O_CREATE ≠ 0 then
        create_node s path VfsFileType.FILE else (find_node s path, s)) = c at hc
  by_cases hneg : c.1 < 0
  · rw [if_pos hneg]; exact hc
  · rw [if_neg hneg]
    have ho := open_node_bounded c.2 c.1.toNat mode hc.1
    exact ⟨ho.1, by rw [ho.2.1]; exact hc.2.1, le_trans hc.2.2 ho.2.2⟩

theorem ramfs_read_bounded (s : State) (h : Option Nat) (count : Nat) (hb : Bounded s) :
    Bounded (ramfs_read s h count).2.2 ∧ (ramfs_read s h count).2.2.node_count = s.node_count ∧
    (ramfs_read s h count).2.2.data_offset = s.data_offset := by
  cases h with
  | none => exact ⟨hb, rfl, rfl⟩
  | some h =>
    unfold ramfs_read
    dsimp only
    cases hn : (s.file_pool h).node with
    | none => exact ⟨hb, rfl, rfl⟩
    | some idx =>
      dsimp only
      by_cases hp : (s.file_pool h).position ≥ (s.nodes idx).size
      · rw [if_pos hp]; exact ⟨hb, rfl, rfl⟩
      · rw [if_neg hp]
        refine ⟨⟨hb.1, hb.2.1, hb.2.2.1, ?_⟩, rfl, rfl⟩
        intro j
        dsimp only
        by_cases hj : j = h
        · rw [if_pos hj]
          dsimp only
          have h1 := (hb.2.2.1 idx).2
          have h2 : RAMFS_DATA_SIZE = 262144 := rfl
          rw [h2] at h1 ⊢
          have h3 : ((s.file_pool h).position +
              (if count > (s.nodes idx).size - (s.file_pool h).position
                then (s.nodes idx).size - (s.file_pool h).position else count)) % 2 ^ 64
              ≤ 262144 := by
            norm_num
            split_ifs <;> omega
          exact h3
        · rw [if_neg hj]; exact hb.2.2.2 j

theorem ramfs_seek_bounded (s : State) (h : Option Nat) (offset whence : Int) (hb : Bounded s) :
    Bounded (ramfs_seek s h offset whence).2 ∧
    (ramfs_seek s h offset whence).2.node_count = s.node_count ∧
    (ramfs_seek s h offset whence).2.data_offset = s.data_offset := by
  cases h with
  | none => exact ⟨hb, rfl, rfl⟩
  | some h =>
    unfold ramfs_seek
    dsimp only
    cases hn : (s.file_pool h).node with
    | none => exact ⟨hb, rfl, rfl⟩
    | some idx =>
      dsimp only
      generalize (if whence = VFS_SEEK_SET then some offset
        else if whence = VFS_SEEK_CUR then some (((s.file_pool h).position : Int) + offset)
        else if whence = VFS_SEEK_END then some (((s.nodes idx).size : Int) + offset)
        else none) = np
      cases np with
      | none => exact ⟨hb, rfl, rfl⟩
      | some t =>
        dsimp only
        by_cases hbad : t < 0 ∨ t > ((s.nodes idx).size : Int)
        · rw [if_pos hbad]; exact ⟨hb, rfl, rfl⟩
        · rw [if_neg hbad]
          refine ⟨⟨hb.1, hb.2.1, hb.2.2.1, ?_⟩, rfl, rfl⟩
          intro j
          dsimp only
          by_cases hj : j = h
          · rw [if_pos hj]
            dsimp only
            have h1 := (hb.2.2.1 idx).2
            omega
          · rw [if_neg hj]; exact hb.2.2.2 j

theorem grow_node_bounded (s : State) (idx needed : Nat) (hb : Bounded s)
    (hneed : needed < 2 ^ 63 + RAMFS_DATA_SIZE) (s1 : State)
    (hg : grow_node s idx needed = some s1) :
    Bounded s1 ∧ s1.node_count = s.node_count ∧ s.data_offset ≤ s1.data_offset ∧
    s1.file_pool = s.file_pool ∧ needed ≤ (s1.nodes idx).capacity ∧
    (s1.nodes idx).size = (s.nodes idx).size := by
  have h2 : RAMFS_DATA_SIZE = 262144 := rfl
  unfold grow_node at hg
  dsimp only at hg
  by_cases hn : needed > (s.nodes idx).capacity
  · rw [if_pos hn] at hg
    have hcap := (hb.2.2.1 idx).1
    have hmod : ((s.nodes idx).capacity + 4096) % 2 ^ 64 = (s.nodes idx).capacity + 4096 := by
      apply Nat.mod_eq_of_lt
      rw [h2] at hcap
      norm_num
      omega
    rw [hmod] at hg
    have hnc : (if (s.nodes idx).capacity + 4096 < needed then needed
        else (s.nodes idx).capacity + 4096) < 2 ^ 63 + RAMFS_DATA_SIZE ∧
        needed ≤ (if (s.nodes idx).capacity + 4096 < needed then needed
        else (s.nodes idx).capacity + 4096) := by
      rw [h2] at hcap hneed ⊢
      norm_num at hneed ⊢
      split_ifs <;> omega
    generalize (if (s.nodes idx).capacity + 4096 < needed then needed
        else (s.nodes idx).capacity + 4096) = nc at hg hnc
    have ha := ramfs_alloc_data_bounded s nc hb.2.1 hnc.1
    by_cases hf : (ramfs_alloc_data s nc).1 < 0
    · rw [if_pos hf] at hg; cases hg
    · rw [if_neg hf] at hg
      simp only [Option.some.injEq] at hg
      subst hg
      have hle := ha.2.2.2.2.2.2 hf
      refine ⟨⟨?_, ?_, ?_, ?_⟩, ?_, ?_, ?_, ?_, ?_⟩
      · show (ramfs_alloc_data s nc).2.node_count ≤ _
        rw [ha.2.2.2.1]; exact hb.1
      · exact ha.2.1
      · intro j
        simp only [setNode]
        by_cases hj : j = idx
        · rw [if_pos hj]
          exact ⟨hle, (hb.2.2.1 idx).2⟩
        · rw [if_neg hj, ha.2.2.1]
          exact hb.2.2.1 j
      · intro j
        show ((ramfs_alloc_data s nc).2.file_pool j).position ≤ _
        rw [ha.2.2.2.2.1]; exact hb.2.2.2 j
      · exact ha.2.2.2.1
      · exact ha.1
      · exact ha.2.2.2.2.1
      · simp only [setNode, if_true]
        exact hnc.2
      · simp only [setNode, if_true]
  · rw [if_neg hn] at hg
    simp only [Option.some.injEq] at hg
    subst hg
    exact ⟨hb, rfl, le_refl _, rfl, by omega, rfl⟩

theorem store_bytes_bounded (s : State) (h idx : Nat) (buf : List Nat) (count : Nat)
    (hb : Bounded s) (hfit : (s.file_pool h).position + count ≤ (s.nodes idx).capacity) :
    Bounded (store_bytes s h idx buf count).2 ∧
    (store_bytes s h idx buf count).2.node_count = s.node_count ∧
    (store_bytes s h idx buf count).2.data_offset = s.data_offset := by
  have h2 : RAMFS_DATA_SIZE = 262144 := rfl
  have hcap := (hb.2.2.1 idx).1
  have hmod : ((s.file_pool h).position + count) % 2 ^ 64 = (s.file_pool h).position + count := by
    apply Nat.mod_eq_of_lt
    rw [h2] at hcap
    norm_num
    omega
  unfold store_bytes
  dsimp only
  rw [hmod]
  have hpool : ∀ j, ((fun j => if j = h then
      ({ s.file_pool h with position := (s.file_pool h).position + count } : RamfsFile)
      else s.file_pool j) j).position ≤ RAMFS_DATA_SIZE := by
    intro j
    dsimp only
    by_cases hj : j = h
    · rw [if_pos hj]; dsimp only; omega
    · rw [if_neg hj]; exact hb.2.2.2 j
  by_cases hgt : (s.file_pool h).position + count > (s.nodes idx).size
  · rw [if_pos hgt]
    refine ⟨⟨hb.1, hb.2.1, ?_, hpool⟩, rfl, rfl⟩
    intro j
    simp only [setNode]
    by_cases hj : j = idx
    · rw [if_pos hj]
      exact ⟨hcap, by dsimp only; omega⟩
    · rw [if_neg hj]; exact hb.2.2.1 j
  · rw [if_neg hgt]
    exact ⟨⟨hb.1, hb.2.1, hb.2.2.1, hpool⟩, rfl, rfl⟩

theorem ramfs_write_bounded (s : State) (h : Option Nat) (buf : List Nat) (count : Nat)
    (hb : Bounded s) (hcount : count < 2 ^ 63) :
    Bounded (ramfs_write s h buf count).2 ∧
    (ramfs_write s h buf count).2.node_count = s.node_count ∧
    s.data_offset ≤ (ramfs_write s h buf count).2.data_offset := by
  have h2 : RAMFS_DATA_SIZE = 262144 := rfl
  cases h with
  | none => exact ⟨hb, rfl, le_refl _⟩
  | some h =>
    unfold ramfs_write
    dsimp only
    cases hn : (s.file_pool h).node with
    | none => exact ⟨hb, rfl, le_refl _⟩
    | some idx =>
      dsimp only
      by_cases hc : (s.nodes idx).capacity = 0
      · rw [if_pos hc]; exact ⟨hb, rfl, le_refl _⟩
      · rw [if_neg hc]
        have hpos := hb.2.2.2 h
        have hmod : ((s.file_pool h).position + count) % 2 ^ 64
            = (s.file_pool h).position + count := by
          apply Nat.mod_eq_of_lt
          rw [h2] at hpos
          norm_num at hcount ⊢
          omega
        rw [hmod]
        cases hg : grow_node s idx ((s.file_pool h).position + count) with
        | none => exact ⟨hb, rfl, le_refl _⟩
        | some s1 =>
          dsimp only
          have hgb := grow_node_bounded s idx _ hb
            (by rw [h2] at hpos ⊢; norm_num at hcount ⊢; omega) s1 hg
          have hsb := store_bytes_bounded s1 h idx buf count hgb.1
            (by rw [hgb.2.2.2.1]; exact hgb.2.2.2.2.1)
          exact ⟨hsb.1, hsb.2.1.trans hgb.2.1, by rw [hsb.2.2]; exact hgb.2.2.1⟩

theorem ramfs_unlink_bounded (s : State) (path : List Char) (hb : Bounded s) :
    Bounded (ramfs_unlink s path).2 ∧ (ramfs_unlink s path).2.node_count = s.node_count ∧
    (ramfs_unlink s path).2.data_offset = s.data_offset := by
  unfold ramfs_unlink
  by_cases h1 : find_node s path ≤ 0
  · rw [if_pos h1]; exact ⟨hb, rfl, rfl⟩
  · rw [if_neg h1]
    dsimp only
    split
    · exact ⟨hb, rfl, rfl⟩
    · exact ⟨setNode_bounded s _ _ hb (Nat.zero_le _) (Nat.zero_le _), rfl, rfl⟩

theorem ramfs_rename_bounded (s : State) (src dst : List Char) (hb : Bounded s) :
    Bounded (ramfs_rename s src dst).2 ∧ (ramfs_rename s src dst).2.node_count = s.node_count ∧
    (ramfs_rename s src dst).2.data_offset = s.data_offset := by
  unfold ramfs_rename
  by_cases h1 : find_node s src < 0
  · rw [if_pos h1]; exact ⟨hb, rfl, rfl⟩
  · rw [if_neg h1]
    by_cases h2 : (vfs_dirname dst [] 256).1 ≠ 0
    · rw [if_pos h2]; exact ⟨hb, rfl, rfl⟩
    · rw [if_neg h2]
      dsimp only
      generalize find_node s (if charAt (vfs_dirname dst [] 256).2 0 ≠ NUL
        then (vfs_dirname dst [] 256).2 else ['/']) = parent
      by_cases h3 : parent < 0
      · rw [if_pos h3]; exact ⟨hb, rfl, rfl⟩
      · rw [if_neg h3]
        by_cases h4 : find_child s parent.toNat (vfs_basename dst) ≥ 0
        · rw [if_pos h4]; exact ⟨hb, rfl, rfl⟩
        · rw [if_neg h4]
          exact ⟨setNode_bounded s _ _ hb (hb.2.2.1 _).1 (hb.2.2.1 _).2, rfl, rfl⟩

theorem ramfs_create_file_bounded (s : State) (path : List Char) (hb : Bounded s) :
    Bounded (ramfs_create_file s path).2 ∧
    s.node_count ≤ (ramfs_create_file s path).2.node_count ∧
    s.data_offset ≤ (ramfs_create_file s path).2.data_offset := by
  unfold ramfs_create_file
  split
  · exact ⟨hb, le_refl _, le_refl _⟩
  · exact (create_node_grows s path VfsFileType.FILE).bounded hb

theorem ramfs_mkdir_bounded (s : State) (path : List Char) (hb : Bounded s) :
    Bounded (ramfs_mkdir s path).2 ∧ s.node_count ≤ (ramfs_mkdir s path).2.node_count ∧
    s.data_offset ≤ (ramfs_mkdir s path).2.data_offset := by
  unfold ramfs_mkdir
  split
  · exact ⟨hb, le_refl _, le_refl _⟩
  · split
    · exact ⟨hb, le_refl _, le_refl _⟩
    · exact (create_node_grows s path VfsFileType.DIR).bounded hb

theorem ramfs_step_bounded (s : State) (op : RamfsOp) (hb : Bounded s) (hop : SaneOp op) :
    Bounded (ramfs_step s op) ∧ s.node_count ≤ (ramfs_step s op).node_count ∧
    s.data_offset ≤ (ramfs_step s op).data_offset := by
  cases op with
  | open_ path mode => exact ramfs_open_bounded s path mode hb
  | close h =>
    have : Bounded (ramfs_close s h) ∧ (ramfs_close s h).node_count = s.node_count ∧
        (ramfs_close s h).data_offset = s.data_offset := by
      unfold ramfs_close free_file
      split
      · exact ⟨⟨hb.1, hb.2.1, hb.2.2.1, hb.2.2.2⟩, rfl, rfl⟩
      · exact ⟨hb, rfl, rfl⟩
    exact ⟨this.1, le_of_eq this.2.1.symm, le_of_eq this.2.2.symm⟩
  | read h count =>
    have := ramfs_read_bounded s h count hb
    exact ⟨this.1, le_of_eq this.2.1.symm, le_of_eq this.2.2.symm⟩
  | write h buf count =>
    have := ramfs_write_bounded s h buf count hb hop
    exact ⟨this.1, le_of_eq this.2.1.symm, this.2.2⟩
  | seek h offset whence =>
    have := ramfs_seek_bounded s h offset whence hb
    exact ⟨this.1, le_of_eq this.2.1.symm, le_of_eq this.2.2.symm⟩
  | create path => exact ramfs_create_file_bounded s path hb
  | mkdir path => exact ramfs_mkdir_bounded s path hb
  | unlink path =>
    have := ramfs_unlink_bounded s path hb
    exact ⟨this.1, le_of_eq this.2.1.symm, le_of_eq this.2.2.symm⟩
  | rename src dst =>
    have := ramfs_rename_bounded s src dst hb
    exact ⟨this.1, le_of_eq this.2.1.symm, le_of_eq this.2.2.symm⟩

theorem ramfs_run_bounded :
    ∀ (ops : List RamfsOp) (s : State), Bounded s → (∀ op ∈ ops, SaneOp op) →
      Bounded (ramfs_run ops s) ∧ s.node_count ≤ (ramfs_run ops s).node_count ∧
      s.data_offset ≤ (ramfs_run ops s).data_offset := by
  intro ops
  induction ops with
  | nil => intro s hb _; exact ⟨hb, le_refl _, le_refl _⟩
  | cons op ops ih =>
    intro s hb hops
    have h1 := ramfs_step_bounded s op hb (hops op (List.mem_cons_self _ _))
    have h2 := ih (ramfs_step s op) h1.1 (fun o ho => hops o (List.mem_cons_of_mem _ ho))
    exact ⟨h2.1, le_trans h1.2.1 h2.2.1, le_trans h1.2.2 h2.2.2⟩

theorem ramfs_init_bounded (pool : Nat → Nat) : Bounded (ramfs_init pool) := by
  refine ⟨show (1 : Nat) ≤ RAMFS_MAX_NODES by decide, show (0 : Nat) ≤ RAMFS_DATA_SIZE by decide, ?_,
    fun h => Nat.zero_le _⟩
  intro i
  have hc : ((ramfs_init pool).nodes i).capacity = 0 ∧ ((ramfs_init pool).nodes i).size = 0 := by
    by_cases hi : i = 0
    · subst hi; exact ⟨rfl, rfl⟩
    · simp [ramfs_init, alloc_node, setNode, RAMFS_MAX_NODES, zero_node, hi]
  rw [hc.1, hc.2]
  exact ⟨Nat.zero_le _, Nat.zero_le _⟩

theorem ramfs_create_file_full (s : State) (path : List Char)
    (hfull : s.node_count ≥ RAMFS_MAX_NODES) : ramfs_create_file s path = (-1, s) := by
  unfold ramfs_create_file
  by_cases hf : find_node s path ≥ 0
  · rw [if_pos hf]
  · rw [if_neg hf]; exact create_node_full s path _ hfull

theorem ramfs_mkdir_full (s : State) (path : List Char)
    (hfull : s.node_count ≥ RAMFS_MAX_NODES) : ramfs_mkdir s path = (-1, s) := by
  unfold ramfs_mkdir
  by_cases h0 : charAt path 0 = NUL
  · rw [if_pos h0]
  · rw [if_neg h0]
    by_cases hf : find_node s path ≥ 0
    · rw [if_pos hf]
    · rw [if_neg hf]; exact create_node_full s path _ hfull

/-- With the pool consumed, every request for at least one byte is refused. -/
theorem ramfs_alloc_data_consumed (s : State) (size : Nat)
    (hfull : s.data_offset = RAMFS_DATA_SIZE) (h0 : 0 < size)
    (hs : size < 2 ^ 63 + RAMFS_DATA_SIZE) : ramfs_alloc_data s size = (-1, s) := by
  have h2 : RAMFS_DATA_SIZE = 262144 := rfl
  have hmod : (s.data_offset + size) % 2 ^ 64 = s.data_offset + size := by
    apply Nat.mod_eq_of_lt
    rw [hfull]
    rw [h2] at hs ⊢
    norm_num at hs ⊢
    omega
  unfold ramfs_alloc_data
  rw [hmod, if_pos (by omega)]

theorem grow_node_consumed (s : State) (idx needed : Nat) (hb : Bounded s)
    (hfull : s.data_offset = RAMFS_DATA_SIZE) (hn : needed > (s.nodes idx).capacity)
    (hneed : needed < 2 ^ 63 + RAMFS_DATA_SIZE) : grow_node s idx needed = none := by
  have h2 : RAMFS_DATA_SIZE = 262144 := rfl
  have hcap := (hb.2.2.1 idx).1
  have hmod : ((s.nodes idx).capacity + 4096) % 2 ^ 64 = (s.nodes idx).capacity + 4096 := by
    apply Nat.mod_eq_of_lt
    rw [h2] at hcap
    norm_num
    omega
  unfold grow_node
  dsimp only
  rw [if_pos hn, hmod]
  have hnc : 0 < (if (s.nodes idx).capacity + 4096 < needed then needed
      else (s.nodes idx).capacity + 4096) ∧
      (if (s.nodes idx).capacity + 4096 < needed then needed
      else (s.nodes idx).capacity + 4096) < 2 ^ 63 + RAMFS_DATA_SIZE := by
    rw [h2] at hcap hneed ⊢
    norm_num at hneed ⊢
    split_ifs <;> omega
  generalize (if (s.nodes idx).capacity + 4096 < needed then needed
      else (s.nodes idx).capacity + 4096) = nc at hnc
  rw [ramfs_alloc_data_consumed s nc hfull hnc.1 hnc.2]
  rw [if_pos (show ((-1 : Int) < 0) by decide)]

theorem ramfs_write_consumed (s : State) (h idx : Nat) (buf : List Nat) (count : Nat)
    (hb : Bounded s) (hfull : s.data_offset = RAMFS_DATA_SIZE) (hcount : count < 2 ^ 63)
    (hnode : (s.file_pool h).node = some idx)
    (hgrow : (s.nodes idx).capacity < (s.file_pool h).position + count) :
    ramfs_write s (some h) buf count = (-1, s) := by
  have h2 : RAMFS_DATA_SIZE = 262144 := rfl
  have hpos := hb.2.2.2 h
  have hmod : ((s.file_pool h).position + count) % 2 ^ 64
      = (s.file_pool h).position + count := by
    apply Nat.mod_eq_of_lt
    rw [h2] at hpos
    norm_num at hcount ⊢
    omega
  unfold ramfs_write
  dsimp only
  rw [hnode]
  dsimp only
  by_cases hc : (s.nodes idx).capacity = 0
  · rw [if_pos hc]
  · rw [if_neg hc, hmod, grow_node_consumed s idx _ hb hfull hgrow
      (by rw [h2] at hpos ⊢; norm_num at hcount ⊢; omega)]

/-- C26: in the states reached from `ramfs_init` by any sequence of RAMFS calls (open,
close, read, write, seek, create, mkdir, unlink, rename; write counts below 2^63),
`node_count` and `data_offset` never decrease from one state to a later one, stay within
256 and the pool size, and are left unchanged by `ramfs_unlink`. Once `node_count` is 256
every later `ramfs_create_file`, `ramfs_mkdir` and creating `ramfs_open` of a missing
path fails and changes nothing. Once `data_offset` has reached the pool size every
later allocation of at least one byte fails, and so does every later write that needs
a larger region. -/
theorem ramfs_counters_monotone (pool : Nat → Nat) (ops later : List RamfsOp)
    (hops : ∀ op ∈ ops, SaneOp op) (hlater : ∀ op ∈ later, SaneOp op) :
    ((ramfs_run ops (ramfs_init pool)).node_count
        ≤ (ramfs_run later (ramfs_run ops (ramfs_init pool))).node_count ∧
      (ramfs_run ops (ramfs_init pool)).data_offset
        ≤ (ramfs_run later (ramfs_run ops (ramfs_init pool))).data_offset) ∧
    ((ramfs_run ops (ramfs_init pool)).node_count ≤ RAMFS_MAX_NODES ∧
      (ramfs_run ops (ramfs_init pool)).data_offset ≤ RAMFS_DATA_SIZE) ∧
    (∀ path,
      (ramfs_unlink (ramfs_run ops (ramfs_init pool)) path).2.node_count
        = (ramfs_run ops (ramfs_init pool)).node_count ∧
      (ramfs_unlink (ramfs_run ops (ramfs_init pool)) path).2.data_offset
        = (ramfs_run ops (ramfs_init pool)).data_offset) ∧
    ((ramfs_run ops (ramfs_init pool)).node_count = RAMFS_MAX_NODES →
      ∀ path,
        ramfs_create_file (ramfs_run later (ramfs_run ops (ramfs_init pool))) path
          = (-1, ramfs_run later (ramfs_run ops (ramfs_init pool))) ∧
        ramfs_mkdir (ramfs_run later (ramfs_run ops (ramfs_init pool))) path
          = (-1, ramfs_run later (ramfs_run ops (ramfs_init pool))) ∧
        (find_node (ramfs_run later (ramfs_run ops (ramfs_init pool))) path < 0 →
          ∀ mode, ramfs_open (ramfs_run later (ramfs_run ops (ramfs_init pool))) path mode
            = (none, ramfs_run later (ramfs_run ops (ramfs_init pool))))) ∧
    ((ramfs_run ops (ramfs_init pool)).data_offset = RAMFS_DATA_SIZE →
      (∀ size, 0 < size → size < 2 ^ 63 →
        ramfs_alloc_data (ramfs_run later (ramfs_run ops (ramfs_init pool))) size
          = (-1, ramfs_run later (ramfs_run ops (ramfs_init pool)))) ∧
      (∀ h idx buf count, count < 2 ^ 63 →
        ((ramfs_run later (ramfs_run ops (ramfs_init pool))).file_pool h).node = some idx →
        ((ramfs_run later (ramfs_run ops (ramfs_init pool))).nodes idx).capacity
          < ((ramfs_run later (ramfs_run ops (ramfs_init pool))).file_pool h).position + count →
        ramfs_write (ramfs_run later (ramfs_run ops (ramfs_init pool))) (some h) buf count
          = (-1, ramfs_run later (ramfs_run ops (ramfs_init pool))))) := by
  have h1 := ramfs_run_bounded ops (ramfs_init pool) (ramfs_init_bounded pool) hops
  generalize ramfs_run ops (ramfs_init pool) = s1 at h1
  have h2 := ramfs_run_bounded later s1 h1.1 hlater
  have hu := fun path => ramfs_unlink_bounded s1 path h1.1
  generalize ramfs_run later s1 = s2 at h2
  refine ⟨⟨h2.2.1, h2.2.2⟩, ⟨h1.1.1, h1.1.2.1⟩, fun path => (hu path).2, ?_, ?_⟩
  · intro hfull path
    have hf : s2.node_count ≥ RAMFS_MAX_NODES := by
      have := h2.2.1
      omega
    exact ⟨ramfs_create_file_full s2 path hf, ramfs_mkdir_full s2 path hf,
      fun hm mode => ramfs_open_missing s2 path mode hf hm⟩
  · intro hfull
    have hf : s2.data_offset = RAMFS_DATA_SIZE := by
      have := h2.2.2
      have := h2.1.2.1
      omega
    refine ⟨fun size h0 hs => ramfs_alloc_data_consumed s2 size hf h0 (by omega), ?_⟩
    intro h idx buf count hc hn hg
    exact ramfs_write_consumed s2 h idx buf count h2.1 hf hc hn hg

set_option maxRecDepth 100000 in
/-- C26 witness: after a mkdir, a create, an open and a write on a fresh filesystem
`node_count` is 3 and `data_offset` 4096, and a later seek, read, rename, unlink and
close leave them there. -/
theorem ramfs_counters_monotone_witness :
    ((∀ op ∈ sampleOps, SaneOp op) ∧ (∀ op ∈ laterOps, SaneOp op)) ∧
    ((ramfs_run sampleOps (ramfs_init (fun _ => 0))).node_count
        ≤ (ramfs_run laterOps (ramfs_run sampleOps (ramfs_init (fun _ => 0)))).node_count ∧
      (ramfs_run sampleOps (ramfs_init (fun _ => 0))).data_offset
        ≤ (ramfs_run laterOps (ramfs_run sampleOps (ramfs_init (fun _ => 0)))).data_offset) ∧
    (ramfs_run sampleOps (ramfs_init (fun _ => 0))).node_count = 3 ∧
    (ramfs_run sampleOps (ramfs_init (fun _ => 0))).data_offset = 4096 ∧
    (ramfs_run laterOps (ramfs_run sampleOps (ramfs_init (fun _ => 0)))).node_count = 3 ∧
    (ramfs_run laterOps (ramfs_run sampleOps (ramfs_init (fun _ => 0)))).data_offset = 4096 :=
  ⟨⟨by intro op hop; simp [sampleOps] at hop; rcases hop with rfl | rfl | rfl | rfl <;>
        simp [SaneOp],
      by intro op hop; simp [laterOps] at hop; rcases hop with rfl | rfl | rfl | rfl | rfl <;>
        simp [SaneOp]⟩,
    (ramfs_counters_monotone (fun _ => 0) sampleOps laterOps
      (by intro op hop; simp [sampleOps] at hop; rcases hop with rfl | rfl | rfl | rfl <;>
        simp [SaneOp])
      (by intro op hop; simp [laterOps] at hop; rcases hop with rfl | rfl | rfl | rfl | rfl <;>
        simp [SaneOp])).1,
    by decide, by decide, by decide, by decide⟩

/-! ### RAMFS rename and the shape of the node table (ramfs.c) -/

/-- What a successful `ramfs_rename` leaves alone: the node count, the data pool, its
allocator, every node but the renamed one, and the type, permissions, size, capacity and
data offset of the renamed one. -/
theorem ramfs_rename_frame (s : State) (src dst : List Char)
    (h : (ramfs_rename s src dst).1 = 0) :
    (ramfs_rename s src dst).2.node_count = s.node_count ∧
    (ramfs_rename s src dst).2.data_pool = s.data_pool ∧
    (ramfs_rename s src dst).2.data_offset = s.data_offset ∧
    (∀ i, i ≠ (find_node s src).toNat → (ramfs_rename s src dst).2.nodes i = s.nodes i) ∧
    ((ramfs_rename s src dst).2.nodes (find_node s src).toNat).type
      = (s.nodes (find_node s src).toNat).type ∧
    ((ramfs_rename s src dst).2.nodes (find_node s src).toNat).size
      = (s.nodes (find_node s src).toNat).size ∧
    ((ramfs_rename s src dst).2.nodes (find_node s src).toNat).capacity
      = (s.nodes (find_node s src).toNat).capacity ∧
    ((ramfs_rename s src dst).2.nodes (find_node s src).toNat).data_offset
      = (s.nodes (find_node s src).toNat).data_offset := by
  unfold ramfs_rename at h ⊢
  by_cases h1 : find_node s src < 0
  · rw [if_pos h1] at h; exact absurd h (show ¬ ((-1 : Int) = 0) by decide)
  · rw [if_neg h1] at h ⊢
    by_cases h2 : (vfs_dirname dst [] 256).1 ≠ 0
    · rw [if_pos h2] at h; exact absurd h (show ¬ ((-1 : Int) = 0) by decide)
    · rw [if_neg h2] at h ⊢
      dsimp only at h ⊢
      generalize find_node s (if charAt (vfs_dirname dst [] 256).2 0 ≠ NUL
        then (vfs_dirname dst [] 256).2 else ['/']) = parent at h ⊢
      by_cases h3 : parent < 0
      · rw [if_pos h3] at h; exact absurd h (show ¬ ((-1 : Int) = 0) by decide)
      · rw [if_neg h3] at h ⊢
        by_cases h4 : find_child s parent.toNat (vfs_basename dst) ≥ 0
        · rw [if_pos h4] at h; exact absurd h (show ¬ ((-1 : Int) = 0) by decide)
        · rw [if_neg h4]
          refine ⟨rfl, rfl, rfl, ?_, ?_, ?_, ?_, ?_⟩
          · intro i hi
            simp [setNode, hi]
          all_goals simp [setNode]

/-- A rename whose destination name is carried by a live node under the destination
parent is refused and changes nothing. -/
theorem ramfs_rename_refused (s : State) (src dst : List Char)
    (hdir : (vfs_dirname dst [] 256).1 = 0)
    (hex : find_child s
      (find_node s (if charAt (vfs_dirname dst [] 256).2 0 ≠ NUL
        then (vfs_dirname dst [] 256).2 else ['/'])).toNat (vfs_basename dst) ≥ 0) :
    ramfs_rename s src dst = (-1, s) := by
  unfold ramfs_rename
  by_cases h1 : find_node s src < 0
  · rw [if_pos h1]
  · rw [if_neg h1, if_neg (by simp [hdir])]
    dsimp only
    by_cases h3 : find_node s (if charAt (vfs_dirname dst [] 256).2 0 ≠ NUL
        then (vfs_dirname dst [] 256).2 else ['/']) < 0
    · rw [if_pos h3]
    · rw [if_neg h3, if_pos hex]

set_option maxRecDepth 100000 in
/-- C21 on a fresh filesystem with the directory "/a": `rename("/a", "/a/b")` returns 0
and makes node 1 its own parent; afterwards the destination path "/a/b" does not
resolve to node 1, nor to any node, and neither does "/a". -/
theorem ramfs_rename_into_itself :
    find_node dirState "/a".toList = 1 ∧
    (dirState.nodes 1).type = VfsFileType.DIR ∧
    (ramfs_rename dirState "/a".toList "/a/b".toList).1 = 0 ∧
    ((ramfs_rename dirState "/a".toList "/a/b".toList).2.nodes 1).parent = 1 ∧
    ((ramfs_rename dirState "/a".toList "/a/b".toList).2.nodes 1).name = "b".toList ∧
    find_node (ramfs_rename dirState "/a".toList "/a/b".toList).2 "/a/b".toList = -1 ∧
    find_node (ramfs_rename dirState "/a".toList "/a/b".toList).2 "/a".toList = -1 := by
  refine ⟨by decide, by decide, by decide, by decide, by decide, by decide, by decide⟩

set_option maxRecDepth 100000 in
/-- C28 on a fresh filesystem: after `create("/f")` the call `create("/f/g")` succeeds
and makes node 2, a live node whose parent, node 1, is a file and not a directory;
`unlink("/f")` then succeeds and leaves node 2 live under a dead parent. And after
`mkdir("/a")`, `rename("/a", "/a/b")` succeeds and leaves the live node 1 as its own
parent, so that following parents from it never reaches the root. -/
theorem ramfs_file_gets_child :
    (ramfs_create_file (ramfs_init (fun _ => 0)) "/f".toList).1 = 1 ∧
    (ramfs_create_file (ramfs_create_file (ramfs_init (fun _ => 0)) "/f".toList).2
      "/f/g".toList).1 = 2 ∧
    (fileChildState.nodes 2).type = VfsFileType.FILE ∧
    (fileChildState.nodes 2).parent = 1 ∧
    (fileChildState.nodes 1).type = VfsFileType.FILE ∧
    (ramfs_unlink fileChildState "/f".toList).1 = 0 ∧
    ((ramfs_unlink fileChildState "/f".toList).2.nodes 2).type = VfsFileType.FILE ∧
    ((ramfs_unlink fileChildState "/f".toList).2.nodes 2).parent = 1 ∧
    ((ramfs_unlink fileChildState "/f".toList).2.nodes 1).type = VfsFileType.UNKNOWN ∧
    (ramfs_rename dirState "/a".toList "/a/b".toList).1 = 0 ∧
    ((ramfs_rename dirState "/a".toList "/a/b".toList).2.nodes 1).type = VfsFileType.DIR ∧
    ((ramfs_rename dirState "/a".toList "/a/b".toList).2.nodes 1).parent = 1 := by
  refine ⟨by decide, by decide, by decide, by decide, by decide, by decide, by decide, by decide,
    by decide, by decide, by decide, by decide⟩

end Ramfs

namespace BlockCache

/-! ### Write then read on the tables the calls produce (block_cache.c) -/

theorem cache_writeback_ticks {σ : Type} (ata : AtaDisk σ) (c : Cache) (d : σ) (i j : Nat) :
    ((cache_writeback ata c d i).2.1.cache j).last_access = (c.cache j).last_access := by
  unfold cache_writeback
  simp only
  split
  · rfl
  · split
    · rfl
    · split
      · by_cases hj : j = i
        · subst hj; simp [BlockCache.setEntry]
        · simp [BlockCache.setEntry, hj]
      · rfl

/-- A table whose ticks are those of `c` or the tick `now` of the call. -/
theorem ticksBelow_step {c c2 : Cache} (h : TicksBelow c) (now : Nat) (hnow : now < U64_MAX)
    (hstep : ∀ j, (c2.cache j).last_access = (c.cache j).last_access ∨
      (c2.cache j).last_access = now) : TicksBelow c2 := by
  intro j
  rcases hstep j with hj | hj
  · rw [hj]; exact h j
  · rw [hj]; exact hnow

theorem block_cache_read_ticks {σ : Type} (ata : AtaDisk σ) (now : Nat) (c : Cache) (d : σ)
    (b : Nat) (buf : Option (List Nat)) (hnow : now < U64_MAX) (h : TicksBelow c) :
    TicksBelow (block_cache_read ata now c d b buf).2.2.1 := by
  have hl1 : ∀ x, cache_find_lru { c with cache_misses := x } = cache_find_lru c := fun _ => rfl
  cases buf with
  | none => exact h
  | some buf =>
    cases hf : cache_find c b with
    | some i =>
      simp only [block_cache_read, hf]
      refine ticksBelow_step h now hnow (fun j => ?_)
      by_cases hj : j = i
      · subst hj; simp [BlockCache.setEntry]
      · simp [BlockCache.setEntry, hj]
    | none =>
      cases hdev : ata.get_device d with
      | false =>
        simp only [block_cache_read, hf, hdev]
        exact h
      | true =>
        cases hl : cache_find_lru c with
        | none =>
          simp only [block_cache_read, hf, hdev, hl1, hl]
          exact h
        | some i =>
          cases hvd : ((c.cache i).valid && (c.cache i).dirty) with
          | false =>
            simp only [block_cache_read, hf, hdev, hl1, hl, hvd]
            simp only [Bool.not_true, Bool.false_eq_true, ↓reduceIte]
            split
            · refine ticksBelow_step h now hnow (fun j => ?_)
              by_cases hj : j = i
              · subst hj; simp [BlockCache.setEntry]
              · simp [BlockCache.setEntry, hj]
            · refine ticksBelow_step h now hnow (fun j => ?_)
              by_cases hj : j = i
              · subst hj; simp [BlockCache.setEntry]
              · simp [BlockCache.setEntry, hj]
          | true =>
            simp only [block_cache_read, hf, hdev, hl1, hl, hvd]
            simp only [Bool.not_true, Bool.false_eq_true, ↓reduceIte]
            split
            · refine ticksBelow_step h now hnow (fun j => ?_)
              by_cases hj : j = i
              · subst hj
                simp only [BlockCache.setEntry, if_true]
                exact Or.inl (cache_writeback_ticks ata _ d j j)
              · simp only [BlockCache.setEntry, if_neg hj]
                exact Or.inl (cache_writeback_ticks ata _ d i j)
            · refine ticksBelow_step h now hnow (fun j => ?_)
              by_cases hj : j = i
              · subst hj; simp [BlockCache.setEntry]
              · simp only [BlockCache.setEntry, if_neg hj]
                exact Or.inl (cache_writeback_ticks ata _ d i j)

theorem block_cache_write_ticks {σ : Type} (ata : AtaDisk σ) (now : Nat) (c : Cache) (d : σ)
    (b : Nat) (buf : Option (List Nat)) (hnow : now < U64_MAX) (h : TicksBelow c) :
    TicksBelow (block_cache_write ata now c d b buf).2.1 := by
  have hc1 : ∀ x, cache_find { c with cache_writes := x } b = cache_find c b := fun _ => rfl
  have hl1 : ∀ x, cache_find_lru { c with cache_writes := x } = cache_find_lru c := fun _ => rfl
  cases buf with
  | none => exact h
  | some buf =>
    cases hdev : ata.get_device d with
    | false =>
      simp only [block_cache_write, hdev]
      exact h
    | true =>
      by_cases hw : (ata.write_sectors d b buf).1 = 0
      · cases hf : cache_find c b with
        | some i =>
          simp only [block_cache_write, hdev, hw, hc1, hf]
          simp only [Bool.not_true, Bool.false_eq_true, ↓reduceIte, ne_eq, not_true_eq_false]
          refine ticksBelow_step h now hnow (fun j => ?_)
          by_cases hj : j = i
          · subst hj; simp [BlockCache.setEntry]
          · simp [BlockCache.setEntry, hj]
        | none =>
          cases hl : cache_find_lru c with
          | none =>
            simp only [block_cache_write, hdev, hw, hc1, hl1, hf, hl]
            simp only [Bool.not_true, Bool.false_eq_true, ↓reduceIte, ne_eq, not_true_eq_false]
            exact h
          | some i =>
            cases hvd : ((c.cache i).valid && (c.cache i).dirty) with
            | false =>
              simp only [block_cache_write, hdev, hw, hc1, hl1, hf, hl, hvd]
              simp only [Bool.not_true, Bool.false_eq_true, ↓reduceIte, ne_eq,
                not_true_eq_false]
              refine ticksBelow_step h now hnow (fun j => ?_)
              by_cases hj : j = i
              · subst hj; simp [BlockCache.setEntry]
              · simp [BlockCache.setEntry, hj]
            | true =>
              simp only [block_cache_write, hdev, hw, hc1, hl1, hf, hl, hvd]
              simp only [Bool.not_true, Bool.false_eq_true, ↓reduceIte, ne_eq,
                not_true_eq_false]
              refine ticksBelow_step h now hnow (fun j => ?_)
              by_cases hj : j = i
              · subst hj; simp [BlockCache.setEntry]
              · simp only [BlockCache.setEntry, if_neg hj]
                exact Or.inl (cache_writeback_ticks ata _ _ i j)
      · simp only [block_cache_write, hdev]
        simp only [Bool.not_true, Bool.false_eq_true, ↓reduceIte, ne_eq]
        rw [if_pos hw]
        exact h

theorem block_cache_invalidate_ticks (c : Cache) (b : Nat) (h : TicksBelow c) :
    TicksBelow (block_cache_invalidate c b) := by
  unfold block_cache_invalidate
  cases hf : cache_find c b with
  | none => exact h
  | some i =>
    simp only
    intro j
    by_cases hj : j = i
    · subst hj
      simp only [BlockCache.setEntry, if_true]
      exact h j
    · simp only [BlockCache.setEntry, if_neg hj]
      exact h j

theorem flush_fold_ticks {σ : Type} (ata : AtaDisk σ) :
    ∀ (l : List Nat) (s : Cache × σ) (j : Nat),
      ((l.foldl (fun (s : Cache × σ) i =>
        if (s.1.cache i).valid && (s.1.cache i).dirty then (cache_writeback ata s.1 s.2 i).2
        else s) s).1.cache j).last_access = (s.1.cache j).last_access := by
  intro l
  induction l with
  | nil => intro s j; rfl
  | cons i l ih =>
    intro s j
    simp only [List.foldl_cons]
    split
    · exact (ih (cache_writeback ata s.1 s.2 i).2 j).trans (cache_writeback_ticks ata s.1 s.2 i j)
    · exact ih s j

theorem block_cache_flush_ticks {σ : Type} (ata : AtaDisk σ) (c : Cache) (d : σ)
    (h : TicksBelow c) : TicksBelow (block_cache_flush ata c d).1 := by
  unfold block_cache_flush
  generalize List.range CACHE_SIZE = l
  intro j
  rw [flush_fold_ticks ata l (c, d) j]
  exact h j

/-- The ticks stored in a table the calls produce are below `~0ULL`. -/
theorem timed_reachable_ticks {σ : Type} (ata : AtaDisk σ) (c : Cache)
    (h : TimedReachable ata c) : TicksBelow c := by
  induction h with
  | init =>
    intro j
    show (0 : Nat) < U64_MAX
    decide
  | read now c d b buf hnow _ ih => exact block_cache_read_ticks ata now c d b buf hnow ih
  | write now c d b buf hnow _ ih => exact block_cache_write_ticks ata now c d b buf hnow ih
  | invalidate c b _ ih => exact block_cache_invalidate_ticks c b ih
  | flush c d _ ih => exact block_cache_flush_ticks ata c d ih

/-- C1: for every cache table that calls of the cache operations produce from
`block_cache_init` (the ticks of the calls being below `~0ULL`, as the millisecond
counter of timer.c delivers them), every block `B` and every 512-byte payload `P`
whose device write succeeds, `block_cache_write(B, P)` returns 0 and leaves a valid,
clean entry for `B` holding `P`, whether or not `B` was cached before, and the
`block_cache_read(B)` that follows returns 0 with exactly `P` in the buffer,
whatever the device would answer, leaving the device untouched and counting one
more hit and no miss. -/
theorem block_cache_write_read_back {σ : Type} (ata : AtaDisk σ) (t1 t2 : Nat) (c : Cache)
    (d : σ) (B : Nat) (P out : List Nat)
    (hc : TimedReachable ata c)
    (hP : P.length = BLOCK_SIZE)
    (hdev : ata.get_device d = true) (hw : (ata.write_sectors d B P).1 = 0) :
    (block_cache_write ata t1 c d B (some P)).1 = 0 ∧
    (∃ i, cache_find (block_cache_write ata t1 c d B (some P)).2.1 B = some i ∧
      ((block_cache_write ata t1 c d B (some P)).2.1.cache i).valid = true ∧
      ((block_cache_write ata t1 c d B (some P)).2.1.cache i).dirty = false ∧
      (((block_cache_write ata t1 c d B (some P)).2.1.cache i).data).take BLOCK_SIZE = P) ∧
    ∀ ata2 : AtaDisk σ,
      (block_cache_read ata2 t2 (block_cache_write ata t1 c d B (some P)).2.1
          (block_cache_write ata t1 c d B (some P)).2.2 B (some out)).1 = 0 ∧
      (block_cache_read ata2 t2 (block_cache_write ata t1 c d B (some P)).2.1
          (block_cache_write ata t1 c d B (some P)).2.2 B (some out)).2.1
        = some (P ++ out.drop BLOCK_SIZE) ∧
      (block_cache_read ata2 t2 (block_cache_write ata t1 c d B (some P)).2.1
          (block_cache_write ata t1 c d B (some P)).2.2 B (some out)).2.2.2
        = (block_cache_write ata t1 c d B (some P)).2.2 ∧
      (block_cache_read ata2 t2 (block_cache_write ata t1 c d B (some P)).2.1
          (block_cache_write ata t1 c d B (some P)).2.2 B (some out)).2.2.1.cache_hits
        = ((block_cache_write ata t1 c d B (some P)).2.1.cache_hits + 1) % 2 ^ 64 ∧
      (block_cache_read ata2 t2 (block_cache_write ata t1 c d B (some P)).2.1
          (block_cache_write ata t1 c d B (some P)).2.2 B (some out)).2.2.1.cache_misses
        = (block_cache_write ata t1 c d B (some P)).2.1.cache_misses := by
  have hslot : cache_find c B ≠ none ∨ cache_find_lru c ≠ none :=
    Or.inr (cache_find_lru_ne_none c 0 (by decide)
      (Or.inr (timed_reachable_ticks ata c hc 0)))
  obtain ⟨h0, i, hfind, hv, hd, old, hdata⟩ :=
    block_cache_write_installs ata t1 c d B P hdev hw hslot
  have htake : (((block_cache_write ata t1 c d B (some P)).2.1.cache i).data).take BLOCK_SIZE
      = P := by
    rw [hdata]; exact memcpy_take old P BLOCK_SIZE hP
  refine ⟨h0, ⟨i, hfind, hv, hd, htake⟩, ?_⟩
  intro ata2
  rw [block_cache_read_hit ata2 t2 _ _ B i out hfind]
  refine ⟨rfl, ?_, rfl, rfl, rfl⟩
  simp only [memcpy, htake]

/-- C1 witness: the table after `block_cache_read(9)` at tick 5 on a fresh cache is
one the calls produce; writing the payload of sevens to block 7 and reading block 7
back returns the sevens. -/
theorem block_cache_write_read_back_witness :
    TimedReachable okDisk
      (block_cache_read okDisk 5 block_cache_init () 9 (some (List.replicate BLOCK_SIZE 0))).2.2.1 ∧
    sevens.length = BLOCK_SIZE ∧
    (block_cache_read okDisk 7
        (block_cache_write okDisk 6
          (block_cache_read okDisk 5 block_cache_init () 9
            (some (List.replicate BLOCK_SIZE 0))).2.2.1 () 7 (some sevens)).2.1
        (block_cache_write okDisk 6
          (block_cache_read okDisk 5 block_cache_init () 9
            (some (List.replicate BLOCK_SIZE 0))).2.2.1 () 7 (some sevens)).2.2 7
        (some (List.replicate BLOCK_SIZE 0))).2.1
      = some (sevens ++ (List.replicate BLOCK_SIZE 0).drop BLOCK_SIZE) :=
  have hr : TimedReachable okDisk
      (block_cache_read okDisk 5 block_cache_init () 9
        (some (List.replicate BLOCK_SIZE 0))).2.2.1 :=
    TimedReachable.read 5 block_cache_init () 9 _ (by decide) TimedReachable.init
  ⟨hr, by simp [sevens],
    ((block_cache_write_read_back okDisk 6 7 _ () 7 sevens (List.replicate BLOCK_SIZE 0) hr
      (by simp [sevens]) rfl rfl).2.2 okDisk).2.1⟩

end BlockCache

namespace Ramfs

open Vfs

/-! ### RAMFS unlink on the states the calls produce (ramfs.c) -/

theorem sameTree_refl (s : State) : SameTree s s := ⟨rfl, fun _ => ⟨rfl, rfl, rfl⟩⟩

theorem sameTree_trans {s r t : State} (h1 : SameTree s r) (h2 : SameTree r t) :
    SameTree s t :=
  ⟨h2.1.trans h1.1, fun i =>
    ⟨(h2.2 i).1.trans (h1.2 i).1, (h2.2 i).2.1.trans (h1.2 i).2.1,
      (h2.2 i).2.2.trans (h1.2 i).2.2⟩⟩

theorem sameTree_wf {s r : State} (h : SameTree s r) (hw : WellFormed s) : WellFormed r := by
  obtain ⟨hn, hk⟩ := h
  constructor
  · intro i hi
    rw [(hk i).1]
    exact hw.1 i (by omega)
  · intro i hi j hj li lj hp hnm
    rw [hn] at hi hj
    rw [(hk i).1] at li
    rw [(hk j).1] at lj
    rw [(hk i).2.1, (hk j).2.1] at hp
    rw [(hk i).2.2, (hk j).2.2] at hnm
    exact hw.2 i hi j hj li lj hp hnm

theorem sameTree_setNode (s : State) (idx : Nat) (n : RamfsNode)
    (h : n.type = (s.nodes idx).type ∧ n.parent = (s.nodes idx).parent ∧
      n.name = (s.nodes idx).name) :
    SameTree s (setNode s idx n) := by
  refine ⟨rfl, fun i => ?_⟩
  by_cases hi : i = idx
  · subst hi
    simp only [setNode, if_true]
    exact h
  · simp [setNode, hi]

theorem alloc_file_sameTree (s : State) : SameTree s (alloc_file s).2 := by
  unfold alloc_file
  split
  · exact ⟨rfl, fun _ => ⟨rfl, rfl, rfl⟩⟩
  · exact sameTree_refl s

theorem open_handle_sameTree (s : State) (idx mode : Nat) :
    SameTree s (open_handle s idx mode).2 := by
  unfold open_handle
  have ha := alloc_file_sameTree s
  generalize alloc_file s = r at ha
  obtain ⟨r1, r2⟩ := r
  cases r1 with
  | none => exact ha
  | some h => exact ⟨ha.1, ha.2⟩

theorem ramfs_alloc_data_sameTree (s : State) (size : Nat) :
    SameTree s (ramfs_alloc_data s size).2 := by
  unfold ramfs_alloc_data
  split
  · exact sameTree_refl s
  · exact ⟨rfl, fun _ => ⟨rfl, rfl, rfl⟩⟩

set_option maxRecDepth 100000 in
theorem open_node_sameTree (s : State) (idx mode : Nat) :
    SameTree s (open_node s idx mode).2 := by
  unfold open_node
  by_cases ht : (s.nodes idx).type ≠ VfsFileType.FILE
  · rw [if_pos ht]; exact sameTree_refl s
  · rw [if_neg ht]
    have h1 : SameTree s (if mode &&& VFS_O_TRUNC ≠ 0 then
        setNode s idx { s.nodes idx with size := 0 } else s) := by
      split
      · exact sameTree_setNode s idx _ ⟨rfl, rfl, rfl⟩
      · exact sameTree_refl s
    simp only
    generalize (if mode &&& VFS_O_TRUNC ≠ 0 then
        setNode s idx { s.nodes idx with size := 0 } else s) = s1 at h1
    by_cases hc : (s1.nodes idx).capacity = 0
    · rw [if_pos hc]
      have ha := ramfs_alloc_data_sameTree s1 4096
      by_cases hf : (ramfs_alloc_data s1 4096).1 < 0
      · rw [if_pos hf]
        exact sameTree_trans h1 ha
      · rw [if_neg hf]
        generalize (ramfs_alloc_data s1 4096).1.toNat = off
        generalize ramfs_alloc_data s1 4096 = r at ha
        exact sameTree_trans (sameTree_trans h1 ha)
          (sameTree_trans (sameTree_setNode r.2 idx
            { r.2.nodes idx with data_offset := off, capacity := 4096 } ⟨rfl, rfl, rfl⟩)
            (open_handle_sameTree _ idx mode))
    · rw [if_neg hc]
      exact sameTree_trans h1 (open_handle_sameTree s1 idx mode)

theorem ramfs_read_sameTree (s : State) (h : Option Nat) (count : Nat) :
    SameTree s (ramfs_read s h count).2.2 := by
  cases h with
  | none => exact sameTree_refl s
  | some h =>
    unfold ramfs_read
    dsimp only
    cases hn : (s.file_pool h).node with
    | none => exact sameTree_refl s
    | some idx =>
      dsimp only
      split
      · exact sameTree_refl s
      · exact ⟨rfl, fun _ => ⟨rfl, rfl, rfl⟩⟩

theorem ramfs_seek_sameTree (s : State) (h : Option Nat) (offset whence : Int) :
    SameTree s (ramfs_seek s h offset whence).2 := by
  cases h with
  | none => exact sameTree_refl s
  | some h =>
    unfold ramfs_seek
    dsimp only
    cases hn : (s.file_pool h).node with
    | none => exact sameTree_refl s
    | some idx =>
      dsimp only
      split
      · exact sameTree_refl s
      · split
        · exact sameTree_refl s
        · exact ⟨rfl, fun _ => ⟨rfl, rfl, rfl⟩⟩

theorem ramfs_close_sameTree (s : State) (h : Nat) : SameTree s (ramfs_close s h) := by
  unfold ramfs_close free_file
  split
  · exact ⟨rfl, fun _ => ⟨rfl, rfl, rfl⟩⟩
  · exact sameTree_refl s

theorem grow_node_sameTree (s : State) (idx needed : Nat) (s1 : State)
    (h : grow_node s idx needed = some s1) : SameTree s s1 := by
  unfold grow_node at h
  dsimp only at h
  by_cases h1 : needed > (s.nodes idx).capacity
  · rw [if_pos h1] at h
    generalize (if ((s.nodes idx).capacity + 4096) % 2 ^ 64 < needed then needed
      else ((s.nodes idx).capacity + 4096) % 2 ^ 64) = cap at h
    have ha := ramfs_alloc_data_sameTree s cap
    by_cases h2 : (ramfs_alloc_data s cap).1 < 0
    · rw [if_pos h2] at h; cases h
    · rw [if_neg h2] at h
      injection h with h
      rw [← h]
      generalize (ramfs_alloc_data s cap).1.toNat = off
      generalize ramfs_alloc_data s cap = r at ha
      refine ⟨ha.1, fun i => ?_⟩
      by_cases hi : i = idx
      · subst hi
        simp [setNode]
      · simp only [setNode, if_neg hi]
        exact ha.2 i
  · rw [if_neg h1] at h
    injection h with h
    rw [← h]
    exact sameTree_refl s

theorem store_bytes_sameTree (s : State) (h idx : Nat) (buf : List Nat) (count : Nat) :
    SameTree s (store_bytes s h idx buf count).2 := by
  unfold store_bytes
  dsimp only
  split
  · refine ⟨rfl, fun i => ?_⟩
    by_cases hi : i = idx
    · subst hi
      simp [setNode]
    · simp [setNode, hi]
  · exact ⟨rfl, fun _ => ⟨rfl, rfl, rfl⟩⟩

theorem ramfs_write_sameTree (s : State) (h : Option Nat) (buf : List Nat) (count : Nat) :
    SameTree s (ramfs_write s h buf count).2 := by
  cases h with
  | none => exact sameTree_refl s
  | some h =>
    unfold ramfs_write
    dsimp only
    cases hn : (s.file_pool h).node with
    | none => exact sameTree_refl s
    | some idx =>
      dsimp only
      by_cases hc : (s.nodes idx).capacity = 0
      · rw [if_pos hc]; exact sameTree_refl s
      · rw [if_neg hc]
        cases hg : grow_node s idx (((s.file_pool h).position + count) % 2 ^ 64) with
        | none => exact sameTree_refl s
        | some s1 =>
          exact sameTree_trans (grow_node_sameTree s idx _ s1 hg)
            (store_bytes_sameTree s1 h idx buf count)

theorem strcmp_zero_comm (a b : List Char) : strcmp a b = 0 ↔ strcmp b a = 0 := by
  rw [strcmp_eq_zero_iff, strcmp_eq_zero_iff]
  exact eq_comm

theorem cstr_idem (p : List Char) : cstr (cstr p) = cstr p :=
  cstr_nul_free (cstr p) (fun ch hch => by
    have h := List.mem_takeWhile_imp hch
    simpa using h)

theorem cstr_length_le (p : List Char) : (cstr p).length ≤ p.length :=
  (List.takeWhile_sublist _).length_le

theorem cstr_drop_length : ∀ (p : List Char) (k : Nat), k ≤ (cstr p).length →
    (cstr (p.drop k)).length ≤ (cstr p).length := by
  intro p
  induction p with
  | nil => intro k _; simp [cstr]
  | cons c cs ih =>
    intro k hk
    cases k with
    | zero => simp
    | succ k =>
      by_cases hc : c = NUL
      · simp [cstr, hc] at hk
      · have hcons : cstr (c :: cs) = c :: cstr cs := by
          unfold cstr
          rw [List.takeWhile_cons_of_pos (by simpa using hc)]
        rw [hcons] at hk ⊢
        simp only [List.length_cons, List.drop_succ_cons] at hk ⊢
        exact le_trans (ih k (by omega)) (Nat.le_succ _)

/-- A name of at most 255 characters is stored whole by `strncpy(node->name, name, 255)`. -/
theorem stored_name (n : List Char) (h : (cstr n).length ≤ 255) :
    cstr ((cstr n).take VFS_NAME_MAX) = cstr n := by
  rw [List.take_of_length_le (by simpa [VFS_NAME_MAX] using h)]
  exact cstr_idem n

theorem component_length (p : List Char) : (cstr (component p)).length ≤ 255 := by
  refine le_trans (cstr_length_le _) ?_
  unfold component
  rw [List.length_take]
  exact Nat.min_le_left _ _

/-- Appending one file or directory whose name no live sibling carries keeps the node
table well formed. -/
theorem wf_extend {s r : State} (hw : WellFormed s) (hn : r.node_count = s.node_count + 1)
    (hold : ∀ i, i < s.node_count → r.nodes i = s.nodes i)
    (ht : (r.nodes s.node_count).type = VfsFileType.DIR ∨
      (r.nodes s.node_count).type = VfsFileType.FILE)
    (name : List Char)
    (hname : cstr (r.nodes s.node_count).name = cstr name)
    (hfresh : find_child s (r.nodes s.node_count).parent name < 0) :
    WellFormed r := by
  rw [find_child_neg_iff] at hfresh
  constructor
  · intro i hi
    by_cases hlt : i < s.node_count
    · rw [hold i hlt]; exact hw.1 i hlt
    · have hi2 : i = s.node_count := by omega
      rw [hi2]
      rcases ht with ht | ht
      · exact Or.inr (Or.inr ht)
      · exact Or.inr (Or.inl ht)
  · intro i hi j hj li lj hp hnm
    by_cases hil : i < s.node_count
    · by_cases hjl : j < s.node_count
      · rw [hold i hil] at li hp hnm
        rw [hold j hjl] at lj hp hnm
        exact hw.2 i hil j hjl li lj hp hnm
      · have hj2 : j = s.node_count := by omega
        rw [hj2] at hp hnm
        rw [hold i hil] at li hp hnm
        exfalso
        apply hfresh i hil
        refine ⟨li, hp, ?_⟩
        rw [strcmp_eq_zero_iff] at hnm ⊢
        rw [hnm, hname]
    · have hi2 : i = s.node_count := by omega
      by_cases hjl : j < s.node_count
      · rw [hi2] at hp hnm
        rw [hold j hjl] at lj hp hnm
        exfalso
        apply hfresh j hjl
        refine ⟨lj, hp.symm, ?_⟩
        rw [strcmp_eq_zero_iff] at hnm ⊢
        rw [← hnm, hname]
      · omega

/-- One successful `alloc_node` followed by the initialisation of the new node with a
name no live sibling carries keeps the node table well formed. -/
theorem wf_alloc (s : State) (hw : WellFormed s)
    (name : List Char) (parent perm : Nat) (t : VfsFileType)
    (ht : t = VfsFileType.DIR ∨ t = VfsFileType.FILE)
    (hlen : (cstr name).length ≤ 255)
    (hfresh : find_child s parent name < 0) :
    WellFormed
      (setNode { setNode s s.node_count zero_node with node_count := s.node_count + 1 }
        s.node_count
        { ({ setNode s s.node_count zero_node with node_count := s.node_count + 1 } : State).nodes
            s.node_count with
          name := (cstr name).take VFS_NAME_MAX, parent := parent, type := t,
          permissions := perm }) := by
  refine wf_extend hw (by simp [setNode]) (fun i hi => ?_) ?_ name ?_ ?_
  · have hne : i ≠ s.node_count := Nat.ne_of_lt hi
    simp [setNode, hne]
  · simp only [setNode, if_true]
    exact ht
  · simp only [setNode, if_true]
    exact stored_name name hlen
  · simp only [setNode, if_true]
    exact hfresh

theorem ensure_dir_loop_wf :
    ∀ fuel (s : State) (p : List Char) (parent : Nat), WellFormed s →
      WellFormed (ensure_dir_loop fuel s p parent).2 := by
  intro fuel
  induction fuel with
  | zero => intro s p parent hw; exact hw
  | succ fuel ih =>
    intro s p parent hw
    simp only [ensure_dir_loop]
    by_cases h1 : charAt p 0 = NUL
    · rw [if_pos h1]; exact hw
    · rw [if_neg h1]
      by_cases h2 : find_child s parent (component p) < 0
      · rw [if_pos h2]
        by_cases h3 : s.node_count ≥ RAMFS_MAX_NODES
        · rw [alloc_node_full s h3]; exact hw
        · rw [alloc_node_ok s h3]
          exact ih _ _ _
            (wf_alloc s hw (component p) parent _ VfsFileType.DIR (Or.inl rfl)
              (component_length p) h2)
      · rw [if_neg h2]
        exact ih _ _ _ hw

theorem ensure_dir_wf (s : State) (path : List Char) (hw : WellFormed s) :
    WellFormed (ensure_dir s path).2 := by
  unfold ensure_dir
  by_cases h1 : charAt path 0 = NUL
  · rw [if_pos h1]; exact hw
  · rw [if_neg h1]
    dsimp only
    by_cases h2 : strcmp (List.take 255 (cstr path)) ['/'] = 0
    · rw [if_pos h2]; exact hw
    · rw [if_neg h2]
      exact ensure_dir_loop_wf _ _ _ _ hw

/-- The last component of a path of at most 255 characters has at most 255 characters. -/
theorem basename_length (path : List Char) (h : strlen path < 256) :
    (cstr (vfs_basename path)).length ≤ 255 := by
  rw [strlen_eq_length_cstr] at h
  unfold vfs_basename last_slash
  rcases foldl_last_index_spec (fun i => charAt (cstr path) i = '/') (cstr path).length with
    ⟨h1, _⟩ | ⟨k, h1, h2, _, _⟩
  · rw [h1]
    dsimp only
    exact Nat.le_of_lt_succ h
  · rw [h1]
    dsimp only
    have := cstr_drop_length path (k + 1) (by omega)
    omega

theorem create_node_wf (s : State) (path : List Char) (ty : VfsFileType)
    (hty : ty = VfsFileType.DIR ∨ ty = VfsFileType.FILE) (hlen : strlen path < 256)
    (hw : WellFormed s) : WellFormed (create_node s path ty).2 := by
  unfold create_node
  by_cases h1 : charAt path 0 = NUL
  · rw [if_pos h1]; exact hw
  · rw [if_neg h1]
    dsimp only
    by_cases h2 : (vfs_dirname path [] 256).1 ≠ 0
    · rw [if_pos h2]; exact hw
    · rw [if_neg h2]
      have hg := ensure_dir_wf s
        (if charAt (vfs_dirname path [] 256).2 0 ≠ NUL then (vfs_dirname path [] 256).2 else ['/'])
        hw
      generalize ensure_dir s
        (if charAt (vfs_dirname path [] 256).2 0 ≠ NUL then (vfs_dirname path [] 256).2
          else ['/']) = r at hg
      by_cases h3 : r.1 < 0
      · rw [if_pos h3]; exact hg
      · rw [if_neg h3]
        by_cases h4 : find_child r.2 r.1.toNat (vfs_basename path) ≥ 0
        · rw [if_pos h4]; exact hg
        · rw [if_neg h4]
          by_cases h5 : r.2.node_count ≥ RAMFS_MAX_NODES
          · rw [alloc_node_full r.2 h5]; exact hg
          · rw [alloc_node_ok r.2 h5]
            exact wf_alloc r.2 hg (vfs_basename path) r.1.toNat _ ty hty
              (basename_length path hlen) (by omega)

theorem ramfs_create_file_wf (s : State) (path : List Char) (hlen : strlen path < 256)
    (hw : WellFormed s) : WellFormed (ramfs_create_file s path).2 := by
  unfold ramfs_create_file
  split
  · exact hw
  · exact create_node_wf s path VfsFileType.FILE (Or.inr rfl) hlen hw

theorem ramfs_mkdir_wf (s : State) (path : List Char) (hlen : strlen path < 256)
    (hw : WellFormed s) : WellFormed (ramfs_mkdir s path).2 := by
  unfold ramfs_mkdir
  split
  · exact hw
  · split
    · exact hw
    · exact create_node_wf s path VfsFileType.DIR (Or.inl rfl) hlen hw

theorem ramfs_open_wf (s : State) (path : List Char) (mode : Nat) (hlen : strlen path < 256)
    (hw : WellFormed s) : WellFormed (ramfs_open s path mode).2 := by
  unfold ramfs_open
  have hc : WellFormed (if find_node s path < 0 ∧ mode &&& VFS_O_CREATE ≠ 0 then
        create_node s path VfsFileType.FILE else (find_node s path, s)).2 := by
    split
    · exact create_node_wf s path VfsFileType.FILE (Or.inr rfl) hlen hw
    · exact hw
  simp only
  generalize (if find_node s path < 0 ∧ mode &&& VFS_O_CREATE ≠ 0 then
        create_node s path VfsFileType.FILE else (find_node s path, s)) = c at hc
  by_cases hneg : c.1 < 0
  · rw [if_pos hneg]; exact hc
  · rw [if_neg hneg]
    exact sameTree_wf (open_node_sameTree c.2 c.1.toNat mode) hc

/-- Clearing a node keeps the node table well formed. -/
theorem wf_clear (s : State) (idx : Nat) (n : RamfsNode) (hn : n.type = VfsFileType.UNKNOWN)
    (hw : WellFormed s) : WellFormed (setNode s idx n) := by
  constructor
  · intro i hi
    by_cases hidx : i = idx
    · subst hidx
      simp only [setNode, if_true]
      exact Or.inl hn
    · simp only [setNode, if_neg hidx]
      exact hw.1 i hi
  · intro i hi j hj li lj hp hnm
    by_cases hi2 : i = idx
    · subst hi2
      simp only [setNode, if_true] at li
      exact absurd hn li
    · by_cases hj2 : j = idx
      · subst hj2
        simp only [setNode, if_true] at lj
        exact absurd hn lj
      · simp only [setNode, if_neg hi2] at li hp hnm
        simp only [setNode, if_neg hj2] at lj hp hnm
        exact hw.2 i hi j hj li lj hp hnm

theorem ramfs_unlink_wf (s : State) (path : List Char) (hw : WellFormed s) :
    WellFormed (ramfs_unlink s path).2 := by
  unfold ramfs_unlink
  by_cases h1 : find_node s path ≤ 0
  · rw [if_pos h1]; exact hw
  · rw [if_neg h1]
    dsimp only
    split
    · exact hw
    · exact wf_clear s _ _ rfl hw

/-- Moving a node under a parent where no live node carries the new name keeps the
node table well formed. -/
theorem wf_move (s : State) (idx P : Nat) (name stored : List Char)
    (hstored : cstr stored = cstr name) (hfresh : find_child s P name < 0)
    (hw : WellFormed s) :
    WellFormed (setNode s idx { s.nodes idx with parent := P, name := stored }) := by
  rw [find_child_neg_iff] at hfresh
  constructor
  · intro i hi
    by_cases hidx : i = idx
    · subst hidx
      simp only [setNode, if_true]
      exact hw.1 i hi
    · simp only [setNode, if_neg hidx]
      exact hw.1 i hi
  · intro i hi j hj li lj hp hnm
    by_cases hi2 : i = idx
    · by_cases hj2 : j = idx
      · rw [hi2, hj2]
      · exfalso
        subst hi2
        simp only [setNode, if_true, if_neg hj2] at lj hp hnm
        apply hfresh j hj
        refine ⟨lj, hp.symm, ?_⟩
        rw [strcmp_eq_zero_iff] at hnm ⊢
        rw [← hnm, hstored]
    · by_cases hj2 : j = idx
      · exfalso
        subst hj2
        simp only [setNode, if_true, if_neg hi2] at li hp hnm
        apply hfresh i hi
        refine ⟨li, hp, ?_⟩
        rw [strcmp_eq_zero_iff] at hnm ⊢
        rw [hnm, hstored]
      · simp only [setNode, if_neg hi2] at li hp hnm
        simp only [setNode, if_neg hj2] at lj hp hnm
        exact hw.2 i hi j hj li lj hp hnm

theorem ramfs_rename_wf (s : State) (src dst : List Char) (hlen : strlen dst < 256)
    (hw : WellFormed s) : WellFormed (ramfs_rename s src dst).2 := by
  unfold ramfs_rename
  by_cases h1 : find_node s src < 0
  · rw [if_pos h1]; exact hw
  · rw [if_neg h1]
    by_cases h2 : (vfs_dirname dst [] 256).1 ≠ 0
    · rw [if_pos h2]; exact hw
    · rw [if_neg h2]
      dsimp only
      generalize find_node s (if charAt (vfs_dirname dst [] 256).2 0 ≠ NUL
        then (vfs_dirname dst [] 256).2 else ['/']) = parent
      by_cases h3 : parent < 0
      · rw [if_pos h3]; exact hw
      · rw [if_neg h3]
        by_cases h4 : find_child s parent.toNat (vfs_basename dst) ≥ 0
        · rw [if_pos h4]; exact hw
        · rw [if_neg h4]
          exact wf_move s _ parent.toNat (vfs_basename dst) _
            (stored_name _ (basename_length dst hlen)) (by omega) hw

theorem ramfs_init_wf (pool : Nat → Nat) : WellFormed (ramfs_init pool) := by
  constructor
  · intro i hi
    have h1 : (ramfs_init pool).node_count = 1 := rfl
    rw [h1] at hi
    have h0 : i = 0 := by omega
    subst h0
    exact Or.inr (Or.inr rfl)
  · intro i hi j hj _ _ _ _
    have h1 : (ramfs_init pool).node_count = 1 := rfl
    rw [h1] at hi hj
    omega

theorem ramfs_step_wf (s : State) (op : RamfsOp) (hop : PathsFit op) (hw : WellFormed s) :
    WellFormed (ramfs_step s op) := by
  cases op with
  | open_ path mode => exact ramfs_open_wf s path mode hop hw
  | close h => exact sameTree_wf (ramfs_close_sameTree s h) hw
  | read h count => exact sameTree_wf (ramfs_read_sameTree s h count) hw
  | write h buf count => exact sameTree_wf (ramfs_write_sameTree s h buf count) hw
  | seek h offset whence => exact sameTree_wf (ramfs_seek_sameTree s h offset whence) hw
  | create path => exact ramfs_create_file_wf s path hop hw
  | mkdir path => exact ramfs_mkdir_wf s path hop hw
  | unlink path => exact ramfs_unlink_wf s path hw
  | rename src dst => exact ramfs_rename_wf s src dst hop.2 hw

theorem ramfs_run_wf :
    ∀ (ops : List RamfsOp) (s : State), (∀ op ∈ ops, PathsFit op) → WellFormed s →
      WellFormed (ramfs_run ops s) := by
  intro ops
  induction ops with
  | nil => intro s _ hw; exact hw
  | cons op ops ih =>
    intro s hops hw
    exact ih (ramfs_step s op) (fun o ho => hops o (List.mem_cons_of_mem _ ho))
      (ramfs_step_wf s op (hops op (List.mem_cons_self _ _)) hw)

set_option maxRecDepth 100000 in
/-- C12: in every filesystem state that calls of the RAMFS operations produce from
`ramfs_init`, the path arguments of the calls being C strings of at most 255
characters (what the 256-byte path buffers of the callers hold), `ramfs_unlink`
returns 0 exactly when the path resolves to a live node other than the root that is
a file or a directory without live children; after a successful call the path no
longer resolves; a failed call returns -1 and leaves the state unchanged. After
`create("/a/b/c.txt")`, `unlink("/a/b")` fails while "/a/b/c.txt" exists,
`unlink("/a/b/c.txt")` succeeds and `unlink("/a/b")` succeeds after it. -/
theorem ramfs_unlink_exactly (pool : Nat → Nat) (ops : List RamfsOp) (path : List Char)
    (hops : ∀ op ∈ ops, PathsFit op) :
    ((ramfs_unlink (ramfs_run ops (ramfs_init pool)) path).1 = 0 ↔
      ∃ idx : Nat, find_node (ramfs_run ops (ramfs_init pool)) path = (idx : Int) ∧
        0 < idx ∧ idx < (ramfs_run ops (ramfs_init pool)).node_count ∧
        ((ramfs_run ops (ramfs_init pool)).nodes idx).type ≠ VfsFileType.UNKNOWN ∧
        (((ramfs_run ops (ramfs_init pool)).nodes idx).type = VfsFileType.FILE ∨
          (((ramfs_run ops (ramfs_init pool)).nodes idx).type = VfsFileType.DIR ∧
            ¬ HasLiveChild (ramfs_run ops (ramfs_init pool)) idx))) ∧
    ((ramfs_unlink (ramfs_run ops (ramfs_init pool)) path).1 = 0 →
      find_node (ramfs_unlink (ramfs_run ops (ramfs_init pool)) path).2 path < 0) ∧
    ((ramfs_unlink (ramfs_run ops (ramfs_init pool)) path).1 ≠ 0 →
      ramfs_unlink (ramfs_run ops (ramfs_init pool)) path
        = (-1, ramfs_run ops (ramfs_init pool))) ∧
    ((ramfs_unlink abcState "/a/b".toList).1 = -1 ∧
      0 ≤ find_node abcState "/a/b/c.txt".toList ∧
      (ramfs_unlink abcState "/a/b/c.txt".toList).1 = 0 ∧
      (ramfs_unlink (ramfs_unlink abcState "/a/b/c.txt".toList).2 "/a/b".toList).1 = 0 ∧
      (ramfs_unlink abcState "/".toList).1 = -1) := by
  have hw := ramfs_run_wf ops (ramfs_init pool) hops (ramfs_init_wf pool)
  exact ramfs_unlink_contract (ramfs_run ops (ramfs_init pool)) path hw.1 hw.2

set_option maxRecDepth 100000 in
/-- C12 witness: after the call `create("/a/b/c.txt")` on a fresh filesystem, a call
whose path fits, `unlink("/a/b/c.txt")` returns 0 and the path no longer resolves. -/
theorem ramfs_unlink_exactly_witness :
    (∀ op ∈ [RamfsOp.create "/a/b/c.txt".toList], PathsFit op) ∧
    (ramfs_unlink (ramfs_run [RamfsOp.create "/a/b/c.txt".toList] (ramfs_init (fun _ => 0)))
      "/a/b/c.txt".toList).1 = 0 ∧
    find_node
      (ramfs_unlink (ramfs_run [RamfsOp.create "/a/b/c.txt".toList] (ramfs_init (fun _ => 0)))
        "/a/b/c.txt".toList).2 "/a/b/c.txt".toList < 0 :=
  have hfit : ∀ op ∈ [RamfsOp.create "/a/b/c.txt".toList], PathsFit op := by
    intro op hop
    rw [List.mem_singleton] at hop
    subst hop
    show strlen "/a/b/c.txt".toList < 256
    decide
  ⟨hfit, by decide,
    (ramfs_unlink_exactly (fun _ => 0) [RamfsOp.create "/a/b/c.txt".toList]
      "/a/b/c.txt".toList hfit).2.1 (by decide)⟩

end Ramfs

end OjjyOS
